import Mathlib

/-!
# go-tiqs: strategy runtime, order translation, tick codec, socket client, pricing

A shallow embedding of the order-update state machine, the entry/exit/cancel
processing loops, the order translation, the tick and order-update decoders,
the socket client, the dispatcher's registration, LTP cache and shutdown, and
the Black-76 pricing of the go-tiqs auto trader (`strategy.go`,
`auto_trader.go`, `structs.go`, `socket.go`, `greeks.go`).

Modelling conventions

* A Go `map[string]T` is a function `String → Option T`; a `range` loop over a
  map receives the visiting order as an explicit list, because Go leaves that
  order unspecified.
* `*Position` values are stored by value: `insertOpenPos` is the only place
  that stores a pointer and it always stores a freshly allocated one, so no two
  keys alias and a write through the pointer is a write to the map entry it was
  read from.
* Go `int` is `Int`, with the one subtraction of the handler wrapped to 64 bits.
* `float64` prices are exact rationals: the code only copies them, compares
  them with zero, and divides an `int32` by 100.
* `time.Time` is a number of seconds since the Unix epoch.
* A broker call is an explicit outcome: `none` for a failed RPC, `some n` for a
  success carrying the order number `n`.
* A `byte` is a `Fin 256` and a `[]byte` a list of them; an `int32` is handled
  through its 32-bit pattern where the code shifts and ors, and addition on
  `int32` wraps around.
* Library functions that the decoders call (`json.Unmarshal`, `strconv.Atoi`,
  `strconv.ParseFloat`, `time.Parse`) are parameters.
* The network of the socket client is a pair of oracles that tell whether the
  `n`-th `Dial` and the `n`-th `WriteMessage` succeed; the procedures of the
  client run one at a time.
* A call that can panic returns an `Outcome`, returned or panicked, with the
  state reached by then; an index out of range is the `none` of `sliceIndex`.
* In `GetTimeInDays` a `time.Time` is an instant in nanoseconds with the fixed
  offset of its location, and the reading of `time.Now()` is a parameter.
* The pricing code is written over an ordered field in exact arithmetic, with
  `math.Exp`, `math.Log`, `math.Sqrt`, `math.Pi` and the result of a division
  by zero as parameters; over the reals they are Mathlib's functions.
* The loop of `ImpliedVolaUsingBisection`, which divides by a difference that
  can be zero, runs on `GoFloat`: a number of the field, an infinity or NaN,
  with the special cases of IEEE 754, of `math.Max` and of `math.Min`; the
  pricing code is written a second time on these values and agrees with the
  first on numbers. Rounding, overflow and the sign of zero are outside the
  embedding.
-/

namespace Tiqs

/-! ## Maps -/

/-- Go `map[string]T`. -/
abbrev GoMap (α : Type) := String → Option α

/-- The empty map, `make(map[string]T)`. -/
def GoMap.empty {α : Type} : GoMap α := fun _ => none

/-- Assignment `m[k] = v`. -/
def GoMap.set {α : Type} (m : GoMap α) (k : String) (v : α) : GoMap α :=
  fun x => if x = k then some v else m x

/-- Deletion `delete(m, k)`. -/
def GoMap.del {α : Type} (m : GoMap α) (k : String) : GoMap α :=
  fun x => if x = k then none else m x

/-- Deletion of every key of a list, in order. -/
def GoMap.delAll {α : Type} (m : GoMap α) (ks : List String) : GoMap α :=
  ks.foldl GoMap.del m

/-! ## Data model (`structs.go`) -/

/-- Go `float64`, as an exact rational. -/
abbrev Float64 := ℚ

/-- Go `time.Time`, in seconds since the Unix epoch. -/
abbrev Time := Int

/-- The zero `time.Time` (January 1, year 1, 00:00:00 UTC). -/
def zeroTime : Time := -62135596800

/-- The `PositionStatus` enumeration, in `iota` order. -/
inductive PositionStatus where
  | EntryPending
  | EntryOpen
  | EntryComplete
  | ExitPending
  | ExitOpen
  | ExitPartial
  | ExitComplete
  deriving DecidableEq

open PositionStatus

/-- The integer behind a `PositionStatus`. -/
def PositionStatus.toNat : PositionStatus → Nat
  | EntryPending => 0
  | EntryOpen => 1
  | EntryComplete => 2
  | ExitPending => 3
  | ExitOpen => 4
  | ExitPartial => 5
  | ExitComplete => 6

instance : LT PositionStatus := ⟨fun a b => a.toNat < b.toNat⟩
instance : LE PositionStatus := ⟨fun a b => a.toNat ≤ b.toNat⟩
instance (a b : PositionStatus) : Decidable (a < b) := Nat.decLt _ _
instance (a b : PositionStatus) : Decidable (a ≤ b) := Nat.decLe _ _

/-- The `Direction` string type. -/
abbrev Direction := String

def Long : Direction := "long"
def Short : Direction := "short"

/-- The `action` string type. -/
abbrev action := String

def Sell : action := "Sell"
def Buy : action := "Buy"

/-- The `OrderStatus` strings of `socket.go`. -/
def COMPLETE : String := "COMPLETE"
def REJECTED : String := "REJECTED"
def PENDING : String := "PENDING"
def OPEN : String := "OPEN"
def CANCELED : String := "CANCELED"

/-- A market position. -/
structure Position where
  Symbol : String
  EntryPx : Float64
  ExitPx : Float64
  EntryTime : Time
  ExitTime : Time
  Qty : Int
  Direction : Direction
  OrdID : String
  TiqsEntryOrdID : String
  TiqsExitOrdID : String
  Reason : String
  Status : PositionStatus
  PnL : Float64
  deriving DecidableEq

/-- Strategy entry options. -/
structure EntryOpts where
  OrderID : String
  Direction : Direction
  Qty : Int
  Limit : Float64
  Stop : Float64
  Comment : String
  deriving DecidableEq

/-- Strategy exit options. -/
structure ExitOpts where
  OrderID : String
  Qty : Int
  Limit : Float64
  Stop : Float64
  Comment : String
  deriving DecidableEq

/-- Place-order request. -/
structure OrderRequest where
  Exchange : String
  Token : String
  Quantity : String
  DisclosedQty : String
  Product : String
  Symbol : String
  TransactionType : String
  Order : String
  Price : String
  Validity : String
  Tags : String
  AMO : Bool
  TriggerPrice : String
  deriving DecidableEq

/-- A tick of the binary feed; every field is an `int32`. -/
structure Tick where
  Token : Int
  LTP : Int
  NetChangeIndicator : Int
  NetChange : Int
  LTQ : Int
  AvgPrice : Int
  TotalBuyQuantity : Int
  TotalSellQuantity : Int
  Open : Int
  High : Int
  Close : Int
  Low : Int
  Volume : Int
  LTT : Int
  Time : Int
  OI : Int
  OIDayHigh : Int
  OIDayLow : Int
  LowerLimit : Int
  UpperLimit : Int

/-- An order update of the broker. -/
structure OrderUpdate where
  ID : String
  Typ : String
  UserID : String
  Exchange : String
  Symbol : String
  Token : Int
  Qty : Int
  Price : Float64
  Product : String
  Status : String
  ReportType : String
  TransactionType : String
  Order : String
  Retention : String
  AvgPrice : Float64
  Reason : String
  ExchangeOrderId : String
  CancelQty : String
  Tags : String
  DisclosedQty : String
  TriggerPrice : String
  ExchangeTime : Time
  Timestamp : Time

/-- The state of a `strategy` (locks, channels and the callback left out). -/
structure strategy where
  name : String
  symbol : String
  openPos : GoMap Position
  tiqsOrderIdToLocalOrderId : GoMap String
  ordEntry : GoMap EntryOpts
  ordExit : GoMap ExitOpts
  closedPos : String → List Position
  ordCancel : GoMap Bool
  bars : List Float64
  unplug : Bool
  strategyPnL : Float64

/-! ## Machine integers -/

/-- A value of Go `int` on a 64-bit platform. -/
def isInt64 (x : Int) : Prop := -(2 ^ 63) ≤ x ∧ x < 2 ^ 63

instance (x : Int) : Decidable (isInt64 x) := by unfold isInt64; infer_instance

/-- Two's-complement wrap to 64 bits. -/
def wrapInt64 (x : Int) : Int := (x + 2 ^ 63) % 2 ^ 64 - 2 ^ 63

/-- Go `a - b` on `int`. -/
def subInt (a b : Int) : Int := wrapInt64 (a - b)

/-! ## Map accessors of `strategy.go` -/

def strategy.getTiqsOrderIdToLocalOrderId (s : strategy) (tiqsID : String) : Option String :=
  s.tiqsOrderIdToLocalOrderId tiqsID

def strategy.deleteTiqsOrderIdToLocalOrderId (s : strategy) (tiqsID : String) : strategy :=
  { s with tiqsOrderIdToLocalOrderId := s.tiqsOrderIdToLocalOrderId.del tiqsID }

def strategy.insertOrdExit (s : strategy) (orderID : String) (exit : ExitOpts) : strategy :=
  { s with ordExit := s.ordExit.set orderID exit }

def strategy.insertOrdEntry (s : strategy) (orderID : String) (entry : EntryOpts) : strategy :=
  { s with ordEntry := s.ordEntry.set orderID entry }

def strategy.getOpenPos (s : strategy) (orderID : String) : Option Position :=
  s.openPos orderID

def strategy.insertOpenPos (s : strategy) (orderID : String) (pos : Position) : strategy :=
  { s with openPos := s.openPos.set orderID pos }

def strategy.deleteOpenPos (s : strategy) (orderID : String) : strategy :=
  { s with openPos := s.openPos.del orderID }

def strategy.insertClosedPos (s : strategy) (orderID : String) (pos : Position) : strategy :=
  { s with closedPos := fun k => if k = orderID then s.closedPos orderID ++ [pos] else s.closedPos k }

/-! ## The order-update loop (`startOrderUpdatesListener`) -/

/-- One iteration of the loop of `startOrderUpdatesListener`: the strategy and
the dispatcher's `tiqsOrderIdsToStrategy` map after the update `u`. -/
def orderUpdateStep (s : strategy) (disp : GoMap String) (u : OrderUpdate) :
    strategy × GoMap String :=
  match s.getTiqsOrderIdToLocalOrderId u.ID with
  | none => (s, disp)
  | some localOrdID =>
    match s.getOpenPos localOrdID with
    | none => (s, disp)
    | some pos =>
      let isEntryUpdate : Bool := decide (pos.TiqsEntryOrdID = u.ID)
      if u.Status = COMPLETE then
        let s1 :=
          if isEntryUpdate then
            s.insertOpenPos localOrdID
              { pos with
                Qty := u.Qty, EntryTime := u.ExchangeTime, EntryPx := u.AvgPrice,
                Status := EntryComplete }
          else
            let pos1 : Position := { pos with Qty := subInt pos.Qty u.Qty }
            let copyPos : Position :=
              { pos1 with
                ExitTime := u.ExchangeTime, ExitPx := u.AvgPrice, Qty := u.Qty,
                TiqsExitOrdID := u.ID, Reason := u.Reason }
            if pos1.Qty = 0 then
              (s.deleteOpenPos localOrdID).insertClosedPos localOrdID
                { copyPos with Status := ExitComplete }
            else
              (s.insertOpenPos localOrdID
                { pos1 with TiqsExitOrdID := "", Status := ExitPartial }).insertClosedPos
                localOrdID copyPos
        (s1.deleteTiqsOrderIdToLocalOrderId u.ID, disp.del u.ID)
      else if u.Status = REJECTED ∨ u.Status = CANCELED then
        let s1 :=
          if isEntryUpdate then
            s.deleteOpenPos localOrdID
          else
            s.insertOpenPos localOrdID
              { pos with TiqsExitOrdID := "", Status := EntryComplete }
        (s1.deleteTiqsOrderIdToLocalOrderId u.ID, disp.del u.ID)
      else if u.Status = OPEN then
        let s1 :=
          if isEntryUpdate then
            s.insertOpenPos localOrdID { pos with Status := EntryOpen }
          else
            s.insertOpenPos localOrdID { pos with Status := ExitOpen }
        (s1, disp)
      else (s, disp)

/-- The loop of `startOrderUpdatesListener` over the updates read from the
channel. -/
def startOrderUpdatesListener (s : strategy) (disp : GoMap String)
    (updates : List OrderUpdate) : strategy × GoMap String :=
  updates.foldl (fun st u => orderUpdateStep st.1 st.2 u) (s, disp)

/-! ## Order translation (`prepareOrder`, `auto_trader.go`) -/

/-- Go `fmt.Sprint` of an `int`: the decimal rendering, with a leading minus
sign for a negative number. -/
def Sprint (n : Int) : String := toString n

/-- Rounding of a non-negative rational to the nearest natural number, a tie
going to the even neighbour. -/
def roundHalfEven (y : ℚ) : Nat :=
  let f := ⌊y⌋₊
  let r := y - f
  if 1 / 2 < r ∨ (r = 1 / 2 ∧ f % 2 = 1) then f + 1 else f

/-- Left padding of a digit string with zeros to six places. -/
def pad6 (d : String) : String := String.mk (List.replicate (6 - d.length) '0') ++ d

/-- Go `fmt.Sprintf("%f", x)`: sign, integer part, a dot and six decimals,
rounded half to even. -/
def Sprintf_f (x : Float64) : String :=
  let n := roundHalfEven (|x| * 1000000)
  (if x < 0 then "-" else "") ++ toString (n / 1000000) ++ "." ++ pad6 (toString (n % 1000000))

/-- Arguments of `prepareOrder`. -/
structure prepareOrderArgs where
  Symbol : String
  Token : Int
  Qty : Int
  Limit : Float64
  Stop : Float64
  LTP : Float64
  action : action

/-- Translation of an intent into a place-order request. -/
def prepareOrder (args : prepareOrderArgs) : OrderRequest :=
  let order : OrderRequest :=
    { AMO := false, DisclosedQty := "0", Exchange := "NFO", Order := "MKT", Price := "0",
      Product := "M", Quantity := Sprint args.Qty, Symbol := args.Symbol,
      Token := Sprint args.Token, TransactionType := "B", TriggerPrice := "0",
      Validity := "DAY", Tags := "" }
  let order : OrderRequest :=
    if args.action = "Sell" then { order with TransactionType := "S" }
    else { order with TransactionType := "B" }
  if args.Limit = 0 ∧ args.Stop ≠ 0 then
    { order with
      Order := "SL-MKT", TriggerPrice := Sprintf_f args.Stop, Price := Sprintf_f args.LTP }
  else if args.Limit ≠ 0 ∧ args.Stop = 0 then
    { order with Order := "LMT", Price := Sprintf_f args.Limit }
  else if args.Limit ≠ 0 ∧ args.Stop ≠ 0 then
    { order with
      Order := "SL-LMT", TriggerPrice := Sprintf_f args.Stop, Price := Sprintf_f args.Limit }
  else
    { order with Order := "MKT", Price := Sprintf_f args.LTP }

/-! ## Entry and exit processing (`strategy.go`) -/

/-- Lookup `getTokenFromSymbol` in the dispatcher's `symbolToTokenMap`; `none`
is the error return. -/
def getTokenFromSymbol (symbolToTokenMap : GoMap Int) (symbol : String) : Option Int :=
  symbolToTokenMap symbol

/-- What a `range` loop of `processEntryOrders` or `processExitOrders` carries
from one iteration to the next: the strategy, the dispatcher's
`tiqsOrderIdsToStrategy`, the requests handed to `placeOrder` so far, and the
ids collected for deletion. -/
structure LoopState where
  s : strategy
  disp : GoMap String
  sent : List OrderRequest
  deleted : List String

/-- Body of the loop of `processEntryOrders` for the map entry `id ↦ e`, `rpc`
being what `placeOrder` returns if it is called. -/
def entryIteration (symbolToTokenMap : GoMap Int) (tick : Tick) (L : LoopState)
    (id : String) (e : EntryOpts) (rpc : Option String) : LoopState :=
  let ltp : Float64 := (tick.LTP : ℚ) / 100
  let tickTS : Time := tick.Time
  match L.s.getOpenPos id with
  | some _ => { L with deleted := L.deleted ++ [e.OrderID] }
  | none =>
    let action : action := if e.Direction = Short then Sell else Buy
    match getTokenFromSymbol symbolToTokenMap L.s.symbol with
    | none => L
    | some symbolToken =>
      let req := prepareOrder
        { Symbol := L.s.symbol, Token := symbolToken, Qty := e.Qty, Limit := e.Limit,
          Stop := e.Stop, LTP := ltp, action := action }
      match rpc with
      | none => { L with sent := L.sent ++ [req] }
      | some orderNo =>
        let s1 := L.s.insertOpenPos e.OrderID
          { Symbol := L.s.symbol, EntryPx := ltp, ExitPx := 0, EntryTime := tickTS,
            ExitTime := zeroTime, Qty := e.Qty, Direction := e.Direction, OrdID := e.OrderID,
            TiqsEntryOrdID := orderNo, TiqsExitOrdID := "", Reason := "",
            Status := EntryPending, PnL := 0 }
        { s := { s1 with
                 tiqsOrderIdToLocalOrderId := s1.tiqsOrderIdToLocalOrderId.set orderNo e.OrderID }
          disp := L.disp.set orderNo L.s.name
          sent := L.sent ++ [req]
          deleted := L.deleted ++ [e.OrderID] }

/-- One visit of the `range` loop of `processEntryOrders`: the key `it.1` with
the intent stored under it, `it.2` being the outcome of its `placeOrder` call. -/
def entryVisit (symbolToTokenMap : GoMap Int) (tick : Tick) (L : LoopState)
    (it : String × Option String) : LoopState :=
  match L.s.ordEntry it.1 with
  | none => L
  | some e => entryIteration symbolToTokenMap tick L it.1 e it.2

/-- The `range` loop of `processEntryOrders`; `iter` lists the keys in the order
the loop visits them, each with the outcome of its `placeOrder` call. -/
def entryLoop (symbolToTokenMap : GoMap Int) (tick : Tick) (L : LoopState)
    (iter : List (String × Option String)) : LoopState :=
  iter.foldl (entryVisit symbolToTokenMap tick) L

/-- Function `processEntryOrders`: the strategy, the dispatcher's
`tiqsOrderIdsToStrategy` and the requests handed to `placeOrder`. -/
def processEntryOrders (symbolToTokenMap : GoMap Int) (s : strategy) (disp : GoMap String)
    (tick : Tick) (iter : List (String × Option String)) :
    strategy × GoMap String × List OrderRequest :=
  let L := entryLoop symbolToTokenMap tick ⟨s, disp, [], []⟩ iter
  ({ L.s with ordEntry := L.s.ordEntry.delAll L.deleted }, L.disp, L.sent)

/-- Body of the loop of `processExitOrders` for the map entry `id ↦ e`. -/
def exitIteration (symbolToTokenMap : GoMap Int) (ltp : Float64) (L : LoopState)
    (id : String) (e : ExitOpts) (rpc : Option String) : LoopState :=
  match L.s.getOpenPos id with
  | none => { L with deleted := L.deleted ++ [e.OrderID] }
  | some p =>
    if p.TiqsExitOrdID ≠ "" then { L with deleted := L.deleted ++ [e.OrderID] }
    else if p.Status < EntryComplete then L
    else
      let action : action := if p.Direction = Long then Sell else Buy
      match getTokenFromSymbol symbolToTokenMap L.s.symbol with
      | none => L
      | some symbolToken =>
        let req := prepareOrder
          { Symbol := L.s.symbol, Token := symbolToken, Qty := min e.Qty p.Qty,
            Limit := e.Limit, Stop := e.Stop, LTP := ltp, action := action }
        match rpc with
        | none => { L with sent := L.sent ++ [req] }
        | some orderNo =>
          let s1 := L.s.insertOpenPos id
            { p with Status := ExitPending, TiqsExitOrdID := orderNo }
          { s := { s1 with
                   tiqsOrderIdToLocalOrderId :=
                     s1.tiqsOrderIdToLocalOrderId.set orderNo e.OrderID }
            disp := L.disp.set orderNo L.s.name
            sent := L.sent ++ [req]
            deleted := L.deleted ++ [e.OrderID] }

/-- One visit of the `range` loop of `processExitOrders`. -/
def exitVisit (symbolToTokenMap : GoMap Int) (ltp : Float64) (L : LoopState)
    (it : String × Option String) : LoopState :=
  match L.s.ordExit it.1 with
  | none => L
  | some e => exitIteration symbolToTokenMap ltp L it.1 e it.2

/-- The `range` loop of `processExitOrders`. -/
def exitLoop (symbolToTokenMap : GoMap Int) (ltp : Float64) (L : LoopState)
    (iter : List (String × Option String)) : LoopState :=
  iter.foldl (exitVisit symbolToTokenMap ltp) L

/-- Function `processExitOrders`. -/
def processExitOrders (symbolToTokenMap : GoMap Int) (s : strategy) (disp : GoMap String)
    (ltp : Float64) (iter : List (String × Option String)) :
    strategy × GoMap String × List OrderRequest :=
  let L := exitLoop symbolToTokenMap ltp ⟨s, disp, [], []⟩ iter
  ({ L.s with ordExit := L.s.ordExit.delAll L.deleted }, L.disp, L.sent)

/-- The request `processEntryOrders` hands to `placeOrder` for the key `id` of
`ordEntry`: none when the key holds no intent, when a position with that id is
already open, or when the symbol has no token. -/
def entryRequest (symbolToTokenMap : GoMap Int) (tick : Tick) (s : strategy) (id : String) :
    Option OrderRequest :=
  match s.ordEntry id, s.openPos id, symbolToTokenMap s.symbol with
  | some e, none, some symbolToken =>
    some (prepareOrder
      { Symbol := s.symbol, Token := symbolToken, Qty := e.Qty, Limit := e.Limit,
        Stop := e.Stop, LTP := (tick.LTP : ℚ) / 100,
        action := if e.Direction = Short then Sell else Buy })
  | _, _, _ => none

/-- The position `processEntryOrders` opens for the intent `e` on the tick
`tick` once the broker has returned the order number `orderNo`. -/
def entryPosition (symbol : String) (tick : Tick) (e : EntryOpts) (orderNo : String) :
    Position :=
  { Symbol := symbol, EntryPx := (tick.LTP : ℚ) / 100, ExitPx := 0, EntryTime := tick.Time,
    ExitTime := zeroTime, Qty := e.Qty, Direction := e.Direction, OrdID := e.OrderID,
    TiqsEntryOrdID := orderNo, TiqsExitOrdID := "", Reason := "", Status := EntryPending,
    PnL := 0 }

/-- Every intent of `ordEntry` is stored under its own `OrderID`, as `Entry`
stores it. -/
def EntryKeysAgree (m : GoMap EntryOpts) : Prop := ∀ id e, m id = some e → e.OrderID = id

/-- Every intent of `ordExit` is stored under its own `OrderID`, as `Exit` and
`closeOpenPositions` store it. -/
def ExitKeysAgree (m : GoMap ExitOpts) : Prop := ∀ id e, m id = some e → e.OrderID = id

/-- The visit `it` of the entry loop places an order successfully: its key holds
an intent, no position with that id is open, the symbol has a token and the
RPC succeeds. -/
def entryPlaces (symbolToTokenMap : GoMap Int) (s : strategy) (it : String × Option String) :
    Bool :=
  (s.ordEntry it.1).isSome && (s.openPos it.1).isNone && (symbolToTokenMap s.symbol).isSome &&
    it.2.isSome

/-- The request `processExitOrders` hands to `placeOrder` for the key `id` of
`ordExit`: none unless the key holds an intent, a position with that id is
open with no exit order and a status of at least `EntryComplete`, and the
symbol has a token. -/
def exitRequest (symbolToTokenMap : GoMap Int) (ltp : Float64) (s : strategy) (id : String) :
    Option OrderRequest :=
  match s.ordExit id, s.openPos id, symbolToTokenMap s.symbol with
  | some e, some p, some symbolToken =>
    if p.TiqsExitOrdID = "" ∧ ¬ p.Status < EntryComplete then
      some (prepareOrder
        { Symbol := s.symbol, Token := symbolToken, Qty := min e.Qty p.Qty, Limit := e.Limit,
          Stop := e.Stop, LTP := ltp, action := if p.Direction = Long then Sell else Buy })
    else none
  | _, _, _ => none

/-- The visit `it` of the exit loop places an order successfully. -/
def exitPlaces (symbolToTokenMap : GoMap Int) (s : strategy) (it : String × Option String) :
    Bool :=
  match s.ordExit it.1, s.openPos it.1 with
  | some _, some p =>
    decide (p.TiqsExitOrdID = "") && !decide (p.Status < EntryComplete) &&
      (symbolToTokenMap s.symbol).isSome && it.2.isSome
  | _, _ => false

/-! ## Intents, bars and PnL (`strategy.go`) -/

/-- Length bound of the close series. -/
def BARS_MAX_LEN : Nat := 1500

/-- The strategy that `AddStrategy` creates. -/
def newStrategy (name symbol : String) : strategy :=
  { name := name, symbol := symbol, openPos := GoMap.empty,
    tiqsOrderIdToLocalOrderId := GoMap.empty, ordEntry := GoMap.empty, ordExit := GoMap.empty,
    closedPos := fun _ => [], ordCancel := GoMap.empty, bars := [], unplug := false,
    strategyPnL := 0 }

/-- Struct validation of `EntryOpts`: `OrderID`, `Direction` and `Qty` are
required, `Qty` is positive, `Limit` and `Stop` are positive unless zero. -/
def validateEntryOpts (opts : EntryOpts) : Bool :=
  decide (opts.OrderID ≠ "") && decide (opts.Direction ≠ "") && decide (0 < opts.Qty) &&
    (decide (opts.Limit = 0) || decide (0 < opts.Limit)) &&
    (decide (opts.Stop = 0) || decide (0 < opts.Stop))

/-- Struct validation of `ExitOpts`. -/
def validateExitOpts (opts : ExitOpts) : Bool :=
  decide (opts.OrderID ≠ "") && decide (0 < opts.Qty) &&
    (decide (opts.Limit = 0) || decide (0 < opts.Limit)) &&
    (decide (opts.Stop = 0) || decide (0 < opts.Stop))

/-- Method `Entry`: the strategy afterwards, and whether the call succeeded
(returned a nil error). -/
def strategy.Entry (s : strategy) (orderID : String) (opts : EntryOpts) : strategy × Bool :=
  let opts1 : EntryOpts := { opts with OrderID := orderID }
  if validateEntryOpts opts1 then (s.insertOrdEntry orderID opts1, true) else (s, false)

/-- Method `Exit`. -/
def strategy.Exit (s : strategy) (orderID : String) (opts : ExitOpts) : strategy × Bool :=
  let opts1 : ExitOpts := { opts with OrderID := orderID }
  if validateExitOpts opts1 then (s.insertOrdExit orderID opts1, true) else (s, false)

/-- Method `insertBar`. -/
def strategy.insertBar (s : strategy) (t : Tick) : strategy :=
  let price : Float64 := (t.LTP : ℚ) / 100
  let bars := if s.bars.length = BARS_MAX_LEN then s.bars.drop 1 else s.bars
  { s with bars := bars ++ [price] }

/-- Method `processPnls`; `keys` is the visiting order of the `range` over
`openPos`. -/
def strategy.processPnls (s : strategy) (tick : Tick) (keys : List String) : strategy :=
  let ltp : Float64 := (tick.LTP : ℚ) / 100
  { s with
    openPos := fun k => (s.openPos k).map fun ps => { ps with PnL := ltp - ps.EntryPx }
    strategyPnL :=
      keys.foldl
        (fun acc k =>
          match s.openPos k with
          | some ps => acc + (ltp - ps.EntryPx)
          | none => acc)
        0 }

/-! ## The dispatcher (`auto_trader.go`) -/

/-- The `symbolToTokenMap` that `NewAutoTrader` starts from. -/
def seedSymbolToToken : GoMap Int :=
  (((GoMap.empty.set "NIFTYBANK" 26009).set "NIFTY50" 26000).set "FINNIFTY" 26037).set
    "MIDCPNIFTY" 26074

/-- The state of an `AutoTrader` (locks, channels and the REST client left
out); strategies are referred to by name, and of the socket only the
subscription set is kept. -/
structure AutoTrader where
  strategies : GoMap strategy
  tiqsOrderIdsToStrategy : GoMap String
  tickListeners : Int → List String
  ltps : Int → Option Float64
  symbolToTokenMap : GoMap Int
  tokenToSymbolMap : Int → Option String
  subscriptions : Int → Bool
  closedPositions : List Position

/-- The symbol catalog after `insertingSymbolsName` has stored the rows of an
option chain. -/
def insertingSymbolsName (tr : AutoTrader) (rows : List (String × Int)) : AutoTrader :=
  rows.foldl
    (fun tr row =>
      { tr with
        symbolToTokenMap := tr.symbolToTokenMap.set row.1 row.2
        tokenToSymbolMap := fun t => if t = row.2 then some row.1 else tr.tokenToSymbolMap t })
    tr

/-- Function `NewAutoTrader`: the four index underlyings, then the rows of the
option chains fetched at bootstrap. -/
def NewAutoTrader (rows : List (String × Int)) : AutoTrader :=
  insertingSymbolsName
    { strategies := GoMap.empty
      tiqsOrderIdsToStrategy := GoMap.empty
      tickListeners := fun _ => []
      ltps := fun _ => none
      symbolToTokenMap := seedSymbolToToken
      tokenToSymbolMap := fun t =>
        if t = 26009 then some "NIFTYBANK"
        else if t = 26000 then some "NIFTY50"
        else if t = 26037 then some "FINNIFTY"
        else if t = 26074 then some "MIDCPNIFTY"
        else none
      subscriptions := fun _ => false
      closedPositions := [] }
    rows

/-- Method `AddStrategy`: the dispatcher afterwards and the handle returned
(the name of the new strategy), `none` for the nil return. -/
def AutoTrader.AddStrategy (tr : AutoTrader) (name symbol : String) :
    AutoTrader × Option String :=
  match tr.strategies name with
  | some _ => (tr, none)
  | none =>
    match getTokenFromSymbol tr.symbolToTokenMap symbol with
    | none => (tr, none)
    | some symbolToken =>
      ({ tr with
          strategies := tr.strategies.set name (newStrategy name symbol)
          subscriptions := fun t => if t = symbolToken then true else tr.subscriptions t
          tickListeners := fun t =>
            if t = symbolToken then tr.tickListeners t ++ [name] else tr.tickListeners t },
        some name)

/-- A step of the strategy registered under `name` that involves no other part
of the dispatcher. -/
def AutoTrader.withStrategy (tr : AutoTrader) (name : String) (f : strategy → strategy) :
    AutoTrader :=
  match tr.strategies name with
  | none => tr
  | some s => { tr with strategies := tr.strategies.set name (f s) }

/-- The strategy registered under `name` runs `processEntryOrders`. -/
def AutoTrader.processEntryOrders (tr : AutoTrader) (name : String) (tick : Tick)
    (iter : List (String × Option String)) : AutoTrader :=
  match tr.strategies name with
  | none => tr
  | some s =>
    let r := Tiqs.processEntryOrders tr.symbolToTokenMap s tr.tiqsOrderIdsToStrategy tick iter
    { tr with strategies := tr.strategies.set name r.1, tiqsOrderIdsToStrategy := r.2.1 }

/-- The strategy registered under `name` runs `processExitOrders`. -/
def AutoTrader.processExitOrders (tr : AutoTrader) (name : String) (ltp : Float64)
    (iter : List (String × Option String)) : AutoTrader :=
  match tr.strategies name with
  | none => tr
  | some s =>
    let r := Tiqs.processExitOrders tr.symbolToTokenMap s tr.tiqsOrderIdsToStrategy ltp iter
    { tr with strategies := tr.strategies.set name r.1, tiqsOrderIdsToStrategy := r.2.1 }

/-- The strategy registered under `name` takes the update `u` from its channel. -/
def AutoTrader.orderUpdate (tr : AutoTrader) (name : String) (u : OrderUpdate) : AutoTrader :=
  match tr.strategies name with
  | none => tr
  | some s =>
    let r := orderUpdateStep s tr.tiqsOrderIdsToStrategy u
    { tr with strategies := tr.strategies.set name r.1, tiqsOrderIdsToStrategy := r.2 }

/-- One iteration of `orderUpdateListener` followed by the owning strategy's
handling of the update: updates of unknown order ids or strategies are
dropped. -/
def AutoTrader.orderUpdateListener (tr : AutoTrader) (u : OrderUpdate) : AutoTrader :=
  match tr.tiqsOrderIdsToStrategy u.ID with
  | none => tr
  | some strategyName => tr.orderUpdate strategyName u

/-! ## Reachable states -/

/-- The list `iter` is a visiting order of a `range` over the map `m`: every
key of `m` once, and nothing else. -/
def IsRange {α : Type} (m : GoMap α) (iter : List (String × Option String)) : Prop :=
  (iter.map Prod.fst).Nodup ∧ ∀ k, k ∈ iter.map Prod.fst ↔ (m k).isSome

/-- The order numbers of `iter` are pairwise distinct and none of them was
issued before. -/
def Fresh (issued : List String) (iter : List (String × Option String)) : Prop :=
  (iter.filterMap Prod.snd).Nodup ∧ ∀ n ∈ iter.filterMap Prod.snd, n ∉ issued

/-- States of the dispatcher reachable from `NewAutoTrader` by adding
strategies, `Entry` and `Exit` calls, the steps of the tick loop and the
handling of order updates, the broker returning pairwise distinct order
numbers; the index lists the order numbers issued so far. -/
inductive Reach : List String → AutoTrader → Prop
  | init (rows : List (String × Int)) : Reach [] (NewAutoTrader rows)
  | addStrategy {I : List String} {tr : AutoTrader} (name symbol : String) :
      Reach I tr → Reach I (tr.AddStrategy name symbol).1
  | entry {I : List String} {tr : AutoTrader} (name orderID : String) (opts : EntryOpts) :
      Reach I tr → Reach I (tr.withStrategy name fun s => (s.Entry orderID opts).1)
  | exit {I : List String} {tr : AutoTrader} (name orderID : String) (opts : ExitOpts) :
      Reach I tr → Reach I (tr.withStrategy name fun s => (s.Exit orderID opts).1)
  | insertBar {I : List String} {tr : AutoTrader} (name : String) (t : Tick) :
      Reach I tr → Reach I (tr.withStrategy name fun s => s.insertBar t)
  | processPnls {I : List String} {tr : AutoTrader} (name : String) (t : Tick)
      (keys : List String) :
      Reach I tr → Reach I (tr.withStrategy name fun s => s.processPnls t keys)
  | processEntryOrders {I : List String} {tr : AutoTrader} (name : String) (s : strategy)
      (tick : Tick) (iter : List (String × Option String)) :
      Reach I tr → tr.strategies name = some s → IsRange s.ordEntry iter → Fresh I iter →
      Reach (I ++ iter.filterMap Prod.snd) (tr.processEntryOrders name tick iter)
  | processExitOrders {I : List String} {tr : AutoTrader} (name : String) (s : strategy)
      (ltp : Float64) (iter : List (String × Option String)) :
      Reach I tr → tr.strategies name = some s → IsRange s.ordExit iter → Fresh I iter →
      Reach (I ++ iter.filterMap Prod.snd) (tr.processExitOrders name ltp iter)
  | orderUpdate {I : List String} {tr : AutoTrader} (name : String) (u : OrderUpdate) :
      Reach I tr → Reach I (tr.orderUpdate name u)

/-! ## Invariants -/

/-- The order number `X` is live for the position `p`: it is the entry order of
a position that is not filled yet and has no exit order, or it is the exit
order of a position whose exit is pending or open. -/
def LiveFor (X : String) (p : Position) : Prop :=
  (X = p.TiqsEntryOrdID ∧ p.Status < EntryComplete ∧ p.TiqsExitOrdID = "") ∨
  (X = p.TiqsExitOrdID ∧ X ≠ p.TiqsEntryOrdID ∧ ExitPending ≤ p.Status ∧ p.Status ≤ ExitOpen)

/-- Invariant of one strategy over its intents, positions and lookup map, the
order numbers of `I` being the ones issued so far. -/
structure PosInv (I : List String) (s : strategy) : Prop where
  entryKeys : EntryKeysAgree s.ordEntry
  exitKeys : ExitKeysAgree s.ordExit
  ordID : ∀ lid p, s.openPos lid = some p → p.OrdID = lid
  key : ∀ X lid, s.tiqsOrderIdToLocalOrderId X = some lid →
    X ∈ I ∧ ∃ p, s.openPos lid = some p ∧ LiveFor X p
  pos : ∀ lid p, s.openPos lid = some p →
    p.TiqsEntryOrdID ∈ I ∧
    (p.TiqsExitOrdID = "" → p.Status ≠ ExitPending ∧ p.Status ≠ ExitOpen) ∧
    p.Status ≠ ExitComplete

/-- Invariant of the dispatcher over the two lookup maps. -/
structure MapInv (I : List String) (tr : AutoTrader) : Prop where
  name_eq : ∀ name s, tr.strategies name = some s → s.name = name
  iff_disp : ∀ name s, tr.strategies name = some s →
    ∀ X, (s.tiqsOrderIdToLocalOrderId X).isSome ↔ tr.tiqsOrderIdsToStrategy X = some name
  issued : ∀ X nm, tr.tiqsOrderIdsToStrategy X = some nm → X ∈ I ∧ (tr.strategies nm).isSome

/-- How a processing loop may change the two lookup maps at the order number
`X`: not at all, or `X` is one of the returned numbers and both maps now hold
it, the dispatcher's map sending it to `name`. -/
def PlacedAt (name : String) (outcomes : List String) (s : strategy) (disp : GoMap String)
    (s1 : strategy) (disp1 : GoMap String) (X : String) : Prop :=
  (s1.tiqsOrderIdToLocalOrderId X = s.tiqsOrderIdToLocalOrderId X ∧ disp1 X = disp X) ∨
  (X ∈ outcomes ∧ (s1.tiqsOrderIdToLocalOrderId X).isSome ∧ disp1 X = some name)

/-- The `Entry` calls of a callback, in order. -/
def strategy.entries (s : strategy) (calls : List (String × EntryOpts)) : strategy :=
  calls.foldl (fun s c => (s.Entry c.1 c.2).1) s

/-- Method `Cancel`: the source marks it unimplemented, its body is commented
out, and it has no result. -/
def strategy.Cancel (s : strategy) (_orderID : String) : strategy := s

/-- A call that a callback makes on its strategy. -/
inductive Call where
  | Entry (orderID : String) (opts : EntryOpts)
  | Exit (orderID : String) (opts : ExitOpts)
  | Cancel (orderID : String)

/-- The strategy after one call of the callback. -/
def strategy.call (s : strategy) : Call → strategy
  | Call.Entry orderID opts => (s.Entry orderID opts).1
  | Call.Exit orderID opts => (s.Exit orderID opts).1
  | Call.Cancel orderID => s.Cancel orderID

/-- The strategy after a callback `onTick` that makes the given calls, in order,
and returns normally. -/
def strategy.onTick (s : strategy) (calls : List Call) : strategy :=
  calls.foldl strategy.call s

/-- Body of the loop of `processCancelOrders` for the key `it.1` of `ordCancel`;
`it.2` tells whether the `cancelOrder` RPC succeeds. The accumulator holds
`deletedCancelIds` and the order numbers handed to `cancelOrder`. -/
def cancelVisit (s : strategy) (acc : List String × List String) (it : String × Bool) :
    List String × List String :=
  match s.ordCancel it.1 with
  | none => acc
  | some _ =>
    match s.getOpenPos it.1 with
    | none => acc
    | some p =>
      if p.Status < EntryComplete then
        if it.2 then (acc.1 ++ [it.1], acc.2 ++ [p.TiqsEntryOrdID])
        else (acc.1, acc.2 ++ [p.TiqsEntryOrdID])
      else if p.TiqsExitOrdID ≠ "" then
        if it.2 then (acc.1 ++ [it.1], acc.2 ++ [p.TiqsExitOrdID])
        else (acc.1, acc.2 ++ [p.TiqsExitOrdID])
      else (acc.1 ++ [it.1], acc.2)

/-- Method `processCancelOrders`: the strategy afterwards and the order numbers
handed to `cancelOrder`. -/
def strategy.processCancelOrders (s : strategy) (iter : List (String × Bool)) :
    strategy × List String :=
  let acc := iter.foldl (cancelVisit s) ([], [])
  ({ s with ordCancel := s.ordCancel.delAll acc.1 }, acc.2)

/-- Method `execute` on the path where the callback returns normally and the
strategy is not unplugged: the callback, then `processPnls`,
`processEntryOrders`, `processExitOrders` and `processCancelOrders`. The result
is the strategy, the dispatcher's lookup map, the requests handed to
`placeOrder` and the order numbers handed to `cancelOrder`. -/
def strategy.execute (symbolToTokenMap : GoMap Int) (s : strategy) (disp : GoMap String)
    (calls : List Call) (tick : Tick) (keys : List String)
    (iterEntry iterExit : List (String × Option String)) (iterCancel : List (String × Bool)) :
    strategy × GoMap String × List OrderRequest × List String :=
  let s1 := s.onTick calls
  let ltp : Float64 := (tick.LTP : ℚ) / 100
  let s2 := s1.processPnls tick keys
  let r3 := processEntryOrders symbolToTokenMap s2 disp tick iterEntry
  let r4 := processExitOrders symbolToTokenMap r3.1 r3.2.1 ltp iterExit
  let r5 := r4.1.processCancelOrders iterCancel
  (r5.1, r4.2.1, r3.2.2 ++ r4.2.2, r5.2)

/-- States of one strategy, with the dispatcher's lookup map, reachable from a
new strategy when every batch of `Entry` calls is followed by
`processEntryOrders` before the state is observed, as in an iteration of the
tick loop whose callback returns normally (`execute`); `Exit` calls, the other
steps of the tick loop and order updates come in any order. -/
inductive TickReach (symbolToTokenMap : GoMap Int) : strategy → GoMap String → Prop
  | fresh (name symbol : String) (disp : GoMap String) :
      TickReach symbolToTokenMap (newStrategy name symbol) disp
  | execute {s : strategy} {disp : GoMap String} (calls : List Call) (tick : Tick)
      (keys : List String) (iterEntry iterExit : List (String × Option String))
      (iterCancel : List (String × Bool)) :
      TickReach symbolToTokenMap s disp → (s.onTick calls).unplug = false →
      IsRange ((s.onTick calls).processPnls tick keys).ordEntry iterEntry →
      IsRange (processEntryOrders symbolToTokenMap ((s.onTick calls).processPnls tick keys) disp
        tick iterEntry).1.ordExit iterExit →
      TickReach symbolToTokenMap
        (s.execute symbolToTokenMap disp calls tick keys iterEntry iterExit iterCancel).1
        (s.execute symbolToTokenMap disp calls tick keys iterEntry iterExit iterCancel).2.1
  | entries {s : strategy} {disp : GoMap String} (calls : List (String × EntryOpts))
      (tick : Tick) (iter : List (String × Option String)) :
      TickReach symbolToTokenMap s disp → IsRange (s.entries calls).ordEntry iter →
      TickReach symbolToTokenMap
        (processEntryOrders symbolToTokenMap (s.entries calls) disp tick iter).1
        (processEntryOrders symbolToTokenMap (s.entries calls) disp tick iter).2.1
  | exit {s : strategy} {disp : GoMap String} (orderID : String) (opts : ExitOpts) :
      TickReach symbolToTokenMap s disp →
      TickReach symbolToTokenMap (s.Exit orderID opts).1 disp
  | insertBar {s : strategy} {disp : GoMap String} (t : Tick) :
      TickReach symbolToTokenMap s disp → TickReach symbolToTokenMap (s.insertBar t) disp
  | processPnls {s : strategy} {disp : GoMap String} (t : Tick) (keys : List String) :
      TickReach symbolToTokenMap s disp →
      TickReach symbolToTokenMap (s.processPnls t keys) disp
  | processExitOrders {s : strategy} {disp : GoMap String} (ltp : Float64)
      (iter : List (String × Option String)) :
      TickReach symbolToTokenMap s disp → IsRange s.ordExit iter →
      TickReach symbolToTokenMap
        (processExitOrders symbolToTokenMap s disp ltp iter).1
        (processExitOrders symbolToTokenMap s disp ltp iter).2.1
  | orderUpdate {s : strategy} {disp : GoMap String} (u : OrderUpdate) :
      TickReach symbolToTokenMap s disp →
      TickReach symbolToTokenMap (orderUpdateStep s disp u).1 (orderUpdateStep s disp u).2

/-- No local order id has both an open position and a pending entry intent. -/
def EntrySettled (s : strategy) : Prop :=
  ∀ lid, (s.openPos lid).isSome → s.ordEntry lid = none

/-! ## Scenario data -/

/-- A position of the scenarios: local id `L1`, entry order `E1`. -/
def demoPos (qty : Int) (px : Float64) (exitID : String) (st : PositionStatus) : Position :=
  { Symbol := "NIFTY50", EntryPx := px, ExitPx := 0, EntryTime := 1728531000,
    ExitTime := zeroTime, Qty := qty, Direction := Long, OrdID := "L1",
    TiqsEntryOrdID := "E1", TiqsExitOrdID := exitID, Reason := "", Status := st, PnL := 0 }

/-- A strategy `alpha` on `NIFTY50` holding the given open positions and lookup map. -/
def demoStrategy (openPos : GoMap Position) (ids : GoMap String) : strategy :=
  { name := "alpha", symbol := "NIFTY50", openPos := openPos,
    tiqsOrderIdToLocalOrderId := ids, ordEntry := GoMap.empty, ordExit := GoMap.empty,
    closedPos := fun _ => [], ordCancel := GoMap.empty, bars := [], unplug := false,
    strategyPnL := 0 }

/-- An order update with the fields the strategy reads. -/
def demoUpdate (id status : String) (qty : Int) (avgPrice : Float64) : OrderUpdate :=
  { ID := id, Typ := "orderUpdate", UserID := "U1", Exchange := "NFO", Symbol := "NIFTY50",
    Token := 26000, Qty := qty, Price := 0, Product := "M", Status := status,
    ReportType := "", TransactionType := "", Order := "MKT", Retention := "DAY",
    AvgPrice := avgPrice, Reason := "", ExchangeOrderId := "", CancelQty := "", Tags := "",
    DisclosedQty := "0", TriggerPrice := "0", ExchangeTime := 1728531060,
    Timestamp := 1728531060 }

/-- A tick of token 26000 with the given last traded price, in paise. -/
def demoTick (ltp : Int) : Tick :=
  { Token := 26000, LTP := ltp, NetChangeIndicator := 0, NetChange := 0, LTQ := 0,
    AvgPrice := 0, TotalBuyQuantity := 0, TotalSellQuantity := 0, Open := 0, High := 0,
    Close := 0, Low := 0, Volume := 0, LTT := 0, Time := 1728531000, OI := 0, OIDayHigh := 0,
    OIDayLow := 0, LowerLimit := 0, UpperLimit := 0 }

/-- A market entry intent. -/
def demoEntry (id : String) (dir : Direction) (qty : Int) : EntryOpts :=
  { OrderID := id, Direction := dir, Qty := qty, Limit := 0, Stop := 0, Comment := "" }

/-- A market exit intent. -/
def demoExit (id : String) (qty : Int) : ExitOpts :=
  { OrderID := id, Qty := qty, Limit := 0, Stop := 0, Comment := "" }

/-- Strategy `alpha` with an open position `L1` and three pending entry
intents,`L1`, `L2` and `L3`. -/
def entryDemo : strategy :=
  { demoStrategy (GoMap.empty.set "L1" (demoPos 50 100 "" EntryComplete)) GoMap.empty with
    ordEntry :=
      ((GoMap.empty.set "L1" (demoEntry "L1" Long 50)).set "L2" (demoEntry "L2" Short 25)).set
        "L3" (demoEntry "L3" Long 10) }

/-- A visiting order of the three intents of `entryDemo`: the RPC of `L3` fails,
`L1` needs none, the RPC of `L2` returns `N1`. -/
def entryDemoIter : List (String × Option String) :=
  [("L3", none), ("L1", none), ("L2", some "N1")]

/-- Strategy `alpha` with three open positions and an exit intent for each of
them and for the unknown id `L0`: `L1` is filled, `L2` still waits for its
fill, `L3` already has the exit order `X3`. -/
def exitDemo : strategy :=
  { demoStrategy
      (((GoMap.empty.set "L1" (demoPos 100 50 "" EntryComplete)).set "L2"
        { demoPos 25 50 "" EntryOpen with OrdID := "L2", TiqsEntryOrdID := "E2" }).set "L3"
        { demoPos 10 50 "X3" ExitPending with OrdID := "L3", TiqsEntryOrdID := "E3" })
      ((GoMap.empty.set "E2" "L2").set "X3" "L3") with
    ordExit :=
      (((GoMap.empty.set "L0" (demoExit "L0" 5)).set "L1" (demoExit "L1" 40)).set "L2"
        (demoExit "L2" 25)).set "L3" (demoExit "L3" 10) }

/-- A visiting order of the four exit intents of `exitDemo`; the RPC of `L1`
returns `X1`. -/
def exitDemoIter : List (String × Option String) :=
  [("L2", none), ("L0", none), ("L1", some "X1"), ("L3", none)]

/-- The strategy registered under `name`. -/
def stratOf (tr : AutoTrader) (name : String) : strategy :=
  (tr.strategies name).getD (newStrategy name "")

/-- The position that the strategy `name` holds under the local id `lid`. -/
def posOf (tr : AutoTrader) (name lid : String) : Option Position :=
  (stratOf tr name).openPos lid

/-- The status of that position. -/
def statusOf (tr : AutoTrader) (name lid : String) : Option PositionStatus :=
  (posOf tr name lid).map Position.Status

/-- Scenario S3, step by step: strategy `alpha` is added on `NIFTY50`. -/
def demoT1 : AutoTrader := ((NewAutoTrader []).AddStrategy "alpha" "NIFTY50").1

/-- The callback enters long 100 under the local id `L1`. -/
def demoT2 : AutoTrader :=
  demoT1.withStrategy "alpha" fun s => (s.Entry "L1" (demoEntry "" Long 100)).1

/-- The entry is placed at an LTP of 50.00; the broker returns `E1`. -/
def demoT3 : AutoTrader :=
  demoT2.processEntryOrders "alpha" (demoTick 5000) [("L1", some "E1")]

/-- The broker reports `E1` complete, 100 at 50. -/
def demoT4 : AutoTrader := demoT3.orderUpdate "alpha" (demoUpdate "E1" COMPLETE 100 50)

/-- The callback exits 40 of `L1`. -/
def demoT5 : AutoTrader :=
  demoT4.withStrategy "alpha" fun s => (s.Exit "L1" (demoExit "" 40)).1

/-- The exit is placed; the broker returns `X1`. -/
def demoT6 : AutoTrader := demoT5.processExitOrders "alpha" 50 [("L1", some "X1")]

/-- The broker reports `X1` complete, 40 at 55: a partial exit, 60 left. -/
def demoT7 : AutoTrader := demoT6.orderUpdate "alpha" (demoUpdate "X1" COMPLETE 40 55)

/-- The callback exits the remaining 60 of `L1`. -/
def demoT8 : AutoTrader :=
  demoT7.withStrategy "alpha" fun s => (s.Exit "L1" (demoExit "" 60)).1

/-- The second exit is placed; the broker returns `X2`. -/
def demoT9 : AutoTrader := demoT8.processExitOrders "alpha" 55 [("L1", some "X2")]

/-- As `demoT6`, the broker answering the exit with an empty order number. -/
def demoT6empty : AutoTrader := demoT5.processExitOrders "alpha" 50 [("L1", some "")]

/-- As `demoT6`, followed by a second `Entry` call for `L1`. -/
def demoT6entry : AutoTrader :=
  demoT6.withStrategy "alpha" fun s => (s.Entry "L1" (demoEntry "" Long 100)).1

/-- A new strategy whose callback enters long 100 under `L1` on its first tick;
the entry is placed and the broker returns `E1`. -/
def tickDemo1 : strategy × GoMap String × List OrderRequest × List String :=
  (newStrategy "alpha" "NIFTY50").execute seedSymbolToToken GoMap.empty
    [Call.Entry "L1" (demoEntry "" Long 100)] (demoTick 5000) [] [("L1", some "E1")] [] []

/-- On the next tick the callback calls `Entry` for `L1` again. -/
def tickDemo2 : strategy × GoMap String × List OrderRequest × List String :=
  tickDemo1.1.execute seedSymbolToToken tickDemo1.2.1
    [Call.Entry "L1" (demoEntry "" Long 100)] (demoTick 5100) ["L1"] [("L1", none)] [] []

/-! ## The tick codec (`socket.go`) -/

/-- A Go `byte`. -/
abbrev Byte := Fin 256

/-- Length of a full tick frame. -/
def FULLTICK_LENGTH : Nat := 197

/-- The `int32` with the given bit pattern: the low 32 bits read as two's
complement. -/
def int32OfBits (u : Nat) : Int :=
  if u % 2 ^ 32 < 2 ^ 31 then ((u % 2 ^ 32 : Nat) : Int) else ((u % 2 ^ 32 : Nat) : Int) - 2 ^ 32

/-- Go `x << n` on the bit pattern of an `int32`: the bits shifted out are lost. -/
def shl32 (x n : Nat) : Nat := (x <<< n) % 2 ^ 32

/-- Go `x + y` on `int32` values, wrapping around. -/
def addInt32 (x y : Int) : Int := (x + y + 2 ^ 31) % 2 ^ 32 - 2 ^ 31

/-- Function `bytesToInt32`: zero unless `data` has four bytes. -/
def bytesToInt32 (data : List Byte) : Int :=
  match data with
  | [b0, b1, b2, b3] =>
    int32OfBits (shl32 b0.val 24 ||| shl32 b1.val 16 ||| shl32 b2.val 8 ||| b3.val)
  | _ => 0

/-- The slice expression `data[lo:hi]`, for `lo ≤ hi ≤ len(data)`. -/
def slice (data : List Byte) (lo hi : Nat) : List Byte := (data.drop lo).take (hi - lo)

/-- Method `parseTick`; `none` where a slice expression of the Go code reaches
past the length of `data`. -/
def parseTick (data : List Byte) : Option Tick :=
  if data.length < 77 then none
  else
    some
      { Token := bytesToInt32 (slice data 0 4)
        LTP := bytesToInt32 (slice data 4 8)
        NetChangeIndicator := ((data.getD 8 0).val : Int)
        NetChange := bytesToInt32 (slice data 9 13)
        LTQ := bytesToInt32 (slice data 13 17)
        AvgPrice := bytesToInt32 (slice data 17 21)
        TotalBuyQuantity := bytesToInt32 (slice data 21 25)
        TotalSellQuantity := bytesToInt32 (slice data 25 29)
        Open := bytesToInt32 (slice data 29 33)
        High := bytesToInt32 (slice data 33 37)
        Close := bytesToInt32 (slice data 37 41)
        Low := bytesToInt32 (slice data 41 45)
        Volume := bytesToInt32 (slice data 45 49)
        LTT := bytesToInt32 (slice data 49 53)
        Time := addInt32 (bytesToInt32 (slice data 53 57)) 315513000
        OI := bytesToInt32 (slice data 57 61)
        OIDayHigh := bytesToInt32 (slice data 61 65)
        OIDayLow := bytesToInt32 (slice data 65 69)
        LowerLimit := bytesToInt32 (slice data 69 73)
        UpperLimit := bytesToInt32 (slice data 73 77) }

/-- The unsigned big-endian value of a byte string. -/
def bigEndian (bs : List Byte) : Nat := bs.foldl (fun acc b => acc * 256 + b.val) 0

/-- The two's-complement signed 32-bit reading of an unsigned 32-bit value. -/
def signed32 (u : Nat) : Int := if u < 2 ^ 31 then (u : Int) else (u : Int) - 2 ^ 32

/-- The big-endian two's-complement signed 32-bit value of the bytes
`[lo..lo+4)` of a frame. -/
def fieldAt (data : List Byte) (lo : Nat) : Int :=
  signed32 (bigEndian ((data.drop lo).take 4))

/-- A value of Go type `int32`. -/
def isInt32 (x : Int) : Prop := -2 ^ 31 ≤ x ∧ x < 2 ^ 31

instance (x : Int) : Decidable (isInt32 x) := by unfold isInt32; infer_instance

/-- The tick that the frame layout of the tick codec assigns to a frame. -/
def layoutTick (data : List Byte) : Tick :=
  { Token := fieldAt data 0
    LTP := fieldAt data 4
    NetChangeIndicator := ((data.getD 8 0).val : Int)
    NetChange := fieldAt data 9
    LTQ := fieldAt data 13
    AvgPrice := fieldAt data 17
    TotalBuyQuantity := fieldAt data 21
    TotalSellQuantity := fieldAt data 25
    Open := fieldAt data 29
    High := fieldAt data 33
    Close := fieldAt data 37
    Low := fieldAt data 41
    Volume := fieldAt data 45
    LTT := fieldAt data 49
    Time :=
      if fieldAt data 53 ≤ 1831970647 then fieldAt data 53 + 315513000
      else fieldAt data 53 + 315513000 - 2 ^ 32
    OI := fieldAt data 57
    OIDayHigh := fieldAt data 61
    OIDayLow := fieldAt data 65
    LowerLimit := fieldAt data 69
    UpperLimit := fieldAt data 73 }

/-- Every field of a tick is a value of Go type `int32`. -/
def Tick.wellTyped (t : Tick) : Prop :=
  isInt32 t.Token ∧ isInt32 t.LTP ∧ isInt32 t.NetChangeIndicator ∧ isInt32 t.NetChange ∧
  isInt32 t.LTQ ∧ isInt32 t.AvgPrice ∧ isInt32 t.TotalBuyQuantity ∧
  isInt32 t.TotalSellQuantity ∧ isInt32 t.Open ∧ isInt32 t.High ∧ isInt32 t.Close ∧
  isInt32 t.Low ∧ isInt32 t.Volume ∧ isInt32 t.LTT ∧ isInt32 t.Time ∧ isInt32 t.OI ∧
  isInt32 t.OIDayHigh ∧ isInt32 t.OIDayLow ∧ isInt32 t.LowerLimit ∧ isInt32 t.UpperLimit

/-- The four bytes of an `int32`, most significant first. -/
def int32Bytes (v : Int) : List Byte :=
  let u := (v % 2 ^ 32).toNat
  [Fin.ofNat (u / 2 ^ 24), Fin.ofNat (u / 2 ^ 16), Fin.ofNat (u / 2 ^ 8), Fin.ofNat u]

/-- A frame that carries the tick `t` in the layout of the tick codec: every
field big-endian at its offset, the net change indicator as the single byte 8,
the time field holding `t.Time - 315513000` in 32-bit arithmetic, and `rest` as
the bytes from offset 77 on. -/
def encodeTick (t : Tick) (rest : List Byte) : List Byte :=
  int32Bytes t.Token ++ int32Bytes t.LTP ++ [Fin.ofNat t.NetChangeIndicator.toNat] ++
    int32Bytes t.NetChange ++ int32Bytes t.LTQ ++ int32Bytes t.AvgPrice ++
    int32Bytes t.TotalBuyQuantity ++ int32Bytes t.TotalSellQuantity ++ int32Bytes t.Open ++
    int32Bytes t.High ++ int32Bytes t.Close ++ int32Bytes t.Low ++ int32Bytes t.Volume ++
    int32Bytes t.LTT ++ int32Bytes (addInt32 t.Time (-315513000)) ++ int32Bytes t.OI ++
    int32Bytes t.OIDayHigh ++ int32Bytes t.OIDayLow ++ int32Bytes t.LowerLimit ++
    int32Bytes t.UpperLimit ++ rest

/-- A 197-byte frame: token 26000, LTP 2525000, net change indicator 45, net
change -1250, every other byte zero. -/
def demoFrame : List Byte :=
  [0x00, 0x00, 0x65, 0x90, 0x00, 0x26, 0x87, 0x48, 45, 0xFF, 0xFF, 0xFB, 0x1E] ++
    List.replicate 184 0

/-- The tick that `demoFrame` carries. -/
def demoFrameTick : Tick :=
  { Token := 26000, LTP := 2525000, NetChangeIndicator := 45, NetChange := -1250, LTQ := 0,
    AvgPrice := 0, TotalBuyQuantity := 0, TotalSellQuantity := 0, Open := 0, High := 0,
    Close := 0, Low := 0, Volume := 0, LTT := 0, Time := 315513000, OI := 0, OIDayHigh := 0,
    OIDayLow := 0, LowerLimit := 0, UpperLimit := 0 }

/-! ## Order-update decoding (`socket.go`) -/

/-- The library functions that `decodeOrderMessage` calls, each returning `none`
for an error: `json.Unmarshal` into a `map[string]string`, `strconv.Atoi`,
`strconv.ParseFloat` with bit size 64 and `time.Parse` with the layout
`02-01-2006 15:04:05`. -/
structure DecodeLib where
  Unmarshal : List Byte → Option (GoMap String)
  Atoi : String → Option Int
  ParseFloat : String → Option Float64
  ParseTime : String → Option Time

/-- The pattern `if val, ok := rawOrder[key]; ok { if v, err := parse(val); err
== nil { field = v } }` on a field that holds its zero value. -/
def lenientField {α : Type} (rawOrder : GoMap String) (key : String)
    (parse : String → Option α) (zero : α) : α :=
  match rawOrder key with
  | none => zero
  | some val =>
    match parse val with
    | none => zero
    | some v => v

/-- Function `decodeOrderMessage`; `none` for a returned error. -/
def decodeOrderMessage (lib : DecodeLib) (message : List Byte) : Option OrderUpdate :=
  match lib.Unmarshal message with
  | none => none
  | some rawOrder =>
    some
      { ID := (rawOrder "id").getD ""
        Typ := (rawOrder "type").getD ""
        UserID := (rawOrder "userId").getD ""
        Exchange := (rawOrder "exchange").getD ""
        Symbol := (rawOrder "symbol").getD ""
        Product := (rawOrder "product").getD ""
        Status := (rawOrder "status").getD ""
        ReportType := (rawOrder "reportType").getD ""
        TransactionType := (rawOrder "transactionType").getD ""
        Order := (rawOrder "order").getD ""
        Retention := (rawOrder "retention").getD ""
        Reason := (rawOrder "reason").getD ""
        ExchangeOrderId := (rawOrder "exchangeOrderId").getD ""
        CancelQty := (rawOrder "cancelQty").getD ""
        Tags := (rawOrder "tags").getD ""
        DisclosedQty := (rawOrder "disclosedQty").getD ""
        TriggerPrice := (rawOrder "triggerPrice").getD ""
        Token := lenientField rawOrder "token" lib.Atoi 0
        Qty := lenientField rawOrder "qty" lib.Atoi 0
        Price := lenientField rawOrder "price" lib.ParseFloat 0
        AvgPrice := lenientField rawOrder "avgPrice" lib.ParseFloat 0
        Timestamp := lenientField rawOrder "timestamp" lib.Atoi zeroTime
        ExchangeTime := lenientField rawOrder "exchangeTime" lib.ParseTime zeroTime }

/-- A library for the scenarios: every message unmarshals to the given map, and
the parsers know the few strings the scenarios use. -/
def demoLib (rawOrder : GoMap String) : DecodeLib :=
  { Unmarshal := fun _ => some rawOrder
    Atoi := fun s =>
      if s = "26000" then some 26000 else if s = "100" then some 100
      else if s = "1728552660" then some 1728552660 else none
    ParseFloat := fun s => if s = "50.25" then some (201 / 4) else none
    ParseTime := fun s => if s = "10-10-2024 09:31:00" then some 1728552660 else none }

/-- The string map of an order update whose `qty` is malformed and whose `price`
is missing. -/
def demoRaw : GoMap String :=
  ((((((GoMap.empty.set "id" "E1").set "type" "orderUpdate").set "status" "COMPLETE").set "token"
    "26000").set "qty" "1o0").set "avgPrice" "50.25").set "exchangeTime" "10-10-2024 09:31:00"

/-! ## The socket client (`socket.go`) -/

def CODE_SUB : String := "sub"
def CODE_UNSUB : String := "unsub"
def MODE_FULL : String := "full"

/-- Number of dial attempts of a connect procedure. -/
def maxRetries : Nat := 20

/-- Go `time.Second`, in nanoseconds. -/
def Second : Int := 1000000000

/-- A socket control message. -/
structure SocketMessage where
  Code : String
  Mode : String
  Full : List Int
  deriving DecidableEq

/-- A message handed to `emit`: a string or a `SocketMessage`, the two types
that the callers of `emit` pass. -/
inductive Message where
  | text (s : String)
  | control (m : SocketMessage)
  deriving DecidableEq

/-- The subscription message of a token. -/
def subMessage (token : Int) : Message :=
  Message.control { Code := CODE_SUB, Mode := MODE_FULL, Full := [token] }

/-- The unsubscription message of a token. -/
def unsubMessage (token : Int) : Message :=
  Message.control { Code := CODE_UNSUB, Mode := MODE_FULL, Full := [token] }

/-- The bytes that `emit` hands to `WriteMessage`, as a string: the string
itself, or the `json.Marshal` rendering of a `SocketMessage` whose strings need
no escaping and whose `Full` is not nil. -/
def Message.frame : Message → String
  | Message.text s => s
  | Message.control m =>
    "\x7b\"code\":\"" ++ m.Code ++ "\",\"mode\":\"" ++ m.Mode ++ "\",\"full\":[" ++
      ",".intercalate (m.Full.map Sprint) ++ "]\x7d"

/-- The outcomes of the calls that the client makes on the network, by their
number: whether the `n`-th `Dial` succeeds and whether the `n`-th
`WriteMessage` succeeds, counted from zero. -/
structure SocketEnv where
  dialOk : Nat → Bool
  writeOk : Nat → Bool

/-- The state of a `TiqsWSClient`. `socket` is the connection, named by the
number of the `Dial` call that opened it, `none` for nil; `pingCheckerTimer` is
the deadline of the running timer, `none` when there is none or it has fired or
was stopped; the channels hold what was sent on them so far. The remaining
fields record the client's surroundings: the time, the number of `Dial` calls,
the messages handed to `WriteMessage` with their connection, the number of
`close` calls on each channel (a second one panics in Go) and the number of
running `readMessages` goroutines. -/
structure TiqsWSClient where
  socket : Option Nat
  pingCheckerTimer : Option Int
  lastPingTS : Int
  pendingQueue : List Message
  subscriptions : Int → Bool
  tickChannel : List Tick
  orderChannel : List OrderUpdate
  now : Int
  dials : Nat
  written : List (Nat × Message)
  tickChannelCloses : Nat
  orderChannelCloses : Nat
  readers : Nat

/-- Method `emit`. -/
def TiqsWSClient.emit (env : SocketEnv) (c : TiqsWSClient) (message : Message)
    (volatile : Bool) : TiqsWSClient :=
  match c.socket with
  | some conn =>
    let c1 := { c with written := c.written ++ [(conn, message)] }
    if env.writeOk c.written.length then c1
    else if !volatile then { c1 with pendingQueue := c1.pendingQueue ++ [message] }
    else c1
  | none =>
    if !volatile then { c with pendingQueue := c.pendingQueue ++ [message] } else c

/-- Method `startPingChecker`: the running timer is stopped and a new one is
set to fire after 35 seconds. -/
def TiqsWSClient.startPingChecker (c : TiqsWSClient) : TiqsWSClient :=
  { c with lastPingTS := c.now, pingCheckerTimer := some (c.now + 35 * Second) }

/-- Method `subscribePreviousSubscriptions`; `order` is the visiting order of
the `range` over `subscriptions`. -/
def TiqsWSClient.subscribePreviousSubscriptions (env : SocketEnv) (order : List Int)
    (c : TiqsWSClient) : TiqsWSClient :=
  order.foldl (fun c token => c.emit env (subMessage token) false) c

/-- Method `processPendingRequests`. -/
def TiqsWSClient.processPendingRequests (env : SocketEnv) (c : TiqsWSClient) :
    TiqsWSClient :=
  if c.pendingQueue.length > 0 then
    { c.pendingQueue.foldl (fun c request => c.emit env request false) c with
      pendingQueue := [] }
  else c

/-- The dial loop of `connectSocket` with `n` attempts left: the client
afterwards, and whether the loop was left by `break` (or by running out, which
twenty attempts never do) rather than by `return`. Between two attempts three
seconds pass. -/
def dialLoop (env : SocketEnv) : Nat → TiqsWSClient → TiqsWSClient × Bool
  | 0, c => (c, true)
  | n + 1, c =>
    if env.dialOk c.dials then ({ c with dials := c.dials + 1, socket := some c.dials }, true)
    else if n = 0 then
      ({ c with
          dials := c.dials + 1, socket := none
          orderChannelCloses := c.orderChannelCloses + 1
          tickChannelCloses := c.tickChannelCloses + 1 },
        false)
    else dialLoop env n { c with dials := c.dials + 1, socket := none, now := c.now + 3 * Second }

/-- Method `connectSocket`; `order` is the visiting order of the `range` over
`subscriptions`. -/
def TiqsWSClient.connectSocket (env : SocketEnv) (order : List Int) (c : TiqsWSClient) :
    TiqsWSClient :=
  let r := dialLoop env maxRetries c
  if r.2 then
    let c3 :=
      ((r.1.startPingChecker).subscribePreviousSubscriptions env order).processPendingRequests
        env
    { c3 with readers := c3.readers + 1 }
  else r.1

/-- Method `CloseConnection`. -/
def TiqsWSClient.CloseConnection (c : TiqsWSClient) : TiqsWSClient :=
  match c.socket with
  | none => c
  | some _ => { c with socket := none, pingCheckerTimer := none, pendingQueue := [] }

/-- Method `closeAndReconnect`. -/
def TiqsWSClient.closeAndReconnect (env : SocketEnv) (order : List Int) (c : TiqsWSClient) :
    TiqsWSClient :=
  (c.CloseConnection).connectSocket env order

/-- Method `AddSubscription`. -/
def TiqsWSClient.AddSubscription (env : SocketEnv) (c : TiqsWSClient) (token : Int) :
    TiqsWSClient :=
  ({ c with subscriptions := fun t => if t = token then true else c.subscriptions t }).emit env
    (subMessage token) false

/-- Method `RemoveSubscription`. -/
def TiqsWSClient.RemoveSubscription (env : SocketEnv) (c : TiqsWSClient) (token : Int) :
    TiqsWSClient :=
  ({ c with subscriptions := fun t => if t = token then false else c.subscriptions t }).emit env
    (unsubMessage token) false

/-- Function `NewSocket`, at the time `now`. -/
def NewSocket (env : SocketEnv) (now : Int) : TiqsWSClient :=
  TiqsWSClient.connectSocket env []
    { socket := none, pingCheckerTimer := none, lastPingTS := zeroTime, pendingQueue := [],
      subscriptions := fun _ => false, tickChannel := [], orderChannel := [], now := now,
      dials := 0, written := [], tickChannelCloses := 0, orderChannelCloses := 0, readers := 0 }

/-- The bytes of a string of ASCII characters. -/
def asciiBytes (s : String) : List Byte := s.toList.map fun ch => Fin.ofNat ch.toNat

/-- Function `isOrderUpdate`: `strings.Contains(input, "orderUpdate")`. -/
def isOrderUpdate (input : List Byte) : Bool := decide (asciiBytes "orderUpdate" <:+: input)

/-- Body of the loop of `readMessages` for a message read without error. -/
def TiqsWSClient.readMessage (lib : DecodeLib) (env : SocketEnv) (c : TiqsWSClient)
    (message : List Byte) : TiqsWSClient :=
  if message = asciiBytes "PING" then
    ({ c with lastPingTS := c.now }).emit env (Message.text "PONG") false
  else if isOrderUpdate message then
    match decodeOrderMessage lib message with
    | none => c
    | some update => { c with orderChannel := c.orderChannel ++ [update] }
  else if message.length = FULLTICK_LENGTH then
    match parseTick message with
    | none => c
    | some tick => { c with tickChannel := c.tickChannel ++ [tick] }
  else c

/-- Body of the loop of `readMessages` for a read error: reconnect, and the
goroutine returns. -/
def TiqsWSClient.readError (env : SocketEnv) (order : List Int) (c : TiqsWSClient) :
    TiqsWSClient :=
  let c1 := c.closeAndReconnect env order
  { c1 with readers := c1.readers - 1 }

/-- The function that `startPingChecker` hands to `time.AfterFunc`, run when the
timer fires. -/
def TiqsWSClient.pingCheck (env : SocketEnv) (order : List Int) (c : TiqsWSClient) :
    TiqsWSClient :=
  let c0 := { c with pingCheckerTimer := none }
  let diff := c0.now - c0.lastPingTS
  let c1 := if diff > 35 * Second then c0.closeAndReconnect env order else c0
  c1.startPingChecker

/-- Time passes. -/
def TiqsWSClient.wait (c : TiqsWSClient) (d : Int) : TiqsWSClient := { c with now := c.now + d }

/-- The list `order` is a visiting order of a `range` over the subscription
set. -/
def IsSubscriptionRange (subscriptions : Int → Bool) (order : List Int) : Prop :=
  order.Nodup ∧ ∀ token, token ∈ order ↔ subscriptions token = true
/-- A client for the scenarios: connected on connection 0, nothing sent yet. -/
def demoClient : TiqsWSClient :=
  { socket := some 0, pingCheckerTimer := some (35 * Second), lastPingTS := 0,
    pendingQueue := [], subscriptions := fun _ => false, tickChannel := [], orderChannel := [],
    now := 10 * Second, dials := 1, written := [], tickChannelCloses := 0,
    orderChannelCloses := 0, readers := 1 }

/-- A network on which every call succeeds. -/
def demoEnv : SocketEnv := { dialOk := fun _ => true, writeOk := fun _ => true }

/-- A payload of 197 bytes that starts with the text `orderUpdate`. -/
def demoOrderFrame : List Byte := asciiBytes "orderUpdate" ++ List.replicate 186 0
/-- The frames written on the connection `conn`, in order. -/
def framesOn (c : TiqsWSClient) (conn : Nat) : List String :=
  (c.written.filter fun w => w.1 = conn).map fun w => w.2.frame

/-- Scenario S5: the connected client subscribes to token 26009, then a read
fails and the client reconnects. -/
def reconnectDemo : TiqsWSClient :=
  (demoClient.AddSubscription demoEnv 26009).readError demoEnv [26009]

/-- The client has subscribed to 26009 and lost its connection; a subscription
to 26037 is issued before the next dial. -/
def pendingDemo : TiqsWSClient :=
  ((demoClient.AddSubscription demoEnv 26009).CloseConnection).AddSubscription demoEnv 26037
/-- A network on which only the first dial succeeds. -/
def exhaustEnv : SocketEnv := { dialOk := fun n => decide (n = 0), writeOk := fun _ => true }

/-- A client connects at time 0 and receives no `PING`; after 36 seconds the
timer fires, the watchdog reconnects and all twenty dials fail. -/
def exhaustDemo : TiqsWSClient :=
  ((NewSocket exhaustEnv 0).wait (36 * Second)).pingCheck exhaustEnv []

/-- The timer that the watchdog set after the failed reconnection fires 36
seconds later. -/
def exhaustDemoTimer : TiqsWSClient := (exhaustDemo.wait (36 * Second)).pingCheck exhaustEnv []

/-- The reader of the connection that the watchdog closed meets its read
error. -/
def exhaustDemoReader : TiqsWSClient := exhaustDemo.readError exhaustEnv []

/-- A read fails on a connected client and all twenty dials of the reconnection
fail. -/
def exhaustDemoRead : TiqsWSClient :=
  ((NewSocket exhaustEnv 0).wait (10 * Second)).readError exhaustEnv []

/-! ## Panics and the deferred `recover` of `execute` (`strategy.go`) -/

/-- How a call ends: it returns, or it panics and unwinds, in both cases with
the state reached by then. -/
inductive Outcome (α : Type) where
  | returned (a : α)
  | panicked (a : α)

/-- Whether the call returned. -/
def Outcome.completes {α : Type} : Outcome α → Bool
  | Outcome.returned _ => true
  | Outcome.panicked _ => false

/-- The state the call ended with. -/
def Outcome.state {α : Type} : Outcome α → α
  | Outcome.returned a => a
  | Outcome.panicked a => a

/-- What a callback does on one tick: the calls it makes on its strategy, in
order, and whether it then panics instead of returning. -/
structure Callback where
  calls : List Call
  panics : Bool

/-- The call `s.onTick(s, tick, closeSeries)` of `execute`. -/
def strategy.runCallback (s : strategy) (cb : Callback) : Outcome strategy :=
  if cb.panics then Outcome.panicked (s.onTick cb.calls) else Outcome.returned (s.onTick cb.calls)

/-- The statements of `execute` after the `defer`, for a strategy that is not
unplugged: a panic of the callback unwinds past the four `process` calls. -/
def strategy.executeBody (symbolToTokenMap : GoMap Int) (s : strategy) (disp : GoMap String)
    (cb : Callback) (tick : Tick) (keys : List String)
    (iterEntry iterExit : List (String × Option String)) (iterCancel : List (String × Bool)) :
    Outcome (strategy × GoMap String × List OrderRequest × List String) :=
  match s.runCallback cb with
  | Outcome.panicked s1 => Outcome.panicked (s1, disp, [], [])
  | Outcome.returned _ =>
    Outcome.returned
      (s.execute symbolToTokenMap disp cb.calls tick keys iterEntry iterExit iterCancel)

/-- Method `execute` with its deferred function: `recover` stops the panic of
the body, the error is logged, and `execute` returns to the tick loop. -/
def strategy.executeRecover (symbolToTokenMap : GoMap Int) (s : strategy) (disp : GoMap String)
    (cb : Callback) (tick : Tick) (keys : List String)
    (iterEntry iterExit : List (String × Option String)) (iterCancel : List (String × Bool)) :
    Outcome (strategy × GoMap String × List OrderRequest × List String) :=
  Outcome.returned
    (s.executeBody symbolToTokenMap disp cb tick keys iterEntry iterExit iterCancel).state

/-! ## The two loops of a strategy (`strategy.go`) -/

/-- What a strategy takes from one of its two channels: a tick, with what the
callback and the broker do while it is processed (the calls of the callback,
the visiting orders of the `range` loops and the outcomes of the RPCs), a tick
on which the callback panics after the given calls, or an order update. -/
inductive StrategyEvent where
  | tick (tick : Tick) (calls : List Call) (keys : List String)
      (iterEntry iterExit : List (String × Option String)) (iterCancel : List (String × Bool))
  | faultyTick (tick : Tick) (calls : List Call)
  | orderUpdate (u : OrderUpdate)

/-- One iteration of `startTicksListener` (`insertBar`, then `execute`) or of
`startOrderUpdatesListener`, on a strategy and the dispatcher's lookup map. -/
def strategy.handle (symbolToTokenMap : GoMap Int) (sd : strategy × GoMap String) :
    StrategyEvent → strategy × GoMap String
  | StrategyEvent.tick tick calls keys iterEntry iterExit iterCancel =>
    let r :=
      (sd.1.insertBar tick).execute symbolToTokenMap sd.2 calls tick keys iterEntry iterExit
        iterCancel
    (r.1, r.2.1)
  | StrategyEvent.faultyTick tick calls =>
    let r :=
      ((sd.1.insertBar tick).executeRecover symbolToTokenMap sd.2 ⟨calls, true⟩ tick [] [] []
        []).state
    (r.1, r.2.1)
  | StrategyEvent.orderUpdate u => orderUpdateStep sd.1 sd.2 u

/-- The two loops of a strategy over the events they take, in order. -/
def strategy.listen (symbolToTokenMap : GoMap Int) (sd : strategy × GoMap String)
    (events : List StrategyEvent) : strategy × GoMap String :=
  events.foldl (strategy.handle symbolToTokenMap) sd

/-- The prices `LTP/100` of the ticks among the events, in arrival order. -/
def tickPrices : List StrategyEvent → List Float64
  | [] => []
  | StrategyEvent.tick tick _ _ _ _ _ :: rest => ((tick.LTP : ℚ) / 100) :: tickPrices rest
  | StrategyEvent.faultyTick tick _ :: rest => ((tick.LTP : ℚ) / 100) :: tickPrices rest
  | StrategyEvent.orderUpdate _ :: rest => tickPrices rest

/-- The last `BARS_MAX_LEN` elements of a series, all of it when it is shorter. -/
def lastBars (prices : List Float64) : List Float64 :=
  prices.drop (prices.length - BARS_MAX_LEN)

/-- A tick event with the given LTP whose callback makes no call. -/
def quietTick (ltp : Int) : StrategyEvent :=
  StrategyEvent.tick (demoTick ltp) [] [] [] [] []

/-- Three ticks with the LTPs 5000, 5100 and 5200, and an order update after
the first. -/
def barsDemoEvents : List StrategyEvent :=
  [quietTick 5000, StrategyEvent.orderUpdate (demoUpdate "E1" COMPLETE 100 50), quietTick 5100,
    quietTick 5200]

/-! ## The tick pump and the LTP cache (`auto_trader.go`) -/

/-- One iteration of the loop of `startTickListener`: the dispatcher afterwards
and the listeners that `newTick` hands the tick to, in order. -/
def AutoTrader.startTickListener (tr : AutoTrader) (tick : Tick) : AutoTrader × List String :=
  let token := tick.Token
  let price : Float64 := (tick.LTP : ℚ) / 100
  ({ tr with ltps := fun t => if t = token then some price else tr.ltps t },
    tr.tickListeners token)

/-- Method `GetLTP`; `none` for a returned error. -/
def AutoTrader.GetLTP (tr : AutoTrader) (symbol : String) : Option Float64 :=
  match getTokenFromSymbol tr.symbolToTokenMap symbol with
  | none => none
  | some token => tr.ltps token

/-- Scenario S1: strategy `alpha` is registered on `NIFTY50` and the tick pump
handles the tick of `demoFrame`. -/
def ltpDemo : AutoTrader × List String := demoT1.startTickListener demoFrameTick

/-- On its first tick the callback enters `L1` and cancels it in the same call;
the entry is placed and the broker returns `E1`. -/
def cancelDemoEvents : List StrategyEvent :=
  [StrategyEvent.tick (demoTick 5000)
    [Call.Entry "L1" (demoEntry "" Long 100), Call.Cancel "L1"] [] [("L1", some "E1")] [] []]

/-- The strategy after `cancelDemoEvents`. -/
def cancelDemo : strategy :=
  (strategy.listen seedSymbolToToken (newStrategy "alpha" "NIFTY50", GoMap.empty)
    cancelDemoEvents).1

/-- As `cancelDemo`, with a cancel intent for `L1` written into `ordCancel`. -/
def cancelIntentDemo : strategy := { cancelDemo with ordCancel := GoMap.empty.set "L1" true }

/-! ## Shutdown (`strategy.go`, `auto_trader.go`) -/

/-- Go `xs[i]` on a slice: `none` stands for the run-time panic of an index out of
range. -/
def sliceIndex {α : Type} (xs : List α) (i : Int) : Option α :=
  if 0 ≤ i ∧ i < xs.length then xs[i.toNat]? else none

/-- Method `closeOpenPositions`: an exit intent for the whole quantity of every
open position, then `processExitOrders`; `keys` is the visiting order of the
`range` over `openPos`. -/
def strategy.closeOpenPositions (symbolToTokenMap : GoMap Int) (s : strategy)
    (disp : GoMap String) (ltp : Float64) (keys : List String)
    (iterExit : List (String × Option String)) : strategy × GoMap String × List OrderRequest :=
  let s1 :=
    keys.foldl
      (fun s k =>
        match s.openPos k with
        | some p =>
          s.insertOrdExit p.OrdID
            { OrderID := p.OrdID, Qty := p.Qty, Limit := 0, Stop := 0, Comment := "" }
        | none => s)
      s
  processExitOrders symbolToTokenMap s1 disp ltp iterExit

/-- Method `GetAllClosedPositions`; `closedKeys` is the visiting order of the
`range` over `closedPos`. -/
def strategy.GetAllClosedPositions (s : strategy) (closedKeys : List String) : List Position :=
  closedKeys.foldl (fun pos k => pos ++ s.closedPos k) []

/-- Method `removeStrategy`. -/
def AutoTrader.removeStrategy (tr : AutoTrader) (key : String) : AutoTrader :=
  match tr.strategies key with
  | none => tr
  | some strategy =>
    let token := (getTokenFromSymbol tr.symbolToTokenMap strategy.symbol).getD 0
    { tr with
      strategies := tr.strategies.del key
      tickListeners := fun t =>
        if t = token then (tr.tickListeners t).erase key else tr.tickListeners t }

/-- Method `shutdown` of the strategy registered under `name`: the last-seen
LTP is read as `s.bars[len(s.bars)-1]`, which panics with an index out of range
when `bars` is empty. -/
def AutoTrader.shutdown (tr : AutoTrader) (name : String) (keys : List String)
    (iterExit : List (String × Option String)) (closedKeys : List String) :
    Outcome AutoTrader :=
  match tr.strategies name with
  | none => Outcome.returned tr
  | some s =>
    match sliceIndex s.bars ((s.bars.length : Int) - 1) with
    | none => Outcome.panicked tr
    | some ltp =>
      let r :=
        s.closeOpenPositions tr.symbolToTokenMap tr.tiqsOrderIdsToStrategy ltp keys iterExit
      let tr1 : AutoTrader :=
        { tr with
          strategies := tr.strategies.set name r.1
          tiqsOrderIdsToStrategy := r.2.1
          closedPositions := tr.closedPositions ++ r.1.GetAllClosedPositions closedKeys }
      Outcome.returned (tr1.removeStrategy name)

/-- What the shutdown of one strategy meets: its name, the visiting orders of
its `range` loops and the outcomes of its exit orders. -/
structure ShutdownPlan where
  name : String
  keys : List String
  iterExit : List (String × Option String)
  closedKeys : List String

/-- Method `Shutdown` up to `wg.Wait()`: every strategy of the plan runs
`shutdown` in a goroutine of its own, without a `recover`, so that a panic in
one of them ends the program. The goroutines are taken one after the other. -/
def AutoTrader.Shutdown (tr : AutoTrader) (plan : List ShutdownPlan) : Outcome AutoTrader :=
  plan.foldl
    (fun o p =>
      match o with
      | Outcome.panicked t => Outcome.panicked t
      | Outcome.returned t => t.shutdown p.name p.keys p.iterExit p.closedKeys)
    (Outcome.returned tr)

/-- One iteration of the tick loop of the strategy `name` on which the callback
makes `calls`, calls `Unplug` and returns: `insertBar`, the callback, then
`shutdown` from inside `execute`. -/
def AutoTrader.tickUnplug (tr : AutoTrader) (name : String) (tick : Tick) (calls : List Call)
    (keys : List String) (iterExit : List (String × Option String))
    (closedKeys : List String) : Outcome AutoTrader :=
  (tr.withStrategy name fun s =>
      { (s.insertBar tick).onTick calls with unplug := true }).shutdown
    name keys iterExit closedKeys

/-! ## Time to expiry (`greeks.go`) -/

/-- A `time.Time` together with its location: the instant in nanoseconds since
the Unix epoch, and the offset of the location east of UTC in seconds (a
location with one fixed offset, as Asia/Kolkata). -/
structure GoTime where
  unixNano : Int
  offset : Int

/-- The calendar date of `t` in its location, as the number of days since
1970-01-01: `t.Format("2006-01-02")` and `u.Format("2006-01-02")` are the same
text exactly when the day numbers are equal. -/
def GoTime.localDay (t : GoTime) : Int :=
  (t.unixNano + t.offset * 1000000000) / 86400000000000

/-- The time `time.Date(t.Year(), t.Month(), t.Day(), hour, min, 0, 0,
t.Location())`. -/
def GoTime.atClock (t : GoTime) (hour min : Int) : GoTime :=
  { unixNano := (t.localDay * 86400 + hour * 3600 + min * 60 - t.offset) * 1000000000
    offset := t.offset }

def GoTime.Before (t u : GoTime) : Bool := decide (t.unixNano < u.unixNano)

def GoTime.After (t u : GoTime) : Bool := decide (u.unixNano < t.unixNano)

def GoTime.Equal (t u : GoTime) : Bool := decide (t.unixNano = u.unixNano)

/-- A `time.Duration`: nanoseconds in an `int64`. -/
abbrev Duration := Int

def minDuration : Duration := -(2 ^ 63)

def maxDuration : Duration := 2 ^ 63 - 1

/-- Method `Sub`: the difference of the instants, or the largest (smallest)
duration when it does not fit. -/
def GoTime.Sub (t u : GoTime) : Duration :=
  max minDuration (min maxDuration (t.unixNano - u.unixNano))

/-- Method `Hours` of a duration. -/
def Duration.Hours (d : Duration) : Float64 := (d : ℚ) / 3600000000000

/-- Method `Milliseconds` of a duration: integer division, truncating. -/
def Duration.Milliseconds (d : Duration) : Int := Int.tdiv d 1000000

/-- Go `math.Ceil`. -/
def Ceil (x : Float64) : Float64 := ((Int.ceil x : Int) : ℚ)

def MS_PER_MINUTE : Int := 1000 * 60

def TRADING_START_HOUR : Int := 9

def TRADING_START_MINUTE : Int := 15

def TRADING_END_HOUR : Int := 15

def TRADING_END_MINUTE : Int := 30

def FULL_TRADING_DAY_MS : Float64 :=
  (((TRADING_END_HOUR * 60 + TRADING_END_MINUTE) -
    (TRADING_START_HOUR * 60 + TRADING_START_MINUTE) : Int) : ℚ) * (MS_PER_MINUTE : ℚ)

/-- Function `GetTimeInDays`; `now` is what `time.Now()` returns during the
call. -/
def GetTimeInDays (currentExpiryDate today now : GoTime) : Float64 :=
  let tradingStartTimeToday := today.atClock TRADING_START_HOUR TRADING_START_MINUTE
  let tradingEndTimeToday := today.atClock TRADING_END_HOUR TRADING_END_MINUTE
  if today.localDay = currentExpiryDate.localDay then
    if now.Before tradingStartTimeToday then 1
    else if now.After tradingEndTimeToday then 0.0000001
    else
      let remainingTradingTimeMs : Float64 :=
        ((Duration.Milliseconds (tradingEndTimeToday.Sub now) : Int) : ℚ)
      remainingTradingTimeMs / FULL_TRADING_DAY_MS
  else
    let timeDifferenceMs := Duration.Hours (currentExpiryDate.Sub today) * 24
    let timeDifferenceDays := timeDifferenceMs / 24
    if today.Before currentExpiryDate &&
        (now.Before tradingEndTimeToday || now.Equal tradingEndTimeToday) then
      Ceil (timeDifferenceDays + 1)
    else Ceil timeDifferenceDays

/-- The instant of a wall-clock time in India Standard Time (UTC+05:30), given
in seconds since the Unix epoch. -/
def istTime (unixSeconds : Int) : GoTime :=
  { unixNano := unixSeconds * 1000000000, offset := 19800 }

/-- The `today` of `TestCallDelta`: 2024-10-10 00:00 IST. -/
def testToday : GoTime := istTime 1728498600

/-- The `currentExpiryDate` of `TestCallDelta`: 2024-10-17 00:00 IST. -/
def testExpiry : GoTime := istTime 1729103400

/-! ## Black-76 pricing (`greeks.go`)

The pricing code is written over an ordered field `F` that stands for `float64`
in exact arithmetic (no rounding, no infinities, no NaN). What it takes from
package `math` beyond field arithmetic is a parameter. -/

/-- The functions of package `math` used by the pricing code, over the number
type `F`; `DivZero x` is what the division of `x` by zero yields. -/
structure MathLib (F : Type) where
  Exp : F → F
  Log : F → F
  Sqrt : F → F
  Pi : F
  DivZero : F → F

/-- Go `x / y` on `float64`. -/
def MathLib.quo {F : Type} [LinearOrderedField F] (M : MathLib F) (x y : F) : F :=
  if y = 0 then M.DivZero x else x / y

/-- The functions of package `math` over the real numbers. -/
noncomputable def realMath (divZero : ℝ → ℝ) : MathLib ℝ :=
  { Exp := Real.exp, Log := Real.log, Sqrt := Real.sqrt, Pi := Real.pi, DivZero := divZero }

/-- Method `cdf` of `NormalDistribution`. -/
def cdf {F : Type} [LinearOrderedField F] (M : MathLib F) (x : F) : F :=
  let t := M.quo 1 (1 + 0.2316419 * |x|)
  let a1 : F := 0.319381530
  let a2 : F := -0.356563782
  let a3 : F := 1.781477937
  let a4 : F := -1.821255978
  let a5 : F := 1.330274429
  let result :=
    1 - M.quo 1 (M.Sqrt (2 * M.Pi)) * M.Exp (-(x * x) / 2) *
      (a1 * t + a2 * t ^ 2 + a3 * t ^ 3 + a4 * t ^ 4 + a5 * t ^ 5)
  if x ≥ 0 then result else 1 - result

/-- Method `pdf` of `NormalDistribution`. -/
def pdf {F : Type} [LinearOrderedField F] (M : MathLib F) (x : F) : F :=
  M.quo (M.Exp (-(x * x) / 2)) (M.Sqrt (2 * M.Pi))

structure Black76 (F : Type) where
  InterestRate : F

def CALL : String := "C"

def PUT : String := "P"

structure Greeks (F : Type) where
  Value : F
  Delta : F
  Gamma : F
  Vega : F
  Theta : F
  Rho : F

/-- Method `d1d2`. -/
def Black76.d1d2 {F : Type} [LinearOrderedField F] (_b : Black76 F) (M : MathLib F)
    (underlyingPrice strikePrice timeToMaturity volatility : F) : F × F :=
  let d1 :=
    M.quo (M.Log (M.quo underlyingPrice strikePrice) + volatility ^ 2 / 2 * timeToMaturity)
      (volatility * M.Sqrt timeToMaturity)
  let d2 := d1 - volatility * M.Sqrt timeToMaturity
  (d1, d2)

/-- The lookup `map[string]float64{"C": 1, "P": -1}[optionType]`: the zero value
for a key that the map does not hold. -/
def optionSign {F : Type} [LinearOrderedField F] (optionType : String) : F :=
  if optionType = "C" then 1 else if optionType = "P" then -1 else 0

/-- Method `GetGreeks`. -/
def Black76.GetGreeks {F : Type} [LinearOrderedField F] (b : Black76 F) (M : MathLib F)
    (optionType : String) (underlyingPrice strikePrice timeToMaturity volatility : F) :
    Greeks F :=
  let discountFactor := M.Exp (-b.InterestRate * timeToMaturity)
  let d := b.d1d2 M underlyingPrice strikePrice timeToMaturity volatility
  let d1 := d.1
  let d2 := d.2
  let sign : F := optionSign optionType
  let nd1 := cdf M (d1 * sign)
  let nd2 := cdf M (d2 * sign)
  let normpdf := pdf M d1
  let sqrtTimeToMaturity := M.Sqrt timeToMaturity
  let value := sign * discountFactor * (underlyingPrice * nd1 - strikePrice * nd2)
  let delta := sign * discountFactor * nd1
  let gamma :=
    discountFactor * M.quo normpdf (volatility * underlyingPrice * sqrtTimeToMaturity)
  let vega := 0.01 * underlyingPrice * discountFactor * normpdf * sqrtTimeToMaturity
  let theta :=
    -underlyingPrice * discountFactor * normpdf * M.quo volatility (2 * sqrtTimeToMaturity) +
      sign * b.InterestRate * discountFactor * (underlyingPrice * nd1 - strikePrice * nd2)
  let rho := -0.01 * timeToMaturity * value
  { Value := value, Delta := delta, Gamma := gamma, Vega := vega, Theta := theta / 365,
    Rho := rho }

/-! ### The reference formulas of Black-76 -/

/-- The standard normal density `e^(-x^2/2) / sqrt(2 pi)`. -/
def referencePhi {F : Type} [LinearOrderedField F] (M : MathLib F) (x : F) : F :=
  M.Exp (-(x ^ 2 / 2)) / M.Sqrt (2 * M.Pi)

/-- The five-term approximation of Abramowitz and Stegun to the standard normal
distribution function at `x ≥ 0`: `1 - phi(x) (b1 t + ... + b5 t^5)` with
`t = 1 / (1 + p x)`. -/
def referenceNPos {F : Type} [LinearOrderedField F] (M : MathLib F) (x : F) : F :=
  let t := 1 / (1 + 0.2316419 * x)
  1 - referencePhi M x *
    (0.319381530 * t - 0.356563782 * t ^ 2 + 1.781477937 * t ^ 3 - 1.821255978 * t ^ 4 +
      1.330274429 * t ^ 5)

/-- The approximation on the whole line, by `N(x) = 1 - N(-x)` for `x < 0`. -/
def referenceN {F : Type} [LinearOrderedField F] (M : MathLib F) (x : F) : F :=
  if 0 ≤ x then referenceNPos M x else 1 - referenceNPos M (-x)

/-- The Black-76 value and sensitivities as the specification states them, for
the rate `r`, `sign = +1` for a call and `-1` for a put. -/
def referenceGreeks {F : Type} [LinearOrderedField F] (M : MathLib F) (r sign S K T sigma : F) :
    Greeks F :=
  let df := M.Exp (-(r * T))
  let d1 := (M.Log (S / K) + sigma ^ 2 * T / 2) / (sigma * M.Sqrt T)
  let d2 := d1 - sigma * M.Sqrt T
  let value := sign * df * (S * referenceN M (sign * d1) - K * referenceN M (sign * d2))
  { Value := value
    Delta := sign * df * referenceN M (sign * d1)
    Gamma := df * referencePhi M d1 / (sigma * S * M.Sqrt T)
    Vega := 0.01 * S * df * referencePhi M d1 * M.Sqrt T
    Theta :=
      (-S * df * referencePhi M d1 * sigma / (2 * M.Sqrt T) +
        sign * r * df * (S * referenceN M (sign * d1) - K * referenceN M (sign * d2))) / 365
    Rho := -0.01 * T * value }

/-! ## `float64` with its special values

The loop of `ImpliedVolaUsingBisection` divides by a difference of two values
that can be zero, and passes the quotient through `math.Min` and `math.Max`.
For it a `float64` is a number of the ordered field, an infinity or NaN, with
the arithmetic of IEEE 754 on the special values. Finite results are exact
(no rounding, overflow or underflow), and zero carries no sign: it divides as
`+0`. -/

/-- A `float64`: a finite number, `+Inf` (`inf false`), `-Inf` (`inf true`) or
NaN. -/
inductive GoFloat (F : Type) where
  | fin (x : F)
  | inf (negative : Bool)
  | nan

/-- Go `-x`. -/
def GoFloat.neg {F : Type} [LinearOrderedField F] : GoFloat F → GoFloat F
  | GoFloat.fin x => GoFloat.fin (-x)
  | GoFloat.inf s => GoFloat.inf (!s)
  | GoFloat.nan => GoFloat.nan

/-- Go `x + y`: `Inf + (-Inf)` is NaN. -/
def GoFloat.add {F : Type} [LinearOrderedField F] : GoFloat F → GoFloat F → GoFloat F
  | GoFloat.nan, _ => GoFloat.nan
  | _, GoFloat.nan => GoFloat.nan
  | GoFloat.fin x, GoFloat.fin y => GoFloat.fin (x + y)
  | GoFloat.fin _, GoFloat.inf s => GoFloat.inf s
  | GoFloat.inf s, GoFloat.fin _ => GoFloat.inf s
  | GoFloat.inf s, GoFloat.inf t => if s = t then GoFloat.inf s else GoFloat.nan

/-- Go `x - y`. -/
def GoFloat.sub {F : Type} [LinearOrderedField F] (x y : GoFloat F) : GoFloat F :=
  GoFloat.add x (GoFloat.neg y)

/-- Go `x * y`: `0 * Inf` is NaN. -/
def GoFloat.mul {F : Type} [LinearOrderedField F] : GoFloat F → GoFloat F → GoFloat F
  | GoFloat.nan, _ => GoFloat.nan
  | _, GoFloat.nan => GoFloat.nan
  | GoFloat.fin x, GoFloat.fin y => GoFloat.fin (x * y)
  | GoFloat.fin x, GoFloat.inf s =>
    if x = 0 then GoFloat.nan else GoFloat.inf (xor s (decide (x < 0)))
  | GoFloat.inf s, GoFloat.fin y =>
    if y = 0 then GoFloat.nan else GoFloat.inf (xor s (decide (y < 0)))
  | GoFloat.inf s, GoFloat.inf t => GoFloat.inf (xor s t)

/-- Go `x / y`: `0 / 0` and `Inf / Inf` are NaN, a nonzero number divided by
zero is an infinity with the sign of the number. -/
def GoFloat.div {F : Type} [LinearOrderedField F] : GoFloat F → GoFloat F → GoFloat F
  | GoFloat.nan, _ => GoFloat.nan
  | _, GoFloat.nan => GoFloat.nan
  | GoFloat.fin x, GoFloat.fin y =>
    if y = 0 then (if x = 0 then GoFloat.nan else GoFloat.inf (decide (x < 0)))
    else GoFloat.fin (x / y)
  | GoFloat.fin _, GoFloat.inf _ => GoFloat.fin 0
  | GoFloat.inf s, GoFloat.fin y => GoFloat.inf (xor s (decide (y < 0)))
  | GoFloat.inf _, GoFloat.inf _ => GoFloat.nan

instance {F : Type} [LinearOrderedField F] : Neg (GoFloat F) := ⟨GoFloat.neg⟩

instance {F : Type} [LinearOrderedField F] : Add (GoFloat F) := ⟨GoFloat.add⟩

instance {F : Type} [LinearOrderedField F] : Sub (GoFloat F) := ⟨GoFloat.sub⟩

instance {F : Type} [LinearOrderedField F] : Mul (GoFloat F) := ⟨GoFloat.mul⟩

instance {F : Type} [LinearOrderedField F] : Div (GoFloat F) := ⟨GoFloat.div⟩

/-- Go `x < y`: false when an operand is NaN. -/
def GoFloat.lt {F : Type} [LinearOrderedField F] : GoFloat F → GoFloat F → Bool
  | GoFloat.fin x, GoFloat.fin y => decide (x < y)
  | GoFloat.fin _, GoFloat.inf s => !s
  | GoFloat.inf s, GoFloat.fin _ => s
  | GoFloat.inf s, GoFloat.inf t => s && !t
  | _, _ => false

/-- Go `x <= y`: false when an operand is NaN. -/
def GoFloat.le {F : Type} [LinearOrderedField F] : GoFloat F → GoFloat F → Bool
  | GoFloat.fin x, GoFloat.fin y => decide (x ≤ y)
  | GoFloat.fin _, GoFloat.inf s => !s
  | GoFloat.inf s, GoFloat.fin _ => s
  | GoFloat.inf s, GoFloat.inf t => s || !t
  | _, _ => false

/-- Go `x >= y`. -/
def GoFloat.ge {F : Type} [LinearOrderedField F] (x y : GoFloat F) : Bool := GoFloat.le y x

/-- Go `x == y`: false when an operand is NaN. -/
def GoFloat.eq {F : Type} [LinearOrderedField F] : GoFloat F → GoFloat F → Bool
  | GoFloat.fin x, GoFloat.fin y => decide (x = y)
  | GoFloat.inf s, GoFloat.inf t => decide (s = t)
  | _, _ => false

/-- Go `math.Max`: `+Inf` if an argument is `+Inf`, else NaN if an argument is
NaN, else the larger one. -/
def GoFloat.Max {F : Type} [LinearOrderedField F] : GoFloat F → GoFloat F → GoFloat F
  | GoFloat.inf false, _ => GoFloat.inf false
  | _, GoFloat.inf false => GoFloat.inf false
  | GoFloat.nan, _ => GoFloat.nan
  | _, GoFloat.nan => GoFloat.nan
  | GoFloat.fin x, GoFloat.fin y => GoFloat.fin (max x y)
  | GoFloat.fin x, GoFloat.inf true => GoFloat.fin x
  | GoFloat.inf true, GoFloat.fin y => GoFloat.fin y
  | GoFloat.inf true, GoFloat.inf true => GoFloat.inf true

/-- Go `math.Min`: `-Inf` if an argument is `-Inf`, else NaN if an argument is
NaN, else the smaller one. -/
def GoFloat.Min {F : Type} [LinearOrderedField F] : GoFloat F → GoFloat F → GoFloat F
  | GoFloat.inf true, _ => GoFloat.inf true
  | _, GoFloat.inf true => GoFloat.inf true
  | GoFloat.nan, _ => GoFloat.nan
  | _, GoFloat.nan => GoFloat.nan
  | GoFloat.fin x, GoFloat.fin y => GoFloat.fin (min x y)
  | GoFloat.fin x, GoFloat.inf false => GoFloat.fin x
  | GoFloat.inf false, GoFloat.fin y => GoFloat.fin y
  | GoFloat.inf false, GoFloat.inf false => GoFloat.inf false

/-- Go `math.Abs`. -/
def GoFloat.Abs {F : Type} [LinearOrderedField F] : GoFloat F → GoFloat F
  | GoFloat.fin x => GoFloat.fin |x|
  | GoFloat.inf _ => GoFloat.inf false
  | GoFloat.nan => GoFloat.nan

/-- Go `math.Pow(x, n)` for the exponents `n = 2, ..., 5` of the source, as a
product of `n` factors. -/
def GoFloat.Pow {F : Type} [LinearOrderedField F] (x : GoFloat F) : Nat → GoFloat F
  | 0 => GoFloat.fin 1
  | n + 1 => GoFloat.Pow x n * x

/-- Go `math.Exp`: `Exp(+Inf) = +Inf`, `Exp(-Inf) = 0`, `Exp(NaN) = NaN`. -/
def MathLib.Exp64 {F : Type} [LinearOrderedField F] (M : MathLib F) : GoFloat F → GoFloat F
  | GoFloat.fin x => GoFloat.fin (M.Exp x)
  | GoFloat.inf false => GoFloat.inf false
  | GoFloat.inf true => GoFloat.fin 0
  | GoFloat.nan => GoFloat.nan

/-- Go `math.Log`: `Log(+Inf) = +Inf`, `Log(0) = -Inf`, `Log(x < 0) = NaN`,
`Log(NaN) = NaN`. -/
def MathLib.Log64 {F : Type} [LinearOrderedField F] (M : MathLib F) : GoFloat F → GoFloat F
  | GoFloat.fin x =>
    if x < 0 then GoFloat.nan else if x = 0 then GoFloat.inf true else GoFloat.fin (M.Log x)
  | GoFloat.inf false => GoFloat.inf false
  | GoFloat.inf true => GoFloat.nan
  | GoFloat.nan => GoFloat.nan

/-- Go `math.Sqrt`: `Sqrt(+Inf) = +Inf`, `Sqrt(x < 0) = NaN`, `Sqrt(NaN) = NaN`. -/
def MathLib.Sqrt64 {F : Type} [LinearOrderedField F] (M : MathLib F) : GoFloat F → GoFloat F
  | GoFloat.fin x => if x < 0 then GoFloat.nan else GoFloat.fin (M.Sqrt x)
  | GoFloat.inf false => GoFloat.inf false
  | GoFloat.inf true => GoFloat.nan
  | GoFloat.nan => GoFloat.nan

/-! ### The pricing code on `float64` values (`greeks.go`) -/

/-- Method `cdf` of `NormalDistribution`, on a `float64`. -/
def cdf64 {F : Type} [LinearOrderedField F] (M : MathLib F) (x : GoFloat F) : GoFloat F :=
  let t := GoFloat.fin 1 / (GoFloat.fin 1 + GoFloat.fin 0.2316419 * GoFloat.Abs x)
  let a1 : GoFloat F := GoFloat.fin 0.319381530
  let a2 : GoFloat F := GoFloat.fin (-0.356563782)
  let a3 : GoFloat F := GoFloat.fin 1.781477937
  let a4 : GoFloat F := GoFloat.fin (-1.821255978)
  let a5 : GoFloat F := GoFloat.fin 1.330274429
  let result :=
    GoFloat.fin 1 -
      GoFloat.fin 1 / M.Sqrt64 (GoFloat.fin 2 * GoFloat.fin M.Pi) *
          M.Exp64 (-(x * x) / GoFloat.fin 2) *
        (a1 * t + a2 * GoFloat.Pow t 2 + a3 * GoFloat.Pow t 3 + a4 * GoFloat.Pow t 4 +
          a5 * GoFloat.Pow t 5)
  if GoFloat.ge x (GoFloat.fin 0) then result else GoFloat.fin 1 - result

/-- Method `pdf` of `NormalDistribution`, on a `float64`. -/
def pdf64 {F : Type} [LinearOrderedField F] (M : MathLib F) (x : GoFloat F) : GoFloat F :=
  M.Exp64 (-(x * x) / GoFloat.fin 2) / M.Sqrt64 (GoFloat.fin 2 * GoFloat.fin M.Pi)

/-- Method `d1d2`, on `float64` values. -/
def Black76.d1d2_64 {F : Type} [LinearOrderedField F] (_b : Black76 F) (M : MathLib F)
    (underlyingPrice strikePrice timeToMaturity volatility : GoFloat F) :
    GoFloat F × GoFloat F :=
  let d1 :=
    (M.Log64 (underlyingPrice / strikePrice) +
        GoFloat.Pow volatility 2 / GoFloat.fin 2 * timeToMaturity) /
      (volatility * M.Sqrt64 timeToMaturity)
  let d2 := d1 - volatility * M.Sqrt64 timeToMaturity
  (d1, d2)

/-- Method `GetGreeks`, on `float64` values; the interest rate is finite. -/
def Black76.GetGreeks64 {F : Type} [LinearOrderedField F] (b : Black76 F) (M : MathLib F)
    (optionType : String) (underlyingPrice strikePrice timeToMaturity volatility : GoFloat F) :
    Greeks (GoFloat F) :=
  let InterestRate : GoFloat F := GoFloat.fin b.InterestRate
  let discountFactor := M.Exp64 (-InterestRate * timeToMaturity)
  let d := b.d1d2_64 M underlyingPrice strikePrice timeToMaturity volatility
  let d1 := d.1
  let d2 := d.2
  let sign : GoFloat F := GoFloat.fin (optionSign optionType)
  let nd1 := cdf64 M (d1 * sign)
  let nd2 := cdf64 M (d2 * sign)
  let normpdf := pdf64 M d1
  let sqrtTimeToMaturity := M.Sqrt64 timeToMaturity
  let value := sign * discountFactor * (underlyingPrice * nd1 - strikePrice * nd2)
  let delta := sign * discountFactor * nd1
  let gamma := discountFactor * (normpdf / (volatility * underlyingPrice * sqrtTimeToMaturity))
  let vega :=
    GoFloat.fin 0.01 * underlyingPrice * discountFactor * normpdf * sqrtTimeToMaturity
  let theta :=
    -underlyingPrice * discountFactor * normpdf *
        (volatility / (GoFloat.fin 2 * sqrtTimeToMaturity)) +
      sign * InterestRate * discountFactor * (underlyingPrice * nd1 - strikePrice * nd2)
  let rho := GoFloat.fin (-0.01) * timeToMaturity * value
  { Value := value, Delta := delta, Gamma := gamma, Vega := vega,
    Theta := theta / GoFloat.fin 365, Rho := rho }

/-! ### Implied volatility (`greeks.go`) -/

/-- The variables of the loop of `ImpliedVolaUsingBisection`. -/
structure BisectionState (F : Type) where
  i : Nat
  volMin : GoFloat F
  volMax : GoFloat F
  volGuess : GoFloat F

def epsilon {F : Type} [LinearOrderedField F] : F := 0.0001

def maxIterations : Nat := 100

/-- The state in which `ImpliedVolaUsingBisection` enters its loop. -/
def bisectionStart {F : Type} [LinearOrderedField F] : BisectionState F :=
  { i := 0, volMin := GoFloat.fin 0.00001, volMax := GoFloat.fin 5.0,
    volGuess := GoFloat.fin 0.00001 }

/-- The body of the loop of `ImpliedVolaUsingBisection` with the `i++` that
follows it: `none` is the `break`. -/
def Black76.bisectionBody {F : Type} [LinearOrderedField F] (b : Black76 F) (M : MathLib F)
    (optionType : String)
    (underlyingPrice strikePrice timeToMaturity marketPrice : GoFloat F)
    (st : BisectionState F) : Option (BisectionState F) :=
  let valueMin :=
    (b.GetGreeks64 M optionType underlyingPrice strikePrice timeToMaturity st.volMin).Value
  let valueMax :=
    (b.GetGreeks64 M optionType underlyingPrice strikePrice timeToMaturity st.volMax).Value
  if (GoFloat.le (st.volMax - st.volMin) (GoFloat.fin epsilon) &&
      GoFloat.eq valueMin valueMax) = true then none
  else
    let volBisection :=
      st.volMin + (st.volMax - st.volMin) * ((marketPrice - valueMin) / (valueMax - valueMin))
    let volGuess := GoFloat.Max st.volMin (GoFloat.Min volBisection st.volMax)
    let valueGuess :=
      (b.GetGreeks64 M optionType underlyingPrice strikePrice timeToMaturity volGuess).Value
    if GoFloat.lt valueGuess marketPrice = true then
      some { i := st.i + 1, volMin := volGuess, volMax := st.volMax, volGuess := volGuess }
    else some { i := st.i + 1, volMin := st.volMin, volMax := volGuess, volGuess := volGuess }

/-- The loop of `ImpliedVolaUsingBisection`, entered in the state `st` with
`fuel` iterations left before `i < maxIterations` fails. -/
def Black76.bisectionLoop {F : Type} [LinearOrderedField F] (b : Black76 F) (M : MathLib F)
    (optionType : String)
    (underlyingPrice strikePrice timeToMaturity marketPrice : GoFloat F) :
    Nat → BisectionState F → BisectionState F
  | 0, st => st
  | fuel + 1, st =>
    match b.bisectionBody M optionType underlyingPrice strikePrice timeToMaturity marketPrice
      st with
    | none => st
    | some st1 =>
      b.bisectionLoop M optionType underlyingPrice strikePrice timeToMaturity marketPrice fuel
        st1

/-- Method `ImpliedVolaUsingBisection`. -/
def Black76.ImpliedVolaUsingBisection {F : Type} [LinearOrderedField F] (b : Black76 F)
    (M : MathLib F) (optionType : String)
    (underlyingPrice strikePrice timeToMaturity marketPrice : GoFloat F) : GoFloat F :=
  (b.bisectionLoop M optionType underlyingPrice strikePrice timeToMaturity marketPrice
    maxIterations bisectionStart).volGuess

/-- The loop variables are numbers with `bl ≤ volMin ≤ sigma ≤ volMax ≤ bu`, the
product of the two distances from `sigma` is at most `phi`, and the square of
the distance of the guess from `sigma` is at most six times that product. -/
def BisectionState.around {F : Type} [LinearOrderedField F] (st : BisectionState F)
    (bl bu sigma phi : F) : Prop :=
  ∃ lo hi g : F, st.volMin = GoFloat.fin lo ∧ st.volMax = GoFloat.fin hi ∧
    st.volGuess = GoFloat.fin g ∧ bl ≤ lo ∧ lo ≤ sigma ∧ sigma ≤ hi ∧ hi ≤ bu ∧
    (sigma - lo) * (hi - sigma) ≤ phi ∧ (g - sigma) ^ 2 ≤ 6 * ((sigma - lo) * (hi - sigma))

/-! ### The scenario of `TestCallDelta` (`greeks_test.go`) -/

/-- The five numbers that `TestCallDelta` formats with `%.2f` and compares. -/
structure TestCallDeltaValues (F : Type) where
  ceDelta : GoFloat F
  peDelta : GoFloat F
  gamma : GoFloat F
  vega : GoFloat F
  theta : GoFloat F

/-- The computation of `TestCallDelta` up to the comparisons; `now` is what
`time.Now()` returns inside `GetTimeInDays`. -/
def TestCallDelta {F : Type} [LinearOrderedField F] (M : MathLib F) (now : GoTime) :
    TestCallDeltaValues F :=
  let today := testToday
  let currentExpiryDate := testExpiry
  let timeInDays : GoFloat F := GoFloat.fin ((GetTimeInDays currentExpiryDate today now : ℚ) : F)
  let strikePrice : GoFloat F := GoFloat.fin 25050.0
  let ceLtp : GoFloat F := GoFloat.fin 168.0
  let peLtp : GoFloat F := GoFloat.fin 178.45
  let syntheticPrice := strikePrice + ceLtp - peLtp
  let b76 : Black76 F := { InterestRate := 0.0 }
  let iv : GoFloat F :=
    if GoFloat.eq ceLtp (GoFloat.fin 0) = true then GoFloat.fin 0.0
    else
      b76.ImpliedVolaUsingBisection M CALL syntheticPrice strikePrice
        (timeInDays / GoFloat.fin 365) ceLtp
  let values :=
    b76.GetGreeks64 M CALL syntheticPrice strikePrice (timeInDays / GoFloat.fin 365) iv
  let ceDelta := values.Delta
  let gamma := values.Gamma
  let vega := values.Vega
  let theta := values.Theta
  let peDelta := ceDelta - GoFloat.fin 1
  { ceDelta := ceDelta, peDelta := peDelta, gamma := gamma, vega := vega, theta := theta }

/-! ## Map lemmas -/

@[simp] theorem GoMap.empty_apply {α : Type} (x : String) : (GoMap.empty : GoMap α) x = none := rfl

@[simp] theorem GoMap.set_self {α : Type} (m : GoMap α) (k : String) (v : α) :
    m.set k v k = some v := by
  simp [GoMap.set]

@[simp] theorem GoMap.set_other {α : Type} (m : GoMap α) (k x : String) (v : α) (h : x ≠ k) :
    m.set k v x = m x := by
  simp [GoMap.set, h]

@[simp] theorem GoMap.del_self {α : Type} (m : GoMap α) (k : String) : m.del k k = none := by
  simp [GoMap.del]

@[simp] theorem GoMap.del_other {α : Type} (m : GoMap α) (k x : String) (h : x ≠ k) :
    m.del k x = m x := by
  simp [GoMap.del, h]

theorem GoMap.set_apply {α : Type} (m : GoMap α) (k x : String) (v : α) :
    m.set k v x = if x = k then some v else m x := rfl

theorem GoMap.del_apply {α : Type} (m : GoMap α) (k x : String) :
    m.del k x = if x = k then none else m x := rfl

/-! ## Machine-integer lemmas -/

theorem wrapInt64_of_isInt64 (x : Int) (h : isInt64 x) : wrapInt64 x = x := by
  unfold isInt64 at h
  unfold wrapInt64
  rw [Int.emod_eq_of_lt (by omega) (by omega)]
  omega

theorem subInt_eq_zero_iff (a b : Int) (ha : isInt64 a) (hb : isInt64 b) :
    subInt a b = 0 ↔ a - b = 0 := by
  unfold isInt64 at ha hb
  unfold subInt wrapInt64
  constructor
  · intro h
    have h1 : (a - b + 2 ^ 63) % 2 ^ 64 = 2 ^ 63 := by omega
    omega
  · intro h
    rw [h]
    norm_num

/-! ## The order-update state machine -/

/-- C1. Exit leg, COMPLETE: when the update `u` resolves to the open position `p`
and is not for its entry order, a clone of `p` carrying the exit price, exit
time, quantity, reason and id of `u` is appended to `closedPos[localOrderID]`;
when `p.Qty - u.Qty = 0` the position leaves `openPos` and the clone is
`ExitComplete`, otherwise the position stays with the remaining quantity (the
Go difference, which is the exact one whenever that fits an `int`), status
`ExitPartial` and an empty `TiqsExitOrdID`. No other key of `openPos` or
`closedPos` changes. -/
theorem exit_leg_complete (s : strategy) (disp : GoMap String) (u : OrderUpdate)
    (localOrderID : String) (p : Position)
    (hmap : s.tiqsOrderIdToLocalOrderId u.ID = some localOrderID)
    (hpos : s.openPos localOrderID = some p)
    (hstatus : u.Status = COMPLETE)
    (hleg : u.ID ≠ p.TiqsEntryOrdID)
    (hQ : isInt64 p.Qty) (hq : isInt64 u.Qty) :
    (p.Qty - u.Qty = 0 →
      (orderUpdateStep s disp u).1.openPos localOrderID = none ∧
      (orderUpdateStep s disp u).1.closedPos localOrderID =
        s.closedPos localOrderID ++
          [{ p with
              ExitPx := u.AvgPrice, ExitTime := u.ExchangeTime, Qty := u.Qty,
              Reason := u.Reason, TiqsExitOrdID := u.ID, Status := ExitComplete }]) ∧
    (p.Qty - u.Qty ≠ 0 →
      (orderUpdateStep s disp u).1.openPos localOrderID =
        some { p with Qty := subInt p.Qty u.Qty, Status := ExitPartial, TiqsExitOrdID := "" } ∧
      (orderUpdateStep s disp u).1.closedPos localOrderID =
        s.closedPos localOrderID ++
          [{ p with
              ExitPx := u.AvgPrice, ExitTime := u.ExchangeTime, Qty := u.Qty,
              Reason := u.Reason, TiqsExitOrdID := u.ID }]) ∧
    (isInt64 (p.Qty - u.Qty) → subInt p.Qty u.Qty = p.Qty - u.Qty) ∧
    (∀ k, k ≠ localOrderID →
      (orderUpdateStep s disp u).1.openPos k = s.openPos k ∧
      (orderUpdateStep s disp u).1.closedPos k = s.closedPos k) := by
  have hne : ¬ p.TiqsEntryOrdID = u.ID := fun h => hleg h.symm
  have hz := subInt_eq_zero_iff p.Qty u.Qty hQ hq
  refine ⟨?_, ?_, ?_, ?_⟩
  · intro h0
    have h1 : subInt p.Qty u.Qty = 0 := hz.mpr h0
    simp [orderUpdateStep, strategy.getTiqsOrderIdToLocalOrderId, strategy.getOpenPos, hmap,
      hpos, hstatus, hne, h1, strategy.deleteOpenPos, strategy.insertClosedPos,
      strategy.deleteTiqsOrderIdToLocalOrderId]
  · intro h0
    have h1 : ¬ subInt p.Qty u.Qty = 0 := fun h => h0 (hz.mp h)
    simp [orderUpdateStep, strategy.getTiqsOrderIdToLocalOrderId, strategy.getOpenPos, hmap,
      hpos, hstatus, hne, h1, strategy.insertOpenPos, strategy.insertClosedPos,
      strategy.deleteTiqsOrderIdToLocalOrderId]
  · intro h
    exact wrapInt64_of_isInt64 _ h
  · intro k hk
    by_cases h1 : subInt p.Qty u.Qty = 0 <;>
      simp [orderUpdateStep, strategy.getTiqsOrderIdToLocalOrderId, strategy.getOpenPos, hmap,
        hpos, hstatus, hne, h1, hk, strategy.insertOpenPos, strategy.deleteOpenPos,
        strategy.insertClosedPos, strategy.deleteTiqsOrderIdToLocalOrderId]

/-- The scenarios S2 (full exit: 50 of 50 at 101) and S3 (40 of 100 at 55, 60 left). -/
theorem exit_leg_complete_witness :
    ((orderUpdateStep
        (demoStrategy (GoMap.empty.set "L1" (demoPos 50 100 "X1" ExitPending))
          (GoMap.empty.set "X1" "L1"))
        (GoMap.empty.set "X1" "alpha") (demoUpdate "X1" COMPLETE 50 101)).1.openPos "L1" = none ∧
      (orderUpdateStep
        (demoStrategy (GoMap.empty.set "L1" (demoPos 50 100 "X1" ExitPending))
          (GoMap.empty.set "X1" "L1"))
        (GoMap.empty.set "X1" "alpha") (demoUpdate "X1" COMPLETE 50 101)).1.closedPos "L1" =
        [{ demoPos 50 100 "X1" ExitComplete with ExitPx := 101, ExitTime := 1728531060 }]) ∧
    ((orderUpdateStep
        (demoStrategy (GoMap.empty.set "L1" (demoPos 100 50 "X1" ExitPending))
          (GoMap.empty.set "X1" "L1"))
        (GoMap.empty.set "X1" "alpha") (demoUpdate "X1" COMPLETE 40 55)).1.openPos "L1" =
        some (demoPos 60 50 "" ExitPartial) ∧
      (orderUpdateStep
        (demoStrategy (GoMap.empty.set "L1" (demoPos 100 50 "X1" ExitPending))
          (GoMap.empty.set "X1" "L1"))
        (GoMap.empty.set "X1" "alpha") (demoUpdate "X1" COMPLETE 40 55)).1.closedPos "L1" =
        [{ demoPos 40 50 "X1" ExitPending with ExitPx := 55, ExitTime := 1728531060 }]) := by
  have full := exit_leg_complete
    (demoStrategy (GoMap.empty.set "L1" (demoPos 50 100 "X1" ExitPending))
      (GoMap.empty.set "X1" "L1"))
    (GoMap.empty.set "X1" "alpha") (demoUpdate "X1" COMPLETE 50 101) "L1"
    (demoPos 50 100 "X1" ExitPending) (by simp [demoStrategy, demoUpdate])
    (by simp [demoStrategy]) rfl (by simp [demoUpdate, demoPos])
    (by simp [demoPos, isInt64]) (by simp [demoUpdate, isInt64])
  have part := exit_leg_complete
    (demoStrategy (GoMap.empty.set "L1" (demoPos 100 50 "X1" ExitPending))
      (GoMap.empty.set "X1" "L1"))
    (GoMap.empty.set "X1" "alpha") (demoUpdate "X1" COMPLETE 40 55) "L1"
    (demoPos 100 50 "X1" ExitPending) (by simp [demoStrategy, demoUpdate])
    (by simp [demoStrategy]) rfl (by simp [demoUpdate, demoPos])
    (by simp [demoPos, isInt64]) (by simp [demoUpdate, isInt64])
  have h60 : subInt 100 40 = 60 := by
    have := part.2.2.1 (by simp [demoPos, demoUpdate, isInt64])
    simpa [demoPos, demoUpdate] using this
  refine ⟨?_, ?_⟩
  · have h := full.1 (by simp [demoPos, demoUpdate])
    simpa [demoPos, demoUpdate, demoStrategy] using h
  · have h := part.2.1 (by simp [demoPos, demoUpdate])
    simpa [demoPos, demoUpdate, demoStrategy, h60] using h

/-- C2. Entry leg, COMPLETE: when the update `u` resolves to the open position
`p` and carries the id of its entry order, the position stays in `openPos` with
`Qty`, `EntryTime` and `EntryPx` taken from `u` and status `EntryComplete`, every
other field and every other position as before, and `closedPos` is unchanged. -/
theorem entry_leg_complete (s : strategy) (disp : GoMap String) (u : OrderUpdate)
    (localOrderID : String) (p : Position)
    (hmap : s.tiqsOrderIdToLocalOrderId u.ID = some localOrderID)
    (hpos : s.openPos localOrderID = some p)
    (hstatus : u.Status = COMPLETE)
    (hleg : u.ID = p.TiqsEntryOrdID) :
    (orderUpdateStep s disp u).1.openPos localOrderID =
      some { p with
        Qty := u.Qty, EntryTime := u.ExchangeTime, EntryPx := u.AvgPrice,
        Status := EntryComplete } ∧
    (∀ k, k ≠ localOrderID → (orderUpdateStep s disp u).1.openPos k = s.openPos k) ∧
    (orderUpdateStep s disp u).1.closedPos = s.closedPos := by
  refine ⟨?_, ?_, ?_⟩
  · simp [orderUpdateStep, strategy.getTiqsOrderIdToLocalOrderId, strategy.getOpenPos, hmap,
      hpos, hstatus, hleg.symm, strategy.insertOpenPos, strategy.deleteTiqsOrderIdToLocalOrderId]
  · intro k hk
    simp [orderUpdateStep, strategy.getTiqsOrderIdToLocalOrderId, strategy.getOpenPos, hmap,
      hpos, hstatus, hleg.symm, hk, strategy.insertOpenPos,
      strategy.deleteTiqsOrderIdToLocalOrderId]
  · simp [orderUpdateStep, strategy.getTiqsOrderIdToLocalOrderId, strategy.getOpenPos, hmap,
      hpos, hstatus, hleg.symm, strategy.insertOpenPos, strategy.deleteTiqsOrderIdToLocalOrderId]

/-- Scenario S2, first half: an entry of 50 placed at 100 is filled, 50 at 100.25. -/
theorem entry_leg_complete_witness :
    (orderUpdateStep
        (demoStrategy (GoMap.empty.set "L1" (demoPos 50 100 "" EntryPending))
          (GoMap.empty.set "E1" "L1"))
        (GoMap.empty.set "E1" "alpha") (demoUpdate "E1" COMPLETE 50 (401 / 4))).1.openPos "L1" =
      some { demoPos 50 (401 / 4) "" EntryComplete with EntryTime := 1728531060 } ∧
    (orderUpdateStep
        (demoStrategy (GoMap.empty.set "L1" (demoPos 50 100 "" EntryPending))
          (GoMap.empty.set "E1" "L1"))
        (GoMap.empty.set "E1" "alpha") (demoUpdate "E1" COMPLETE 50 (401 / 4))).1.closedPos "L1" =
      [] := by
  have h := entry_leg_complete
    (demoStrategy (GoMap.empty.set "L1" (demoPos 50 100 "" EntryPending))
      (GoMap.empty.set "E1" "L1"))
    (GoMap.empty.set "E1" "alpha") (demoUpdate "E1" COMPLETE 50 (401 / 4)) "L1"
    (demoPos 50 100 "" EntryPending) (by simp [demoStrategy, demoUpdate])
    (by simp [demoStrategy]) rfl (by simp [demoUpdate, demoPos])
  refine ⟨?_, ?_⟩
  · simpa [demoPos, demoUpdate, demoStrategy] using h.1
  · rw [h.2.2]
    simp [demoStrategy]

/-- C3. REJECTED or CANCELED: when the update `u` resolves to the open position
`p`, an update for the entry order removes the position from `openPos`, an update
for any other (exit) order keeps it with an empty `TiqsExitOrdID`, status
`EntryComplete` and every other field, the quantity included, as before; in
both cases `closedPos` is unchanged and `u.ID` is no longer a key of the
strategy's `tiqsOrderIdToLocalOrderId` nor of the dispatcher's
`tiqsOrderIdsToStrategy`, whose other keys are untouched. -/
theorem rejected_or_canceled (s : strategy) (disp : GoMap String) (u : OrderUpdate)
    (localOrderID : String) (p : Position)
    (hmap : s.tiqsOrderIdToLocalOrderId u.ID = some localOrderID)
    (hpos : s.openPos localOrderID = some p)
    (hstatus : u.Status = REJECTED ∨ u.Status = CANCELED) :
    (u.ID = p.TiqsEntryOrdID → (orderUpdateStep s disp u).1.openPos localOrderID = none) ∧
    (u.ID ≠ p.TiqsEntryOrdID →
      (orderUpdateStep s disp u).1.openPos localOrderID =
        some { p with TiqsExitOrdID := "", Status := EntryComplete }) ∧
    (orderUpdateStep s disp u).1.closedPos = s.closedPos ∧
    (orderUpdateStep s disp u).1.tiqsOrderIdToLocalOrderId u.ID = none ∧
    (orderUpdateStep s disp u).2 u.ID = none ∧
    (∀ k, k ≠ u.ID →
      (orderUpdateStep s disp u).1.tiqsOrderIdToLocalOrderId k = s.tiqsOrderIdToLocalOrderId k ∧
      (orderUpdateStep s disp u).2 k = disp k) ∧
    (∀ k, k ≠ localOrderID → (orderUpdateStep s disp u).1.openPos k = s.openPos k) := by
  have hnc : ¬ u.Status = COMPLETE := by
    rcases hstatus with h | h <;> simp [h, COMPLETE, REJECTED, CANCELED]
  by_cases hleg : p.TiqsEntryOrdID = u.ID
  · refine ⟨?_, ?_, ?_, ?_, ?_, ?_, ?_⟩
    · intro _
      simp [orderUpdateStep, strategy.getTiqsOrderIdToLocalOrderId, strategy.getOpenPos, hmap,
        hpos, hstatus, hnc, hleg, strategy.deleteOpenPos,
        strategy.deleteTiqsOrderIdToLocalOrderId]
    · intro h
      exact absurd hleg.symm h
    · simp [orderUpdateStep, strategy.getTiqsOrderIdToLocalOrderId, strategy.getOpenPos, hmap,
        hpos, hstatus, hnc, hleg, strategy.deleteOpenPos,
        strategy.deleteTiqsOrderIdToLocalOrderId]
    · simp [orderUpdateStep, strategy.getTiqsOrderIdToLocalOrderId, strategy.getOpenPos, hmap,
        hpos, hstatus, hnc, hleg, strategy.deleteOpenPos,
        strategy.deleteTiqsOrderIdToLocalOrderId]
    · simp [orderUpdateStep, strategy.getTiqsOrderIdToLocalOrderId, strategy.getOpenPos, hmap,
        hpos, hstatus, hnc, hleg, strategy.deleteOpenPos,
        strategy.deleteTiqsOrderIdToLocalOrderId]
    · intro k hk
      simp [orderUpdateStep, strategy.getTiqsOrderIdToLocalOrderId, strategy.getOpenPos, hmap,
        hpos, hstatus, hnc, hleg, hk, strategy.deleteOpenPos,
        strategy.deleteTiqsOrderIdToLocalOrderId]
    · intro k hk
      simp [orderUpdateStep, strategy.getTiqsOrderIdToLocalOrderId, strategy.getOpenPos, hmap,
        hpos, hstatus, hnc, hleg, hk, strategy.deleteOpenPos,
        strategy.deleteTiqsOrderIdToLocalOrderId]
  · refine ⟨?_, ?_, ?_, ?_, ?_, ?_, ?_⟩
    · intro h
      exact absurd h.symm hleg
    · intro _
      simp [orderUpdateStep, strategy.getTiqsOrderIdToLocalOrderId, strategy.getOpenPos, hmap,
        hpos, hstatus, hnc, hleg, strategy.insertOpenPos,
        strategy.deleteTiqsOrderIdToLocalOrderId]
    · simp [orderUpdateStep, strategy.getTiqsOrderIdToLocalOrderId, strategy.getOpenPos, hmap,
        hpos, hstatus, hnc, hleg, strategy.insertOpenPos,
        strategy.deleteTiqsOrderIdToLocalOrderId]
    · simp [orderUpdateStep, strategy.getTiqsOrderIdToLocalOrderId, strategy.getOpenPos, hmap,
        hpos, hstatus, hnc, hleg, strategy.insertOpenPos,
        strategy.deleteTiqsOrderIdToLocalOrderId]
    · simp [orderUpdateStep, strategy.getTiqsOrderIdToLocalOrderId, strategy.getOpenPos, hmap,
        hpos, hstatus, hnc, hleg, strategy.insertOpenPos,
        strategy.deleteTiqsOrderIdToLocalOrderId]
    · intro k hk
      simp [orderUpdateStep, strategy.getTiqsOrderIdToLocalOrderId, strategy.getOpenPos, hmap,
        hpos, hstatus, hnc, hleg, hk, strategy.insertOpenPos,
        strategy.deleteTiqsOrderIdToLocalOrderId]
    · intro k hk
      simp [orderUpdateStep, strategy.getTiqsOrderIdToLocalOrderId, strategy.getOpenPos, hmap,
        hpos, hstatus, hnc, hleg, hk, strategy.insertOpenPos,
        strategy.deleteTiqsOrderIdToLocalOrderId]

/-- Scenario S4: the entry order `E1` is rejected; and an exit order `X1` is canceled. -/
theorem rejected_or_canceled_witness :
    ((orderUpdateStep
        (demoStrategy (GoMap.empty.set "L1" (demoPos 50 100 "" EntryPending))
          (GoMap.empty.set "E1" "L1"))
        (GoMap.empty.set "E1" "alpha") (demoUpdate "E1" REJECTED 0 0)).1.openPos "L1" = none ∧
      (orderUpdateStep
        (demoStrategy (GoMap.empty.set "L1" (demoPos 50 100 "" EntryPending))
          (GoMap.empty.set "E1" "L1"))
        (GoMap.empty.set "E1" "alpha")
        (demoUpdate "E1" REJECTED 0 0)).1.tiqsOrderIdToLocalOrderId "E1" = none ∧
      (orderUpdateStep
        (demoStrategy (GoMap.empty.set "L1" (demoPos 50 100 "" EntryPending))
          (GoMap.empty.set "E1" "L1"))
        (GoMap.empty.set "E1" "alpha") (demoUpdate "E1" REJECTED 0 0)).2 "E1" = none) ∧
    (orderUpdateStep
        (demoStrategy (GoMap.empty.set "L1" (demoPos 50 100 "X1" ExitOpen))
          (GoMap.empty.set "X1" "L1"))
        (GoMap.empty.set "X1" "alpha") (demoUpdate "X1" CANCELED 0 0)).1.openPos "L1" =
      some (demoPos 50 100 "" EntryComplete) := by
  have rej := rejected_or_canceled
    (demoStrategy (GoMap.empty.set "L1" (demoPos 50 100 "" EntryPending))
      (GoMap.empty.set "E1" "L1"))
    (GoMap.empty.set "E1" "alpha") (demoUpdate "E1" REJECTED 0 0) "L1"
    (demoPos 50 100 "" EntryPending) (by simp [demoStrategy, demoUpdate])
    (by simp [demoStrategy]) (Or.inl rfl)
  have can := rejected_or_canceled
    (demoStrategy (GoMap.empty.set "L1" (demoPos 50 100 "X1" ExitOpen))
      (GoMap.empty.set "X1" "L1"))
    (GoMap.empty.set "X1" "alpha") (demoUpdate "X1" CANCELED 0 0) "L1"
    (demoPos 50 100 "X1" ExitOpen) (by simp [demoStrategy, demoUpdate])
    (by simp [demoStrategy]) (Or.inr rfl)
  refine ⟨⟨rej.1 (by simp [demoUpdate, demoPos]), ?_, ?_⟩, ?_⟩
  · simpa [demoUpdate] using rej.2.2.2.1
  · simpa [demoUpdate] using rej.2.2.2.2.1
  · simpa [demoPos, demoUpdate] using can.2.1 (by simp [demoUpdate, demoPos])

/-! ## Order translation -/

/-- C10. The order translation table of `prepareOrder`, for every input:
no limit and no stop gives `MKT` at the LTP with trigger `"0"`; a stop alone
gives `SL-MKT` at the LTP with the stop as trigger; a limit alone gives `LMT` at
the limit with trigger `"0"`; both give `SL-LMT` at the limit with the stop as
trigger; exactly one row applies to a pair `(limit, stop)`. Whatever the row,
the exchange is `NFO`, the product `M`, the validity `DAY`, the disclosed
quantity `"0"`, AMO is off, quantity and token are the decimal renderings of
the inputs, and the transaction type is `"S"` for the action `Sell` and `"B"`
for any other. -/
theorem prepareOrder_table (args : prepareOrderArgs) :
    (args.Limit = 0 ∧ args.Stop = 0 →
      (prepareOrder args).Order = "MKT" ∧ (prepareOrder args).Price = Sprintf_f args.LTP ∧
      (prepareOrder args).TriggerPrice = "0") ∧
    (args.Limit = 0 ∧ args.Stop ≠ 0 →
      (prepareOrder args).Order = "SL-MKT" ∧ (prepareOrder args).Price = Sprintf_f args.LTP ∧
      (prepareOrder args).TriggerPrice = Sprintf_f args.Stop) ∧
    (args.Limit ≠ 0 ∧ args.Stop = 0 →
      (prepareOrder args).Order = "LMT" ∧ (prepareOrder args).Price = Sprintf_f args.Limit ∧
      (prepareOrder args).TriggerPrice = "0") ∧
    (args.Limit ≠ 0 ∧ args.Stop ≠ 0 →
      (prepareOrder args).Order = "SL-LMT" ∧ (prepareOrder args).Price = Sprintf_f args.Limit ∧
      (prepareOrder args).TriggerPrice = Sprintf_f args.Stop) ∧
    ((args.Limit = 0 ∧ args.Stop = 0) ∨ (args.Limit = 0 ∧ args.Stop ≠ 0) ∨
      (args.Limit ≠ 0 ∧ args.Stop = 0) ∨ (args.Limit ≠ 0 ∧ args.Stop ≠ 0)) ∧
    ¬ ((args.Limit = 0 ∧ args.Stop = 0) ∧ (args.Limit = 0 ∧ args.Stop ≠ 0)) ∧
    ¬ ((args.Limit = 0 ∧ args.Stop = 0) ∧ (args.Limit ≠ 0 ∧ args.Stop = 0)) ∧
    ¬ ((args.Limit = 0 ∧ args.Stop = 0) ∧ (args.Limit ≠ 0 ∧ args.Stop ≠ 0)) ∧
    ¬ ((args.Limit = 0 ∧ args.Stop ≠ 0) ∧ (args.Limit ≠ 0 ∧ args.Stop = 0)) ∧
    ¬ ((args.Limit = 0 ∧ args.Stop ≠ 0) ∧ (args.Limit ≠ 0 ∧ args.Stop ≠ 0)) ∧
    ¬ ((args.Limit ≠ 0 ∧ args.Stop = 0) ∧ (args.Limit ≠ 0 ∧ args.Stop ≠ 0)) ∧
    (prepareOrder args).Exchange = "NFO" ∧ (prepareOrder args).Product = "M" ∧
    (prepareOrder args).Validity = "DAY" ∧ (prepareOrder args).DisclosedQty = "0" ∧
    (prepareOrder args).AMO = false ∧
    (prepareOrder args).Quantity = Sprint args.Qty ∧
    (prepareOrder args).Token = Sprint args.Token ∧
    (prepareOrder args).Symbol = args.Symbol ∧
    (args.action = Sell → (prepareOrder args).TransactionType = "S") ∧
    (args.action ≠ Sell → (prepareOrder args).TransactionType = "B") := by
  by_cases hl : args.Limit = 0 <;> by_cases hs : args.Stop = 0 <;>
    by_cases ha : args.action = "Sell" <;>
    simp [prepareOrder, hl, hs, ha, Sell]

/-- The four rows on concrete requests: a market sell of 50, a stop-market buy,
a limit buy and a stop-limit sell on token 26000 at an LTP of 252.50. -/
theorem prepareOrder_table_witness :
    prepareOrder
        { Symbol := "NIFTY50", Token := 26000, Qty := 50, Limit := 0, Stop := 0,
          LTP := 505 / 2, action := Sell } =
      { Exchange := "NFO", Token := "26000", Quantity := "50", DisclosedQty := "0",
        Product := "M", Symbol := "NIFTY50", TransactionType := "S", Order := "MKT",
        Price := Sprintf_f (505 / 2), Validity := "DAY", Tags := "", AMO := false,
        TriggerPrice := "0" } ∧
    (prepareOrder
        { Symbol := "NIFTY50", Token := 26000, Qty := 50, Limit := 0, Stop := 250,
          LTP := 505 / 2, action := Buy }).Order = "SL-MKT" ∧
    (prepareOrder
        { Symbol := "NIFTY50", Token := 26000, Qty := 50, Limit := 251, Stop := 0,
          LTP := 505 / 2, action := Buy }).Price = Sprintf_f 251 ∧
    (prepareOrder
        { Symbol := "NIFTY50", Token := 26000, Qty := 50, Limit := 251, Stop := 250,
          LTP := 505 / 2, action := Sell }).TriggerPrice = Sprintf_f 250 ∧
    Sprint 26000 = "26000" ∧ Sprint 50 = "50" := by
  have mkt := prepareOrder_table
    { Symbol := "NIFTY50", Token := 26000, Qty := 50, Limit := 0, Stop := 0,
      LTP := 505 / 2, action := Sell }
  have slm := prepareOrder_table
    { Symbol := "NIFTY50", Token := 26000, Qty := 50, Limit := 0, Stop := 250,
      LTP := 505 / 2, action := Buy }
  have lmt := prepareOrder_table
    { Symbol := "NIFTY50", Token := 26000, Qty := 50, Limit := 251, Stop := 0,
      LTP := 505 / 2, action := Buy }
  have sll := prepareOrder_table
    { Symbol := "NIFTY50", Token := 26000, Qty := 50, Limit := 251, Stop := 250,
      LTP := 505 / 2, action := Sell }
  have h26 : Sprint 26000 = "26000" := by decide
  have h50 : Sprint 50 = "50" := by decide
  refine ⟨?_, (slm.2.1 ⟨rfl, by norm_num⟩).1, (lmt.2.2.1 ⟨by norm_num, rfl⟩).2.1,
    (sll.2.2.2.1 ⟨by norm_num, by norm_num⟩).2.2, h26, h50⟩
  have row := mkt.1 ⟨rfl, rfl⟩
  simp [prepareOrder, Sell, h26, h50]

/-! ## Entry processing -/

theorem GoMap.delAll_apply {α : Type} (ks : List String) (m : GoMap α) (k : String) :
    m.delAll ks k = if k ∈ ks then none else m k := by
  induction ks generalizing m with
  | nil => simp [GoMap.delAll]
  | cons a t ih =>
    have ih' := ih (m.del a)
    simp only [GoMap.delAll, List.foldl_cons] at ih' ⊢
    rw [ih']
    by_cases hk : k = a
    · subst hk
      simp
    · by_cases ht : k ∈ t <;> simp [hk, ht]

theorem entryIteration_found (tm : GoMap Int) (tick : Tick) (L : LoopState) (id : String)
    (e : EntryOpts) (rpc : Option String) (p : Position) (h : L.s.openPos id = some p) :
    entryIteration tm tick L id e rpc = { L with deleted := L.deleted ++ [e.OrderID] } := by
  simp [entryIteration, strategy.getOpenPos, h]

theorem entryIteration_noToken (tm : GoMap Int) (tick : Tick) (L : LoopState) (id : String)
    (e : EntryOpts) (rpc : Option String) (h : L.s.openPos id = none)
    (ht : tm L.s.symbol = none) :
    entryIteration tm tick L id e rpc = L := by
  simp [entryIteration, strategy.getOpenPos, h, getTokenFromSymbol, ht]

theorem entryIteration_rpcFail (tm : GoMap Int) (tick : Tick) (L : LoopState) (id : String)
    (e : EntryOpts) (t : Int) (h : L.s.openPos id = none) (ht : tm L.s.symbol = some t) :
    entryIteration tm tick L id e none =
      { L with
        sent := L.sent ++ [prepareOrder
          { Symbol := L.s.symbol, Token := t, Qty := e.Qty, Limit := e.Limit, Stop := e.Stop,
            LTP := (tick.LTP : ℚ) / 100,
            action := if e.Direction = Short then Sell else Buy }] } := by
  simp [entryIteration, strategy.getOpenPos, h, getTokenFromSymbol, ht]

theorem entryIteration_success (tm : GoMap Int) (tick : Tick) (L : LoopState) (id : String)
    (e : EntryOpts) (t : Int) (n : String) (h : L.s.openPos id = none)
    (ht : tm L.s.symbol = some t) :
    entryIteration tm tick L id e (some n) =
      { s := { L.s with
               openPos := L.s.openPos.set e.OrderID (entryPosition L.s.symbol tick e n)
               tiqsOrderIdToLocalOrderId := L.s.tiqsOrderIdToLocalOrderId.set n e.OrderID }
        disp := L.disp.set n L.s.name
        sent := L.sent ++ [prepareOrder
          { Symbol := L.s.symbol, Token := t, Qty := e.Qty, Limit := e.Limit, Stop := e.Stop,
            LTP := (tick.LTP : ℚ) / 100,
            action := if e.Direction = Short then Sell else Buy }]
        deleted := L.deleted ++ [e.OrderID] } := by
  simp [entryIteration, strategy.getOpenPos, h, getTokenFromSymbol, ht, strategy.insertOpenPos,
    entryPosition]

/-- The four ways an iteration of the entry loop can end. -/
theorem entryIteration_cases (tm : GoMap Int) (tick : Tick) (L : LoopState) (id : String)
    (e : EntryOpts) (rpc : Option String) :
    (∃ p, L.s.openPos id = some p ∧
      entryIteration tm tick L id e rpc = { L with deleted := L.deleted ++ [e.OrderID] }) ∨
    (L.s.openPos id = none ∧ tm L.s.symbol = none ∧ entryIteration tm tick L id e rpc = L) ∨
    (∃ t, L.s.openPos id = none ∧ tm L.s.symbol = some t ∧ rpc = none ∧
      entryIteration tm tick L id e rpc =
        { L with
          sent := L.sent ++ [prepareOrder
            { Symbol := L.s.symbol, Token := t, Qty := e.Qty, Limit := e.Limit, Stop := e.Stop,
              LTP := (tick.LTP : ℚ) / 100,
              action := if e.Direction = Short then Sell else Buy }] }) ∨
    (∃ t n, L.s.openPos id = none ∧ tm L.s.symbol = some t ∧ rpc = some n ∧
      entryIteration tm tick L id e rpc =
        { s := { L.s with
                 openPos := L.s.openPos.set e.OrderID (entryPosition L.s.symbol tick e n)
                 tiqsOrderIdToLocalOrderId := L.s.tiqsOrderIdToLocalOrderId.set n e.OrderID }
          disp := L.disp.set n L.s.name
          sent := L.sent ++ [prepareOrder
            { Symbol := L.s.symbol, Token := t, Qty := e.Qty, Limit := e.Limit, Stop := e.Stop,
              LTP := (tick.LTP : ℚ) / 100,
              action := if e.Direction = Short then Sell else Buy }]
          deleted := L.deleted ++ [e.OrderID] }) := by
  cases h : L.s.openPos id with
  | some p => exact Or.inl ⟨p, rfl, entryIteration_found tm tick L id e rpc p h⟩
  | none =>
    cases ht : tm L.s.symbol with
    | none => exact Or.inr (Or.inl ⟨rfl, rfl, entryIteration_noToken tm tick L id e rpc h ht⟩)
    | some t =>
      cases rpc with
      | none =>
        exact Or.inr (Or.inr (Or.inl ⟨t, rfl, rfl, rfl, entryIteration_rpcFail tm tick L id e t h ht⟩))
      | some n =>
        exact Or.inr (Or.inr (Or.inr
          ⟨t, n, rfl, rfl, rfl, entryIteration_success tm tick L id e t n h ht⟩))

/-- What one visit of the entry loop does, the key holding the intent `e`. -/
theorem entryVisit_spec (tm : GoMap Int) (tick : Tick) (L : LoopState) (id : String)
    (rpc : Option String) (e : EntryOpts) (he : L.s.ordEntry id = some e)
    (hid : e.OrderID = id) :
    (∀ p, L.s.openPos id = some p →
      entryVisit tm tick L (id, rpc) = { L with deleted := L.deleted ++ [id] }) ∧
    (L.s.openPos id = none → (tm L.s.symbol = none ∨ rpc = none) →
      (entryVisit tm tick L (id, rpc)).s = L.s ∧ (entryVisit tm tick L (id, rpc)).disp = L.disp ∧
      (entryVisit tm tick L (id, rpc)).deleted = L.deleted) ∧
    (∀ t n, L.s.openPos id = none → tm L.s.symbol = some t → rpc = some n →
      entryVisit tm tick L (id, rpc) =
        { s := { L.s with
                 openPos := L.s.openPos.set id (entryPosition L.s.symbol tick e n)
                 tiqsOrderIdToLocalOrderId := L.s.tiqsOrderIdToLocalOrderId.set n id }
          disp := L.disp.set n L.s.name
          sent := L.sent ++ [prepareOrder
            { Symbol := L.s.symbol, Token := t, Qty := e.Qty, Limit := e.Limit, Stop := e.Stop,
              LTP := (tick.LTP : ℚ) / 100,
              action := if e.Direction = Short then Sell else Buy }]
          deleted := L.deleted ++ [id] }) := by
  have hv : entryVisit tm tick L (id, rpc) = entryIteration tm tick L id e rpc := by
    simp [entryVisit, he]
  rw [hv]
  refine ⟨?_, ?_, ?_⟩
  · intro p hp
    rw [entryIteration_found tm tick L id e rpc p hp, hid]
  · intro hp hfail
    cases ht : tm L.s.symbol with
    | none => rw [entryIteration_noToken tm tick L id e rpc hp ht]; exact ⟨rfl, rfl, rfl⟩
    | some t =>
      rcases hfail with h | h
      · rw [ht] at h; cases h
      · subst h
        rw [entryIteration_rpcFail tm tick L id e t hp ht]
        exact ⟨rfl, rfl, rfl⟩
  · intro t n hp ht hr
    subst hr
    rw [entryIteration_success tm tick L id e t n hp ht, hid]

theorem entryVisit_none (tm : GoMap Int) (tick : Tick) (L : LoopState)
    (it : String × Option String) (he : L.s.ordEntry it.1 = none) :
    entryVisit tm tick L it = L := by
  simp [entryVisit, he]

theorem entryVisit_some (tm : GoMap Int) (tick : Tick) (L : LoopState)
    (it : String × Option String) (e : EntryOpts) (he : L.s.ordEntry it.1 = some e) :
    entryVisit tm tick L it = entryIteration tm tick L it.1 e it.2 := by
  simp [entryVisit, he]

/-- A visit of the entry loop leaves `ordEntry`, the name and the symbol alone. -/
theorem entryVisit_static (tm : GoMap Int) (tick : Tick) (L : LoopState)
    (it : String × Option String) :
    (entryVisit tm tick L it).s.ordEntry = L.s.ordEntry ∧
    (entryVisit tm tick L it).s.name = L.s.name ∧
    (entryVisit tm tick L it).s.symbol = L.s.symbol := by
  cases he : L.s.ordEntry it.1 with
  | none => rw [entryVisit_none tm tick L it he]; exact ⟨rfl, rfl, rfl⟩
  | some e =>
    rw [entryVisit_some tm tick L it e he]
    rcases entryIteration_cases tm tick L it.1 e it.2 with
      ⟨p, _, h⟩ | ⟨_, _, h⟩ | ⟨t, _, _, _, h⟩ | ⟨t, n, _, _, _, h⟩ <;>
      rw [h] <;> exact ⟨rfl, rfl, rfl⟩

/-- A visit of the entry loop touches `openPos` at its own key only. -/
theorem entryVisit_openPos_other (tm : GoMap Int) (tick : Tick) (L : LoopState)
    (it : String × Option String) (hk : EntryKeysAgree L.s.ordEntry) (k : String)
    (hne : k ≠ it.1) :
    (entryVisit tm tick L it).s.openPos k = L.s.openPos k := by
  cases he : L.s.ordEntry it.1 with
  | none => rw [entryVisit_none tm tick L it he]
  | some e =>
    have hid : e.OrderID = it.1 := hk _ _ he
    rw [entryVisit_some tm tick L it e he]
    rcases entryIteration_cases tm tick L it.1 e it.2 with
      ⟨p, _, h⟩ | ⟨_, _, h⟩ | ⟨t, _, _, _, h⟩ | ⟨t, n, _, _, _, h⟩ <;>
      rw [h]
    rw [hid]
    exact GoMap.set_other _ _ _ _ hne

/-- A visit of the entry loop appends at most its own key to the deletion list. -/
theorem entryVisit_deleted (tm : GoMap Int) (tick : Tick) (L : LoopState)
    (it : String × Option String) (hk : EntryKeysAgree L.s.ordEntry) :
    (entryVisit tm tick L it).deleted = L.deleted ∨
    (entryVisit tm tick L it).deleted = L.deleted ++ [it.1] := by
  cases he : L.s.ordEntry it.1 with
  | none => rw [entryVisit_none tm tick L it he]; exact Or.inl rfl
  | some e =>
    have hid : e.OrderID = it.1 := hk _ _ he
    rw [entryVisit_some tm tick L it e he]
    rcases entryIteration_cases tm tick L it.1 e it.2 with
      ⟨p, _, h⟩ | ⟨_, _, h⟩ | ⟨t, _, _, _, h⟩ | ⟨t, n, _, _, _, h⟩ <;>
      rw [h]
    · exact Or.inr (by rw [hid])
    · exact Or.inl rfl
    · exact Or.inl rfl
    · exact Or.inr (by rw [hid])

/-- A visit of the entry loop changes the two lookup maps at most at the order
number its `placeOrder` call returned, and removes no key. -/
theorem entryVisit_maps (tm : GoMap Int) (tick : Tick) (L : LoopState)
    (it : String × Option String) (X : String) :
    (it.2 ≠ some X →
      (entryVisit tm tick L it).s.tiqsOrderIdToLocalOrderId X = L.s.tiqsOrderIdToLocalOrderId X ∧
      (entryVisit tm tick L it).disp X = L.disp X) ∧
    ((L.s.tiqsOrderIdToLocalOrderId X).isSome →
      ((entryVisit tm tick L it).s.tiqsOrderIdToLocalOrderId X).isSome) ∧
    ((L.disp X).isSome → ((entryVisit tm tick L it).disp X).isSome) := by
  cases he : L.s.ordEntry it.1 with
  | none => rw [entryVisit_none tm tick L it he]; exact ⟨fun _ => ⟨rfl, rfl⟩, id, id⟩
  | some e =>
    rw [entryVisit_some tm tick L it e he]
    rcases entryIteration_cases tm tick L it.1 e it.2 with
      ⟨p, _, h⟩ | ⟨_, _, h⟩ | ⟨t, _, _, _, h⟩ | ⟨t, n, _, _, hr, h⟩
    · rw [h]; exact ⟨fun _ => ⟨rfl, rfl⟩, id, id⟩
    · rw [h]; exact ⟨fun _ => ⟨rfl, rfl⟩, id, id⟩
    · rw [h]; exact ⟨fun _ => ⟨rfl, rfl⟩, id, id⟩
    · rw [h]
      refine ⟨?_, ?_, ?_⟩
      · intro hX
        have hXn : X ≠ n := by
          intro hc
          apply hX
          rw [hr, hc]
        exact ⟨GoMap.set_other _ _ _ _ hXn, GoMap.set_other _ _ _ _ hXn⟩
      · intro hs
        by_cases hXn : X = n
        · simp [hXn]
        · show (GoMap.set _ _ _ X).isSome
          rw [GoMap.set_other _ _ _ _ hXn]; exact hs
      · intro hs
        by_cases hXn : X = n
        · simp [hXn]
        · show (GoMap.set _ _ _ X).isSome
          rw [GoMap.set_other _ _ _ _ hXn]; exact hs

theorem entryLoop_cons (tm : GoMap Int) (tick : Tick) (L : LoopState)
    (it : String × Option String) (rest : List (String × Option String)) :
    entryLoop tm tick L (it :: rest) = entryLoop tm tick (entryVisit tm tick L it) rest := rfl

theorem entryLoop_static (tm : GoMap Int) (tick : Tick) (iter : List (String × Option String))
    (L : LoopState) :
    (entryLoop tm tick L iter).s.ordEntry = L.s.ordEntry ∧
    (entryLoop tm tick L iter).s.name = L.s.name ∧
    (entryLoop tm tick L iter).s.symbol = L.s.symbol := by
  induction iter generalizing L with
  | nil => exact ⟨rfl, rfl, rfl⟩
  | cons it rest ih =>
    rw [entryLoop_cons]
    obtain ⟨h1, h2, h3⟩ := ih (entryVisit tm tick L it)
    obtain ⟨g1, g2, g3⟩ := entryVisit_static tm tick L it
    exact ⟨h1.trans g1, h2.trans g2, h3.trans g3⟩

theorem entryLoop_openPos_other (tm : GoMap Int) (tick : Tick)
    (iter : List (String × Option String)) (L : LoopState)
    (hk : EntryKeysAgree L.s.ordEntry) (k : String) (hne : k ∉ iter.map Prod.fst) :
    (entryLoop tm tick L iter).s.openPos k = L.s.openPos k := by
  induction iter generalizing L with
  | nil => rfl
  | cons it rest ih =>
    rw [entryLoop_cons]
    simp only [List.map_cons, List.mem_cons, not_or] at hne
    have hk1 : EntryKeysAgree (entryVisit tm tick L it).s.ordEntry := by
      rw [(entryVisit_static tm tick L it).1]; exact hk
    rw [ih _ hk1 hne.2]
    exact entryVisit_openPos_other tm tick L it hk k hne.1

theorem entryLoop_deleted_mono (tm : GoMap Int) (tick : Tick)
    (iter : List (String × Option String)) (L : LoopState)
    (hk : EntryKeysAgree L.s.ordEntry) (x : String) (hx : x ∈ L.deleted) :
    x ∈ (entryLoop tm tick L iter).deleted := by
  induction iter generalizing L with
  | nil => exact hx
  | cons it rest ih =>
    rw [entryLoop_cons]
    have hk1 : EntryKeysAgree (entryVisit tm tick L it).s.ordEntry := by
      rw [(entryVisit_static tm tick L it).1]; exact hk
    apply ih _ hk1
    rcases entryVisit_deleted tm tick L it hk with h | h <;> rw [h]
    · exact hx
    · exact List.mem_append_left _ hx

theorem entryLoop_deleted_other (tm : GoMap Int) (tick : Tick)
    (iter : List (String × Option String)) (L : LoopState)
    (hk : EntryKeysAgree L.s.ordEntry) (x : String) (hx : x ∉ L.deleted)
    (hne : x ∉ iter.map Prod.fst) :
    x ∉ (entryLoop tm tick L iter).deleted := by
  induction iter generalizing L with
  | nil => exact hx
  | cons it rest ih =>
    rw [entryLoop_cons]
    simp only [List.map_cons, List.mem_cons, not_or] at hne
    have hk1 : EntryKeysAgree (entryVisit tm tick L it).s.ordEntry := by
      rw [(entryVisit_static tm tick L it).1]; exact hk
    apply ih _ hk1 _ hne.2
    rcases entryVisit_deleted tm tick L it hk with h | h <;> rw [h]
    · exact hx
    · simp only [List.mem_append, List.mem_singleton, not_or]
      exact ⟨hx, hne.1⟩

theorem entryLoop_maps_other (tm : GoMap Int) (tick : Tick)
    (iter : List (String × Option String)) (L : LoopState) (X : String)
    (h : ∀ it ∈ iter, it.2 ≠ some X) :
    (entryLoop tm tick L iter).s.tiqsOrderIdToLocalOrderId X = L.s.tiqsOrderIdToLocalOrderId X ∧
    (entryLoop tm tick L iter).disp X = L.disp X := by
  induction iter generalizing L with
  | nil => exact ⟨rfl, rfl⟩
  | cons it rest ih =>
    rw [entryLoop_cons]
    obtain ⟨h1, h2⟩ := ih (entryVisit tm tick L it) (fun a ha => h a (List.mem_cons_of_mem _ ha))
    obtain ⟨g1, g2⟩ := (entryVisit_maps tm tick L it X).1 (h it (List.mem_cons_self _ _))
    exact ⟨h1.trans g1, h2.trans g2⟩

theorem entryLoop_maps_keep (tm : GoMap Int) (tick : Tick)
    (iter : List (String × Option String)) (L : LoopState) (X : String) :
    ((L.s.tiqsOrderIdToLocalOrderId X).isSome →
      ((entryLoop tm tick L iter).s.tiqsOrderIdToLocalOrderId X).isSome) ∧
    ((L.disp X).isSome → ((entryLoop tm tick L iter).disp X).isSome) := by
  induction iter generalizing L with
  | nil => exact ⟨id, id⟩
  | cons it rest ih =>
    rw [entryLoop_cons]
    obtain ⟨h1, h2⟩ := ih (entryVisit tm tick L it)
    obtain ⟨_, g1, g2⟩ := entryVisit_maps tm tick L it X
    exact ⟨fun h => h1 (g1 h), fun h => h2 (g2 h)⟩

/-- The entry loop, seen from one of the keys it visits. -/
theorem entryLoop_spec (tm : GoMap Int) (tick : Tick) (iter : List (String × Option String))
    (L : LoopState) (id : String) (rpc : Option String) (e : EntryOpts)
    (hk : EntryKeysAgree L.s.ordEntry) (hnd : (iter.map Prod.fst).Nodup)
    (hmem : (id, rpc) ∈ iter) (he : L.s.ordEntry id = some e) (hdel : id ∉ L.deleted) :
    (∀ p, L.s.openPos id = some p →
      (entryLoop tm tick L iter).s.openPos id = some p ∧
      id ∈ (entryLoop tm tick L iter).deleted) ∧
    (L.s.openPos id = none → (tm L.s.symbol = none ∨ rpc = none) →
      (entryLoop tm tick L iter).s.openPos id = none ∧
      id ∉ (entryLoop tm tick L iter).deleted) ∧
    (∀ t n, L.s.openPos id = none → tm L.s.symbol = some t → rpc = some n →
      (entryLoop tm tick L iter).s.openPos id = some (entryPosition L.s.symbol tick e n) ∧
      id ∈ (entryLoop tm tick L iter).deleted ∧
      ((entryLoop tm tick L iter).s.tiqsOrderIdToLocalOrderId n).isSome ∧
      ((entryLoop tm tick L iter).disp n).isSome ∧
      ((∀ it ∈ iter, it.2 = some n → it.1 = id) →
        (entryLoop tm tick L iter).s.tiqsOrderIdToLocalOrderId n = some id ∧
        (entryLoop tm tick L iter).disp n = some L.s.name)) := by
  induction iter generalizing L with
  | nil => cases hmem
  | cons it rest ih =>
    rw [entryLoop_cons]
    simp only [List.map_cons, List.nodup_cons] at hnd
    obtain ⟨hnotin, hnd'⟩ := hnd
    have hst := entryVisit_static tm tick L it
    have hk1 : EntryKeysAgree (entryVisit tm tick L it).s.ordEntry := by
      rw [hst.1]; exact hk
    rcases List.mem_cons.mp hmem with heq | hin
    · -- the key is visited now; the rest of the loop leaves it alone
      subst heq
      have hid : e.OrderID = id := hk _ _ he
      obtain ⟨sa, sc, sb⟩ := entryVisit_spec tm tick L id rpc e he hid
      have hop := entryLoop_openPos_other tm tick rest (entryVisit tm tick L (id, rpc)) hk1 id
        hnotin
      refine ⟨?_, ?_, ?_⟩
      · intro p hp
        rw [hop]
        refine ⟨by rw [sa p hp]; exact hp, ?_⟩
        apply entryLoop_deleted_mono _ _ _ _ hk1
        rw [sa p hp]
        simp
      · intro hp hfail
        obtain ⟨c1, _, c3⟩ := sc hp hfail
        rw [hop]
        refine ⟨by rw [c1]; exact hp, ?_⟩
        apply entryLoop_deleted_other _ _ _ _ hk1 _ _ hnotin
        rw [c3]; exact hdel
      · intro t n hp ht hr
        have hv := sb t n hp ht hr
        rw [hop]
        refine ⟨by rw [hv]; simp, ?_, ?_, ?_, ?_⟩
        · apply entryLoop_deleted_mono _ _ _ _ hk1
          rw [hv]; simp
        · apply (entryLoop_maps_keep tm tick rest _ n).1
          rw [hv]; simp
        · apply (entryLoop_maps_keep tm tick rest _ n).2
          rw [hv]; simp
        · intro hd
          have hrest : ∀ a ∈ rest, a.2 ≠ some n := by
            intro a ha hc
            have hai : a.1 = id := hd a (List.mem_cons_of_mem _ ha) hc
            have hin : a.1 ∈ rest.map Prod.fst := List.mem_map_of_mem Prod.fst ha
            rw [hai] at hin
            exact hnotin hin
          obtain ⟨m1, m2⟩ := entryLoop_maps_other tm tick rest (entryVisit tm tick L (id, rpc)) n
            hrest
          rw [m1, m2, hv]
          simp
    · -- the key is visited later; this visit leaves it alone
      have hne : id ≠ it.1 := by
        intro hc
        apply hnotin
        rw [← hc]
        exact List.mem_map_of_mem Prod.fst hin
      have hop1 := entryVisit_openPos_other tm tick L it hk id hne
      have hdel1 : id ∉ (entryVisit tm tick L it).deleted := by
        rcases entryVisit_deleted tm tick L it hk with h | h <;> rw [h]
        · exact hdel
        · simp only [List.mem_append, List.mem_singleton, not_or]
          exact ⟨hdel, hne⟩
      have he1 : (entryVisit tm tick L it).s.ordEntry id = some e := by rw [hst.1]; exact he
      obtain ⟨ia, ic, ib⟩ := ih (entryVisit tm tick L it) hk1 hnd' hin he1 hdel1
      rw [hop1, hst.2.2, hst.2.1] at *
      refine ⟨ia, ic, ?_⟩
      intro t n hp ht hr
      obtain ⟨b1, b2, b3, b4, b5⟩ := ib t n hp ht hr
      exact ⟨b1, b2, b3, b4, fun hd => b5 (fun a ha => hd a (List.mem_cons_of_mem _ ha))⟩

theorem entryVisit_sent (tm : GoMap Int) (tick : Tick) (L : LoopState)
    (it : String × Option String) :
    (entryVisit tm tick L it).sent = L.sent ++ (entryRequest tm tick L.s it.1).toList := by
  cases he : L.s.ordEntry it.1 with
  | none => rw [entryVisit_none tm tick L it he]; simp [entryRequest, he]
  | some e =>
    rw [entryVisit_some tm tick L it e he]
    rcases entryIteration_cases tm tick L it.1 e it.2 with
      ⟨p, hp, h⟩ | ⟨hp, ht, h⟩ | ⟨t, hp, ht, _, h⟩ | ⟨t, n, hp, ht, _, h⟩
    · rw [h]; simp [entryRequest, he, hp]
    · rw [h]; simp [entryRequest, he, hp, ht]
    · rw [h]; simp [entryRequest, he, hp, ht]
    · rw [h]; simp [entryRequest, he, hp, ht]

theorem entryRequest_congr (tm : GoMap Int) (tick : Tick) (s s1 : strategy) (k : String)
    (h1 : s1.ordEntry = s.ordEntry) (h2 : s1.symbol = s.symbol)
    (h3 : s1.openPos k = s.openPos k) :
    entryRequest tm tick s1 k = entryRequest tm tick s k := by
  simp [entryRequest, h1, h2, h3]

theorem entryPlaces_congr (tm : GoMap Int) (s s1 : strategy) (it : String × Option String)
    (h1 : s1.ordEntry = s.ordEntry) (h2 : s1.symbol = s.symbol)
    (h3 : s1.openPos it.1 = s.openPos it.1) :
    entryPlaces tm s1 it = entryPlaces tm s it := by
  simp [entryPlaces, h1, h2, h3]

/-- The requests of the entry loop, one for each visited intent that has no
open position yet, in visiting order. -/
theorem entryLoop_sent (tm : GoMap Int) (tick : Tick) (iter : List (String × Option String))
    (L : LoopState) (hk : EntryKeysAgree L.s.ordEntry) (hnd : (iter.map Prod.fst).Nodup) :
    (entryLoop tm tick L iter).sent =
      L.sent ++ iter.filterMap (fun it => entryRequest tm tick L.s it.1) := by
  induction iter generalizing L with
  | nil => simp [entryLoop]
  | cons it rest ih =>
    rw [entryLoop_cons]
    simp only [List.map_cons, List.nodup_cons] at hnd
    obtain ⟨hnotin, hnd'⟩ := hnd
    have hst := entryVisit_static tm tick L it
    have hk1 : EntryKeysAgree (entryVisit tm tick L it).s.ordEntry := by
      rw [hst.1]; exact hk
    rw [ih _ hk1 hnd', entryVisit_sent]
    have hcongr : rest.filterMap (fun a => entryRequest tm tick (entryVisit tm tick L it).s a.1) =
        rest.filterMap (fun a => entryRequest tm tick L.s a.1) := by
      apply List.filterMap_congr
      intro a ha
      apply entryRequest_congr tm tick _ _ _ hst.1 hst.2.2
      apply entryVisit_openPos_other tm tick L it hk
      intro hc
      apply hnotin
      rw [← hc]
      exact List.mem_map_of_mem Prod.fst ha
    rw [hcongr]
    cases h : entryRequest tm tick L.s it.1 <;> simp [List.filterMap_cons, h]

/-- A visit that does not place an order returning `X` leaves the lookup maps
alone at `X`. -/
theorem entryVisit_maps_unplaced (tm : GoMap Int) (tick : Tick) (L : LoopState)
    (it : String × Option String) (X : String)
    (h : it.2 = some X → entryPlaces tm L.s it = false) :
    (entryVisit tm tick L it).s.tiqsOrderIdToLocalOrderId X = L.s.tiqsOrderIdToLocalOrderId X ∧
    (entryVisit tm tick L it).disp X = L.disp X := by
  cases he : L.s.ordEntry it.1 with
  | none => rw [entryVisit_none tm tick L it he]; exact ⟨rfl, rfl⟩
  | some e =>
    rw [entryVisit_some tm tick L it e he]
    rcases entryIteration_cases tm tick L it.1 e it.2 with
      ⟨p, _, h'⟩ | ⟨_, _, h'⟩ | ⟨t, _, _, _, h'⟩ | ⟨t, n, hp, ht, hr, h'⟩
    · rw [h']; exact ⟨rfl, rfl⟩
    · rw [h']; exact ⟨rfl, rfl⟩
    · rw [h']; exact ⟨rfl, rfl⟩
    · rw [h']
      have hXn : X ≠ n := by
        intro hc
        have := h (by rw [hr, hc])
        simp [entryPlaces, he, hp, ht, hr] at this
      exact ⟨GoMap.set_other _ _ _ _ hXn, GoMap.set_other _ _ _ _ hXn⟩

/-- The entry loop changes the lookup maps only at the order numbers returned
to its successful placements. -/
theorem entryLoop_maps_unplaced (tm : GoMap Int) (tick : Tick)
    (iter : List (String × Option String)) (L : LoopState) (X : String)
    (hk : EntryKeysAgree L.s.ordEntry) (hnd : (iter.map Prod.fst).Nodup)
    (h : ∀ it ∈ iter, it.2 = some X → entryPlaces tm L.s it = false) :
    (entryLoop tm tick L iter).s.tiqsOrderIdToLocalOrderId X = L.s.tiqsOrderIdToLocalOrderId X ∧
    (entryLoop tm tick L iter).disp X = L.disp X := by
  induction iter generalizing L with
  | nil => exact ⟨rfl, rfl⟩
  | cons it rest ih =>
    rw [entryLoop_cons]
    simp only [List.map_cons, List.nodup_cons] at hnd
    obtain ⟨hnotin, hnd'⟩ := hnd
    have hst := entryVisit_static tm tick L it
    have hk1 : EntryKeysAgree (entryVisit tm tick L it).s.ordEntry := by
      rw [hst.1]; exact hk
    have hrest : ∀ a ∈ rest, a.2 = some X →
        entryPlaces tm (entryVisit tm tick L it).s a = false := by
      intro a ha hX
      rw [entryPlaces_congr tm L.s _ a hst.1 hst.2.2]
      · exact h a (List.mem_cons_of_mem _ ha) hX
      · apply entryVisit_openPos_other tm tick L it hk
        intro hc
        apply hnotin
        rw [← hc]
        exact List.mem_map_of_mem Prod.fst ha
    obtain ⟨h1, h2⟩ := ih _ hk1 hnd' hrest
    obtain ⟨g1, g2⟩ := entryVisit_maps_unplaced tm tick L it X (h it (List.mem_cons_self _ _))
    exact ⟨h1.trans g1, h2.trans g2⟩

theorem prepareOrder_Quantity (args : prepareOrderArgs) :
    (prepareOrder args).Quantity = Sprint args.Qty := by
  by_cases hl : args.Limit = 0 <;> by_cases hs : args.Stop = 0 <;>
    by_cases ha : args.action = "Sell" <;>
    simp [prepareOrder, hl, hs, ha]

theorem prepareOrder_TransactionType (args : prepareOrderArgs) :
    (prepareOrder args).TransactionType = if args.action = Sell then "S" else "B" := by
  by_cases hl : args.Limit = 0 <;> by_cases hs : args.Stop = 0 <;>
    by_cases ha : args.action = "Sell" <;>
    simp [prepareOrder, hl, hs, ha, Sell]

theorem entryRequest_some (tm : GoMap Int) (tick : Tick) (s : strategy) (id : String)
    (e : EntryOpts) (t : Int) (he : s.ordEntry id = some e) (hp : s.openPos id = none)
    (ht : tm s.symbol = some t) :
    entryRequest tm tick s id =
      some (prepareOrder
        { Symbol := s.symbol, Token := t, Qty := e.Qty, Limit := e.Limit, Stop := e.Stop,
          LTP := (tick.LTP : ℚ) / 100,
          action := if e.Direction = Short then Sell else Buy }) := by
  simp [entryRequest, he, hp, ht]

theorem processEntryOrders_eq (tm : GoMap Int) (s : strategy) (disp : GoMap String)
    (tick : Tick) (iter : List (String × Option String)) :
    processEntryOrders tm s disp tick iter =
      ({ (entryLoop tm tick ⟨s, disp, [], []⟩ iter).s with
          ordEntry := s.ordEntry.delAll (entryLoop tm tick ⟨s, disp, [], []⟩ iter).deleted },
        (entryLoop tm tick ⟨s, disp, [], []⟩ iter).disp,
        (entryLoop tm tick ⟨s, disp, [], []⟩ iter).sent) := by
  simp only [processEntryOrders]
  rw [(entryLoop_static tm tick iter ⟨s, disp, [], []⟩).1]

/-- C7. `processEntryOrders` on a tick, seen from a pending entry intent `e`
stored under its `OrderID` and visited by the loop with RPC outcome `rpc`:
(a) when a position with that id is already open, no request is made for the
intent, the position is as before and the intent is gone from `ordEntry`;
(b) otherwise, when the symbol has a token and `placeOrder` returns the order
number `n`, `openPos` holds a new `EntryPending` position with entry price
`LTP / 100`, the time of the tick, the quantity and direction of the intent and
entry order `n`, `n` is a key of both lookup maps (sent to the local id and to
the strategy's name when no other visit returned `n`), and the intent is gone;
(c) when the token lookup or the RPC fails, no position is opened and the
intent stays; the lookup maps change at no order number other than those
returned to successful placements. The requests made are those of the intents
without an open position, in visiting order, each a Sell when the direction is
short and a Buy otherwise. -/
theorem processEntryOrders_intent (tm : GoMap Int) (s : strategy) (disp : GoMap String)
    (tick : Tick) (iter : List (String × Option String)) (id : String) (rpc : Option String)
    (e : EntryOpts) (hk : EntryKeysAgree s.ordEntry) (hnd : (iter.map Prod.fst).Nodup)
    (hmem : (id, rpc) ∈ iter) (he : s.ordEntry id = some e) :
    (∀ p, s.openPos id = some p →
      entryRequest tm tick s id = none ∧
      (processEntryOrders tm s disp tick iter).1.openPos id = some p ∧
      (processEntryOrders tm s disp tick iter).1.ordEntry id = none) ∧
    (∀ t n, s.openPos id = none → tm s.symbol = some t → rpc = some n →
      (processEntryOrders tm s disp tick iter).1.openPos id =
        some
          { Symbol := s.symbol, EntryPx := (tick.LTP : ℚ) / 100, ExitPx := 0,
            EntryTime := tick.Time, ExitTime := zeroTime, Qty := e.Qty,
            Direction := e.Direction, OrdID := e.OrderID, TiqsEntryOrdID := n,
            TiqsExitOrdID := "", Reason := "", Status := EntryPending, PnL := 0 } ∧
      ((processEntryOrders tm s disp tick iter).1.tiqsOrderIdToLocalOrderId n).isSome ∧
      ((processEntryOrders tm s disp tick iter).2.1 n).isSome ∧
      ((∀ it ∈ iter, it.2 = some n → it.1 = id) →
        (processEntryOrders tm s disp tick iter).1.tiqsOrderIdToLocalOrderId n = some e.OrderID ∧
        (processEntryOrders tm s disp tick iter).2.1 n = some s.name) ∧
      (processEntryOrders tm s disp tick iter).1.ordEntry id = none) ∧
    (s.openPos id = none → (tm s.symbol = none ∨ rpc = none) →
      (processEntryOrders tm s disp tick iter).1.openPos id = none ∧
      (processEntryOrders tm s disp tick iter).1.ordEntry id = some e) ∧
    (∀ X, (∀ it ∈ iter, it.2 = some X → entryPlaces tm s it = false) →
      (processEntryOrders tm s disp tick iter).1.tiqsOrderIdToLocalOrderId X =
        s.tiqsOrderIdToLocalOrderId X ∧
      (processEntryOrders tm s disp tick iter).2.1 X = disp X) ∧
    (processEntryOrders tm s disp tick iter).2.2 =
      iter.filterMap (fun it => entryRequest tm tick s it.1) ∧
    (∀ t, s.openPos id = none → tm s.symbol = some t →
      ∃ req, entryRequest tm tick s id = some req ∧ req.Quantity = Sprint e.Qty ∧
        (e.Direction = Short → req.TransactionType = "S") ∧
        (e.Direction ≠ Short → req.TransactionType = "B")) := by
  have hid : e.OrderID = id := hk _ _ he
  obtain ⟨sa, sc, sb⟩ := entryLoop_spec tm tick iter ⟨s, disp, [], []⟩ id rpc e hk hnd hmem he
    (by simp)
  rw [processEntryOrders_eq]
  refine ⟨?_, ?_, ?_, ?_, ?_, ?_⟩
  · intro p hp
    obtain ⟨a1, a2⟩ := sa p hp
    refine ⟨by simp [entryRequest, he, hp], a1, ?_⟩
    show GoMap.delAll _ _ id = none
    rw [GoMap.delAll_apply, if_pos a2]
  · intro t n hp ht hr
    obtain ⟨b1, b2, b3, b4, b5⟩ := sb t n hp ht hr
    refine ⟨b1, b3, b4, ?_, ?_⟩
    · intro hd
      rw [hid]
      exact b5 hd
    · show GoMap.delAll _ _ id = none
      rw [GoMap.delAll_apply, if_pos b2]
  · intro hp hfail
    obtain ⟨c1, c2⟩ := sc hp hfail
    refine ⟨c1, ?_⟩
    show GoMap.delAll _ _ id = some e
    rw [GoMap.delAll_apply, if_neg c2]
    exact he
  · intro X hX
    exact entryLoop_maps_unplaced tm tick iter ⟨s, disp, [], []⟩ X hk hnd hX
  · have := entryLoop_sent tm tick iter ⟨s, disp, [], []⟩ hk hnd
    simpa using this
  · intro t hp ht
    refine ⟨_, entryRequest_some tm tick s id e t he hp ht, prepareOrder_Quantity _, ?_, ?_⟩
    · intro hd
      rw [prepareOrder_TransactionType]
      simp [hd]
    · intro hd
      rw [prepareOrder_TransactionType]
      simp [hd, Buy, Sell]

theorem entryDemo_keys : EntryKeysAgree entryDemo.ordEntry := by
  intro id e h
  simp only [entryDemo, GoMap.set_apply, GoMap.empty_apply] at h
  split_ifs at h with h3 h2 h1
  · cases h; exact h3.symm
  · cases h; exact h2.symm
  · cases h; exact h1.symm

/-- A tick at 252.50 with three pending intents: `L1` is already open and is
dropped, `L2` is placed as a Sell and opens a position, the RPC for `L3` fails
and the intent stays. -/
theorem processEntryOrders_intent_witness :
    ((processEntryOrders seedSymbolToToken entryDemo GoMap.empty (demoTick 25250)
        entryDemoIter).1.openPos "L1" = some (demoPos 50 100 "" EntryComplete) ∧
      (processEntryOrders seedSymbolToToken entryDemo GoMap.empty (demoTick 25250)
        entryDemoIter).1.ordEntry "L1" = none) ∧
    ((processEntryOrders seedSymbolToToken entryDemo GoMap.empty (demoTick 25250)
        entryDemoIter).1.openPos "L2" =
        some
          { Symbol := "NIFTY50", EntryPx := 505 / 2, ExitPx := 0, EntryTime := 1728531000,
            ExitTime := zeroTime, Qty := 25, Direction := Short, OrdID := "L2",
            TiqsEntryOrdID := "N1", TiqsExitOrdID := "", Reason := "", Status := EntryPending,
            PnL := 0 } ∧
      (processEntryOrders seedSymbolToToken entryDemo GoMap.empty (demoTick 25250)
        entryDemoIter).1.tiqsOrderIdToLocalOrderId "N1" = some "L2" ∧
      (processEntryOrders seedSymbolToToken entryDemo GoMap.empty (demoTick 25250)
        entryDemoIter).2.1 "N1" = some "alpha" ∧
      (processEntryOrders seedSymbolToToken entryDemo GoMap.empty (demoTick 25250)
        entryDemoIter).1.ordEntry "L2" = none) ∧
    ((processEntryOrders seedSymbolToToken entryDemo GoMap.empty (demoTick 25250)
        entryDemoIter).1.openPos "L3" = none ∧
      (processEntryOrders seedSymbolToToken entryDemo GoMap.empty (demoTick 25250)
        entryDemoIter).1.ordEntry "L3" = some (demoEntry "L3" Long 10)) := by
  have hnd : (entryDemoIter.map Prod.fst).Nodup := by decide
  have h1 := processEntryOrders_intent seedSymbolToToken entryDemo GoMap.empty (demoTick 25250)
    entryDemoIter "L1" none (demoEntry "L1" Long 50) entryDemo_keys hnd (by simp [entryDemoIter])
    (by simp [entryDemo, GoMap.set_apply])
  have h2 := processEntryOrders_intent seedSymbolToToken entryDemo GoMap.empty (demoTick 25250)
    entryDemoIter "L2" (some "N1") (demoEntry "L2" Short 25) entryDemo_keys hnd
    (by simp [entryDemoIter]) (by simp [entryDemo, GoMap.set_apply])
  have h3 := processEntryOrders_intent seedSymbolToToken entryDemo GoMap.empty (demoTick 25250)
    entryDemoIter "L3" none (demoEntry "L3" Long 10) entryDemo_keys hnd (by simp [entryDemoIter])
    (by simp [entryDemo, GoMap.set_apply])
  refine ⟨?_, ?_, ?_⟩
  · have a := h1.1 (demoPos 50 100 "" EntryComplete) (by simp [entryDemo, demoStrategy])
    exact ⟨a.2.1, a.2.2⟩
  · have b := h2.2.1 26000 "N1" (by simp [entryDemo, demoStrategy, GoMap.set_apply])
      (by simp [entryDemo, demoStrategy, seedSymbolToToken, GoMap.set_apply]) rfl
    have bd := b.2.2.2.1 (by simp [entryDemoIter])
    refine ⟨?_, ?_, ?_, b.2.2.2.2⟩
    · rw [b.1]
      simp [entryDemo, demoStrategy, demoTick, demoEntry]
      norm_num
    · simpa [demoEntry] using bd.1
    · simpa [entryDemo, demoStrategy] using bd.2
  · exact h3.2.2.1 (by simp [entryDemo, demoStrategy, GoMap.set_apply]) (Or.inr rfl)

/-! ## Exit processing -/

/-- The ways an iteration of the exit loop can end. -/
theorem exitIteration_cases (tm : GoMap Int) (ltp : Float64) (L : LoopState) (id : String)
    (e : ExitOpts) (rpc : Option String) :
    ((L.s.openPos id = none ∨ ∃ p, L.s.openPos id = some p ∧ p.TiqsExitOrdID ≠ "") ∧
      exitIteration tm ltp L id e rpc = { L with deleted := L.deleted ++ [e.OrderID] }) ∨
    ((∃ p, L.s.openPos id = some p ∧ p.TiqsExitOrdID = "" ∧
        (p.Status < EntryComplete ∨ tm L.s.symbol = none)) ∧
      exitIteration tm ltp L id e rpc = L) ∨
    (∃ p t, L.s.openPos id = some p ∧ p.TiqsExitOrdID = "" ∧ ¬ p.Status < EntryComplete ∧
      tm L.s.symbol = some t ∧ rpc = none ∧
      exitIteration tm ltp L id e rpc =
        { L with
          sent := L.sent ++ [prepareOrder
            { Symbol := L.s.symbol, Token := t, Qty := min e.Qty p.Qty, Limit := e.Limit,
              Stop := e.Stop, LTP := ltp,
              action := if p.Direction = Long then Sell else Buy }] }) ∨
    (∃ p t n, L.s.openPos id = some p ∧ p.TiqsExitOrdID = "" ∧ ¬ p.Status < EntryComplete ∧
      tm L.s.symbol = some t ∧ rpc = some n ∧
      exitIteration tm ltp L id e rpc =
        { s := { L.s with
                 openPos := L.s.openPos.set id { p with Status := ExitPending, TiqsExitOrdID := n }
                 tiqsOrderIdToLocalOrderId := L.s.tiqsOrderIdToLocalOrderId.set n e.OrderID }
          disp := L.disp.set n L.s.name
          sent := L.sent ++ [prepareOrder
            { Symbol := L.s.symbol, Token := t, Qty := min e.Qty p.Qty, Limit := e.Limit,
              Stop := e.Stop, LTP := ltp,
              action := if p.Direction = Long then Sell else Buy }]
          deleted := L.deleted ++ [e.OrderID] }) := by
  cases h : L.s.openPos id with
  | none =>
    exact Or.inl ⟨Or.inl rfl, by simp [exitIteration, strategy.getOpenPos, h]⟩
  | some p =>
    by_cases hx : p.TiqsExitOrdID = ""
    · by_cases hs : p.Status < EntryComplete
      · exact Or.inr (Or.inl ⟨⟨p, rfl, hx, Or.inl hs⟩,
          by simp [exitIteration, strategy.getOpenPos, h, hx, hs]⟩)
      · cases ht : tm L.s.symbol with
        | none =>
          exact Or.inr (Or.inl ⟨⟨p, rfl, hx, Or.inr rfl⟩,
            by simp [exitIteration, strategy.getOpenPos, h, hx, hs, getTokenFromSymbol, ht]⟩)
        | some t =>
          cases rpc with
          | none =>
            exact Or.inr (Or.inr (Or.inl ⟨p, t, rfl, hx, hs, rfl, rfl,
              by simp [exitIteration, strategy.getOpenPos, h, hx, hs, getTokenFromSymbol, ht]⟩))
          | some n =>
            exact Or.inr (Or.inr (Or.inr ⟨p, t, n, rfl, hx, hs, rfl, rfl,
              by simp [exitIteration, strategy.getOpenPos, h, hx, hs, getTokenFromSymbol, ht,
                strategy.insertOpenPos]⟩))
    · exact Or.inl ⟨Or.inr ⟨p, rfl, hx⟩, by simp [exitIteration, strategy.getOpenPos, h, hx]⟩

theorem exitVisit_none (tm : GoMap Int) (ltp : Float64) (L : LoopState)
    (it : String × Option String) (he : L.s.ordExit it.1 = none) :
    exitVisit tm ltp L it = L := by
  simp [exitVisit, he]

theorem exitVisit_some (tm : GoMap Int) (ltp : Float64) (L : LoopState)
    (it : String × Option String) (e : ExitOpts) (he : L.s.ordExit it.1 = some e) :
    exitVisit tm ltp L it = exitIteration tm ltp L it.1 e it.2 := by
  simp [exitVisit, he]

/-- A visit of the exit loop leaves `ordExit`, the name and the symbol alone. -/
theorem exitVisit_static (tm : GoMap Int) (ltp : Float64) (L : LoopState)
    (it : String × Option String) :
    (exitVisit tm ltp L it).s.ordExit = L.s.ordExit ∧
    (exitVisit tm ltp L it).s.name = L.s.name ∧
    (exitVisit tm ltp L it).s.symbol = L.s.symbol := by
  cases he : L.s.ordExit it.1 with
  | none => rw [exitVisit_none tm ltp L it he]; exact ⟨rfl, rfl, rfl⟩
  | some e =>
    rw [exitVisit_some tm ltp L it e he]
    rcases exitIteration_cases tm ltp L it.1 e it.2 with
      ⟨_, h⟩ | ⟨_, h⟩ | ⟨p, t, _, _, _, _, _, h⟩ | ⟨p, t, n, _, _, _, _, _, h⟩ <;>
      rw [h] <;> exact ⟨rfl, rfl, rfl⟩

/-- A visit of the exit loop touches `openPos` at its own key only. -/
theorem exitVisit_openPos_other (tm : GoMap Int) (ltp : Float64) (L : LoopState)
    (it : String × Option String) (k : String) (hne : k ≠ it.1) :
    (exitVisit tm ltp L it).s.openPos k = L.s.openPos k := by
  cases he : L.s.ordExit it.1 with
  | none => rw [exitVisit_none tm ltp L it he]
  | some e =>
    rw [exitVisit_some tm ltp L it e he]
    rcases exitIteration_cases tm ltp L it.1 e it.2 with
      ⟨_, h⟩ | ⟨_, h⟩ | ⟨p, t, _, _, _, _, _, h⟩ | ⟨p, t, n, _, _, _, _, _, h⟩ <;>
      rw [h]
    exact GoMap.set_other _ _ _ _ hne

/-- A visit of the exit loop appends at most its own key to the deletion list. -/
theorem exitVisit_deleted (tm : GoMap Int) (ltp : Float64) (L : LoopState)
    (it : String × Option String) (hk : ExitKeysAgree L.s.ordExit) :
    (exitVisit tm ltp L it).deleted = L.deleted ∨
    (exitVisit tm ltp L it).deleted = L.deleted ++ [it.1] := by
  cases he : L.s.ordExit it.1 with
  | none => rw [exitVisit_none tm ltp L it he]; exact Or.inl rfl
  | some e =>
    have hid : e.OrderID = it.1 := hk _ _ he
    rw [exitVisit_some tm ltp L it e he]
    rcases exitIteration_cases tm ltp L it.1 e it.2 with
      ⟨_, h⟩ | ⟨_, h⟩ | ⟨p, t, _, _, _, _, _, h⟩ | ⟨p, t, n, _, _, _, _, _, h⟩ <;>
      rw [h]
    · exact Or.inr (by rw [hid])
    · exact Or.inl rfl
    · exact Or.inl rfl
    · exact Or.inr (by rw [hid])

/-- A visit of the exit loop removes no key of the lookup maps. -/
theorem exitVisit_maps_keep (tm : GoMap Int) (ltp : Float64) (L : LoopState)
    (it : String × Option String) (X : String) :
    ((L.s.tiqsOrderIdToLocalOrderId X).isSome →
      ((exitVisit tm ltp L it).s.tiqsOrderIdToLocalOrderId X).isSome) ∧
    ((L.disp X).isSome → ((exitVisit tm ltp L it).disp X).isSome) := by
  cases he : L.s.ordExit it.1 with
  | none => rw [exitVisit_none tm ltp L it he]; exact ⟨id, id⟩
  | some e =>
    rw [exitVisit_some tm ltp L it e he]
    rcases exitIteration_cases tm ltp L it.1 e it.2 with
      ⟨_, h⟩ | ⟨_, h⟩ | ⟨p, t, _, _, _, _, _, h⟩ | ⟨p, t, n, _, _, _, _, _, h⟩
    · rw [h]; exact ⟨id, id⟩
    · rw [h]; exact ⟨id, id⟩
    · rw [h]; exact ⟨id, id⟩
    · rw [h]
      refine ⟨?_, ?_⟩
      · intro hs
        by_cases hXn : X = n
        · simp [hXn]
        · show (GoMap.set _ _ _ X).isSome
          rw [GoMap.set_other _ _ _ _ hXn]; exact hs
      · intro hs
        by_cases hXn : X = n
        · simp [hXn]
        · show (GoMap.set _ _ _ X).isSome
          rw [GoMap.set_other _ _ _ _ hXn]; exact hs

/-- A visit that does not place an order returning `X` leaves the lookup maps
alone at `X`. -/
theorem exitVisit_maps_unplaced (tm : GoMap Int) (ltp : Float64) (L : LoopState)
    (it : String × Option String) (X : String)
    (h : it.2 = some X → exitPlaces tm L.s it = false) :
    (exitVisit tm ltp L it).s.tiqsOrderIdToLocalOrderId X = L.s.tiqsOrderIdToLocalOrderId X ∧
    (exitVisit tm ltp L it).disp X = L.disp X := by
  cases he : L.s.ordExit it.1 with
  | none => rw [exitVisit_none tm ltp L it he]; exact ⟨rfl, rfl⟩
  | some e =>
    rw [exitVisit_some tm ltp L it e he]
    rcases exitIteration_cases tm ltp L it.1 e it.2 with
      ⟨_, h'⟩ | ⟨_, h'⟩ | ⟨p, t, _, _, _, _, _, h'⟩ | ⟨p, t, n, hp, hx, hs, ht, hr, h'⟩
    · rw [h']; exact ⟨rfl, rfl⟩
    · rw [h']; exact ⟨rfl, rfl⟩
    · rw [h']; exact ⟨rfl, rfl⟩
    · rw [h']
      have hXn : X ≠ n := by
        intro hc
        have := h (by rw [hr, hc])
        simp [exitPlaces, he, hp, hx, hs, ht, hr] at this
      exact ⟨GoMap.set_other _ _ _ _ hXn, GoMap.set_other _ _ _ _ hXn⟩

theorem exitVisit_sent (tm : GoMap Int) (ltp : Float64) (L : LoopState)
    (it : String × Option String) :
    (exitVisit tm ltp L it).sent = L.sent ++ (exitRequest tm ltp L.s it.1).toList := by
  cases he : L.s.ordExit it.1 with
  | none => rw [exitVisit_none tm ltp L it he]; simp [exitRequest, he]
  | some e =>
    rw [exitVisit_some tm ltp L it e he]
    rcases exitIteration_cases tm ltp L it.1 e it.2 with
      ⟨hp | ⟨p, hp, hx⟩, h⟩ | ⟨⟨p, hp, hx, hs | ht⟩, h⟩ | ⟨p, t, hp, hx, hs, ht, _, h⟩ |
        ⟨p, t, n, hp, hx, hs, ht, _, h⟩
    · rw [h]; simp [exitRequest, he, hp]
    · rw [h]
      cases ht : tm L.s.symbol <;> simp [exitRequest, he, hp, hx, ht]
    · rw [h]
      cases ht : tm L.s.symbol <;> simp [exitRequest, he, hp, hx, hs, ht]
    · rw [h]; simp [exitRequest, he, hp, ht]
    · rw [h]; simp [exitRequest, he, hp, hx, hs, ht]
    · rw [h]; simp [exitRequest, he, hp, hx, hs, ht]

theorem exitLoop_cons (tm : GoMap Int) (ltp : Float64) (L : LoopState)
    (it : String × Option String) (rest : List (String × Option String)) :
    exitLoop tm ltp L (it :: rest) = exitLoop tm ltp (exitVisit tm ltp L it) rest := rfl

theorem exitLoop_static (tm : GoMap Int) (ltp : Float64) (iter : List (String × Option String))
    (L : LoopState) :
    (exitLoop tm ltp L iter).s.ordExit = L.s.ordExit ∧
    (exitLoop tm ltp L iter).s.name = L.s.name ∧
    (exitLoop tm ltp L iter).s.symbol = L.s.symbol := by
  induction iter generalizing L with
  | nil => exact ⟨rfl, rfl, rfl⟩
  | cons it rest ih =>
    rw [exitLoop_cons]
    obtain ⟨h1, h2, h3⟩ := ih (exitVisit tm ltp L it)
    obtain ⟨g1, g2, g3⟩ := exitVisit_static tm ltp L it
    exact ⟨h1.trans g1, h2.trans g2, h3.trans g3⟩

theorem exitLoop_openPos_other (tm : GoMap Int) (ltp : Float64)
    (iter : List (String × Option String)) (L : LoopState) (k : String)
    (hne : k ∉ iter.map Prod.fst) :
    (exitLoop tm ltp L iter).s.openPos k = L.s.openPos k := by
  induction iter generalizing L with
  | nil => rfl
  | cons it rest ih =>
    rw [exitLoop_cons]
    simp only [List.map_cons, List.mem_cons, not_or] at hne
    rw [ih _ hne.2]
    exact exitVisit_openPos_other tm ltp L it k hne.1

theorem exitLoop_deleted_mono (tm : GoMap Int) (ltp : Float64)
    (iter : List (String × Option String)) (L : LoopState)
    (hk : ExitKeysAgree L.s.ordExit) (x : String) (hx : x ∈ L.deleted) :
    x ∈ (exitLoop tm ltp L iter).deleted := by
  induction iter generalizing L with
  | nil => exact hx
  | cons it rest ih =>
    rw [exitLoop_cons]
    have hk1 : ExitKeysAgree (exitVisit tm ltp L it).s.ordExit := by
      rw [(exitVisit_static tm ltp L it).1]; exact hk
    apply ih _ hk1
    rcases exitVisit_deleted tm ltp L it hk with h | h <;> rw [h]
    · exact hx
    · exact List.mem_append_left _ hx

theorem exitLoop_deleted_other (tm : GoMap Int) (ltp : Float64)
    (iter : List (String × Option String)) (L : LoopState)
    (hk : ExitKeysAgree L.s.ordExit) (x : String) (hx : x ∉ L.deleted)
    (hne : x ∉ iter.map Prod.fst) :
    x ∉ (exitLoop tm ltp L iter).deleted := by
  induction iter generalizing L with
  | nil => exact hx
  | cons it rest ih =>
    rw [exitLoop_cons]
    simp only [List.map_cons, List.mem_cons, not_or] at hne
    have hk1 : ExitKeysAgree (exitVisit tm ltp L it).s.ordExit := by
      rw [(exitVisit_static tm ltp L it).1]; exact hk
    apply ih _ hk1 _ hne.2
    rcases exitVisit_deleted tm ltp L it hk with h | h <;> rw [h]
    · exact hx
    · simp only [List.mem_append, List.mem_singleton, not_or]
      exact ⟨hx, hne.1⟩

theorem exitLoop_maps_keep (tm : GoMap Int) (ltp : Float64)
    (iter : List (String × Option String)) (L : LoopState) (X : String) :
    ((L.s.tiqsOrderIdToLocalOrderId X).isSome →
      ((exitLoop tm ltp L iter).s.tiqsOrderIdToLocalOrderId X).isSome) ∧
    ((L.disp X).isSome → ((exitLoop tm ltp L iter).disp X).isSome) := by
  induction iter generalizing L with
  | nil => exact ⟨id, id⟩
  | cons it rest ih =>
    rw [exitLoop_cons]
    obtain ⟨h1, h2⟩ := ih (exitVisit tm ltp L it)
    obtain ⟨g1, g2⟩ := exitVisit_maps_keep tm ltp L it X
    exact ⟨fun h => h1 (g1 h), fun h => h2 (g2 h)⟩

theorem exitLoop_maps_other (tm : GoMap Int) (ltp : Float64)
    (iter : List (String × Option String)) (L : LoopState) (X : String)
    (h : ∀ it ∈ iter, it.2 ≠ some X) :
    (exitLoop tm ltp L iter).s.tiqsOrderIdToLocalOrderId X = L.s.tiqsOrderIdToLocalOrderId X ∧
    (exitLoop tm ltp L iter).disp X = L.disp X := by
  induction iter generalizing L with
  | nil => exact ⟨rfl, rfl⟩
  | cons it rest ih =>
    rw [exitLoop_cons]
    obtain ⟨h1, h2⟩ := ih (exitVisit tm ltp L it) (fun a ha => h a (List.mem_cons_of_mem _ ha))
    obtain ⟨g1, g2⟩ := exitVisit_maps_unplaced tm ltp L it X
      (fun hc => absurd hc (h it (List.mem_cons_self _ _)))
    exact ⟨h1.trans g1, h2.trans g2⟩

theorem exitRequest_congr (tm : GoMap Int) (ltp : Float64) (s s1 : strategy) (k : String)
    (h1 : s1.ordExit = s.ordExit) (h2 : s1.symbol = s.symbol)
    (h3 : s1.openPos k = s.openPos k) :
    exitRequest tm ltp s1 k = exitRequest tm ltp s k := by
  simp [exitRequest, h1, h2, h3]

theorem exitPlaces_congr (tm : GoMap Int) (s s1 : strategy) (it : String × Option String)
    (h1 : s1.ordExit = s.ordExit) (h2 : s1.symbol = s.symbol)
    (h3 : s1.openPos it.1 = s.openPos it.1) :
    exitPlaces tm s1 it = exitPlaces tm s it := by
  simp [exitPlaces, h1, h2, h3]

/-- The requests of the exit loop, in visiting order. -/
theorem exitLoop_sent (tm : GoMap Int) (ltp : Float64) (iter : List (String × Option String))
    (L : LoopState) (hnd : (iter.map Prod.fst).Nodup) :
    (exitLoop tm ltp L iter).sent =
      L.sent ++ iter.filterMap (fun it => exitRequest tm ltp L.s it.1) := by
  induction iter generalizing L with
  | nil => simp [exitLoop]
  | cons it rest ih =>
    rw [exitLoop_cons]
    simp only [List.map_cons, List.nodup_cons] at hnd
    obtain ⟨hnotin, hnd'⟩ := hnd
    have hst := exitVisit_static tm ltp L it
    rw [ih _ hnd', exitVisit_sent]
    have hcongr : rest.filterMap (fun a => exitRequest tm ltp (exitVisit tm ltp L it).s a.1) =
        rest.filterMap (fun a => exitRequest tm ltp L.s a.1) := by
      apply List.filterMap_congr
      intro a ha
      apply exitRequest_congr tm ltp _ _ _ hst.1 hst.2.2
      apply exitVisit_openPos_other tm ltp L it
      intro hc
      apply hnotin
      rw [← hc]
      exact List.mem_map_of_mem Prod.fst ha
    rw [hcongr]
    cases h : exitRequest tm ltp L.s it.1 <;> simp [List.filterMap_cons, h]

/-- The exit loop changes the lookup maps only at the order numbers returned
to its successful placements. -/
theorem exitLoop_maps_unplaced (tm : GoMap Int) (ltp : Float64)
    (iter : List (String × Option String)) (L : LoopState) (X : String)
    (hnd : (iter.map Prod.fst).Nodup)
    (h : ∀ it ∈ iter, it.2 = some X → exitPlaces tm L.s it = false) :
    (exitLoop tm ltp L iter).s.tiqsOrderIdToLocalOrderId X = L.s.tiqsOrderIdToLocalOrderId X ∧
    (exitLoop tm ltp L iter).disp X = L.disp X := by
  induction iter generalizing L with
  | nil => exact ⟨rfl, rfl⟩
  | cons it rest ih =>
    rw [exitLoop_cons]
    simp only [List.map_cons, List.nodup_cons] at hnd
    obtain ⟨hnotin, hnd'⟩ := hnd
    have hst := exitVisit_static tm ltp L it
    have hrest : ∀ a ∈ rest, a.2 = some X →
        exitPlaces tm (exitVisit tm ltp L it).s a = false := by
      intro a ha hX
      rw [exitPlaces_congr tm L.s _ a hst.1 hst.2.2]
      · exact h a (List.mem_cons_of_mem _ ha) hX
      · apply exitVisit_openPos_other tm ltp L it
        intro hc
        apply hnotin
        rw [← hc]
        exact List.mem_map_of_mem Prod.fst ha
    obtain ⟨h1, h2⟩ := ih _ hnd' hrest
    obtain ⟨g1, g2⟩ := exitVisit_maps_unplaced tm ltp L it X (h it (List.mem_cons_self _ _))
    exact ⟨h1.trans g1, h2.trans g2⟩

/-- The exit loop, seen from one of the keys it visits. -/
theorem exitLoop_spec (tm : GoMap Int) (ltp : Float64) (iter : List (String × Option String))
    (L : LoopState) (id : String) (rpc : Option String) (e : ExitOpts)
    (hk : ExitKeysAgree L.s.ordExit) (hnd : (iter.map Prod.fst).Nodup)
    (hmem : (id, rpc) ∈ iter) (he : L.s.ordExit id = some e) (hdel : id ∉ L.deleted) :
    ((L.s.openPos id = none ∨ ∃ p, L.s.openPos id = some p ∧ p.TiqsExitOrdID ≠ "") →
      (exitLoop tm ltp L iter).s.openPos id = L.s.openPos id ∧
      id ∈ (exitLoop tm ltp L iter).deleted) ∧
    (∀ p, L.s.openPos id = some p → p.TiqsExitOrdID = "" →
      (p.Status < EntryComplete ∨ tm L.s.symbol = none ∨ rpc = none) →
      (exitLoop tm ltp L iter).s.openPos id = some p ∧
      id ∉ (exitLoop tm ltp L iter).deleted) ∧
    (∀ p t n, L.s.openPos id = some p → p.TiqsExitOrdID = "" → ¬ p.Status < EntryComplete →
      tm L.s.symbol = some t → rpc = some n →
      (exitLoop tm ltp L iter).s.openPos id =
        some { p with Status := ExitPending, TiqsExitOrdID := n } ∧
      id ∈ (exitLoop tm ltp L iter).deleted ∧
      ((exitLoop tm ltp L iter).s.tiqsOrderIdToLocalOrderId n).isSome ∧
      ((exitLoop tm ltp L iter).disp n).isSome ∧
      ((∀ it ∈ iter, it.2 = some n → it.1 = id) →
        (exitLoop tm ltp L iter).s.tiqsOrderIdToLocalOrderId n = some id ∧
        (exitLoop tm ltp L iter).disp n = some L.s.name)) := by
  induction iter generalizing L with
  | nil => cases hmem
  | cons it rest ih =>
    rw [exitLoop_cons]
    simp only [List.map_cons, List.nodup_cons] at hnd
    obtain ⟨hnotin, hnd'⟩ := hnd
    have hst := exitVisit_static tm ltp L it
    have hk1 : ExitKeysAgree (exitVisit tm ltp L it).s.ordExit := by
      rw [hst.1]; exact hk
    rcases List.mem_cons.mp hmem with heq | hin
    · subst heq
      have hid : e.OrderID = id := hk _ _ he
      have hnotin' : id ∉ rest.map Prod.fst := hnotin
      have hv : exitVisit tm ltp L (id, rpc) = exitIteration tm ltp L id e rpc :=
        exitVisit_some tm ltp L (id, rpc) e he
      have hop := exitLoop_openPos_other tm ltp rest (exitVisit tm ltp L (id, rpc)) id hnotin'
      rcases exitIteration_cases tm ltp L id e rpc with
        ⟨hdrop, h⟩ | ⟨⟨p, hp, hx, hwait⟩, h⟩ | ⟨p, t, hp, hx, hs, ht, hr, h⟩ |
          ⟨p, t, n, hp, hx, hs, ht, hr, h⟩
      · -- dropped
        rw [← hv, hid] at h
        refine ⟨?_, ?_, ?_⟩
        · intro _
          refine ⟨by rw [hop, h], ?_⟩
          apply exitLoop_deleted_mono _ _ _ _ hk1
          rw [h]; simp
        · intro p hp hx _
          rcases hdrop with hd | ⟨q, hq, hqx⟩
          · rw [hd] at hp; cases hp
          · rw [hq] at hp; cases hp; exact absurd hx hqx
        · intro p t n hp hx _ _ _
          rcases hdrop with hd | ⟨q, hq, hqx⟩
          · rw [hd] at hp; cases hp
          · rw [hq] at hp; cases hp; exact absurd hx hqx
      · -- waiting for the entry, or no token
        rw [← hv] at h
        refine ⟨?_, ?_, ?_⟩
        · intro hdrop
          rcases hdrop with hd | ⟨q, hq, hqx⟩
          · rw [hd] at hp; cases hp
          · rw [hq] at hp; cases hp; exact absurd hx hqx
        · intro q hq _ _
          rw [hp] at hq; cases hq
          refine ⟨by rw [hop, h]; exact hp, ?_⟩
          apply exitLoop_deleted_other _ _ _ _ hk1 _ _ hnotin'
          rw [h]; exact hdel
        · intro q t n hq _ hs ht _
          rw [hp] at hq; cases hq
          rcases hwait with hw | hw
          · exact absurd hw hs
          · rw [hw] at ht; cases ht
      · -- the RPC failed
        rw [← hv] at h
        refine ⟨?_, ?_, ?_⟩
        · intro hdrop
          rcases hdrop with hd | ⟨q, hq, hqx⟩
          · rw [hd] at hp; cases hp
          · rw [hq] at hp; cases hp; exact absurd hx hqx
        · intro q hq _ _
          rw [hp] at hq; cases hq
          refine ⟨by rw [hop, h]; exact hp, ?_⟩
          apply exitLoop_deleted_other _ _ _ _ hk1 _ _ hnotin'
          rw [h]; exact hdel
        · intro q t' n hq _ _ _ hn
          rw [hr] at hn; cases hn
      · -- placed
        rw [← hv, hid] at h
        refine ⟨?_, ?_, ?_⟩
        · intro hdrop
          rcases hdrop with hd | ⟨q, hq, hqx⟩
          · rw [hd] at hp; cases hp
          · rw [hq] at hp; cases hp; exact absurd hx hqx
        · intro q hq _ hfail
          rw [hp] at hq; cases hq
          rcases hfail with hf | hf | hf
          · exact absurd hf hs
          · rw [hf] at ht; cases ht
          · rw [hf] at hr; cases hr
        · intro q t' n' hq _ _ _ hn
          rw [hp] at hq; cases hq
          rw [hr] at hn; cases hn
          refine ⟨by rw [hop, h]; simp, ?_, ?_, ?_, ?_⟩
          · apply exitLoop_deleted_mono _ _ _ _ hk1
            rw [h]; simp
          · apply (exitLoop_maps_keep tm ltp rest _ n).1
            rw [h]; simp
          · apply (exitLoop_maps_keep tm ltp rest _ n).2
            rw [h]; simp
          · intro hd
            have hrest : ∀ a ∈ rest, a.2 ≠ some n := by
              intro a ha hc
              have hai : a.1 = id := hd a (List.mem_cons_of_mem _ ha) hc
              have hin : a.1 ∈ rest.map Prod.fst := List.mem_map_of_mem Prod.fst ha
              rw [hai] at hin
              exact hnotin' hin
            obtain ⟨m1, m2⟩ := exitLoop_maps_other tm ltp rest (exitVisit tm ltp L (id, rpc)) n
              hrest
            rw [m1, m2, h]
            simp
    · have hne : id ≠ it.1 := by
        intro hc
        apply hnotin
        rw [← hc]
        exact List.mem_map_of_mem Prod.fst hin
      have hop1 := exitVisit_openPos_other tm ltp L it id hne
      have hdel1 : id ∉ (exitVisit tm ltp L it).deleted := by
        rcases exitVisit_deleted tm ltp L it hk with h | h <;> rw [h]
        · exact hdel
        · simp only [List.mem_append, List.mem_singleton, not_or]
          exact ⟨hdel, hne⟩
      have he1 : (exitVisit tm ltp L it).s.ordExit id = some e := by rw [hst.1]; exact he
      obtain ⟨ia, ic, ib⟩ := ih (exitVisit tm ltp L it) hk1 hnd' hin he1 hdel1
      rw [hop1, hst.2.2, hst.2.1] at *
      refine ⟨ia, ic, ?_⟩
      intro p t n hp hx hs ht hr
      obtain ⟨b1, b2, b3, b4, b5⟩ := ib p t n hp hx hs ht hr
      exact ⟨b1, b2, b3, b4, fun hd => b5 (fun a ha => hd a (List.mem_cons_of_mem _ ha))⟩

theorem PositionStatus.not_lt_iff (a b : PositionStatus) : ¬ a < b ↔ b ≤ a := Nat.not_lt

theorem processExitOrders_eq (tm : GoMap Int) (s : strategy) (disp : GoMap String)
    (ltp : Float64) (iter : List (String × Option String)) :
    processExitOrders tm s disp ltp iter =
      ({ (exitLoop tm ltp ⟨s, disp, [], []⟩ iter).s with
          ordExit := s.ordExit.delAll (exitLoop tm ltp ⟨s, disp, [], []⟩ iter).deleted },
        (exitLoop tm ltp ⟨s, disp, [], []⟩ iter).disp,
        (exitLoop tm ltp ⟨s, disp, [], []⟩ iter).sent) := by
  simp only [processExitOrders]
  rw [(exitLoop_static tm ltp iter ⟨s, disp, [], []⟩).1]

theorem exitRequest_some (tm : GoMap Int) (ltp : Float64) (s : strategy) (id : String)
    (x : ExitOpts) (p : Position) (t : Int) (he : s.ordExit id = some x)
    (hp : s.openPos id = some p) (ht : tm s.symbol = some t) (hx : p.TiqsExitOrdID = "")
    (hs : ¬ p.Status < EntryComplete) :
    exitRequest tm ltp s id =
      some (prepareOrder
        { Symbol := s.symbol, Token := t, Qty := min x.Qty p.Qty, Limit := x.Limit,
          Stop := x.Stop, LTP := ltp, action := if p.Direction = Long then Sell else Buy }) := by
  simp [exitRequest, he, hp, ht, hx, hs]

/-- A request of the exit loop comes from an intent whose position is open, has
no exit order and a status of at least `EntryComplete`. -/
theorem exitRequest_inv (tm : GoMap Int) (ltp : Float64) (s : strategy) (k : String)
    (req : OrderRequest) (h : exitRequest tm ltp s k = some req) :
    ∃ p y, s.openPos k = some p ∧ s.ordExit k = some y ∧ EntryComplete ≤ p.Status ∧
      p.TiqsExitOrdID = "" ∧ req.Quantity = Sprint (min y.Qty p.Qty) ∧
      min y.Qty p.Qty ≤ p.Qty := by
  unfold exitRequest at h
  cases he : s.ordExit k with
  | none => simp [he] at h
  | some y =>
    cases hp : s.openPos k with
    | none => simp [he, hp] at h
    | some p =>
      cases ht : tm s.symbol with
      | none => simp [he, hp, ht] at h
      | some t =>
        simp only [he, hp, ht] at h
        by_cases hc : p.TiqsExitOrdID = "" ∧ ¬ p.Status < EntryComplete
        · rw [if_pos hc] at h
          injection h with h
          subst h
          exact ⟨p, y, rfl, rfl, (PositionStatus.not_lt_iff _ _).mp hc.2, hc.1,
            prepareOrder_Quantity _, min_le_right _ _⟩
        · rw [if_neg hc] at h
          cases h

/-- C8. `processExitOrders`, seen from a pending exit intent `x` stored under its
`OrderID` and visited by the loop with RPC outcome `rpc`: the intent is dropped
and nothing is requested when no position with that id is open or the position
already has an exit order; it is kept and nothing is requested when the
position's status is below `EntryComplete` (or the symbol has no token);
otherwise one request is made, on the opposing side (Sell for a long
position, Buy otherwise) and for `min x.Qty p.Qty`, which is at most the
position's quantity; when the RPC returns `n` the position becomes
`ExitPending` with `TiqsExitOrdID = n`, `n` is a key of both lookup maps and the
intent is dropped; when the RPC fails the position is as before and the intent
is kept. The lookup maps change at no other order number, and every request
of the call comes from a position with no exit order and a status of at least
`EntryComplete`. -/
theorem processExitOrders_intent (tm : GoMap Int) (s : strategy) (disp : GoMap String)
    (ltp : Float64) (iter : List (String × Option String)) (id : String) (rpc : Option String)
    (x : ExitOpts) (hk : ExitKeysAgree s.ordExit) (hnd : (iter.map Prod.fst).Nodup)
    (hmem : (id, rpc) ∈ iter) (he : s.ordExit id = some x) :
    ((s.openPos id = none ∨ ∃ p, s.openPos id = some p ∧ p.TiqsExitOrdID ≠ "") →
      exitRequest tm ltp s id = none ∧
      (processExitOrders tm s disp ltp iter).1.openPos id = s.openPos id ∧
      (processExitOrders tm s disp ltp iter).1.ordExit id = none) ∧
    (∀ p, s.openPos id = some p → p.TiqsExitOrdID = "" →
      (p.Status < EntryComplete ∨ tm s.symbol = none) →
      exitRequest tm ltp s id = none ∧
      (processExitOrders tm s disp ltp iter).1.openPos id = some p ∧
      (processExitOrders tm s disp ltp iter).1.ordExit id = some x) ∧
    (∀ p t, s.openPos id = some p → p.TiqsExitOrdID = "" → EntryComplete ≤ p.Status →
      tm s.symbol = some t →
      (∃ req, exitRequest tm ltp s id = some req ∧
        req.Quantity = Sprint (min x.Qty p.Qty) ∧ min x.Qty p.Qty ≤ p.Qty ∧
        (p.Direction = Long → req.TransactionType = "S") ∧
        (p.Direction ≠ Long → req.TransactionType = "B")) ∧
      (∀ n, rpc = some n →
        (processExitOrders tm s disp ltp iter).1.openPos id =
          some { p with Status := ExitPending, TiqsExitOrdID := n } ∧
        ((processExitOrders tm s disp ltp iter).1.tiqsOrderIdToLocalOrderId n).isSome ∧
        ((processExitOrders tm s disp ltp iter).2.1 n).isSome ∧
        ((∀ it ∈ iter, it.2 = some n → it.1 = id) →
          (processExitOrders tm s disp ltp iter).1.tiqsOrderIdToLocalOrderId n =
            some x.OrderID ∧
          (processExitOrders tm s disp ltp iter).2.1 n = some s.name) ∧
        (processExitOrders tm s disp ltp iter).1.ordExit id = none) ∧
      (rpc = none →
        (processExitOrders tm s disp ltp iter).1.openPos id = some p ∧
        (processExitOrders tm s disp ltp iter).1.ordExit id = some x)) ∧
    (∀ X, (∀ it ∈ iter, it.2 = some X → exitPlaces tm s it = false) →
      (processExitOrders tm s disp ltp iter).1.tiqsOrderIdToLocalOrderId X =
        s.tiqsOrderIdToLocalOrderId X ∧
      (processExitOrders tm s disp ltp iter).2.1 X = disp X) ∧
    (processExitOrders tm s disp ltp iter).2.2 =
      iter.filterMap (fun it => exitRequest tm ltp s it.1) ∧
    (∀ k req, exitRequest tm ltp s k = some req →
      ∃ p y, s.openPos k = some p ∧ s.ordExit k = some y ∧ EntryComplete ≤ p.Status ∧
        p.TiqsExitOrdID = "" ∧ req.Quantity = Sprint (min y.Qty p.Qty) ∧
        min y.Qty p.Qty ≤ p.Qty) := by
  have hid : x.OrderID = id := hk _ _ he
  obtain ⟨sa, sb, sc⟩ := exitLoop_spec tm ltp iter ⟨s, disp, [], []⟩ id rpc x hk hnd hmem he
    (by simp)
  rw [processExitOrders_eq]
  refine ⟨?_, ?_, ?_, ?_, ?_, ?_⟩
  · intro hdrop
    obtain ⟨a1, a2⟩ := sa hdrop
    refine ⟨?_, a1, ?_⟩
    · rcases hdrop with hd | ⟨p, hp, hx⟩
      · simp [exitRequest, he, hd]
      · cases ht : tm s.symbol <;> simp [exitRequest, he, hp, hx, ht]
    · show GoMap.delAll _ _ id = none
      rw [GoMap.delAll_apply, if_pos a2]
  · intro p hp hx hwait
    obtain ⟨b1, b2⟩ := sb p hp hx (by
      rcases hwait with h | h
      · exact Or.inl h
      · exact Or.inr (Or.inl h))
    refine ⟨?_, b1, ?_⟩
    · rcases hwait with h | h
      · cases ht : tm s.symbol <;> simp [exitRequest, he, hp, hx, h, ht]
      · simp [exitRequest, he, hp, h]
    · show GoMap.delAll _ _ id = some x
      rw [GoMap.delAll_apply, if_neg b2]
      exact he
  · intro p t hp hx hs ht
    have hs' : ¬ p.Status < EntryComplete := (PositionStatus.not_lt_iff _ _).mpr hs
    refine ⟨⟨_, exitRequest_some tm ltp s id x p t he hp ht hx hs', prepareOrder_Quantity _,
      min_le_right _ _, ?_, ?_⟩, ?_, ?_⟩
    · intro hd
      rw [prepareOrder_TransactionType]
      simp [hd]
    · intro hd
      rw [prepareOrder_TransactionType]
      simp [hd, Buy, Sell]
    · intro n hr
      obtain ⟨c1, c2, c3, c4, c5⟩ := sc p t n hp hx hs' ht hr
      refine ⟨c1, c3, c4, ?_, ?_⟩
      · intro hd
        rw [hid]
        exact c5 hd
      · show GoMap.delAll _ _ id = none
        rw [GoMap.delAll_apply, if_pos c2]
    · intro hr
      obtain ⟨b1, b2⟩ := sb p hp hx (Or.inr (Or.inr hr))
      refine ⟨b1, ?_⟩
      show GoMap.delAll _ _ id = some x
      rw [GoMap.delAll_apply, if_neg b2]
      exact he
  · intro X hX
    exact exitLoop_maps_unplaced tm ltp iter ⟨s, disp, [], []⟩ X hnd hX
  · have := exitLoop_sent tm ltp iter ⟨s, disp, [], []⟩ hnd
    simpa using this
  · intro k req h
    exact exitRequest_inv tm ltp s k req h

theorem exitDemo_keys : ExitKeysAgree exitDemo.ordExit := by
  intro id e h
  simp only [exitDemo, GoMap.set_apply, GoMap.empty_apply] at h
  split_ifs at h with h3 h2 h1 h0
  · cases h; exact h3.symm
  · cases h; exact h2.symm
  · cases h; exact h1.symm
  · cases h; exact h0.symm

/-- Four exit intents at an LTP of 252.50: `L0` has no position and `L3` already
has an exit order, so both are dropped; `L2` waits for its fill and is kept;
`L1` (long, 100 open, 40 requested) is placed as a Sell of 40 and becomes
`ExitPending` with exit order `X1`. -/
theorem processExitOrders_intent_witness :
    (processExitOrders seedSymbolToToken exitDemo GoMap.empty (505 / 2)
        exitDemoIter).1.ordExit "L0" = none ∧
    (processExitOrders seedSymbolToToken exitDemo GoMap.empty (505 / 2)
        exitDemoIter).1.ordExit "L3" = none ∧
    ((processExitOrders seedSymbolToToken exitDemo GoMap.empty (505 / 2)
        exitDemoIter).1.openPos "L2" =
        some { demoPos 25 50 "" EntryOpen with OrdID := "L2", TiqsEntryOrdID := "E2" } ∧
      (processExitOrders seedSymbolToToken exitDemo GoMap.empty (505 / 2)
        exitDemoIter).1.ordExit "L2" = some (demoExit "L2" 25)) ∧
    ((∃ req, exitRequest seedSymbolToToken (505 / 2) exitDemo "L1" = some req ∧
        req.Quantity = "40" ∧ req.TransactionType = "S") ∧
      (processExitOrders seedSymbolToToken exitDemo GoMap.empty (505 / 2)
        exitDemoIter).1.openPos "L1" = some (demoPos 100 50 "X1" ExitPending) ∧
      (processExitOrders seedSymbolToToken exitDemo GoMap.empty (505 / 2)
        exitDemoIter).1.tiqsOrderIdToLocalOrderId "X1" = some "L1" ∧
      (processExitOrders seedSymbolToToken exitDemo GoMap.empty (505 / 2)
        exitDemoIter).2.1 "X1" = some "alpha" ∧
      (processExitOrders seedSymbolToToken exitDemo GoMap.empty (505 / 2)
        exitDemoIter).1.ordExit "L1" = none) := by
  have hnd : (exitDemoIter.map Prod.fst).Nodup := by decide
  have h0 := processExitOrders_intent seedSymbolToToken exitDemo GoMap.empty (505 / 2)
    exitDemoIter "L0" none (demoExit "L0" 5) exitDemo_keys hnd (by simp [exitDemoIter])
    (by simp [exitDemo, GoMap.set_apply])
  have h1 := processExitOrders_intent seedSymbolToToken exitDemo GoMap.empty (505 / 2)
    exitDemoIter "L1" (some "X1") (demoExit "L1" 40) exitDemo_keys hnd (by simp [exitDemoIter])
    (by simp [exitDemo, GoMap.set_apply])
  have h2 := processExitOrders_intent seedSymbolToToken exitDemo GoMap.empty (505 / 2)
    exitDemoIter "L2" none (demoExit "L2" 25) exitDemo_keys hnd (by simp [exitDemoIter])
    (by simp [exitDemo, GoMap.set_apply])
  have h3 := processExitOrders_intent seedSymbolToToken exitDemo GoMap.empty (505 / 2)
    exitDemoIter "L3" none (demoExit "L3" 10) exitDemo_keys hnd (by simp [exitDemoIter])
    (by simp [exitDemo, GoMap.set_apply])
  have htok : seedSymbolToToken exitDemo.symbol = some 26000 := by
    simp [exitDemo, demoStrategy, seedSymbolToToken, GoMap.set_apply]
  refine ⟨?_, ?_, ?_, ?_⟩
  · exact (h0.1 (Or.inl (by simp [exitDemo, demoStrategy, GoMap.set_apply]))).2.2
  · exact (h3.1 (Or.inr ⟨{ demoPos 10 50 "X3" ExitPending with
        OrdID := "L3", TiqsEntryOrdID := "E3" },
      by simp [exitDemo, demoStrategy, GoMap.set_apply], by simp [demoPos]⟩)).2.2
  · have w := h2.2.1 { demoPos 25 50 "" EntryOpen with OrdID := "L2", TiqsEntryOrdID := "E2" }
      (by simp [exitDemo, demoStrategy, GoMap.set_apply]) (by simp [demoPos])
      (Or.inl (by simp [demoPos]; decide))
    exact ⟨w.2.1, w.2.2⟩
  · have w := h1.2.2.1 (demoPos 100 50 "" EntryComplete) 26000
      (by simp [exitDemo, demoStrategy, GoMap.set_apply]) (by simp [demoPos])
      (by simp [demoPos]; decide) htok
    obtain ⟨⟨req, r1, r2, _, r4, _⟩, wn, _⟩ := w
    obtain ⟨n1, _, _, n4, n5⟩ := wn "X1" rfl
    obtain ⟨n41, n42⟩ := n4 (by simp [exitDemoIter])
    have h40 : Sprint (min (demoExit "L1" 40).Qty (demoPos 100 50 "" EntryComplete).Qty) = "40" := by
      simp [demoExit, demoPos]
      decide
    refine ⟨⟨req, r1, by rw [r2, h40], r4 (by simp [demoPos])⟩, ?_, ?_, ?_, n5⟩
    · simpa [demoPos] using n1
    · simpa [demoExit] using n41
    · simpa [exitDemo, demoStrategy] using n42

/-! ## Shape of an order-update step -/

/-- An update that resolves to no open position changes nothing. -/
theorem orderUpdateStep_unresolved (s : strategy) (disp : GoMap String) (u : OrderUpdate)
    (h : s.tiqsOrderIdToLocalOrderId u.ID = none ∨
      ∃ lid, s.tiqsOrderIdToLocalOrderId u.ID = some lid ∧ s.openPos lid = none) :
    orderUpdateStep s disp u = (s, disp) := by
  rcases h with h | ⟨lid, h1, h2⟩
  · simp [orderUpdateStep, strategy.getTiqsOrderIdToLocalOrderId, h]
  · simp [orderUpdateStep, strategy.getTiqsOrderIdToLocalOrderId, strategy.getOpenPos, h1, h2]

/-- An order-update step never touches the intents, the name or the symbol. -/
theorem orderUpdateStep_static (s : strategy) (disp : GoMap String) (u : OrderUpdate) :
    (orderUpdateStep s disp u).1.ordEntry = s.ordEntry ∧
    (orderUpdateStep s disp u).1.ordExit = s.ordExit ∧
    (orderUpdateStep s disp u).1.name = s.name ∧
    (orderUpdateStep s disp u).1.symbol = s.symbol := by
  cases hm : s.tiqsOrderIdToLocalOrderId u.ID with
  | none =>
    rw [orderUpdateStep_unresolved s disp u (Or.inl hm)]
    exact ⟨rfl, rfl, rfl, rfl⟩
  | some lid =>
    cases hp : s.openPos lid with
    | none =>
      rw [orderUpdateStep_unresolved s disp u (Or.inr ⟨lid, hm, hp⟩)]
      exact ⟨rfl, rfl, rfl, rfl⟩
    | some p =>
      simp only [orderUpdateStep, strategy.getTiqsOrderIdToLocalOrderId, strategy.getOpenPos,
        hm, hp]
      split_ifs <;>
        simp [strategy.insertOpenPos, strategy.deleteOpenPos, strategy.insertClosedPos,
          strategy.deleteTiqsOrderIdToLocalOrderId]

/-- The eight ways a resolved update acts on `openPos` and the lookup maps. -/
theorem orderUpdateStep_resolved (s : strategy) (disp : GoMap String) (u : OrderUpdate)
    (lid : String) (p : Position)
    (hmap : s.tiqsOrderIdToLocalOrderId u.ID = some lid) (hpos : s.openPos lid = some p) :
    (u.Status = COMPLETE ∧ p.TiqsEntryOrdID = u.ID ∧
      (orderUpdateStep s disp u).1.openPos =
        s.openPos.set lid
          { p with
            Qty := u.Qty, EntryTime := u.ExchangeTime, EntryPx := u.AvgPrice,
            Status := EntryComplete } ∧
      (orderUpdateStep s disp u).1.tiqsOrderIdToLocalOrderId =
        s.tiqsOrderIdToLocalOrderId.del u.ID ∧
      (orderUpdateStep s disp u).2 = disp.del u.ID) ∨
    (u.Status = COMPLETE ∧ p.TiqsEntryOrdID ≠ u.ID ∧ subInt p.Qty u.Qty = 0 ∧
      (orderUpdateStep s disp u).1.openPos = s.openPos.del lid ∧
      (orderUpdateStep s disp u).1.tiqsOrderIdToLocalOrderId =
        s.tiqsOrderIdToLocalOrderId.del u.ID ∧
      (orderUpdateStep s disp u).2 = disp.del u.ID) ∨
    (u.Status = COMPLETE ∧ p.TiqsEntryOrdID ≠ u.ID ∧ subInt p.Qty u.Qty ≠ 0 ∧
      (orderUpdateStep s disp u).1.openPos =
        s.openPos.set lid
          { p with Qty := subInt p.Qty u.Qty, TiqsExitOrdID := "", Status := ExitPartial } ∧
      (orderUpdateStep s disp u).1.tiqsOrderIdToLocalOrderId =
        s.tiqsOrderIdToLocalOrderId.del u.ID ∧
      (orderUpdateStep s disp u).2 = disp.del u.ID) ∨
    ((u.Status = REJECTED ∨ u.Status = CANCELED) ∧ p.TiqsEntryOrdID = u.ID ∧
      (orderUpdateStep s disp u).1.openPos = s.openPos.del lid ∧
      (orderUpdateStep s disp u).1.tiqsOrderIdToLocalOrderId =
        s.tiqsOrderIdToLocalOrderId.del u.ID ∧
      (orderUpdateStep s disp u).2 = disp.del u.ID) ∨
    ((u.Status = REJECTED ∨ u.Status = CANCELED) ∧ p.TiqsEntryOrdID ≠ u.ID ∧
      (orderUpdateStep s disp u).1.openPos =
        s.openPos.set lid { p with TiqsExitOrdID := "", Status := EntryComplete } ∧
      (orderUpdateStep s disp u).1.tiqsOrderIdToLocalOrderId =
        s.tiqsOrderIdToLocalOrderId.del u.ID ∧
      (orderUpdateStep s disp u).2 = disp.del u.ID) ∨
    (u.Status = OPEN ∧ p.TiqsEntryOrdID = u.ID ∧
      (orderUpdateStep s disp u).1.openPos = s.openPos.set lid { p with Status := EntryOpen } ∧
      (orderUpdateStep s disp u).1.tiqsOrderIdToLocalOrderId = s.tiqsOrderIdToLocalOrderId ∧
      (orderUpdateStep s disp u).2 = disp) ∨
    (u.Status = OPEN ∧ p.TiqsEntryOrdID ≠ u.ID ∧
      (orderUpdateStep s disp u).1.openPos = s.openPos.set lid { p with Status := ExitOpen } ∧
      (orderUpdateStep s disp u).1.tiqsOrderIdToLocalOrderId = s.tiqsOrderIdToLocalOrderId ∧
      (orderUpdateStep s disp u).2 = disp) ∨
    (u.Status ≠ COMPLETE ∧ u.Status ≠ REJECTED ∧ u.Status ≠ CANCELED ∧ u.Status ≠ OPEN ∧
      orderUpdateStep s disp u = (s, disp)) := by
  by_cases hc : u.Status = COMPLETE
  · by_cases hleg : p.TiqsEntryOrdID = u.ID
    · refine Or.inl ⟨hc, hleg, ?_, ?_, ?_⟩ <;>
        simp [orderUpdateStep, strategy.getTiqsOrderIdToLocalOrderId, strategy.getOpenPos, hmap,
          hpos, hc, hleg, strategy.insertOpenPos, strategy.deleteTiqsOrderIdToLocalOrderId]
    · by_cases hz : subInt p.Qty u.Qty = 0
      · refine Or.inr (Or.inl ⟨hc, hleg, hz, ?_, ?_, ?_⟩) <;>
          simp [orderUpdateStep, strategy.getTiqsOrderIdToLocalOrderId, strategy.getOpenPos,
            hmap, hpos, hc, hleg, hz, strategy.deleteOpenPos, strategy.insertClosedPos,
            strategy.deleteTiqsOrderIdToLocalOrderId]
      · refine Or.inr (Or.inr (Or.inl ⟨hc, hleg, hz, ?_, ?_, ?_⟩)) <;>
          simp [orderUpdateStep, strategy.getTiqsOrderIdToLocalOrderId, strategy.getOpenPos,
            hmap, hpos, hc, hleg, hz, strategy.insertOpenPos, strategy.insertClosedPos,
            strategy.deleteTiqsOrderIdToLocalOrderId]
  · by_cases hr : u.Status = REJECTED ∨ u.Status = CANCELED
    · by_cases hleg : p.TiqsEntryOrdID = u.ID
      · refine Or.inr (Or.inr (Or.inr (Or.inl ⟨hr, hleg, ?_, ?_, ?_⟩))) <;>
          simp [orderUpdateStep, strategy.getTiqsOrderIdToLocalOrderId, strategy.getOpenPos,
            hmap, hpos, hc, hr, hleg, strategy.deleteOpenPos,
            strategy.deleteTiqsOrderIdToLocalOrderId]
      · refine Or.inr (Or.inr (Or.inr (Or.inr (Or.inl ⟨hr, hleg, ?_, ?_, ?_⟩)))) <;>
          simp [orderUpdateStep, strategy.getTiqsOrderIdToLocalOrderId, strategy.getOpenPos,
            hmap, hpos, hc, hr, hleg, strategy.insertOpenPos,
            strategy.deleteTiqsOrderIdToLocalOrderId]
    · by_cases ho : u.Status = OPEN
      · have hoc : ¬ OPEN = COMPLETE := by decide
        have hor : ¬ OPEN = REJECTED := by decide
        have hon : ¬ OPEN = CANCELED := by decide
        by_cases hleg : p.TiqsEntryOrdID = u.ID
        · refine Or.inr (Or.inr (Or.inr (Or.inr (Or.inr (Or.inl ⟨ho, hleg, ?_, ?_, ?_⟩))))) <;>
            simp [orderUpdateStep, strategy.getTiqsOrderIdToLocalOrderId, strategy.getOpenPos,
              hmap, hpos, ho, hoc, hor, hon, hleg, strategy.insertOpenPos]
        · refine Or.inr (Or.inr (Or.inr (Or.inr (Or.inr (Or.inr (Or.inl
            ⟨ho, hleg, ?_, ?_, ?_⟩)))))) <;>
            simp [orderUpdateStep, strategy.getTiqsOrderIdToLocalOrderId, strategy.getOpenPos,
              hmap, hpos, ho, hoc, hor, hon, hleg, strategy.insertOpenPos]
      · refine Or.inr (Or.inr (Or.inr (Or.inr (Or.inr (Or.inr (Or.inr
          ⟨hc, fun h => hr (Or.inl h), fun h => hr (Or.inr h), ho, ?_⟩))))))
        simp [orderUpdateStep, strategy.getTiqsOrderIdToLocalOrderId, strategy.getOpenPos,
          hmap, hpos, hc, hr, ho]

/-! ## The position invariant -/

theorem PositionStatus.lt_def (a b : PositionStatus) : a < b ↔ a.toNat < b.toNat := Iff.rfl

theorem PositionStatus.le_def (a b : PositionStatus) : a ≤ b ↔ a.toNat ≤ b.toNat := Iff.rfl

theorem PosInv.mono {I J : List String} {s : strategy} (h : PosInv I s)
    (hsub : ∀ x ∈ I, x ∈ J) : PosInv J s where
  entryKeys := h.entryKeys
  exitKeys := h.exitKeys
  ordID := h.ordID
  key := fun X lid hX => ⟨hsub _ (h.key X lid hX).1, (h.key X lid hX).2⟩
  pos := fun lid p hp => ⟨hsub _ (h.pos lid p hp).1, (h.pos lid p hp).2⟩

/-- Only the four fields that the invariant reads matter. -/
theorem PosInv.congr {I : List String} {s s1 : strategy} (h : PosInv I s)
    (h1 : s1.ordEntry = s.ordEntry) (h2 : s1.ordExit = s.ordExit)
    (h3 : s1.openPos = s.openPos)
    (h4 : s1.tiqsOrderIdToLocalOrderId = s.tiqsOrderIdToLocalOrderId) : PosInv I s1 where
  entryKeys := by rw [h1]; exact h.entryKeys
  exitKeys := by rw [h2]; exact h.exitKeys
  ordID := by rw [h3]; exact h.ordID
  key := by rw [h3, h4]; exact h.key
  pos := by rw [h3]; exact h.pos

/-- A position has at most one live order number. -/
theorem PosInv.unique {I : List String} {s : strategy} (h : PosInv I s)
    (hI : ∀ x ∈ I, x ≠ "") (X Y lid : String)
    (hX : s.tiqsOrderIdToLocalOrderId X = some lid)
    (hY : s.tiqsOrderIdToLocalOrderId Y = some lid) : X = Y := by
  obtain ⟨hXI, p, hp, lX⟩ := h.key X lid hX
  obtain ⟨hYI, q, hq, lY⟩ := h.key Y lid hY
  rw [hp] at hq
  cases hq
  rcases lX with ⟨x1, x2, x3⟩ | ⟨x1, x2, x3, x4⟩
  · rcases lY with ⟨y1, _, _⟩ | ⟨y1, _, _, _⟩
    · rw [x1, y1]
    · rw [x3] at y1
      exact absurd y1 (hI Y hYI)
  · rcases lY with ⟨y1, y2, y3⟩ | ⟨y1, _, _, _⟩
    · simp only [PositionStatus.lt_def, PositionStatus.le_def, PositionStatus.toNat] at x3 y2
      omega
    · rw [x1, y1]

/-- The position that an order number resolves to, and how it is live for it. -/
theorem PosInv.resolve {I : List String} {s : strategy} (h : PosInv I s) (X lid : String)
    (p : Position) (hX : s.tiqsOrderIdToLocalOrderId X = some lid)
    (hp : s.openPos lid = some p) : X ∈ I ∧ LiveFor X p := by
  obtain ⟨hXI, q, hq, lX⟩ := h.key X lid hX
  rw [hp] at hq
  cases hq
  exact ⟨hXI, lX⟩

/-- The invariant survives a change of the position that `X` resolves to,
together with the removal of `X` from the lookup map unless `keep` is set. -/
theorem PosInv.update {I : List String} {s s1 : strategy} (h : PosInv I s)
    (hI : ∀ x ∈ I, x ≠ "") (X lid : String) (p : Position)
    (hX : s.tiqsOrderIdToLocalOrderId X = some lid) (hp : s.openPos lid = some p)
    (h1 : s1.ordEntry = s.ordEntry) (h2 : s1.ordExit = s.ordExit)
    (o : Option Position) (keep : Bool)
    (h3 : s1.openPos = match o with
      | some q => s.openPos.set lid q
      | none => s.openPos.del lid)
    (h4 : s1.tiqsOrderIdToLocalOrderId =
      if keep then s.tiqsOrderIdToLocalOrderId else s.tiqsOrderIdToLocalOrderId.del X)
    (hgood : ∀ q, o = some q →
      q.OrdID = p.OrdID ∧ q.TiqsEntryOrdID = p.TiqsEntryOrdID ∧
      (q.TiqsExitOrdID = "" → q.Status ≠ ExitPending ∧ q.Status ≠ ExitOpen) ∧
      q.Status ≠ ExitComplete)
    (hkeep : keep = true → ∃ q, o = some q ∧ LiveFor X q) : PosInv I s1 where
  entryKeys := by rw [h1]; exact h.entryKeys
  exitKeys := by rw [h2]; exact h.exitKeys
  ordID := by
    intro lid1 q hq
    rw [h3] at hq
    by_cases hl : lid1 = lid
    · subst hl
      cases o with
      | none => simp at hq
      | some q0 =>
        simp only [GoMap.set_self] at hq
        cases hq
        rw [(hgood q rfl).1]
        exact h.ordID _ _ hp
    · cases o with
      | none =>
        simp only at hq
        rw [GoMap.del_other _ _ _ hl] at hq; exact h.ordID _ _ hq
      | some q0 =>
        simp only at hq
        rw [GoMap.set_other _ _ _ _ hl] at hq; exact h.ordID _ _ hq
  key := by
    intro Y lid1 hY
    have hY0 : s.tiqsOrderIdToLocalOrderId Y = some lid1 ∧ (keep = false → Y ≠ X) := by
      rw [h4] at hY
      cases keep with
      | true => exact ⟨hY, fun hc => by cases hc⟩
      | false =>
        simp only [Bool.false_eq_true, if_false] at hY
        by_cases hYX : Y = X
        · subst hYX; simp at hY
        · rw [GoMap.del_other _ _ _ hYX] at hY
          exact ⟨hY, fun _ => hYX⟩
    obtain ⟨hYs, hYne⟩ := hY0
    obtain ⟨hYI, q, hq, lY⟩ := h.key Y lid1 hYs
    refine ⟨hYI, ?_⟩
    by_cases hl : lid1 = lid
    · subst hl
      have hYX : Y = X := h.unique hI Y X lid1 hYs hX
      subst hYX
      cases keep with
      | false => exact absurd rfl (hYne rfl)
      | true =>
        obtain ⟨q1, ho, hlive⟩ := hkeep rfl
        subst ho
        exact ⟨q1, by rw [h3]; simp, hlive⟩
    · refine ⟨q, ?_, lY⟩
      rw [h3]
      cases o with
      | none =>
        simp only
        rw [GoMap.del_other _ _ _ hl]; exact hq
      | some q0 =>
        simp only
        rw [GoMap.set_other _ _ _ _ hl]; exact hq
  pos := by
    intro lid1 q hq
    rw [h3] at hq
    by_cases hl : lid1 = lid
    · subst hl
      cases o with
      | none => simp at hq
      | some q0 =>
        simp only [GoMap.set_self] at hq
        cases hq
        obtain ⟨_, g2, g3, g4⟩ := hgood q rfl
        refine ⟨?_, g3, g4⟩
        rw [g2]
        exact (h.pos _ _ hp).1
    · cases o with
      | none =>
        simp only at hq
        rw [GoMap.del_other _ _ _ hl] at hq; exact h.pos _ _ hq
      | some q0 =>
        simp only at hq
        rw [GoMap.set_other _ _ _ _ hl] at hq; exact h.pos _ _ hq

/-- An order-update step keeps the position invariant. -/
theorem orderUpdateStep_posInv {I : List String} {s : strategy} (h : PosInv I s)
    (hI : ∀ x ∈ I, x ≠ "") (disp : GoMap String) (u : OrderUpdate) :
    PosInv I (orderUpdateStep s disp u).1 := by
  cases hm : s.tiqsOrderIdToLocalOrderId u.ID with
  | none => rw [orderUpdateStep_unresolved s disp u (Or.inl hm)]; exact h
  | some lid =>
    cases hp : s.openPos lid with
    | none => rw [orderUpdateStep_unresolved s disp u (Or.inr ⟨lid, hm, hp⟩)]; exact h
    | some p =>
      obtain ⟨e1, e2, _, _⟩ := orderUpdateStep_static s disp u
      obtain ⟨hXI, hlive⟩ := h.resolve u.ID lid p hm hp
      have hXne : u.ID ≠ "" := hI _ hXI
      rcases orderUpdateStep_resolved s disp u lid p hm hp with
        ⟨_, hleg, ho, ht, _⟩ | ⟨_, hleg, _, ho, ht, _⟩ | ⟨_, hleg, _, ho, ht, _⟩ |
        ⟨_, hleg, ho, ht, _⟩ | ⟨_, hleg, ho, ht, _⟩ | ⟨_, hleg, ho, ht, _⟩ |
        ⟨_, hleg, ho, ht, _⟩ | ⟨_, _, _, _, hsame⟩
      · -- entry filled
        refine h.update hI u.ID lid p hm hp e1 e2 (some _) false ho (by simpa using ht) ?_
          (fun hc => by cases hc)
        intro q hq
        cases hq
        rcases hlive with ⟨_, _, x3⟩ | ⟨_, x2, _, _⟩
        · exact ⟨rfl, rfl, fun _ => ⟨by simp, by simp⟩, by simp⟩
        · exact absurd hleg.symm x2
      · -- exit filled in full
        exact h.update hI u.ID lid p hm hp e1 e2 none false ho (by simpa using ht)
          (fun q hq => by cases hq) (fun hc => by cases hc)
      · -- exit filled in part
        refine h.update hI u.ID lid p hm hp e1 e2 (some _) false ho (by simpa using ht) ?_
          (fun hc => by cases hc)
        intro q hq
        cases hq
        exact ⟨rfl, rfl, fun _ => ⟨by simp, by simp⟩, by simp⟩
      · -- entry rejected or canceled
        exact h.update hI u.ID lid p hm hp e1 e2 none false ho (by simpa using ht)
          (fun q hq => by cases hq) (fun hc => by cases hc)
      · -- exit rejected or canceled
        refine h.update hI u.ID lid p hm hp e1 e2 (some _) false ho (by simpa using ht) ?_
          (fun hc => by cases hc)
        intro q hq
        cases hq
        exact ⟨rfl, rfl, fun _ => ⟨by simp, by simp⟩, by simp⟩
      · -- entry open
        rcases hlive with ⟨x1, _, x3⟩ | ⟨_, x2, _, _⟩
        · refine h.update hI u.ID lid p hm hp e1 e2 (some _) true ho (by simpa using ht) ?_ ?_
          · intro q hq
            cases hq
            exact ⟨rfl, rfl, fun _ => ⟨by simp, by simp⟩, by simp⟩
          · intro _
            exact ⟨_, rfl, Or.inl ⟨x1, by simp [PositionStatus.lt_def, PositionStatus.toNat], x3⟩⟩
        · exact absurd hleg.symm x2
      · -- exit open
        rcases hlive with ⟨x1, _, _⟩ | ⟨x1, x2, _, _⟩
        · exact absurd x1.symm hleg
        · refine h.update hI u.ID lid p hm hp e1 e2 (some _) true ho (by simpa using ht) ?_ ?_
          · intro q hq
            cases hq
            refine ⟨rfl, rfl, fun hc => ?_, by simp⟩
            exact absurd (x1.trans hc) hXne
          · intro _
            exact ⟨_, rfl, Or.inr ⟨x1, x2, by simp [PositionStatus.le_def, PositionStatus.toNat],
              by simp [PositionStatus.le_def, PositionStatus.toNat]⟩⟩
      · rw [hsame]; exact h

/-- The invariant survives the opening of a position under a free local id with
a fresh entry order number. -/
theorem PosInv.insert {I : List String} {s s1 : strategy} (h : PosInv I s) (id n : String)
    (q : Position) (hnone : s.openPos id = none) (hq1 : q.OrdID = id)
    (hq2 : q.TiqsEntryOrdID = n) (hq3 : q.TiqsExitOrdID = "") (hq4 : q.Status = EntryPending)
    (h1 : s1.ordEntry = s.ordEntry) (h2 : s1.ordExit = s.ordExit)
    (h3 : s1.openPos = s.openPos.set id q)
    (h4 : s1.tiqsOrderIdToLocalOrderId = s.tiqsOrderIdToLocalOrderId.set n id) :
    PosInv (I ++ [n]) s1 where
  entryKeys := by rw [h1]; exact h.entryKeys
  exitKeys := by rw [h2]; exact h.exitKeys
  ordID := by
    intro lid1 p hp
    rw [h3] at hp
    by_cases hl : lid1 = id
    · subst hl
      simp only [GoMap.set_self] at hp
      cases hp
      exact hq1
    · rw [GoMap.set_other _ _ _ _ hl] at hp
      exact h.ordID _ _ hp
  key := by
    intro Y lid1 hY
    rw [h4] at hY
    by_cases hYn : Y = n
    · subst hYn
      simp only [GoMap.set_self] at hY
      cases hY
      refine ⟨by simp, q, by rw [h3]; simp, Or.inl ⟨hq2.symm, ?_, hq3⟩⟩
      rw [hq4]
      decide
    · rw [GoMap.set_other _ _ _ _ hYn] at hY
      obtain ⟨hYI, p, hp, hlive⟩ := h.key Y lid1 hY
      have hl : lid1 ≠ id := by
        intro hc
        rw [hc, hnone] at hp
        cases hp
      exact ⟨List.mem_append_left _ hYI, p, by rw [h3, GoMap.set_other _ _ _ _ hl]; exact hp, hlive⟩
  pos := by
    intro lid1 p hp
    rw [h3] at hp
    by_cases hl : lid1 = id
    · subst hl
      simp only [GoMap.set_self] at hp
      cases hp
      refine ⟨by simp [hq2], fun _ => ?_, ?_⟩
      · rw [hq4]; exact ⟨by decide, by decide⟩
      · rw [hq4]; decide
    · rw [GoMap.set_other _ _ _ _ hl] at hp
      obtain ⟨g1, g2⟩ := h.pos _ _ hp
      exact ⟨List.mem_append_left _ g1, g2⟩

/-- The invariant survives the placement of an exit order with a fresh,
non-empty order number for a position that has none. -/
theorem PosInv.placeExit {I : List String} {s s1 : strategy} (h : PosInv I s)
    (hI : ∀ x ∈ I, x ≠ "") (id n : String) (p : Position) (hp : s.openPos id = some p)
    (hx : p.TiqsExitOrdID = "") (hs : ¬ p.Status < EntryComplete) (hn : n ∉ I) (hne : n ≠ "")
    (h1 : s1.ordEntry = s.ordEntry) (h2 : s1.ordExit = s.ordExit)
    (h3 : s1.openPos = s.openPos.set id { p with Status := ExitPending, TiqsExitOrdID := n })
    (h4 : s1.tiqsOrderIdToLocalOrderId = s.tiqsOrderIdToLocalOrderId.set n id) :
    PosInv (I ++ [n]) s1 where
  entryKeys := by rw [h1]; exact h.entryKeys
  exitKeys := by rw [h2]; exact h.exitKeys
  ordID := by
    intro lid1 q hq
    rw [h3] at hq
    by_cases hl : lid1 = id
    · subst hl
      simp only [GoMap.set_self] at hq
      cases hq
      show p.OrdID = lid1
      exact h.ordID _ _ hp
    · rw [GoMap.set_other _ _ _ _ hl] at hq
      exact h.ordID _ _ hq
  key := by
    intro Y lid1 hY
    rw [h4] at hY
    by_cases hYn : Y = n
    · subst hYn
      simp only [GoMap.set_self] at hY
      cases hY
      refine ⟨by simp, { p with Status := ExitPending, TiqsExitOrdID := Y }, by rw [h3]; simp,
        Or.inr ⟨rfl, ?_, by simp [PositionStatus.le_def],
          by simp [PositionStatus.le_def, PositionStatus.toNat]⟩⟩
      intro hc
      apply hn
      have hin : p.TiqsEntryOrdID ∈ I := (h.pos _ _ hp).1
      have hc' : Y = p.TiqsEntryOrdID := hc
      rw [hc']
      exact hin
    · rw [GoMap.set_other _ _ _ _ hYn] at hY
      obtain ⟨hYI, q, hq, hlive⟩ := h.key Y lid1 hY
      have hl : lid1 ≠ id := by
        intro hc
        rw [hc, hp] at hq
        cases hq
        rcases hlive with ⟨_, y2, _⟩ | ⟨y1, _, _, _⟩
        · exact hs y2
        · rw [hx] at y1
          exact hI Y hYI y1
      exact ⟨List.mem_append_left _ hYI, q, by rw [h3, GoMap.set_other _ _ _ _ hl]; exact hq, hlive⟩
  pos := by
    intro lid1 q hq
    rw [h3] at hq
    by_cases hl : lid1 = id
    · subst hl
      simp only [GoMap.set_self] at hq
      cases hq
      refine ⟨List.mem_append_left _ (h.pos _ _ hp).1, fun hc => absurd hc hne, by simp⟩
    · rw [GoMap.set_other _ _ _ _ hl] at hq
      obtain ⟨g1, g2⟩ := h.pos _ _ hq
      exact ⟨List.mem_append_left _ g1, g2⟩

theorem entryVisit_posInv {I : List String} (tm : GoMap Int) (tick : Tick) (L : LoopState)
    (it : String × Option String) (h : PosInv I L.s) :
    PosInv (I ++ it.2.toList) (entryVisit tm tick L it).s := by
  have hmono : PosInv (I ++ it.2.toList) L.s := h.mono (fun x hx => List.mem_append_left _ hx)
  cases he : L.s.ordEntry it.1 with
  | none => rw [entryVisit_none tm tick L it he]; exact hmono
  | some e =>
    have hid : e.OrderID = it.1 := h.entryKeys _ _ he
    rw [entryVisit_some tm tick L it e he]
    rcases entryIteration_cases tm tick L it.1 e it.2 with
      ⟨p, _, hv⟩ | ⟨_, _, hv⟩ | ⟨t, _, _, _, hv⟩ | ⟨t, n, hp, _, hr, hv⟩
    · rw [hv]; exact hmono
    · rw [hv]; exact hmono
    · rw [hv]; exact hmono
    · rw [hv, hr]
      exact h.insert it.1 n (entryPosition L.s.symbol tick e n) hp hid rfl rfl rfl rfl rfl
        (by rw [hid]) (by rw [hid])

theorem exitVisit_posInv {I : List String} (tm : GoMap Int) (ltp : Float64) (L : LoopState)
    (it : String × Option String) (h : PosInv I L.s) (hI : ∀ x ∈ I, x ≠ "")
    (hfresh : ∀ n, it.2 = some n → n ∉ I ∧ n ≠ "") :
    PosInv (I ++ it.2.toList) (exitVisit tm ltp L it).s := by
  have hmono : PosInv (I ++ it.2.toList) L.s := h.mono (fun x hx => List.mem_append_left _ hx)
  cases he : L.s.ordExit it.1 with
  | none => rw [exitVisit_none tm ltp L it he]; exact hmono
  | some e =>
    have hid : e.OrderID = it.1 := h.exitKeys _ _ he
    rw [exitVisit_some tm ltp L it e he]
    rcases exitIteration_cases tm ltp L it.1 e it.2 with
      ⟨_, hv⟩ | ⟨_, hv⟩ | ⟨p, t, _, _, _, _, _, hv⟩ | ⟨p, t, n, hp, hx, hs, _, hr, hv⟩
    · rw [hv]; exact hmono
    · rw [hv]; exact hmono
    · rw [hv]; exact hmono
    · rw [hv, hr]
      obtain ⟨f1, f2⟩ := hfresh n hr
      exact h.placeExit hI it.1 n p hp hx hs f1 f2 rfl rfl rfl (by rw [hid])

theorem Fresh.tail {I : List String} {it : String × Option String}
    {rest : List (String × Option String)} (h : Fresh I (it :: rest)) :
    Fresh (I ++ it.2.toList) rest ∧ (∀ n, it.2 = some n → n ∉ I) ∧
    I ++ (it :: rest).filterMap Prod.snd = (I ++ it.2.toList) ++ rest.filterMap Prod.snd := by
  obtain ⟨hnd, hni⟩ := h
  cases h2 : it.2 with
  | none =>
    simp only [List.filterMap_cons, h2] at hnd hni
    exact ⟨⟨hnd, by simpa using hni⟩, fun n hn => (by cases hn), by simp [List.filterMap_cons, h2]⟩
  | some n =>
    simp only [List.filterMap_cons, h2, List.nodup_cons, List.mem_cons, forall_eq_or_imp]
      at hnd hni
    refine ⟨⟨hnd.2, ?_⟩, ?_, by simp [List.filterMap_cons, h2]⟩
    · intro m hm
      simp only [Option.toList, List.mem_append, List.mem_singleton, not_or]
      refine ⟨hni.2 m hm, ?_⟩
      intro hc
      rw [hc] at hm
      exact hnd.1 hm
    · intro m hm
      cases hm
      exact hni.1

theorem entryLoop_posInv {I : List String} (tm : GoMap Int) (tick : Tick)
    (iter : List (String × Option String)) (L : LoopState) (h : PosInv I L.s)
    (hf : Fresh I iter) :
    PosInv (I ++ iter.filterMap Prod.snd) (entryLoop tm tick L iter).s := by
  induction iter generalizing L I with
  | nil => simpa [entryLoop] using h
  | cons it rest ih =>
    obtain ⟨f1, _, f3⟩ := hf.tail
    rw [entryLoop_cons, f3]
    exact ih _ (entryVisit_posInv tm tick L it h) f1

theorem exitLoop_posInv {I : List String} (tm : GoMap Int) (ltp : Float64)
    (iter : List (String × Option String)) (L : LoopState) (h : PosInv I L.s)
    (hf : Fresh I iter) (hI : ∀ x ∈ I ++ iter.filterMap Prod.snd, x ≠ "") :
    PosInv (I ++ iter.filterMap Prod.snd) (exitLoop tm ltp L iter).s := by
  induction iter generalizing L I with
  | nil => simpa [exitLoop] using h
  | cons it rest ih =>
    obtain ⟨f1, f2, f3⟩ := hf.tail
    rw [f3] at hI
    rw [exitLoop_cons, f3]
    refine ih _ (exitVisit_posInv tm ltp L it h ?_ ?_) f1 hI
    · intro x hx
      exact hI x (List.mem_append_left _ (List.mem_append_left _ hx))
    · intro n hn
      refine ⟨f2 n hn, ?_⟩
      apply hI
      simp [hn]

theorem GoMap.delAll_some {α : Type} (ks : List String) (m : GoMap α) (k : String) (v : α)
    (h : m.delAll ks k = some v) : m k = some v := by
  rw [GoMap.delAll_apply] at h
  split_ifs at h
  exact h

theorem processEntryOrders_posInv {I : List String} (tm : GoMap Int) (s : strategy)
    (disp : GoMap String) (tick : Tick) (iter : List (String × Option String))
    (h : PosInv I s) (hf : Fresh I iter) :
    PosInv (I ++ iter.filterMap Prod.snd) (processEntryOrders tm s disp tick iter).1 := by
  have hl := entryLoop_posInv tm tick iter ⟨s, disp, [], []⟩ h hf
  rw [processEntryOrders_eq]
  exact
    { entryKeys := fun id e he => h.entryKeys id e (GoMap.delAll_some _ _ _ _ he)
      exitKeys := hl.exitKeys
      ordID := hl.ordID
      key := hl.key
      pos := hl.pos }

theorem processExitOrders_posInv {I : List String} (tm : GoMap Int) (s : strategy)
    (disp : GoMap String) (ltp : Float64) (iter : List (String × Option String))
    (h : PosInv I s) (hf : Fresh I iter) (hI : ∀ x ∈ I ++ iter.filterMap Prod.snd, x ≠ "") :
    PosInv (I ++ iter.filterMap Prod.snd) (processExitOrders tm s disp ltp iter).1 := by
  have hl := exitLoop_posInv tm ltp iter ⟨s, disp, [], []⟩ h hf hI
  rw [processExitOrders_eq]
  exact
    { entryKeys := hl.entryKeys
      exitKeys := fun id e he => h.exitKeys id e (GoMap.delAll_some _ _ _ _ he)
      ordID := hl.ordID
      key := hl.key
      pos := hl.pos }

theorem newStrategy_posInv (I : List String) (name symbol : String) :
    PosInv I (newStrategy name symbol) where
  entryKeys := fun id e h => by simp [newStrategy] at h
  exitKeys := fun id e h => by simp [newStrategy] at h
  ordID := fun lid p h => by simp [newStrategy] at h
  key := fun X lid h => by simp [newStrategy] at h
  pos := fun lid p h => by simp [newStrategy] at h

theorem Entry_posInv {I : List String} {s : strategy} (h : PosInv I s) (orderID : String)
    (opts : EntryOpts) : PosInv I (s.Entry orderID opts).1 := by
  unfold strategy.Entry
  simp only
  split_ifs
  · exact
      { entryKeys := by
          intro id e he
          simp only [strategy.insertOrdEntry, GoMap.set_apply] at he
          split_ifs at he with hid
          · cases he
            exact hid.symm
          · exact h.entryKeys id e he
        exitKeys := h.exitKeys
        ordID := h.ordID
        key := h.key
        pos := h.pos }
  · exact h

theorem Exit_posInv {I : List String} {s : strategy} (h : PosInv I s) (orderID : String)
    (opts : ExitOpts) : PosInv I (s.Exit orderID opts).1 := by
  unfold strategy.Exit
  simp only
  split_ifs
  · exact
      { entryKeys := h.entryKeys
        exitKeys := by
          intro id e he
          simp only [strategy.insertOrdExit, GoMap.set_apply] at he
          split_ifs at he with hid
          · cases he
            exact hid.symm
          · exact h.exitKeys id e he
        ordID := h.ordID
        key := h.key
        pos := h.pos }
  · exact h

theorem insertBar_posInv {I : List String} {s : strategy} (h : PosInv I s) (t : Tick) :
    PosInv I (s.insertBar t) :=
  h.congr rfl rfl rfl rfl

theorem processPnls_openPos (s : strategy) (tick : Tick) (keys : List String) (lid : String)
    (q : Position) (h : (s.processPnls tick keys).openPos lid = some q) :
    ∃ p, s.openPos lid = some p ∧ q = { p with PnL := (tick.LTP : ℚ) / 100 - p.EntryPx } := by
  simp only [strategy.processPnls] at h
  cases hp : s.openPos lid with
  | none => simp [hp] at h
  | some p =>
    simp only [hp, Option.map_some'] at h
    cases h
    exact ⟨p, rfl, rfl⟩

theorem processPnls_posInv {I : List String} {s : strategy} (h : PosInv I s) (tick : Tick)
    (keys : List String) : PosInv I (s.processPnls tick keys) where
  entryKeys := h.entryKeys
  exitKeys := h.exitKeys
  ordID := by
    intro lid q hq
    obtain ⟨p, hp, rfl⟩ := processPnls_openPos s tick keys lid q hq
    exact h.ordID lid p hp
  key := by
    intro X lid hX
    obtain ⟨hXI, p, hp, hlive⟩ := h.key X lid hX
    refine ⟨hXI, { p with PnL := (tick.LTP : ℚ) / 100 - p.EntryPx }, ?_, hlive⟩
    simp [strategy.processPnls, hp]
  pos := by
    intro lid q hq
    obtain ⟨p, hp, rfl⟩ := processPnls_openPos s tick keys lid q hq
    exact h.pos lid p hp

theorem insertingSymbolsName_strategies (rows : List (String × Int)) (tr : AutoTrader) :
    (insertingSymbolsName tr rows).strategies = tr.strategies ∧
    (insertingSymbolsName tr rows).tiqsOrderIdsToStrategy = tr.tiqsOrderIdsToStrategy := by
  induction rows generalizing tr with
  | nil => exact ⟨rfl, rfl⟩
  | cons r rest ih =>
    simp only [insertingSymbolsName, List.foldl_cons]
    exact ih _

theorem NewAutoTrader_empty (rows : List (String × Int)) :
    (NewAutoTrader rows).strategies = GoMap.empty ∧
    (NewAutoTrader rows).tiqsOrderIdsToStrategy = GoMap.empty := by
  unfold NewAutoTrader
  exact insertingSymbolsName_strategies rows _

/-- After `AddStrategy` the strategies are the old ones, or the old ones and a
new strategy under a name that was free. -/
theorem AddStrategy_strategies (tr : AutoTrader) (name symbol : String) :
    (tr.AddStrategy name symbol).1.tiqsOrderIdsToStrategy = tr.tiqsOrderIdsToStrategy ∧
    ((tr.AddStrategy name symbol).1.strategies = tr.strategies ∨
      (tr.strategies name = none ∧
        (tr.AddStrategy name symbol).1.strategies =
          tr.strategies.set name (newStrategy name symbol))) := by
  unfold AutoTrader.AddStrategy
  cases hs : tr.strategies name with
  | some s0 => exact ⟨rfl, Or.inl rfl⟩
  | none =>
    cases ht : getTokenFromSymbol tr.symbolToTokenMap symbol with
    | none => exact ⟨rfl, Or.inl rfl⟩
    | some t => exact ⟨rfl, Or.inr ⟨rfl, rfl⟩⟩

/-- A step of one strategy leaves the dispatcher as it was, or replaces that
strategy. -/
theorem withStrategy_strategies (tr : AutoTrader) (name : String) (f : strategy → strategy) :
    (tr.withStrategy name f).tiqsOrderIdsToStrategy = tr.tiqsOrderIdsToStrategy ∧
    ((tr.strategies name = none ∧ tr.withStrategy name f = tr) ∨
      ∃ s, tr.strategies name = some s ∧
        (tr.withStrategy name f).strategies = tr.strategies.set name (f s)) := by
  unfold AutoTrader.withStrategy
  cases hs : tr.strategies name with
  | none => exact ⟨rfl, Or.inl ⟨rfl, rfl⟩⟩
  | some s => exact ⟨rfl, Or.inr ⟨s, rfl, rfl⟩⟩

theorem orderUpdate_shape (tr : AutoTrader) (name : String) (u : OrderUpdate) :
    (tr.strategies name = none ∧ tr.orderUpdate name u = tr) ∨
    ∃ s, tr.strategies name = some s ∧
      (tr.orderUpdate name u).strategies =
        tr.strategies.set name (orderUpdateStep s tr.tiqsOrderIdsToStrategy u).1 ∧
      (tr.orderUpdate name u).tiqsOrderIdsToStrategy =
        (orderUpdateStep s tr.tiqsOrderIdsToStrategy u).2 := by
  unfold AutoTrader.orderUpdate
  cases hs : tr.strategies name with
  | none => exact Or.inl ⟨rfl, rfl⟩
  | some s => exact Or.inr ⟨s, rfl, rfl, rfl⟩

/-- Replacing one strategy by one that satisfies the invariant for a longer
list of issued numbers. -/
theorem posInv_set {I J : List String} {m : GoMap strategy}
    (hall : ∀ nm s, m nm = some s → PosInv I s) (hsub : ∀ x ∈ I, x ∈ J) (name : String)
    (s1 : strategy) (h1 : PosInv J s1) :
    ∀ nm s, m.set name s1 nm = some s → PosInv J s := by
  intro nm s hs
  by_cases hn : nm = name
  · subst hn
    simp only [GoMap.set_self] at hs
    cases hs
    exact h1
  · rw [GoMap.set_other _ _ _ _ hn] at hs
    exact (hall nm s hs).mono hsub

/-- Every strategy of a reachable dispatcher satisfies the position invariant,
the broker's order numbers being non-empty. -/
theorem reach_posInv {I : List String} {tr : AutoTrader} (hr : Reach I tr)
    (hI : ∀ x ∈ I, x ≠ "") : ∀ nm s, tr.strategies nm = some s → PosInv I s := by
  induction hr with
  | init rows =>
    intro nm s hs
    rw [(NewAutoTrader_empty rows).1] at hs
    simp at hs
  | addStrategy name symbol _ ih =>
    obtain ⟨_, hcase⟩ := AddStrategy_strategies _ name symbol
    rcases hcase with h | ⟨_, h⟩
    · rw [h]; exact ih hI
    · rw [h]; exact posInv_set (ih hI) (fun x hx => hx) name _ (newStrategy_posInv _ _ _)
  | entry name orderID opts _ ih =>
    obtain ⟨_, hcase⟩ := withStrategy_strategies _ name (fun s => (s.Entry orderID opts).1)
    rcases hcase with ⟨_, h⟩ | ⟨s0, hs0, h⟩
    · rw [h]; exact ih hI
    · rw [h]
      exact posInv_set (ih hI) (fun x hx => hx) name _ (Entry_posInv (ih hI _ _ hs0) _ _)
  | exit name orderID opts _ ih =>
    obtain ⟨_, hcase⟩ := withStrategy_strategies _ name (fun s => (s.Exit orderID opts).1)
    rcases hcase with ⟨_, h⟩ | ⟨s0, hs0, h⟩
    · rw [h]; exact ih hI
    · rw [h]
      exact posInv_set (ih hI) (fun x hx => hx) name _ (Exit_posInv (ih hI _ _ hs0) _ _)
  | insertBar name t _ ih =>
    obtain ⟨_, hcase⟩ := withStrategy_strategies _ name (fun s => s.insertBar t)
    rcases hcase with ⟨_, h⟩ | ⟨s0, hs0, h⟩
    · rw [h]; exact ih hI
    · rw [h]
      exact posInv_set (ih hI) (fun x hx => hx) name _ (insertBar_posInv (ih hI _ _ hs0) _)
  | processPnls name t keys _ ih =>
    obtain ⟨_, hcase⟩ := withStrategy_strategies _ name (fun s => s.processPnls t keys)
    rcases hcase with ⟨_, h⟩ | ⟨s0, hs0, h⟩
    · rw [h]; exact ih hI
    · rw [h]
      exact posInv_set (ih hI) (fun x hx => hx) name _ (processPnls_posInv (ih hI _ _ hs0) _ _)
  | processEntryOrders name s0 tick iter _ hs0 _ hf ih =>
    have hI0 : ∀ x ∈ _, x ≠ "" := fun x hx => hI x (List.mem_append_left _ hx)
    simp only [AutoTrader.processEntryOrders, hs0]
    exact posInv_set (ih hI0) (fun x hx => List.mem_append_left _ hx) name _
      (processEntryOrders_posInv _ s0 _ tick iter (ih hI0 _ _ hs0) hf)
  | processExitOrders name s0 ltp iter _ hs0 _ hf ih =>
    have hI0 : ∀ x ∈ _, x ≠ "" := fun x hx => hI x (List.mem_append_left _ hx)
    simp only [AutoTrader.processExitOrders, hs0]
    exact posInv_set (ih hI0) (fun x hx => List.mem_append_left _ hx) name _
      (processExitOrders_posInv _ s0 _ ltp iter (ih hI0 _ _ hs0) hf hI)
  | orderUpdate name u _ ih =>
    rcases orderUpdate_shape _ name u with ⟨_, h⟩ | ⟨s0, hs0, h, _⟩
    · rw [h]; exact ih hI
    · rw [h]
      exact posInv_set (ih hI) (fun x hx => hx) name _
        (orderUpdateStep_posInv (ih hI _ _ hs0) hI _ u)

/-! ## The lookup-map invariant -/

theorem PlacedAt.trans {name : String} {o1 o2 : List String} {s s1 s2 : strategy}
    {d d1 d2 : GoMap String} {X : String} (h1 : PlacedAt name o1 s d s1 d1 X)
    (h2 : PlacedAt name o2 s1 d1 s2 d2 X) : PlacedAt name (o1 ++ o2) s d s2 d2 X := by
  rcases h2 with ⟨a, b⟩ | ⟨a, b, c⟩
  · rcases h1 with ⟨a1, b1⟩ | ⟨a1, b1, c1⟩
    · exact Or.inl ⟨a.trans a1, b.trans b1⟩
    · exact Or.inr ⟨List.mem_append_left _ a1, by rw [a]; exact b1, by rw [b]; exact c1⟩
  · exact Or.inr ⟨List.mem_append_right _ a, b, c⟩

theorem entryVisit_placedAt (tm : GoMap Int) (tick : Tick) (L : LoopState)
    (it : String × Option String) (X : String) :
    PlacedAt L.s.name it.2.toList L.s L.disp (entryVisit tm tick L it).s
      (entryVisit tm tick L it).disp X := by
  cases he : L.s.ordEntry it.1 with
  | none => rw [entryVisit_none tm tick L it he]; exact Or.inl ⟨rfl, rfl⟩
  | some e =>
    rw [entryVisit_some tm tick L it e he]
    rcases entryIteration_cases tm tick L it.1 e it.2 with
      ⟨p, _, hv⟩ | ⟨_, _, hv⟩ | ⟨t, _, _, _, hv⟩ | ⟨t, n, _, _, hr, hv⟩
    · rw [hv]; exact Or.inl ⟨rfl, rfl⟩
    · rw [hv]; exact Or.inl ⟨rfl, rfl⟩
    · rw [hv]; exact Or.inl ⟨rfl, rfl⟩
    · rw [hv, hr]
      by_cases hX : X = n
      · subst hX
        exact Or.inr ⟨by simp, by simp, by simp⟩
      · exact Or.inl ⟨GoMap.set_other _ _ _ _ hX, GoMap.set_other _ _ _ _ hX⟩

theorem exitVisit_placedAt (tm : GoMap Int) (ltp : Float64) (L : LoopState)
    (it : String × Option String) (X : String) :
    PlacedAt L.s.name it.2.toList L.s L.disp (exitVisit tm ltp L it).s
      (exitVisit tm ltp L it).disp X := by
  cases he : L.s.ordExit it.1 with
  | none => rw [exitVisit_none tm ltp L it he]; exact Or.inl ⟨rfl, rfl⟩
  | some e =>
    rw [exitVisit_some tm ltp L it e he]
    rcases exitIteration_cases tm ltp L it.1 e it.2 with
      ⟨_, hv⟩ | ⟨_, hv⟩ | ⟨p, t, _, _, _, _, _, hv⟩ | ⟨p, t, n, _, _, _, _, hr, hv⟩
    · rw [hv]; exact Or.inl ⟨rfl, rfl⟩
    · rw [hv]; exact Or.inl ⟨rfl, rfl⟩
    · rw [hv]; exact Or.inl ⟨rfl, rfl⟩
    · rw [hv, hr]
      by_cases hX : X = n
      · subst hX
        exact Or.inr ⟨by simp, by simp, by simp⟩
      · exact Or.inl ⟨GoMap.set_other _ _ _ _ hX, GoMap.set_other _ _ _ _ hX⟩

theorem filterMap_snd_cons (it : String × Option String)
    (rest : List (String × Option String)) :
    (it :: rest).filterMap Prod.snd = it.2.toList ++ rest.filterMap Prod.snd := by
  cases h : it.2 <;> simp [List.filterMap_cons, h]

theorem entryLoop_placedAt (tm : GoMap Int) (tick : Tick)
    (iter : List (String × Option String)) (L : LoopState) (X : String) :
    PlacedAt L.s.name (iter.filterMap Prod.snd) L.s L.disp (entryLoop tm tick L iter).s
      (entryLoop tm tick L iter).disp X := by
  induction iter generalizing L with
  | nil => exact Or.inl ⟨rfl, rfl⟩
  | cons it rest ih =>
    rw [entryLoop_cons, filterMap_snd_cons]
    have h2 := ih (entryVisit tm tick L it)
    rw [(entryVisit_static tm tick L it).2.1] at h2
    exact (entryVisit_placedAt tm tick L it X).trans h2

theorem exitLoop_placedAt (tm : GoMap Int) (ltp : Float64)
    (iter : List (String × Option String)) (L : LoopState) (X : String) :
    PlacedAt L.s.name (iter.filterMap Prod.snd) L.s L.disp (exitLoop tm ltp L iter).s
      (exitLoop tm ltp L iter).disp X := by
  induction iter generalizing L with
  | nil => exact Or.inl ⟨rfl, rfl⟩
  | cons it rest ih =>
    rw [exitLoop_cons, filterMap_snd_cons]
    have h2 := ih (exitVisit tm ltp L it)
    rw [(exitVisit_static tm ltp L it).2.1] at h2
    exact (exitVisit_placedAt tm ltp L it X).trans h2

theorem processEntryOrders_placedAt (tm : GoMap Int) (s : strategy) (disp : GoMap String)
    (tick : Tick) (iter : List (String × Option String)) (X : String) :
    (processEntryOrders tm s disp tick iter).1.name = s.name ∧
    PlacedAt s.name (iter.filterMap Prod.snd) s disp (processEntryOrders tm s disp tick iter).1
      (processEntryOrders tm s disp tick iter).2.1 X := by
  rw [processEntryOrders_eq]
  exact ⟨(entryLoop_static tm tick iter ⟨s, disp, [], []⟩).2.1,
    entryLoop_placedAt tm tick iter ⟨s, disp, [], []⟩ X⟩

theorem processExitOrders_placedAt (tm : GoMap Int) (s : strategy) (disp : GoMap String)
    (ltp : Float64) (iter : List (String × Option String)) (X : String) :
    (processExitOrders tm s disp ltp iter).1.name = s.name ∧
    PlacedAt s.name (iter.filterMap Prod.snd) s disp (processExitOrders tm s disp ltp iter).1
      (processExitOrders tm s disp ltp iter).2.1 X := by
  rw [processExitOrders_eq]
  exact ⟨(exitLoop_static tm ltp iter ⟨s, disp, [], []⟩).2.1,
    exitLoop_placedAt tm ltp iter ⟨s, disp, [], []⟩ X⟩

/-- An order-update step changes the two lookup maps together: at every order
number both are as before, or the number is the one of the update, it was a
key of the strategy's map, and both maps have lost it. -/
theorem orderUpdateStep_maps (s : strategy) (disp : GoMap String) (u : OrderUpdate)
    (X : String) :
    ((orderUpdateStep s disp u).1.tiqsOrderIdToLocalOrderId X = s.tiqsOrderIdToLocalOrderId X ∧
      (orderUpdateStep s disp u).2 X = disp X) ∨
    (X = u.ID ∧ (s.tiqsOrderIdToLocalOrderId X).isSome ∧
      (orderUpdateStep s disp u).1.tiqsOrderIdToLocalOrderId X = none ∧
      (orderUpdateStep s disp u).2 X = none) := by
  cases hm : s.tiqsOrderIdToLocalOrderId u.ID with
  | none => rw [orderUpdateStep_unresolved s disp u (Or.inl hm)]; exact Or.inl ⟨rfl, rfl⟩
  | some lid =>
    cases hp : s.openPos lid with
    | none =>
      rw [orderUpdateStep_unresolved s disp u (Or.inr ⟨lid, hm, hp⟩)]; exact Or.inl ⟨rfl, rfl⟩
    | some p =>
      have hdel : (orderUpdateStep s disp u).1.tiqsOrderIdToLocalOrderId =
            s.tiqsOrderIdToLocalOrderId.del u.ID →
          (orderUpdateStep s disp u).2 = disp.del u.ID →
          (((orderUpdateStep s disp u).1.tiqsOrderIdToLocalOrderId X =
                s.tiqsOrderIdToLocalOrderId X ∧
              (orderUpdateStep s disp u).2 X = disp X) ∨
            (X = u.ID ∧ (s.tiqsOrderIdToLocalOrderId X).isSome ∧
              (orderUpdateStep s disp u).1.tiqsOrderIdToLocalOrderId X = none ∧
              (orderUpdateStep s disp u).2 X = none)) := by
        intro h1 h2
        rw [h1, h2]
        by_cases hX : X = u.ID
        · subst hX
          exact Or.inr ⟨rfl, by simp [hm], by simp, by simp⟩
        · exact Or.inl ⟨GoMap.del_other _ _ _ hX, GoMap.del_other _ _ _ hX⟩
      rcases orderUpdateStep_resolved s disp u lid p hm hp with
        ⟨_, _, _, ht, hd⟩ | ⟨_, _, _, _, ht, hd⟩ | ⟨_, _, _, _, ht, hd⟩ |
        ⟨_, _, _, ht, hd⟩ | ⟨_, _, _, ht, hd⟩ | ⟨_, _, _, ht, hd⟩ |
        ⟨_, _, _, ht, hd⟩ | ⟨_, _, _, _, hsame⟩
      · exact hdel ht hd
      · exact hdel ht hd
      · exact hdel ht hd
      · exact hdel ht hd
      · exact hdel ht hd
      · rw [ht, hd]; exact Or.inl ⟨rfl, rfl⟩
      · rw [ht, hd]; exact Or.inl ⟨rfl, rfl⟩
      · rw [hsame]; exact Or.inl ⟨rfl, rfl⟩

/-- The map invariant survives a processing loop of the strategy `name` whose
returned order numbers are fresh. -/
theorem MapInv.place {I : List String} {tr tr1 : AutoTrader} (h : MapInv I tr) (name : String)
    (s0 s1 : strategy) (outcomes : List String) (hs0 : tr.strategies name = some s0)
    (hfresh : ∀ n ∈ outcomes, n ∉ I) (hname : s1.name = s0.name)
    (hplaced : ∀ X, PlacedAt s0.name outcomes s0 tr.tiqsOrderIdsToStrategy s1
      tr1.tiqsOrderIdsToStrategy X)
    (hstr : tr1.strategies = tr.strategies.set name s1) : MapInv (I ++ outcomes) tr1 := by
  have hn0 : s0.name = name := h.name_eq _ _ hs0
  refine ⟨?_, ?_, ?_⟩
  · intro nm s hs
    rw [hstr] at hs
    by_cases hnm : nm = name
    · subst hnm
      simp only [GoMap.set_self] at hs
      cases hs
      rw [hname, hn0]
    · rw [GoMap.set_other _ _ _ _ hnm] at hs
      exact h.name_eq _ _ hs
  · intro nm s hs X
    rw [hstr] at hs
    by_cases hnm : nm = name
    · subst hnm
      simp only [GoMap.set_self] at hs
      cases hs
      rcases hplaced X with ⟨a, b⟩ | ⟨_, b, c⟩
      · rw [a, b]
        exact h.iff_disp _ _ hs0 X
      · rw [c, hn0]
        exact ⟨fun _ => rfl, fun _ => b⟩
    · rw [GoMap.set_other _ _ _ _ hnm] at hs
      rcases hplaced X with ⟨_, b⟩ | ⟨a, _, c⟩
      · rw [b]
        exact h.iff_disp _ _ hs X
      · rw [c, hn0]
        constructor
        · intro hsome
          have := (h.iff_disp _ _ hs X).mp hsome
          exact absurd (h.issued _ _ this).1 (hfresh X a)
        · intro hc
          cases hc
          exact absurd rfl hnm
  · intro X nm hX
    have hkeep : ∀ nm, (tr.strategies nm).isSome → (tr1.strategies nm).isSome := by
      intro nm hnm
      rw [hstr]
      by_cases hc : nm = name
      · subst hc; simp
      · rw [GoMap.set_other _ _ _ _ hc]; exact hnm
    rcases hplaced X with ⟨_, b⟩ | ⟨a, _, c⟩
    · rw [b] at hX
      obtain ⟨g1, g2⟩ := h.issued _ _ hX
      exact ⟨List.mem_append_left _ g1, hkeep _ g2⟩
    · rw [c] at hX
      cases hX
      refine ⟨List.mem_append_right _ a, ?_⟩
      rw [hstr, hn0]
      simp

/-- The map invariant survives an order-update step of the strategy `name`. -/
theorem MapInv.afterUpdate {I : List String} {tr tr1 : AutoTrader} (h : MapInv I tr) (name : String)
    (s0 : strategy) (u : OrderUpdate) (hs0 : tr.strategies name = some s0)
    (hstr : tr1.strategies =
      tr.strategies.set name (orderUpdateStep s0 tr.tiqsOrderIdsToStrategy u).1)
    (hdisp : tr1.tiqsOrderIdsToStrategy = (orderUpdateStep s0 tr.tiqsOrderIdsToStrategy u).2) :
    MapInv I tr1 := by
  refine ⟨?_, ?_, ?_⟩
  · intro nm s hs
    rw [hstr] at hs
    by_cases hnm : nm = name
    · subst hnm
      simp only [GoMap.set_self] at hs
      cases hs
      rw [(orderUpdateStep_static s0 _ u).2.2.1]
      exact h.name_eq _ _ hs0
    · rw [GoMap.set_other _ _ _ _ hnm] at hs
      exact h.name_eq _ _ hs
  · intro nm s hs X
    rw [hstr] at hs
    rw [hdisp]
    by_cases hnm : nm = name
    · subst hnm
      simp only [GoMap.set_self] at hs
      cases hs
      rcases orderUpdateStep_maps s0 tr.tiqsOrderIdsToStrategy u X with ⟨a, b⟩ | ⟨_, _, c, d⟩
      · rw [a, b]
        exact h.iff_disp _ _ hs0 X
      · rw [c, d]
        simp
    · rw [GoMap.set_other _ _ _ _ hnm] at hs
      rcases orderUpdateStep_maps s0 tr.tiqsOrderIdsToStrategy u X with ⟨_, b⟩ | ⟨_, b, _, d⟩
      · rw [b]
        exact h.iff_disp _ _ hs X
      · rw [d]
        constructor
        · intro hsome
          have h1 := (h.iff_disp _ _ hs X).mp hsome
          have h2 := (h.iff_disp _ _ hs0 X).mp b
          rw [h1] at h2
          cases h2
          exact absurd rfl hnm
        · intro hc
          cases hc
  · intro X nm hX
    rw [hdisp] at hX
    rcases orderUpdateStep_maps s0 tr.tiqsOrderIdsToStrategy u X with ⟨_, b⟩ | ⟨_, _, _, d⟩
    · rw [b] at hX
      obtain ⟨g1, g2⟩ := h.issued _ _ hX
      refine ⟨g1, ?_⟩
      rw [hstr]
      by_cases hc : nm = name
      · subst hc; simp
      · rw [GoMap.set_other _ _ _ _ hc]; exact g2
    · rw [d] at hX
      cases hX

/-- The map invariant survives a step of one strategy that touches neither
its name nor its lookup map. -/
theorem MapInv.local {I : List String} {tr tr1 : AutoTrader} (h : MapInv I tr) (name : String)
    (s0 s1 : strategy) (hs0 : tr.strategies name = some s0) (hname : s1.name = s0.name)
    (hmap : s1.tiqsOrderIdToLocalOrderId = s0.tiqsOrderIdToLocalOrderId)
    (hstr : tr1.strategies = tr.strategies.set name s1)
    (hdisp : tr1.tiqsOrderIdsToStrategy = tr.tiqsOrderIdsToStrategy) : MapInv I tr1 := by
  refine ⟨?_, ?_, ?_⟩
  · intro nm s hs
    rw [hstr] at hs
    by_cases hnm : nm = name
    · subst hnm
      simp only [GoMap.set_self] at hs
      cases hs
      rw [hname]
      exact h.name_eq _ _ hs0
    · rw [GoMap.set_other _ _ _ _ hnm] at hs
      exact h.name_eq _ _ hs
  · intro nm s hs X
    rw [hstr] at hs
    rw [hdisp]
    by_cases hnm : nm = name
    · subst hnm
      simp only [GoMap.set_self] at hs
      cases hs
      rw [hmap]
      exact h.iff_disp _ _ hs0 X
    · rw [GoMap.set_other _ _ _ _ hnm] at hs
      exact h.iff_disp _ _ hs X
  · intro X nm hX
    rw [hdisp] at hX
    obtain ⟨g1, g2⟩ := h.issued _ _ hX
    refine ⟨g1, ?_⟩
    rw [hstr]
    by_cases hc : nm = name
    · subst hc; simp
    · rw [GoMap.set_other _ _ _ _ hc]; exact g2

/-- The map invariant survives the registration of a new strategy. -/
theorem MapInv.add {I : List String} {tr tr1 : AutoTrader} (h : MapInv I tr)
    (name symbol : String) (hfree : tr.strategies name = none)
    (hstr : tr1.strategies = tr.strategies.set name (newStrategy name symbol))
    (hdisp : tr1.tiqsOrderIdsToStrategy = tr.tiqsOrderIdsToStrategy) : MapInv I tr1 := by
  refine ⟨?_, ?_, ?_⟩
  · intro nm s hs
    rw [hstr] at hs
    by_cases hnm : nm = name
    · subst hnm
      simp only [GoMap.set_self] at hs
      cases hs
      rfl
    · rw [GoMap.set_other _ _ _ _ hnm] at hs
      exact h.name_eq _ _ hs
  · intro nm s hs X
    rw [hstr] at hs
    rw [hdisp]
    by_cases hnm : nm = name
    · subst hnm
      simp only [GoMap.set_self] at hs
      cases hs
      constructor
      · intro hc
        simp [newStrategy] at hc
      · intro hc
        have := (h.issued _ _ hc).2
        rw [hfree] at this
        cases this
    · rw [GoMap.set_other _ _ _ _ hnm] at hs
      exact h.iff_disp _ _ hs X
  · intro X nm hX
    rw [hdisp] at hX
    obtain ⟨g1, g2⟩ := h.issued _ _ hX
    refine ⟨g1, ?_⟩
    rw [hstr]
    by_cases hc : nm = name
    · subst hc; simp
    · rw [GoMap.set_other _ _ _ _ hc]; exact g2

theorem MapInv.sameMaps {I : List String} {tr tr1 : AutoTrader} (h : MapInv I tr)
    (hstr : tr1.strategies = tr.strategies)
    (hdisp : tr1.tiqsOrderIdsToStrategy = tr.tiqsOrderIdsToStrategy) : MapInv I tr1 :=
  ⟨by rw [hstr]; exact h.name_eq, by rw [hstr, hdisp]; exact h.iff_disp,
    by rw [hstr, hdisp]; exact h.issued⟩

theorem MapInv.moreIssued {I J : List String} {tr : AutoTrader} (h : MapInv I tr)
    (hsub : ∀ x ∈ I, x ∈ J) : MapInv J tr :=
  ⟨h.name_eq, h.iff_disp, fun X nm hX => ⟨hsub _ (h.issued X nm hX).1, (h.issued X nm hX).2⟩⟩

theorem processEntryOrders_shape (tr : AutoTrader) (name : String) (tick : Tick)
    (iter : List (String × Option String)) :
    (tr.strategies name = none ∧ tr.processEntryOrders name tick iter = tr) ∨
    ∃ s, tr.strategies name = some s ∧
      (tr.processEntryOrders name tick iter).strategies =
        tr.strategies.set name
          (processEntryOrders tr.symbolToTokenMap s tr.tiqsOrderIdsToStrategy tick iter).1 ∧
      (tr.processEntryOrders name tick iter).tiqsOrderIdsToStrategy =
        (processEntryOrders tr.symbolToTokenMap s tr.tiqsOrderIdsToStrategy tick iter).2.1 := by
  unfold AutoTrader.processEntryOrders
  cases hs : tr.strategies name with
  | none => exact Or.inl ⟨rfl, rfl⟩
  | some s => exact Or.inr ⟨s, rfl, rfl, rfl⟩

theorem processExitOrders_shape (tr : AutoTrader) (name : String) (ltp : Float64)
    (iter : List (String × Option String)) :
    (tr.strategies name = none ∧ tr.processExitOrders name ltp iter = tr) ∨
    ∃ s, tr.strategies name = some s ∧
      (tr.processExitOrders name ltp iter).strategies =
        tr.strategies.set name
          (processExitOrders tr.symbolToTokenMap s tr.tiqsOrderIdsToStrategy ltp iter).1 ∧
      (tr.processExitOrders name ltp iter).tiqsOrderIdsToStrategy =
        (processExitOrders tr.symbolToTokenMap s tr.tiqsOrderIdsToStrategy ltp iter).2.1 := by
  unfold AutoTrader.processExitOrders
  cases hs : tr.strategies name with
  | none => exact Or.inl ⟨rfl, rfl⟩
  | some s => exact Or.inr ⟨s, rfl, rfl, rfl⟩

theorem Entry_local (s : strategy) (orderID : String) (opts : EntryOpts) :
    (s.Entry orderID opts).1.name = s.name ∧
    (s.Entry orderID opts).1.tiqsOrderIdToLocalOrderId = s.tiqsOrderIdToLocalOrderId ∧
    (s.Entry orderID opts).1.openPos = s.openPos := by
  unfold strategy.Entry
  simp only
  split_ifs <;> exact ⟨rfl, rfl, rfl⟩

theorem Exit_local (s : strategy) (orderID : String) (opts : ExitOpts) :
    (s.Exit orderID opts).1.name = s.name ∧
    (s.Exit orderID opts).1.tiqsOrderIdToLocalOrderId = s.tiqsOrderIdToLocalOrderId ∧
    (s.Exit orderID opts).1.openPos = s.openPos := by
  unfold strategy.Exit
  simp only
  split_ifs <;> exact ⟨rfl, rfl, rfl⟩

/-- Every reachable dispatcher satisfies the lookup-map invariant. -/
theorem reach_mapInv {I : List String} {tr : AutoTrader} (hr : Reach I tr) : MapInv I tr := by
  induction hr with
  | init rows =>
    obtain ⟨h1, h2⟩ := NewAutoTrader_empty rows
    exact ⟨fun nm s hs => by rw [h1] at hs; simp at hs,
      fun nm s hs => by rw [h1] at hs; simp at hs,
      fun X nm hX => by rw [h2] at hX; simp at hX⟩
  | addStrategy name symbol _ ih =>
    obtain ⟨hd, hcase⟩ := AddStrategy_strategies _ name symbol
    rcases hcase with h | ⟨hfree, h⟩
    · exact ih.sameMaps h hd
    · exact ih.add name symbol hfree h hd
  | entry name orderID opts _ ih =>
    obtain ⟨hd, hcase⟩ := withStrategy_strategies _ name (fun s => (s.Entry orderID opts).1)
    rcases hcase with ⟨_, h⟩ | ⟨s0, hs0, h⟩
    · rw [h]; exact ih
    · exact ih.local name s0 _ hs0 (Entry_local s0 _ _).1 (Entry_local s0 _ _).2.1 h hd
  | exit name orderID opts _ ih =>
    obtain ⟨hd, hcase⟩ := withStrategy_strategies _ name (fun s => (s.Exit orderID opts).1)
    rcases hcase with ⟨_, h⟩ | ⟨s0, hs0, h⟩
    · rw [h]; exact ih
    · exact ih.local name s0 _ hs0 (Exit_local s0 _ _).1 (Exit_local s0 _ _).2.1 h hd
  | insertBar name t _ ih =>
    obtain ⟨hd, hcase⟩ := withStrategy_strategies _ name (fun s => s.insertBar t)
    rcases hcase with ⟨_, h⟩ | ⟨s0, hs0, h⟩
    · rw [h]; exact ih
    · exact ih.local name s0 (s0.insertBar t) hs0 rfl rfl h hd
  | processPnls name t keys _ ih =>
    obtain ⟨hd, hcase⟩ := withStrategy_strategies _ name (fun s => s.processPnls t keys)
    rcases hcase with ⟨_, h⟩ | ⟨s0, hs0, h⟩
    · rw [h]; exact ih
    · exact ih.local name s0 (s0.processPnls t keys) hs0 rfl rfl h hd
  | processEntryOrders name s0 tick iter _ hs0 _ hf ih =>
    rcases processEntryOrders_shape _ name tick iter with ⟨hnone, _⟩ | ⟨s1, hs1, h, hd⟩
    · rw [hnone] at hs0; cases hs0
    · rw [hs0] at hs1
      cases hs1
      refine ih.place name s0 _ _ hs0 hf.2 (processEntryOrders_placedAt _ s0 _ tick iter "").1
        ?_ h
      intro X
      rw [hd]
      exact (processEntryOrders_placedAt _ s0 _ tick iter X).2
  | processExitOrders name s0 ltp iter _ hs0 _ hf ih =>
    rcases processExitOrders_shape _ name ltp iter with ⟨hnone, _⟩ | ⟨s1, hs1, h, hd⟩
    · rw [hnone] at hs0; cases hs0
    · rw [hs0] at hs1
      cases hs1
      refine ih.place name s0 _ _ hs0 hf.2 (processExitOrders_placedAt _ s0 _ ltp iter "").1
        ?_ h
      intro X
      rw [hd]
      exact (processExitOrders_placedAt _ s0 _ ltp iter X).2
  | orderUpdate name u _ ih =>
    rcases orderUpdate_shape _ name u with ⟨_, h⟩ | ⟨s0, hs0, h, hd⟩
    · rw [h]; exact ih
    · exact ih.afterUpdate name s0 u hs0 h hd

/-! ## The scenario is reachable -/

theorem IsRange_single {α : Type} (m : GoMap α) (k : String) (v : α) (o : Option String)
    (h : m = GoMap.empty.set k v) : IsRange m [(k, o)] := by
  subst h
  refine ⟨by simp, ?_⟩
  intro x
  by_cases hx : x = k <;> simp [GoMap.set_apply, hx]

theorem demoT2_reach : Reach [] demoT2 :=
  Reach.entry "alpha" "L1" (demoEntry "" Long 100)
    (Reach.addStrategy "alpha" "NIFTY50" (Reach.init []))

theorem demoT3_reach : Reach ["E1"] demoT3 :=
  Reach.processEntryOrders "alpha" (stratOf demoT2 "alpha") (demoTick 5000) [("L1", some "E1")]
    demoT2_reach rfl (IsRange_single _ "L1" (demoEntry "L1" Long 100) _ rfl) (by simp [Fresh])

theorem demoT5_reach : Reach ["E1"] demoT5 :=
  Reach.exit "alpha" "L1" (demoExit "" 40)
    (Reach.orderUpdate "alpha" (demoUpdate "E1" COMPLETE 100 50) demoT3_reach)

theorem demoT6_reach : Reach ["E1", "X1"] demoT6 :=
  Reach.processExitOrders "alpha" (stratOf demoT5 "alpha") 50 [("L1", some "X1")]
    demoT5_reach rfl (IsRange_single _ "L1" (demoExit "L1" 40) _ rfl) (by simp [Fresh])

theorem demoT8_reach : Reach ["E1", "X1"] demoT8 :=
  Reach.exit "alpha" "L1" (demoExit "" 60)
    (Reach.orderUpdate "alpha" (demoUpdate "X1" COMPLETE 40 55) demoT6_reach)

theorem demoT8_ordExit :
    (stratOf demoT8 "alpha").ordExit =
      (GoMap.delAll (GoMap.empty.set "L1" (demoExit "L1" 40)) ["L1"]).set "L1"
        (demoExit "L1" 60) := rfl

theorem demoT8_range : IsRange (stratOf demoT8 "alpha").ordExit [("L1", some "X2")] := by
  rw [demoT8_ordExit]
  refine ⟨by simp, ?_⟩
  intro x
  by_cases hx : x = "L1" <;> simp [GoMap.set_apply, GoMap.delAll_apply, hx]

theorem demoT9_reach : Reach ["E1", "X1", "X2"] demoT9 :=
  Reach.processExitOrders "alpha" (stratOf demoT8 "alpha") 55 [("L1", some "X2")]
    demoT8_reach rfl demoT8_range (by simp [Fresh])

theorem demoT6empty_reach : Reach ["E1", ""] demoT6empty :=
  Reach.processExitOrders "alpha" (stratOf demoT5 "alpha") 50 [("L1", some "")]
    demoT5_reach rfl (IsRange_single _ "L1" (demoExit "L1" 40) _ rfl) (by simp [Fresh])

theorem demoT6entry_reach : Reach ["E1", "X1"] demoT6entry :=
  Reach.entry "alpha" "L1" (demoEntry "" Long 100) demoT6_reach

/-! ## Consistency of the lookup maps -/

/-- C5. In every state reachable from `NewAutoTrader` by `AddStrategy`, `Entry`,
`Exit`, `insertBar`, `processPnls`, `processEntryOrders`, `processExitOrders`
and order-update handling, the broker returning pairwise distinct order
numbers, every strategy is registered under its own name and an order id is a
key of its `tiqsOrderIdToLocalOrderId` exactly when the dispatcher's
`tiqsOrderIdsToStrategy` sends it to that name. A COMPLETE, REJECTED or CANCELED
update that the strategy resolves to an open position removes its id from both
maps; an OPEN update changes neither map; and when the order numbers are
non-empty every key of the strategy's map resolves to an open position. -/
theorem lookup_maps_consistent {I : List String} {tr : AutoTrader} (hr : Reach I tr)
    (name : String) (s : strategy) (hs : tr.strategies name = some s) :
    s.name = name ∧
    (∀ X, (s.tiqsOrderIdToLocalOrderId X).isSome ↔
      tr.tiqsOrderIdsToStrategy X = some s.name) ∧
    (∀ u lid p, s.tiqsOrderIdToLocalOrderId u.ID = some lid → s.openPos lid = some p →
      (u.Status = COMPLETE ∨ u.Status = REJECTED ∨ u.Status = CANCELED) →
      (orderUpdateStep s tr.tiqsOrderIdsToStrategy u).1.tiqsOrderIdToLocalOrderId u.ID = none ∧
      (orderUpdateStep s tr.tiqsOrderIdsToStrategy u).2 u.ID = none) ∧
    (∀ u, u.Status = OPEN →
      (orderUpdateStep s tr.tiqsOrderIdsToStrategy u).1.tiqsOrderIdToLocalOrderId =
        s.tiqsOrderIdToLocalOrderId ∧
      (orderUpdateStep s tr.tiqsOrderIdsToStrategy u).2 = tr.tiqsOrderIdsToStrategy) ∧
    ((∀ x ∈ I, x ≠ "") →
      ∀ X lid, s.tiqsOrderIdToLocalOrderId X = some lid → ∃ p, s.openPos lid = some p) := by
  have hinv := reach_mapInv hr
  have hname : s.name = name := hinv.name_eq _ _ hs
  refine ⟨hname, ?_, ?_, ?_, ?_⟩
  · intro X
    rw [hname]
    exact hinv.iff_disp _ _ hs X
  · intro u lid p hm hp hst
    have hoc : ¬ OPEN = COMPLETE := by decide
    have hor : ¬ OPEN = REJECTED := by decide
    have hon : ¬ OPEN = CANCELED := by decide
    rcases orderUpdateStep_resolved s tr.tiqsOrderIdsToStrategy u lid p hm hp with
      ⟨_, _, _, ht, hd⟩ | ⟨_, _, _, _, ht, hd⟩ | ⟨_, _, _, _, ht, hd⟩ |
      ⟨_, _, _, ht, hd⟩ | ⟨_, _, _, ht, hd⟩ | ⟨ho, _, _, _, _⟩ |
      ⟨ho, _, _, _, _⟩ | ⟨h1, h2, h3, _, _⟩
    · rw [ht, hd]; simp
    · rw [ht, hd]; simp
    · rw [ht, hd]; simp
    · rw [ht, hd]; simp
    · rw [ht, hd]; simp
    · rw [ho] at hst
      rcases hst with h | h | h
      · exact absurd h hoc
      · exact absurd h hor
      · exact absurd h hon
    · rw [ho] at hst
      rcases hst with h | h | h
      · exact absurd h hoc
      · exact absurd h hor
      · exact absurd h hon
    · rcases hst with h | h | h
      · exact absurd h h1
      · exact absurd h h2
      · exact absurd h h3
  · intro u ho
    have hoc : ¬ OPEN = COMPLETE := by decide
    have hor : ¬ OPEN = REJECTED := by decide
    have hon : ¬ OPEN = CANCELED := by decide
    cases hm : s.tiqsOrderIdToLocalOrderId u.ID with
    | none =>
      rw [orderUpdateStep_unresolved s _ u (Or.inl hm)]
      exact ⟨rfl, rfl⟩
    | some lid =>
      cases hp : s.openPos lid with
      | none =>
        rw [orderUpdateStep_unresolved s _ u (Or.inr ⟨lid, hm, hp⟩)]
        exact ⟨rfl, rfl⟩
      | some p =>
        rcases orderUpdateStep_resolved s tr.tiqsOrderIdsToStrategy u lid p hm hp with
          ⟨hc, _⟩ | ⟨hc, _⟩ | ⟨hc, _⟩ | ⟨hc, _⟩ | ⟨hc, _⟩ | ⟨_, _, _, ht, hd⟩ |
          ⟨_, _, _, ht, hd⟩ | ⟨_, _, _, _, hsame⟩
        · rw [ho] at hc; exact absurd hc hoc
        · rw [ho] at hc; exact absurd hc hoc
        · rw [ho] at hc; exact absurd hc hoc
        · rw [ho] at hc
          rcases hc with h | h
          · exact absurd h hor
          · exact absurd h hon
        · rw [ho] at hc
          rcases hc with h | h
          · exact absurd h hor
          · exact absurd h hon
        · exact ⟨ht, hd⟩
        · exact ⟨ht, hd⟩
        · rw [hsame]; exact ⟨rfl, rfl⟩
  · intro hI X lid hX
    obtain ⟨_, p, hp, _⟩ := (reach_posInv hr hI _ _ hs).key X lid hX
    exact ⟨p, hp⟩

/-- Scenario S3 after the exit has been placed: `X1` is a key of both maps and
the filled entry order `E1` of neither; the COMPLETE echo of `X1` removes it
from both. -/
theorem lookup_maps_consistent_witness :
    ((stratOf demoT6 "alpha").tiqsOrderIdToLocalOrderId "X1" = some "L1" ∧
      demoT6.tiqsOrderIdsToStrategy "X1" = some "alpha") ∧
    ((stratOf demoT6 "alpha").tiqsOrderIdToLocalOrderId "E1" = none ∧
      demoT6.tiqsOrderIdsToStrategy "E1" = none) ∧
    ((stratOf demoT7 "alpha").tiqsOrderIdToLocalOrderId "X1" = none ∧
      demoT7.tiqsOrderIdsToStrategy "X1" = none) := by
  have h := lookup_maps_consistent demoT6_reach "alpha" (stratOf demoT6 "alpha") rfl
  have hx1 : (stratOf demoT6 "alpha").tiqsOrderIdToLocalOrderId "X1" = some "L1" := by decide
  have he1 : (stratOf demoT6 "alpha").tiqsOrderIdToLocalOrderId "E1" = none := by decide
  have hnm : (stratOf demoT6 "alpha").name = "alpha" := h.1
  refine ⟨⟨hx1, ?_⟩, ⟨he1, by decide⟩, ?_⟩
  · have := (h.2.1 "X1").mp (by rw [hx1]; rfl)
    rw [hnm] at this
    exact this
  · exact h.2.2.1 (demoUpdate "X1" COMPLETE 40 55) "L1"
      { demoPos 100 50 "X1" ExitPending with EntryTime := 1728531060 } hx1 (by decide)
      (Or.inl rfl)

/-! ## One live exit order per position -/

/-- C6 fails when the broker answers a placement with an empty order number:
the state `demoT6empty` is reachable with pairwise distinct order numbers
(`E1` and the empty one), its position `L1` has an empty `TiqsExitOrdID`, and
yet the lookup map holds a key other than the entry order `E1`, the empty
string, that maps to the position's `OrdID`. -/
theorem one_live_exit_order_counterexample :
    Reach ["E1", ""] demoT6empty ∧
    posOf demoT6empty "alpha" "L1" =
      some { demoPos 100 50 "" ExitPending with EntryTime := 1728531060 } ∧
    (stratOf demoT6empty "alpha").tiqsOrderIdToLocalOrderId "" = some "L1" ∧
    ¬ (∀ p, posOf demoT6empty "alpha" "L1" = some p →
        p.TiqsExitOrdID = "" →
        ∀ X, (stratOf demoT6empty "alpha").tiqsOrderIdToLocalOrderId X = some p.OrdID →
          X = p.TiqsEntryOrdID) := by
  have hp : posOf demoT6empty "alpha" "L1" =
      some { demoPos 100 50 "" ExitPending with EntryTime := 1728531060 } := by decide
  have hk : (stratOf demoT6empty "alpha").tiqsOrderIdToLocalOrderId "" = some "L1" := by decide
  refine ⟨demoT6empty_reach, hp, hk, ?_⟩
  intro hall
  have := hall _ hp rfl "" hk
  exact absurd this (by decide)

/-- C6, amended. In every reachable state, the broker returning pairwise
distinct and non-empty order numbers, and for every open position `p`: a key
of the strategy's `tiqsOrderIdToLocalOrderId` other than `p.TiqsEntryOrdID` that
maps to `p.OrdID` equals `p.TiqsExitOrdID`, which is then non-empty, so there is
at most one such key and none when `p.TiqsExitOrdID` is empty; and
`processExitOrders` makes no request for a position whose `TiqsExitOrdID` is
non-empty, its requests being those of `exitRequest`. -/
theorem one_live_exit_order {I : List String} {tr : AutoTrader} (hr : Reach I tr)
    (hI : ∀ x ∈ I, x ≠ "") (name : String) (s : strategy) (hs : tr.strategies name = some s)
    (lid : String) (p : Position) (hp : s.openPos lid = some p) :
    (∀ X, s.tiqsOrderIdToLocalOrderId X = some p.OrdID → X ≠ p.TiqsEntryOrdID →
      X = p.TiqsExitOrdID ∧ p.TiqsExitOrdID ≠ "") ∧
    (∀ X Y, s.tiqsOrderIdToLocalOrderId X = some p.OrdID →
      s.tiqsOrderIdToLocalOrderId Y = some p.OrdID →
      X ≠ p.TiqsEntryOrdID → Y ≠ p.TiqsEntryOrdID → X = Y) ∧
    (p.TiqsExitOrdID = "" →
      ∀ X, s.tiqsOrderIdToLocalOrderId X = some p.OrdID → X = p.TiqsEntryOrdID) ∧
    (p.TiqsExitOrdID ≠ "" → ∀ tm ltp, exitRequest tm ltp s lid = none) ∧
    (∀ tm disp ltp iter, (iter.map Prod.fst).Nodup →
      (processExitOrders tm s disp ltp iter).2.2 =
        iter.filterMap (fun it => exitRequest tm ltp s it.1)) := by
  have hinv := reach_posInv hr hI _ _ hs
  have hord : p.OrdID = lid := hinv.ordID _ _ hp
  have hkey : ∀ X, s.tiqsOrderIdToLocalOrderId X = some p.OrdID → X ≠ p.TiqsEntryOrdID →
      X = p.TiqsExitOrdID ∧ p.TiqsExitOrdID ≠ "" := by
    intro X hX hne
    rw [hord] at hX
    obtain ⟨hXI, hlive⟩ := hinv.resolve X lid p hX hp
    rcases hlive with ⟨x1, _, _⟩ | ⟨x1, _, _, _⟩
    · exact absurd x1 hne
    · exact ⟨x1, fun hc => hI X hXI (x1.trans hc)⟩
  refine ⟨hkey, ?_, ?_, ?_, ?_⟩
  · intro X Y hX hY hXe hYe
    rw [(hkey X hX hXe).1, (hkey Y hY hYe).1]
  · intro hx X hX
    by_contra hne
    exact (hkey X hX hne).2 hx
  · intro hx tm ltp
    unfold exitRequest
    cases s.ordExit lid <;> cases tm s.symbol <;> simp [hp, hx]
  · intro tm disp ltp iter hnd
    rw [processExitOrders_eq]
    have := exitLoop_sent tm ltp iter ⟨s, disp, [], []⟩ hnd
    simpa using this

/-- Scenario S3 after the exit has been placed: the only key of the lookup map
for `L1` besides the filled entry order is the exit order `X1`, and a further
exit intent for `L1` is requested from nobody. -/
theorem one_live_exit_order_witness :
    (∀ X, (stratOf demoT6 "alpha").tiqsOrderIdToLocalOrderId X = some "L1" → X ≠ "E1" →
      X = "X1") ∧
    (∀ tm ltp, exitRequest tm ltp (stratOf demoT6 "alpha") "L1" = none) := by
  have h := one_live_exit_order demoT6_reach (by decide) "alpha" (stratOf demoT6 "alpha") rfl
    "L1" { demoPos 100 50 "X1" ExitPending with EntryTime := 1728531060 } (by decide)
  refine ⟨?_, ?_⟩
  · intro X hX hne
    exact (h.1 X hX hne).1
  · exact h.2.2.2.1 (by decide)

/-! ## Status transitions -/

/-- A visit of the exit loop leaves a position as it is, or places its exit. -/
theorem exitVisit_openPos_cases (tm : GoMap Int) (ltp : Float64) (L : LoopState)
    (it : String × Option String) (lid : String) :
    (exitVisit tm ltp L it).s.openPos lid = L.s.openPos lid ∨
    ∃ p n, L.s.openPos lid = some p ∧ p.TiqsExitOrdID = "" ∧ ¬ p.Status < EntryComplete ∧
      (exitVisit tm ltp L it).s.openPos lid =
        some { p with Status := ExitPending, TiqsExitOrdID := n } := by
  cases he : L.s.ordExit it.1 with
  | none => rw [exitVisit_none tm ltp L it he]; exact Or.inl rfl
  | some e =>
    rw [exitVisit_some tm ltp L it e he]
    rcases exitIteration_cases tm ltp L it.1 e it.2 with
      ⟨_, hv⟩ | ⟨_, hv⟩ | ⟨p, t, _, _, _, _, _, hv⟩ | ⟨p, t, n, hp, hx, hs, _, _, hv⟩
    · rw [hv]; exact Or.inl rfl
    · rw [hv]; exact Or.inl rfl
    · rw [hv]; exact Or.inl rfl
    · rw [hv]
      by_cases hl : lid = it.1
      · subst hl
        exact Or.inr ⟨p, n, hp, hx, hs, by simp⟩
      · exact Or.inl (GoMap.set_other _ _ _ _ hl)

/-- The exit loop leaves a position as it is, or has placed its exit. -/
theorem exitLoop_openPos_cases (tm : GoMap Int) (ltp : Float64)
    (iter : List (String × Option String)) (L : LoopState) (lid : String) :
    (exitLoop tm ltp L iter).s.openPos lid = L.s.openPos lid ∨
    ∃ p n, L.s.openPos lid = some p ∧ p.TiqsExitOrdID = "" ∧ ¬ p.Status < EntryComplete ∧
      (exitLoop tm ltp L iter).s.openPos lid =
        some { p with Status := ExitPending, TiqsExitOrdID := n } := by
  induction iter generalizing L with
  | nil => exact Or.inl rfl
  | cons it rest ih =>
    rw [exitLoop_cons]
    rcases ih (exitVisit tm ltp L it) with h2 | ⟨p2, n2, hp2, _, _, h2⟩
    · rcases exitVisit_openPos_cases tm ltp L it lid with h1 | ⟨p, n, hp, hx, hs, h1⟩
      · exact Or.inl (h2.trans h1)
      · exact Or.inr ⟨p, n, hp, hx, hs, h2.trans h1⟩
    · rcases exitVisit_openPos_cases tm ltp L it lid with h1 | ⟨p, n, hp, hx, hs, h1⟩
      · rw [h1] at hp2
        exact Or.inr ⟨p2, n2, hp2, ‹_›, ‹_›, h2⟩
      · rw [h1] at hp2
        cases hp2
        exact Or.inr ⟨p, n2, hp, hx, hs, h2⟩

/-- C4 fails after a partial exit: in the reachable state `demoT8` the position
`L1` is `ExitPartial`, and the next exit placement by `processExitOrders`, which
gives `demoT9`, sets it back to `ExitPending`, a smaller status. -/
theorem status_monotone_counterexample :
    Reach ["E1", "X1"] demoT8 ∧
    statusOf demoT8 "alpha" "L1" = some ExitPartial ∧
    demoT9 = demoT8.processExitOrders "alpha" 55 [("L1", some "X2")] ∧
    statusOf demoT9 "alpha" "L1" = some ExitPending ∧
    ¬ ExitPartial ≤ ExitPending :=
  ⟨demoT8_reach, by decide, rfl, by decide, by decide⟩

/-- C4, amended. In every reachable state, the broker returning pairwise
distinct and non-empty order numbers, an open position is never
`ExitComplete`; an OPEN or COMPLETE update that leaves it open leaves its status
at least as large as before; a REJECTED or CANCELED update that resolves to it
removes it on the entry leg and resets it to `EntryComplete` on the exit leg;
and `processExitOrders` leaves its status alone or sets it to `ExitPending`,
which it does only from `EntryComplete` or from `ExitPartial`, so that the status
does not decrease unless the position was `ExitPartial`. -/
theorem status_steps {I : List String} {tr : AutoTrader} (hr : Reach I tr)
    (hI : ∀ x ∈ I, x ≠ "") (name : String) (s : strategy) (hs : tr.strategies name = some s)
    (lid : String) (p : Position) (hp : s.openPos lid = some p) :
    p.Status ≠ ExitComplete ∧
    (∀ disp u q, (u.Status = OPEN ∨ u.Status = COMPLETE) →
      (orderUpdateStep s disp u).1.openPos lid = some q → p.Status ≤ q.Status) ∧
    (∀ disp u, s.tiqsOrderIdToLocalOrderId u.ID = some lid →
      (u.Status = REJECTED ∨ u.Status = CANCELED) →
      (u.ID = p.TiqsEntryOrdID → (orderUpdateStep s disp u).1.openPos lid = none) ∧
      (u.ID ≠ p.TiqsEntryOrdID →
        ∃ q, (orderUpdateStep s disp u).1.openPos lid = some q ∧ q.Status = EntryComplete)) ∧
    (∀ tm disp ltp iter q, (processExitOrders tm s disp ltp iter).1.openPos lid = some q →
      q.Status = p.Status ∨
      (q.Status = ExitPending ∧ (p.Status = EntryComplete ∨ p.Status = ExitPartial))) ∧
    (∀ tm disp ltp iter q, (processExitOrders tm s disp ltp iter).1.openPos lid = some q →
      p.Status ≠ ExitPartial → p.Status ≤ q.Status) := by
  have hinv := reach_posInv hr hI _ _ hs
  obtain ⟨_, hpos2, hpos3⟩ := hinv.pos _ _ hp
  have hexit : ∀ tm disp ltp iter q,
      (processExitOrders tm s disp ltp iter).1.openPos lid = some q →
      q.Status = p.Status ∨
      (q.Status = ExitPending ∧ (p.Status = EntryComplete ∨ p.Status = ExitPartial)) := by
    intro tm disp ltp iter q hq
    rw [processExitOrders_eq] at hq
    rcases exitLoop_openPos_cases tm ltp iter ⟨s, disp, [], []⟩ lid with h | ⟨p1, n, hp1, hx, hst, h⟩
    · have hq' : (exitLoop tm ltp ⟨s, disp, [], []⟩ iter).s.openPos lid = some q := hq
      rw [h] at hq'
      have : s.openPos lid = some q := hq'
      rw [hp] at this
      cases this
      exact Or.inl rfl
    · have hq' : (exitLoop tm ltp ⟨s, disp, [], []⟩ iter).s.openPos lid = some q := hq
      rw [h] at hq'
      cases hq'
      have hp1' : s.openPos lid = some p1 := hp1
      rw [hp] at hp1'
      cases hp1'
      obtain ⟨g1, g2⟩ := hpos2 hx
      refine Or.inr ⟨rfl, ?_⟩
      revert hst g1 g2 hpos3
      cases p.Status <;> simp [PositionStatus.lt_def, PositionStatus.toNat]
  refine ⟨hpos3, ?_, ?_, hexit, ?_⟩
  · intro disp u q hst hq
    have hoc : ¬ OPEN = COMPLETE := by decide
    have hor : ¬ OPEN = REJECTED := by decide
    have hon : ¬ OPEN = CANCELED := by decide
    have hcr : ¬ COMPLETE = REJECTED := by decide
    have hcn : ¬ COMPLETE = CANCELED := by decide
    have hnotrej : ¬ (u.Status = REJECTED ∨ u.Status = CANCELED) := by
      rcases hst with h | h <;> rw [h] <;> simp [hor, hon, hcr, hcn]
    have hsame : (orderUpdateStep s disp u).1.openPos lid = s.openPos lid → p.Status ≤ q.Status := by
      intro h
      rw [h, hp] at hq
      cases hq
      exact Nat.le_refl _
    cases hm : s.tiqsOrderIdToLocalOrderId u.ID with
    | none => exact hsame (by rw [orderUpdateStep_unresolved s disp u (Or.inl hm)])
    | some lid1 =>
      cases hp1 : s.openPos lid1 with
      | none => exact hsame (by rw [orderUpdateStep_unresolved s disp u (Or.inr ⟨lid1, hm, hp1⟩)])
      | some p1 =>
        by_cases hl : lid = lid1
        · subst hl
          rw [hp] at hp1
          cases hp1
          obtain ⟨_, hlive⟩ := hinv.resolve u.ID lid p hm hp
          rcases orderUpdateStep_resolved s disp u lid p hm hp with
            ⟨_, hleg, ho, _⟩ | ⟨_, _, _, ho, _⟩ | ⟨_, hleg, _, ho, _⟩ |
            ⟨hc, _⟩ | ⟨hc, _⟩ | ⟨_, hleg, ho, _⟩ | ⟨_, hleg, ho, _⟩ | ⟨_, _, _, _, hs'⟩
          · rw [ho] at hq
            simp only [GoMap.set_self] at hq
            cases hq
            rcases hlive with ⟨_, x2, _⟩ | ⟨_, x2, _, _⟩
            · exact Nat.le_of_lt x2
            · exact absurd hleg.symm x2
          · rw [ho] at hq
            simp at hq
          · rw [ho] at hq
            simp only [GoMap.set_self] at hq
            cases hq
            rcases hlive with ⟨x1, _, _⟩ | ⟨_, _, _, x4⟩
            · exact absurd x1.symm hleg
            · simp only [PositionStatus.le_def, PositionStatus.toNat] at x4 ⊢
              omega
          · exact absurd hc hnotrej
          · exact absurd hc hnotrej
          · rw [ho] at hq
            simp only [GoMap.set_self] at hq
            cases hq
            rcases hlive with ⟨_, x2, _⟩ | ⟨_, x2, _, _⟩
            · simp only [PositionStatus.lt_def, PositionStatus.le_def, PositionStatus.toNat]
                at x2 ⊢
              omega
            · exact absurd hleg.symm x2
          · rw [ho] at hq
            simp only [GoMap.set_self] at hq
            cases hq
            rcases hlive with ⟨x1, _, _⟩ | ⟨_, _, _, x4⟩
            · exact absurd x1.symm hleg
            · exact x4
          · exact hsame (by rw [hs'])
        · apply hsame
          rcases orderUpdateStep_resolved s disp u lid1 p1 hm hp1 with
            ⟨_, _, ho, _⟩ | ⟨_, _, _, ho, _⟩ | ⟨_, _, _, ho, _⟩ |
            ⟨_, _, ho, _⟩ | ⟨_, _, ho, _⟩ | ⟨_, _, ho, _⟩ | ⟨_, _, ho, _⟩ | ⟨_, _, _, _, hs'⟩
          · rw [ho]; exact GoMap.set_other _ _ _ _ hl
          · rw [ho]; exact GoMap.del_other _ _ _ hl
          · rw [ho]; exact GoMap.set_other _ _ _ _ hl
          · rw [ho]; exact GoMap.del_other _ _ _ hl
          · rw [ho]; exact GoMap.set_other _ _ _ _ hl
          · rw [ho]; exact GoMap.set_other _ _ _ _ hl
          · rw [ho]; exact GoMap.set_other _ _ _ _ hl
          · rw [hs']
  · intro disp u hm hst
    have hnc : ¬ u.Status = COMPLETE := by
      rcases hst with h | h <;> rw [h] <;> decide
    have hno : ¬ u.Status = OPEN := by
      rcases hst with h | h <;> rw [h] <;> decide
    rcases orderUpdateStep_resolved s disp u lid p hm hp with
      ⟨hc, _⟩ | ⟨hc, _⟩ | ⟨hc, _⟩ | ⟨_, hleg, ho, _⟩ | ⟨_, hleg, ho, _⟩ |
      ⟨hc, _⟩ | ⟨hc, _⟩ | ⟨_, h2, h3, _, _⟩
    · exact absurd hc hnc
    · exact absurd hc hnc
    · exact absurd hc hnc
    · exact ⟨fun _ => by rw [ho]; simp, fun h => absurd hleg.symm h⟩
    · exact ⟨fun h => absurd h.symm hleg,
        fun _ => ⟨{ p with TiqsExitOrdID := "", Status := EntryComplete }, by rw [ho]; simp, rfl⟩⟩
    · exact absurd hc hno
    · exact absurd hc hno
    · rcases hst with h | h
      · exact absurd h h2
      · exact absurd h h3
  · intro tm disp ltp iter q hq hne
    rcases hexit tm disp ltp iter q hq with h | ⟨h1, h2 | h2⟩
    · rw [h]; exact Nat.le_refl _
    · rw [h1, h2]; decide
    · exact absurd h2 hne

/-- Scenario S3 once the first exit is placed: an OPEN echo of `X1` raises the
status of `L1` from `ExitPending`, and no exit placement can lower it. -/
theorem status_steps_witness :
    posOf demoT6 "alpha" "L1" =
      some { demoPos 100 50 "X1" ExitPending with EntryTime := 1728531060 } ∧
    (∀ q, (orderUpdateStep (stratOf demoT6 "alpha") demoT6.tiqsOrderIdsToStrategy
        (demoUpdate "X1" OPEN 0 0)).1.openPos "L1" = some q → ExitPending ≤ q.Status) ∧
    (∀ tm disp ltp iter q,
      (processExitOrders tm (stratOf demoT6 "alpha") disp ltp iter).1.openPos "L1" = some q →
      ExitPending ≤ q.Status) := by
  have hp : posOf demoT6 "alpha" "L1" =
      some { demoPos 100 50 "X1" ExitPending with EntryTime := 1728531060 } := by decide
  have h := status_steps demoT6_reach (by decide) "alpha" (stratOf demoT6 "alpha") rfl "L1"
    { demoPos 100 50 "X1" ExitPending with EntryTime := 1728531060 } hp
  refine ⟨hp, ?_, ?_⟩
  · intro q hq
    exact h.2.1 _ _ q (Or.inl rfl) hq
  · intro tm disp ltp iter q hq
    exact h.2.2.2.2 tm disp ltp iter q hq (by decide)

/-! ## Entry intents and open positions -/

/-- C9 fails right after an `Entry` call: `demoT6entry` is reachable, its position
`L1` has the exit order `X1`, and `ordEntry` holds an entry intent for `L1`. -/
theorem entry_intent_counterexample :
    Reach ["E1", "X1"] demoT6entry ∧
    posOf demoT6entry "alpha" "L1" =
      some { demoPos 100 50 "X1" ExitPending with EntryTime := 1728531060 } ∧
    (stratOf demoT6entry "alpha").ordEntry "L1" = some (demoEntry "L1" Long 100) ∧
    ¬ (∀ lid p, posOf demoT6entry "alpha" lid = some p → p.TiqsExitOrdID ≠ "" →
        (stratOf demoT6entry "alpha").ordEntry lid = none) := by
  have hp : posOf demoT6entry "alpha" "L1" =
      some { demoPos 100 50 "X1" ExitPending with EntryTime := 1728531060 } := by decide
  have he : (stratOf demoT6entry "alpha").ordEntry "L1" = some (demoEntry "L1" Long 100) := by
    decide
  refine ⟨demoT6entry_reach, hp, he, ?_⟩
  intro hall
  have := hall "L1" _ hp (by decide)
  rw [he] at this
  cases this

theorem entries_keys (calls : List (String × EntryOpts)) (s : strategy)
    (h : EntryKeysAgree s.ordEntry) : EntryKeysAgree (s.entries calls).ordEntry := by
  induction calls generalizing s with
  | nil => exact h
  | cons c rest ih =>
    simp only [strategy.entries, List.foldl_cons]
    apply ih
    unfold strategy.Entry
    simp only
    split_ifs
    · intro id e he
      simp only [strategy.insertOrdEntry, GoMap.set_apply] at he
      split_ifs at he with hid
      · cases he
        exact hid.symm
      · exact h id e he
    · exact h

theorem entries_openPos (calls : List (String × EntryOpts)) (s : strategy) :
    (s.entries calls).openPos = s.openPos := by
  induction calls generalizing s with
  | nil => rfl
  | cons c rest ih =>
    simp only [strategy.entries, List.foldl_cons]
    exact (ih _).trans (Entry_local s c.1 c.2).2.2

/-- After `processEntryOrders` over a range of `ordEntry`, no local id has both an
open position and an entry intent. -/
theorem processEntryOrders_settled (tm : GoMap Int) (s : strategy) (disp : GoMap String)
    (tick : Tick) (iter : List (String × Option String)) (hk : EntryKeysAgree s.ordEntry)
    (hrange : IsRange s.ordEntry iter) :
    EntrySettled (processEntryOrders tm s disp tick iter).1 := by
  intro lid hsome
  rw [processEntryOrders_eq] at hsome ⊢
  show GoMap.delAll _ _ lid = none
  rw [GoMap.delAll_apply]
  split_ifs with hdel
  · rfl
  · cases he : s.ordEntry lid with
    | none => rfl
    | some e =>
      exfalso
      have hin : lid ∈ iter.map Prod.fst := (hrange.2 lid).mpr (by rw [he]; rfl)
      obtain ⟨⟨k, rpc⟩, hmem, hk1⟩ := List.mem_map.mp hin
      simp only at hk1
      subst hk1
      obtain ⟨sa, sc, sb⟩ := entryLoop_spec tm tick iter ⟨s, disp, [], []⟩ k rpc e hk hrange.1
        hmem he (by simp)
      cases hp : s.openPos k with
      | some p => exact hdel (sa p hp).2
      | none =>
        cases ht : tm s.symbol with
        | none =>
          have := (sc hp (Or.inl ht)).1
          have hsome' : ((entryLoop tm tick ⟨s, disp, [], []⟩ iter).s.openPos k).isSome := hsome
          rw [this] at hsome'
          cases hsome'
        | some t =>
          cases rpc with
          | none =>
            have := (sc hp (Or.inr rfl)).1
            have hsome' : ((entryLoop tm tick ⟨s, disp, [], []⟩ iter).s.openPos k).isSome :=
              hsome
            rw [this] at hsome'
            cases hsome'
          | some n => exact hdel (sb t n hp ht rfl).2.1

theorem exitVisit_ordEntry (tm : GoMap Int) (ltp : Float64) (L : LoopState)
    (it : String × Option String) :
    (exitVisit tm ltp L it).s.ordEntry = L.s.ordEntry := by
  cases he : L.s.ordExit it.1 with
  | none => rw [exitVisit_none tm ltp L it he]
  | some e =>
    rw [exitVisit_some tm ltp L it e he]
    rcases exitIteration_cases tm ltp L it.1 e it.2 with
      ⟨_, h⟩ | ⟨_, h⟩ | ⟨p, t, _, _, _, _, _, h⟩ | ⟨p, t, n, _, _, _, _, _, h⟩ <;>
      rw [h]

theorem exitLoop_ordEntry (tm : GoMap Int) (ltp : Float64)
    (iter : List (String × Option String)) (L : LoopState) :
    (exitLoop tm ltp L iter).s.ordEntry = L.s.ordEntry := by
  induction iter generalizing L with
  | nil => rfl
  | cons it rest ih =>
    rw [exitLoop_cons, ih]
    exact exitVisit_ordEntry tm ltp L it

/-- A position that is open after an order-update step was open before it. -/
theorem orderUpdateStep_openPos_isSome (s : strategy) (disp : GoMap String) (u : OrderUpdate)
    (lid : String) (h : ((orderUpdateStep s disp u).1.openPos lid).isSome) :
    (s.openPos lid).isSome := by
  cases hm : s.tiqsOrderIdToLocalOrderId u.ID with
  | none => rw [orderUpdateStep_unresolved s disp u (Or.inl hm)] at h; exact h
  | some lid1 =>
    cases hp1 : s.openPos lid1 with
    | none => rw [orderUpdateStep_unresolved s disp u (Or.inr ⟨lid1, hm, hp1⟩)] at h; exact h
    | some p1 =>
      by_cases hl : lid = lid1
      · rw [hl, hp1]; rfl
      · rcases orderUpdateStep_resolved s disp u lid1 p1 hm hp1 with
          ⟨_, _, ho, _⟩ | ⟨_, _, _, ho, _⟩ | ⟨_, _, _, ho, _⟩ |
          ⟨_, _, ho, _⟩ | ⟨_, _, ho, _⟩ | ⟨_, _, ho, _⟩ | ⟨_, _, ho, _⟩ | ⟨_, _, _, _, hs'⟩
        · rw [ho, GoMap.set_other _ _ _ _ hl] at h; exact h
        · rw [ho, GoMap.del_other _ _ _ hl] at h; exact h
        · rw [ho, GoMap.set_other _ _ _ _ hl] at h; exact h
        · rw [ho, GoMap.del_other _ _ _ hl] at h; exact h
        · rw [ho, GoMap.set_other _ _ _ _ hl] at h; exact h
        · rw [ho, GoMap.set_other _ _ _ _ hl] at h; exact h
        · rw [ho, GoMap.set_other _ _ _ _ hl] at h; exact h
        · rw [hs'] at h; exact h

theorem Entry_keys (s : strategy) (orderID : String) (opts : EntryOpts)
    (h : EntryKeysAgree s.ordEntry) : EntryKeysAgree (s.Entry orderID opts).1.ordEntry := by
  unfold strategy.Entry
  simp only
  split_ifs
  · intro id e he
    simp only [strategy.insertOrdEntry, GoMap.set_apply] at he
    split_ifs at he with hid
    · cases he
      exact hid.symm
    · exact h id e he
  · exact h

theorem Exit_ordEntry (s : strategy) (orderID : String) (opts : ExitOpts) :
    (s.Exit orderID opts).1.ordEntry = s.ordEntry := by
  unfold strategy.Exit
  simp only
  split_ifs <;> rfl

/-- The calls of a callback keep every entry intent under its own `OrderID`. -/
theorem onTick_keys (calls : List Call) (s : strategy) (h : EntryKeysAgree s.ordEntry) :
    EntryKeysAgree (s.onTick calls).ordEntry := by
  induction calls generalizing s with
  | nil => exact h
  | cons c rest ih =>
    simp only [strategy.onTick, List.foldl_cons]
    apply ih
    cases c with
    | Entry orderID opts => exact Entry_keys s orderID opts h
    | Exit orderID opts =>
      show EntryKeysAgree (s.Exit orderID opts).1.ordEntry
      rw [Exit_ordEntry]
      exact h
    | Cancel orderID => exact h

theorem settled_Exit (s : strategy) (orderID : String) (opts : ExitOpts)
    (h : EntryKeysAgree s.ordEntry ∧ EntrySettled s) :
    EntryKeysAgree (s.Exit orderID opts).1.ordEntry ∧ EntrySettled (s.Exit orderID opts).1 := by
  have hl := Exit_local s orderID opts
  have he := Exit_ordEntry s orderID opts
  refine ⟨by rw [he]; exact h.1, ?_⟩
  intro lid hsome
  rw [hl.2.2] at hsome
  rw [he]
  exact h.2 lid hsome

theorem settled_processPnls (s : strategy) (t : Tick) (keys : List String)
    (h : EntryKeysAgree s.ordEntry ∧ EntrySettled s) :
    EntryKeysAgree (s.processPnls t keys).ordEntry ∧ EntrySettled (s.processPnls t keys) := by
  refine ⟨h.1, ?_⟩
  intro lid hsome
  apply h.2 lid
  simp only [strategy.processPnls] at hsome
  cases hp : s.openPos lid with
  | none => simp [hp] at hsome
  | some p => rfl

theorem settled_processExitOrders (tm : GoMap Int) (s : strategy) (disp : GoMap String)
    (ltp : Float64) (iter : List (String × Option String))
    (h : EntryKeysAgree s.ordEntry ∧ EntrySettled s) :
    EntryKeysAgree (processExitOrders tm s disp ltp iter).1.ordEntry ∧
      EntrySettled (processExitOrders tm s disp ltp iter).1 := by
  rw [processExitOrders_eq]
  have he := exitLoop_ordEntry tm ltp iter ⟨s, disp, [], []⟩
  refine ⟨by show EntryKeysAgree (exitLoop tm ltp _ iter).s.ordEntry; rw [he]; exact h.1, ?_⟩
  intro lid hsome
  show (exitLoop tm ltp _ iter).s.ordEntry lid = none
  rw [he]
  apply h.2 lid
  have hsome' : ((exitLoop tm ltp ⟨s, disp, [], []⟩ iter).s.openPos lid).isSome := hsome
  rcases exitLoop_openPos_cases tm ltp iter ⟨s, disp, [], []⟩ lid with h1 | ⟨p, n, hp, _⟩
  · rw [h1] at hsome'; exact hsome'
  · show (s.openPos lid).isSome
    have hp' : s.openPos lid = some p := hp
    rw [hp']; rfl

theorem settled_orderUpdateStep (s : strategy) (disp : GoMap String) (u : OrderUpdate)
    (h : EntryKeysAgree s.ordEntry ∧ EntrySettled s) :
    EntryKeysAgree (orderUpdateStep s disp u).1.ordEntry ∧
      EntrySettled (orderUpdateStep s disp u).1 := by
  obtain ⟨e1, _, _, _⟩ := orderUpdateStep_static s disp u
  refine ⟨by rw [e1]; exact h.1, ?_⟩
  intro lid hsome
  rw [e1]
  exact h.2 lid (orderUpdateStep_openPos_isSome s disp u lid hsome)

/-- After an iteration of the tick loop whose callback returns normally, every
entry intent is stored under its own `OrderID` and no local order id has both an
open position and an entry intent. -/
theorem settled_execute (tm : GoMap Int) (s : strategy) (disp : GoMap String)
    (calls : List Call) (tick : Tick) (keys : List String)
    (iterEntry iterExit : List (String × Option String)) (iterCancel : List (String × Bool))
    (hk : EntryKeysAgree s.ordEntry)
    (hrange : IsRange ((s.onTick calls).processPnls tick keys).ordEntry iterEntry) :
    EntryKeysAgree (s.execute tm disp calls tick keys iterEntry iterExit iterCancel).1.ordEntry ∧
      EntrySettled (s.execute tm disp calls tick keys iterEntry iterExit iterCancel).1 := by
  have hk2 : EntryKeysAgree ((s.onTick calls).processPnls tick keys).ordEntry :=
    onTick_keys calls s hk
  have h3 : EntryKeysAgree
        (processEntryOrders tm ((s.onTick calls).processPnls tick keys) disp tick
          iterEntry).1.ordEntry ∧
      EntrySettled
        (processEntryOrders tm ((s.onTick calls).processPnls tick keys) disp tick
          iterEntry).1 := by
    refine ⟨?_, processEntryOrders_settled tm _ disp tick iterEntry hk2 hrange⟩
    rw [processEntryOrders_eq]
    intro id e he
    exact hk2 id e (GoMap.delAll_some _ _ _ _ he)
  exact settled_processExitOrders tm _ _ ((tick.LTP : ℚ) / 100) iterExit h3

/-- C9, amended. In every state of a strategy reached from a new strategy by
iterations of the tick loop whose callback makes `Entry` and `Exit` calls and
returns normally (`execute`), by batches of `Entry` calls each followed by
`processEntryOrders`, by `Exit` calls, `insertBar`, `processPnls`,
`processExitOrders` and order-update handling, in any order, every entry intent
is stored under its own `OrderID` and no local order id has both an open
position and a pending entry intent; in particular no position with a non-empty
`TiqsExitOrdID` has one. -/
theorem entry_intent_settled {tm : GoMap Int} {s : strategy} {disp : GoMap String}
    (h : TickReach tm s disp) :
    EntryKeysAgree s.ordEntry ∧ EntrySettled s ∧
    (∀ lid p, s.openPos lid = some p → p.TiqsExitOrdID ≠ "" → s.ordEntry lid = none) := by
  have main : EntryKeysAgree s.ordEntry ∧ EntrySettled s := by
    induction h with
    | fresh name symbol disp =>
      exact ⟨fun id e he => by simp [newStrategy] at he,
        fun lid hl => by simp [newStrategy] at hl⟩
    | @execute s0 disp0 calls tick keys iterEntry iterExit iterCancel _ _ hrange _ ih =>
      exact settled_execute tm s0 disp0 calls tick keys iterEntry iterExit iterCancel ih.1 hrange
    | @entries s0 disp0 calls tick iter _ hrange ih =>
      have hk := entries_keys calls s0 ih.1
      refine ⟨?_, processEntryOrders_settled tm _ disp0 tick iter hk hrange⟩
      rw [processEntryOrders_eq]
      intro id e he
      exact hk id e (GoMap.delAll_some _ _ _ _ he)
    | @exit s0 disp0 orderID opts _ ih => exact settled_Exit s0 orderID opts ih
    | @insertBar s0 disp0 t _ ih => exact ih
    | @processPnls s0 disp0 t keys _ ih => exact settled_processPnls s0 t keys ih
    | @processExitOrders s0 disp0 ltp iter _ _ ih =>
      exact settled_processExitOrders tm s0 disp0 ltp iter ih
    | @orderUpdate s0 disp0 u _ ih => exact settled_orderUpdateStep s0 disp0 u ih
  exact ⟨main.1, main.2, fun lid p hp _ => main.2 lid (by rw [hp]; rfl)⟩

theorem tickDemo1_ordExit :
    (processEntryOrders seedSymbolToToken
        (((newStrategy "alpha" "NIFTY50").onTick
          [Call.Entry "L1" (demoEntry "" Long 100)]).processPnls (demoTick 5000) [])
        GoMap.empty (demoTick 5000) [("L1", some "E1")]).1.ordExit = GoMap.empty := rfl

theorem tickDemo1_range :
    IsRange
      (processEntryOrders seedSymbolToToken
        (((newStrategy "alpha" "NIFTY50").onTick
          [Call.Entry "L1" (demoEntry "" Long 100)]).processPnls (demoTick 5000) [])
        GoMap.empty (demoTick 5000) [("L1", some "E1")]).1.ordExit [] := by
  rw [tickDemo1_ordExit]
  refine ⟨by simp, ?_⟩
  intro x
  simp

theorem tickDemo1_reach : TickReach seedSymbolToToken tickDemo1.1 tickDemo1.2.1 :=
  TickReach.execute [Call.Entry "L1" (demoEntry "" Long 100)] (demoTick 5000) []
    [("L1", some "E1")] [] [] (TickReach.fresh "alpha" "NIFTY50" GoMap.empty) rfl
    (IsRange_single _ "L1" (demoEntry "L1" Long 100) _ rfl) tickDemo1_range

theorem tickDemo2_ordEntry :
    ((tickDemo1.1.onTick [Call.Entry "L1" (demoEntry "" Long 100)]).processPnls (demoTick 5100)
        ["L1"]).ordEntry =
      (GoMap.delAll (GoMap.empty.set "L1" (demoEntry "L1" Long 100)) ["L1"]).set "L1"
        (demoEntry "L1" Long 100) := rfl

theorem tickDemo2_rangeEntry :
    IsRange
      ((tickDemo1.1.onTick [Call.Entry "L1" (demoEntry "" Long 100)]).processPnls (demoTick 5100)
        ["L1"]).ordEntry [("L1", none)] := by
  rw [tickDemo2_ordEntry]
  refine ⟨by simp, ?_⟩
  intro x
  by_cases hx : x = "L1" <;> simp [GoMap.set_apply, GoMap.delAll_apply, hx]

theorem tickDemo2_ordExit :
    (processEntryOrders seedSymbolToToken
        ((tickDemo1.1.onTick [Call.Entry "L1" (demoEntry "" Long 100)]).processPnls
          (demoTick 5100) ["L1"])
        tickDemo1.2.1 (demoTick 5100) [("L1", none)]).1.ordExit =
      GoMap.empty := rfl

theorem tickDemo2_rangeExit :
    IsRange
      (processEntryOrders seedSymbolToToken
        ((tickDemo1.1.onTick [Call.Entry "L1" (demoEntry "" Long 100)]).processPnls
          (demoTick 5100) ["L1"])
        tickDemo1.2.1 (demoTick 5100) [("L1", none)]).1.ordExit [] := by
  rw [tickDemo2_ordExit]
  refine ⟨by simp, ?_⟩
  intro x
  simp

theorem tickDemo2_reach : TickReach seedSymbolToToken tickDemo2.1 tickDemo2.2.1 :=
  TickReach.execute [Call.Entry "L1" (demoEntry "" Long 100)] (demoTick 5100) ["L1"]
    [("L1", none)] [] [] tickDemo1_reach rfl tickDemo2_rangeEntry tickDemo2_rangeExit

/-- Two ticks of a new strategy whose callback enters `L1` on both: after the
second tick the position opened by the first one is still there and the
repeated intent is gone. -/
theorem entry_intent_settled_witness :
    TickReach seedSymbolToToken tickDemo2.1 tickDemo2.2.1 ∧
    (tickDemo2.1.openPos "L1").map Position.TiqsEntryOrdID = some "E1" ∧
    tickDemo2.1.ordEntry "L1" = none :=
  ⟨tickDemo2_reach, by decide, (entry_intent_settled tickDemo2_reach).2.1 "L1" (by decide)⟩

/-! ## The tick codec -/

theorem shl32_byte (b : Byte) (n : Nat) (hn : n ≤ 24) : shl32 b.val n = b.val * 2 ^ n := by
  unfold shl32
  rw [Nat.shiftLeft_eq]
  apply Nat.mod_eq_of_lt
  have hb : b.val < 256 := b.isLt
  calc b.val * 2 ^ n ≤ 255 * 2 ^ n := Nat.mul_le_mul_right _ (by omega)
    _ ≤ 255 * 2 ^ 24 := Nat.mul_le_mul_left _ (Nat.pow_le_pow_right (by norm_num) hn)
    _ < 2 ^ 32 := by norm_num

/-- The shifted bytes that `bytesToInt32` combines with `|` occupy disjoint
bits, so their combination is the big-endian sum. -/
theorem or_bytes (b0 b1 b2 b3 : Byte) :
    shl32 b0.val 24 ||| shl32 b1.val 16 ||| shl32 b2.val 8 ||| b3.val =
      ((b0.val * 256 + b1.val) * 256 + b2.val) * 256 + b3.val := by
  rw [shl32_byte b0 24 (by norm_num), shl32_byte b1 16 (by norm_num),
    shl32_byte b2 8 (by norm_num)]
  have h0 : b0.val < 256 := b0.isLt
  have h1 : b1.val < 256 := b1.isLt
  have h2 : b2.val < 256 := b2.isLt
  have h3 : b3.val < 256 := b3.isLt
  have e1 : b0.val * 2 ^ 24 ||| b1.val * 2 ^ 16 = 2 ^ 16 * (b0.val * 256 + b1.val) := by
    have := Nat.mul_add_lt_is_or (show b1.val * 2 ^ 16 < 2 ^ 24 by omega) b0.val
    rw [show b0.val * 2 ^ 24 = 2 ^ 24 * b0.val by ring, ← this]
    ring
  have e2 : 2 ^ 16 * (b0.val * 256 + b1.val) ||| b2.val * 2 ^ 8 =
      2 ^ 8 * ((b0.val * 256 + b1.val) * 256 + b2.val) := by
    have := Nat.mul_add_lt_is_or (show b2.val * 2 ^ 8 < 2 ^ 16 by omega) (b0.val * 256 + b1.val)
    rw [← this]
    ring
  have e3 : 2 ^ 8 * ((b0.val * 256 + b1.val) * 256 + b2.val) ||| b3.val =
      ((b0.val * 256 + b1.val) * 256 + b2.val) * 256 + b3.val := by
    have := Nat.mul_add_lt_is_or (show b3.val < 2 ^ 8 by omega)
      ((b0.val * 256 + b1.val) * 256 + b2.val)
    rw [← this]
    ring
  rw [e1, e2, e3]

theorem bigEndian_four (b0 b1 b2 b3 : Byte) :
    bigEndian [b0, b1, b2, b3] = ((b0.val * 256 + b1.val) * 256 + b2.val) * 256 + b3.val := by
  simp [bigEndian]

theorem bigEndian_four_lt (b0 b1 b2 b3 : Byte) : bigEndian [b0, b1, b2, b3] < 2 ^ 32 := by
  rw [bigEndian_four]
  have h0 : b0.val < 256 := b0.isLt
  have h1 : b1.val < 256 := b1.isLt
  have h2 : b2.val < 256 := b2.isLt
  have h3 : b3.val < 256 := b3.isLt
  omega

/-- On four bytes `bytesToInt32` is the signed big-endian value. -/
theorem bytesToInt32_four (b0 b1 b2 b3 : Byte) :
    bytesToInt32 [b0, b1, b2, b3] = signed32 (bigEndian [b0, b1, b2, b3]) := by
  have hlt := bigEndian_four_lt b0 b1 b2 b3
  simp only [bytesToInt32, or_bytes, ← bigEndian_four]
  unfold int32OfBits signed32
  rw [Nat.mod_eq_of_lt hlt]

theorem length_four (bs : List Byte) (h : bs.length = 4) :
    ∃ b0 b1 b2 b3, bs = [b0, b1, b2, b3] := by
  match bs, h with
  | [b0, b1, b2, b3], _ => exact ⟨b0, b1, b2, b3, rfl⟩

theorem bytesToInt32_eq (bs : List Byte) (h : bs.length = 4) :
    bytesToInt32 bs = signed32 (bigEndian bs) := by
  obtain ⟨b0, b1, b2, b3, rfl⟩ := length_four bs h
  exact bytesToInt32_four b0 b1 b2 b3

theorem slice_field (data : List Byte) (lo : Nat) (h : lo + 4 ≤ data.length) :
    bytesToInt32 (slice data lo (lo + 4)) = fieldAt data lo := by
  unfold slice fieldAt
  rw [show lo + 4 - lo = 4 by omega]
  apply bytesToInt32_eq
  simp only [List.length_take, List.length_drop]
  omega

theorem signed32_range (u : Nat) (h : u < 2 ^ 32) : isInt32 (signed32 u) := by
  unfold isInt32 signed32
  split <;> constructor <;> omega

theorem fieldAt_range (data : List Byte) (lo : Nat) (h : lo + 4 ≤ data.length) :
    isInt32 (fieldAt data lo) := by
  unfold fieldAt
  have hlen : ((data.drop lo).take 4).length = 4 := by
    simp only [List.length_take, List.length_drop]
    omega
  obtain ⟨b0, b1, b2, b3, hb⟩ := length_four _ hlen
  rw [hb]
  exact signed32_range _ (bigEndian_four_lt b0 b1 b2 b3)

theorem addInt32_offset (x : Int) (h : isInt32 x) :
    addInt32 x 315513000 =
      if x ≤ 1831970647 then x + 315513000 else x + 315513000 - 2 ^ 32 := by
  unfold isInt32 at h
  unfold addInt32
  split <;> omega

theorem fieldAt_take (data : List Byte) (lo : Nat) (h : lo + 4 ≤ 77) :
    fieldAt (data.take 77) lo = fieldAt data lo := by
  unfold fieldAt
  rw [List.drop_take, List.take_take, Nat.min_eq_left (by omega)]

theorem layoutTick_take (data : List Byte) : layoutTick (data.take 77) = layoutTick data := by
  have h8 : (data.take 77).getD 8 0 = data.getD 8 0 := by
    simp [List.getD_eq_getElem?_getD, List.getElem?_take]
  unfold layoutTick
  rw [h8, fieldAt_take data 0 (by omega), fieldAt_take data 4 (by omega),
    fieldAt_take data 9 (by omega), fieldAt_take data 13 (by omega),
    fieldAt_take data 17 (by omega), fieldAt_take data 21 (by omega),
    fieldAt_take data 25 (by omega), fieldAt_take data 29 (by omega),
    fieldAt_take data 33 (by omega), fieldAt_take data 37 (by omega),
    fieldAt_take data 41 (by omega), fieldAt_take data 45 (by omega),
    fieldAt_take data 49 (by omega), fieldAt_take data 53 (by omega),
    fieldAt_take data 57 (by omega), fieldAt_take data 61 (by omega),
    fieldAt_take data 65 (by omega), fieldAt_take data 69 (by omega),
    fieldAt_take data 73 (by omega)]

/-- On a frame of at least 77 bytes `parseTick` returns the tick of the layout. -/
theorem parseTick_eq (data : List Byte) (h : 77 ≤ data.length) :
    parseTick data = some (layoutTick data) := by
  unfold parseTick layoutTick
  rw [if_neg (by omega)]
  rw [addInt32_offset _ (by rw [slice_field data 53 (by omega)]; exact fieldAt_range data 53 (by omega))]
  rw [slice_field data 0 (by omega), slice_field data 4 (by omega),
    slice_field data 9 (by omega), slice_field data 13 (by omega),
    slice_field data 17 (by omega), slice_field data 21 (by omega),
    slice_field data 25 (by omega), slice_field data 29 (by omega),
    slice_field data 33 (by omega), slice_field data 37 (by omega),
    slice_field data 41 (by omega), slice_field data 45 (by omega),
    slice_field data 49 (by omega), slice_field data 53 (by omega),
    slice_field data 57 (by omega), slice_field data 61 (by omega),
    slice_field data 65 (by omega), slice_field data 69 (by omega),
    slice_field data 73 (by omega)]

/-- C11. For every 197-byte frame `parseTick` returns the tick of the fixed
layout: each 32-bit field is the big-endian two's-complement value of its four
bytes, `NetChangeIndicator` is byte 8 as a value in 0..255, `Time` is the value
of bytes [53..57) plus 315513000 when that value is at most 1831970647 and that
sum less 2^32 above it, which is the sum wrapped into 32 bits; and two frames
that agree on their first 77 bytes decode to the same tick. -/
theorem parseTick_layout (data : List Byte) (h : data.length = 197) :
    parseTick data = some (layoutTick data) ∧
    (0 ≤ (layoutTick data).NetChangeIndicator ∧ (layoutTick data).NetChangeIndicator ≤ 255) ∧
    isInt32 (layoutTick data).Time ∧
    ((layoutTick data).Time - (fieldAt data 53 + 315513000)) % 2 ^ 32 = 0 ∧
    (∀ data1 : List Byte, data1.length = 197 → data1.take 77 = data.take 77 →
      parseTick data1 = parseTick data) := by
  refine ⟨parseTick_eq data (by omega), ?_, ?_, ?_, ?_⟩
  · have hb : (data.getD 8 0).val < 256 := (data.getD 8 0).isLt
    simp only [layoutTick]
    omega
  · have hr := fieldAt_range data 53 (by omega)
    unfold isInt32 at hr ⊢
    simp only [layoutTick]
    split <;> constructor <;> omega
  · simp only [layoutTick]
    split <;> omega
  · intro data1 h1 htake
    rw [parseTick_eq data (by omega), parseTick_eq data1 (by omega), ← layoutTick_take data1,
      ← layoutTick_take data, htake]

/-- Decoding the four bytes of an `int32` gives the value back. -/
theorem bytesToInt32_int32Bytes (v : Int) (h : isInt32 v) : bytesToInt32 (int32Bytes v) = v := by
  unfold isInt32 at h
  unfold int32Bytes
  simp only
  rw [bytesToInt32_four, bigEndian_four]
  simp only [Fin.ofNat, Fin.val_mk]
  have hu : (v % 2 ^ 32).toNat < 2 ^ 32 := by omega
  have hsum : ((((v % 2 ^ 32).toNat / 2 ^ 24 % (255 + 1)) * 256 +
      (v % 2 ^ 32).toNat / 2 ^ 16 % (255 + 1)) * 256 +
      (v % 2 ^ 32).toNat / 2 ^ 8 % (255 + 1)) * 256 + (v % 2 ^ 32).toNat % (255 + 1) =
      (v % 2 ^ 32).toNat := by
    omega
  rw [hsum]
  unfold signed32
  split <;> omega

theorem addInt32_range (x y : Int) : isInt32 (addInt32 x y) := by
  unfold isInt32 addInt32
  constructor <;> omega

theorem addInt32_cancel (x : Int) (h : isInt32 x) :
    addInt32 (addInt32 x (-315513000)) 315513000 = x := by
  unfold isInt32 at h
  unfold addInt32
  omega

theorem encodeTick_length (t : Tick) (rest : List Byte) :
    (encodeTick t rest).length = 77 + rest.length := by
  simp only [encodeTick, int32Bytes, List.length_append, List.length_cons, List.length_nil]

theorem int32Bytes_length (v : Int) : (int32Bytes v).length = 4 := rfl

theorem slice_append_skip (A R : List Byte) (lo hi : Nat) (h : A.length ≤ lo) :
    slice (A ++ R) lo hi = slice R (lo - A.length) (hi - A.length) := by
  unfold slice
  rw [List.drop_append_eq_append_drop, List.drop_eq_nil_of_le h, List.nil_append]
  congr 1
  omega

theorem slice_append_head (Z R : List Byte) (n : Nat) (h : Z.length = n) :
    slice (Z ++ R) 0 n = Z := by
  unfold slice
  subst h
  simp

theorem slice_cons_skip (a : Byte) (R : List Byte) (lo hi : Nat) (h : 1 ≤ lo) :
    slice (a :: R) lo hi = slice R (lo - 1) (hi - 1) := by
  have := slice_append_skip [a] R lo hi h
  simpa using this

theorem getElem?_append_skip (A R : List Byte) (i : Nat) (h : A.length ≤ i) :
    (A ++ R)[i]? = R[i - A.length]? :=
  List.getElem?_append_right h

theorem encodeTick_getD (t : Tick) (rest : List Byte) :
    (encodeTick t rest).getD 8 0 = Fin.ofNat t.NetChangeIndicator.toNat := by
  unfold encodeTick
  simp only [List.append_assoc, List.getD_eq_getElem?_getD]
  rw [getElem?_append_skip _ _ 8 (by simp [int32Bytes_length]),
    getElem?_append_skip _ _ _ (by simp [int32Bytes_length])]
  simp [int32Bytes_length]

/-- The slices that `parseTick` takes of an encoded frame are the encoded
fields. -/
theorem encodeTick_slices (t : Tick) (rest : List Byte) :
    slice (encodeTick t rest) 0 4 = int32Bytes t.Token ∧
    slice (encodeTick t rest) 4 8 = int32Bytes t.LTP ∧
    (encodeTick t rest).getD 8 0 = Fin.ofNat t.NetChangeIndicator.toNat ∧
    slice (encodeTick t rest) 9 13 = int32Bytes t.NetChange ∧
    slice (encodeTick t rest) 13 17 = int32Bytes t.LTQ ∧
    slice (encodeTick t rest) 17 21 = int32Bytes t.AvgPrice ∧
    slice (encodeTick t rest) 21 25 = int32Bytes t.TotalBuyQuantity ∧
    slice (encodeTick t rest) 25 29 = int32Bytes t.TotalSellQuantity ∧
    slice (encodeTick t rest) 29 33 = int32Bytes t.Open ∧
    slice (encodeTick t rest) 33 37 = int32Bytes t.High ∧
    slice (encodeTick t rest) 37 41 = int32Bytes t.Close ∧
    slice (encodeTick t rest) 41 45 = int32Bytes t.Low ∧
    slice (encodeTick t rest) 45 49 = int32Bytes t.Volume ∧
    slice (encodeTick t rest) 49 53 = int32Bytes t.LTT ∧
    slice (encodeTick t rest) 53 57 = int32Bytes (addInt32 t.Time (-315513000)) ∧
    slice (encodeTick t rest) 57 61 = int32Bytes t.OI ∧
    slice (encodeTick t rest) 61 65 = int32Bytes t.OIDayHigh ∧
    slice (encodeTick t rest) 65 69 = int32Bytes t.OIDayLow ∧
    slice (encodeTick t rest) 69 73 = int32Bytes t.LowerLimit ∧
    slice (encodeTick t rest) 73 77 = int32Bytes t.UpperLimit := by
  refine ⟨?_, ?_, encodeTick_getD t rest, ?_, ?_, ?_, ?_, ?_, ?_, ?_, ?_, ?_, ?_, ?_, ?_, ?_, ?_,
    ?_, ?_, ?_⟩ <;>
    unfold encodeTick <;>
    simp only [List.append_assoc] <;>
    simp [slice_append_skip, slice_append_head, slice_cons_skip, getElem?_append_skip,
      int32Bytes_length]

theorem encodeTick_indicator (t : Tick) (rest : List Byte)
    (h : 0 ≤ t.NetChangeIndicator ∧ t.NetChangeIndicator ≤ 255) :
    (((encodeTick t rest).getD 8 0).val : Int) = t.NetChangeIndicator := by
  rw [(encodeTick_slices t rest).2.2.1]
  simp only [Fin.ofNat, Fin.val_mk]
  omega

/-- C12. Codec round trip: a tick whose fields are `int32` values and whose
`NetChangeIndicator` is in 0..255, written into a 197-byte frame in the layout
of the codec (any bytes from offset 77 on), is what `parseTick` returns for
that frame. -/
theorem parseTick_encodeTick (t : Tick) (rest : List Byte) (ht : t.wellTyped)
    (hn : 0 ≤ t.NetChangeIndicator ∧ t.NetChangeIndicator ≤ 255) (hrest : rest.length = 120) :
    (encodeTick t rest).length = 197 ∧ parseTick (encodeTick t rest) = some t := by
  have hlen := encodeTick_length t rest
  refine ⟨by omega, ?_⟩
  obtain ⟨h1, h2, _, h4, h5, h6, h7, h8, h9, h10, h11, h12, h13, h14, h15, h16, h17, h18, h19,
    h20⟩ := ht
  obtain ⟨s0, s4, _, s9, s13, s17, s21, s25, s29, s33, s37, s41, s45, s49, s53, s57, s61, s65,
    s69, s73⟩ := encodeTick_slices t rest
  unfold parseTick
  rw [if_neg (by omega), encodeTick_indicator t rest hn]
  rw [s0, s4, s9, s13, s17, s21, s25, s29, s33, s37, s41, s45, s49, s53, s57, s61, s65, s69, s73,
    bytesToInt32_int32Bytes _ h1, bytesToInt32_int32Bytes _ h2, bytesToInt32_int32Bytes _ h4,
    bytesToInt32_int32Bytes _ h5, bytesToInt32_int32Bytes _ h6, bytesToInt32_int32Bytes _ h7,
    bytesToInt32_int32Bytes _ h8, bytesToInt32_int32Bytes _ h9, bytesToInt32_int32Bytes _ h10,
    bytesToInt32_int32Bytes _ h11, bytesToInt32_int32Bytes _ h12, bytesToInt32_int32Bytes _ h13,
    bytesToInt32_int32Bytes _ h14, bytesToInt32_int32Bytes _ (addInt32_range _ _),
    bytesToInt32_int32Bytes _ h16, bytesToInt32_int32Bytes _ h17, bytesToInt32_int32Bytes _ h18,
    bytesToInt32_int32Bytes _ h19, bytesToInt32_int32Bytes _ h20, addInt32_cancel _ h15]

set_option maxRecDepth 8000

theorem demoFrame_length : demoFrame.length = 197 := by decide

theorem demoFrame_parse : parseTick demoFrame = some demoFrameTick := by
  rw [parseTick_eq demoFrame (by decide)]
  simp only [layoutTick, demoFrameTick, Option.some.injEq, Tick.mk.injEq]
  decide

/-- The frame `demoFrame` decodes by the layout: token 26000, LTP 2525000, net
change -1250 from the bytes `FF FF FB 1E`, time 315513000 from a zero field. -/
theorem parseTick_layout_witness :
    demoFrame.length = 197 ∧
    (layoutTick demoFrame).Token = 26000 ∧ (layoutTick demoFrame).NetChange = -1250 ∧
    (parseTick demoFrame = some (layoutTick demoFrame) ∧
      (0 ≤ (layoutTick demoFrame).NetChangeIndicator ∧
        (layoutTick demoFrame).NetChangeIndicator ≤ 255) ∧
      isInt32 (layoutTick demoFrame).Time ∧
      ((layoutTick demoFrame).Time - (fieldAt demoFrame 53 + 315513000)) % 2 ^ 32 = 0 ∧
      (∀ data1 : List Byte, data1.length = 197 → data1.take 77 = demoFrame.take 77 →
        parseTick data1 = parseTick demoFrame)) :=
  ⟨by decide, by decide, by decide, parseTick_layout demoFrame (by decide)⟩

theorem demoFrameTick_wellTyped : demoFrameTick.wellTyped := by
  unfold Tick.wellTyped
  decide

/-- The tick of `demoFrame`, encoded with a tail of 120 bytes of value 7, decodes
to itself. -/
theorem parseTick_encodeTick_witness :
    demoFrameTick.wellTyped ∧ (List.replicate 120 (7 : Byte)).length = 120 ∧
    (encodeTick demoFrameTick (List.replicate 120 7)).take 13 = demoFrame.take 13 ∧
    (encodeTick demoFrameTick (List.replicate 120 7)).length = 197 ∧
    parseTick (encodeTick demoFrameTick (List.replicate 120 7)) = some demoFrameTick :=
  ⟨demoFrameTick_wellTyped, by decide, by decide,
    parseTick_encodeTick demoFrameTick (List.replicate 120 7) demoFrameTick_wellTyped
      (by decide) (by decide)⟩

/-! ## Order-update decoding -/

theorem lenientField_eq {α : Type} (rawOrder : GoMap String) (key : String)
    (parse : String → Option α) (zero : α) :
    lenientField rawOrder key parse zero = ((rawOrder key).bind parse).getD zero := by
  unfold lenientField
  cases rawOrder key with
  | none => rfl
  | some val =>
    simp only [Option.some_bind]
    cases parse val <;> rfl

theorem decodeOrderMessage_eq (lib : DecodeLib) (message : List Byte) (rawOrder : GoMap String)
    (h : lib.Unmarshal message = some rawOrder) :
    ∃ u, decodeOrderMessage lib message = some u ∧
      u.ID = (rawOrder "id").getD "" ∧
      u.Typ = (rawOrder "type").getD "" ∧
      u.UserID = (rawOrder "userId").getD "" ∧
      u.Exchange = (rawOrder "exchange").getD "" ∧
      u.Symbol = (rawOrder "symbol").getD "" ∧
      u.Product = (rawOrder "product").getD "" ∧
      u.Status = (rawOrder "status").getD "" ∧
      u.ReportType = (rawOrder "reportType").getD "" ∧
      u.TransactionType = (rawOrder "transactionType").getD "" ∧
      u.Order = (rawOrder "order").getD "" ∧
      u.Retention = (rawOrder "retention").getD "" ∧
      u.Reason = (rawOrder "reason").getD "" ∧
      u.ExchangeOrderId = (rawOrder "exchangeOrderId").getD "" ∧
      u.CancelQty = (rawOrder "cancelQty").getD "" ∧
      u.Tags = (rawOrder "tags").getD "" ∧
      u.DisclosedQty = (rawOrder "disclosedQty").getD "" ∧
      u.TriggerPrice = (rawOrder "triggerPrice").getD "" ∧
      u.Token = ((rawOrder "token").bind lib.Atoi).getD 0 ∧
      u.Qty = ((rawOrder "qty").bind lib.Atoi).getD 0 ∧
      u.Price = ((rawOrder "price").bind lib.ParseFloat).getD 0 ∧
      u.AvgPrice = ((rawOrder "avgPrice").bind lib.ParseFloat).getD 0 ∧
      u.Timestamp = ((rawOrder "timestamp").bind lib.Atoi).getD zeroTime ∧
      u.ExchangeTime = ((rawOrder "exchangeTime").bind lib.ParseTime).getD zeroTime := by
  unfold decodeOrderMessage
  rw [h]
  refine ⟨_, rfl, ?_⟩
  simp only [lenientField_eq, and_self]

/-- C14. When `json.Unmarshal` yields the string map `rawOrder` of the message,
`decodeOrderMessage` returns an update and no error; every string field is the
map's value at its key, empty when the key is absent; `Token` and `Qty` are the
`Atoi` value of their strings or 0, `Price` and `AvgPrice` the `ParseFloat`
value or 0, `Timestamp` the instant at the `Atoi` value in epoch seconds or the
zero time, `ExchangeTime` the parsed instant or the zero time; and each field
depends on the map's value at its own key only, so a malformed value of one
field changes no other field. -/
theorem decodeOrderMessage_lenient (lib : DecodeLib) (message : List Byte)
    (rawOrder : GoMap String) (h : lib.Unmarshal message = some rawOrder) :
    ∃ u, decodeOrderMessage lib message = some u ∧
      (u.ID = (rawOrder "id").getD "" ∧
      u.Typ = (rawOrder "type").getD "" ∧
      u.UserID = (rawOrder "userId").getD "" ∧
      u.Exchange = (rawOrder "exchange").getD "" ∧
      u.Symbol = (rawOrder "symbol").getD "" ∧
      u.Product = (rawOrder "product").getD "" ∧
      u.Status = (rawOrder "status").getD "" ∧
      u.ReportType = (rawOrder "reportType").getD "" ∧
      u.TransactionType = (rawOrder "transactionType").getD "" ∧
      u.Order = (rawOrder "order").getD "" ∧
      u.Retention = (rawOrder "retention").getD "" ∧
      u.Reason = (rawOrder "reason").getD "" ∧
      u.ExchangeOrderId = (rawOrder "exchangeOrderId").getD "" ∧
      u.CancelQty = (rawOrder "cancelQty").getD "" ∧
      u.Tags = (rawOrder "tags").getD "" ∧
      u.DisclosedQty = (rawOrder "disclosedQty").getD "" ∧
      u.TriggerPrice = (rawOrder "triggerPrice").getD "" ∧
      u.Token = ((rawOrder "token").bind lib.Atoi).getD 0 ∧
      u.Qty = ((rawOrder "qty").bind lib.Atoi).getD 0 ∧
      u.Price = ((rawOrder "price").bind lib.ParseFloat).getD 0 ∧
      u.AvgPrice = ((rawOrder "avgPrice").bind lib.ParseFloat).getD 0 ∧
      u.Timestamp = ((rawOrder "timestamp").bind lib.Atoi).getD zeroTime ∧
      u.ExchangeTime = ((rawOrder "exchangeTime").bind lib.ParseTime).getD zeroTime) ∧
      ∀ (message1 : List Byte) (rawOrder1 : GoMap String) (u1 : OrderUpdate),
        lib.Unmarshal message1 = some rawOrder1 → decodeOrderMessage lib message1 = some u1 →
        (rawOrder1 "id" = rawOrder "id" → u1.ID = u.ID) ∧
        (rawOrder1 "type" = rawOrder "type" → u1.Typ = u.Typ) ∧
        (rawOrder1 "userId" = rawOrder "userId" → u1.UserID = u.UserID) ∧
        (rawOrder1 "exchange" = rawOrder "exchange" → u1.Exchange = u.Exchange) ∧
        (rawOrder1 "symbol" = rawOrder "symbol" → u1.Symbol = u.Symbol) ∧
        (rawOrder1 "product" = rawOrder "product" → u1.Product = u.Product) ∧
        (rawOrder1 "status" = rawOrder "status" → u1.Status = u.Status) ∧
        (rawOrder1 "reportType" = rawOrder "reportType" → u1.ReportType = u.ReportType) ∧
        (rawOrder1 "transactionType" = rawOrder "transactionType" → u1.TransactionType = u.TransactionType) ∧
        (rawOrder1 "order" = rawOrder "order" → u1.Order = u.Order) ∧
        (rawOrder1 "retention" = rawOrder "retention" → u1.Retention = u.Retention) ∧
        (rawOrder1 "reason" = rawOrder "reason" → u1.Reason = u.Reason) ∧
        (rawOrder1 "exchangeOrderId" = rawOrder "exchangeOrderId" → u1.ExchangeOrderId = u.ExchangeOrderId) ∧
        (rawOrder1 "cancelQty" = rawOrder "cancelQty" → u1.CancelQty = u.CancelQty) ∧
        (rawOrder1 "tags" = rawOrder "tags" → u1.Tags = u.Tags) ∧
        (rawOrder1 "disclosedQty" = rawOrder "disclosedQty" → u1.DisclosedQty = u.DisclosedQty) ∧
        (rawOrder1 "triggerPrice" = rawOrder "triggerPrice" → u1.TriggerPrice = u.TriggerPrice) ∧
        (rawOrder1 "token" = rawOrder "token" → u1.Token = u.Token) ∧
        (rawOrder1 "qty" = rawOrder "qty" → u1.Qty = u.Qty) ∧
        (rawOrder1 "price" = rawOrder "price" → u1.Price = u.Price) ∧
        (rawOrder1 "avgPrice" = rawOrder "avgPrice" → u1.AvgPrice = u.AvgPrice) ∧
        (rawOrder1 "timestamp" = rawOrder "timestamp" → u1.Timestamp = u.Timestamp) ∧
        (rawOrder1 "exchangeTime" = rawOrder "exchangeTime" → u1.ExchangeTime = u.ExchangeTime) := by
  obtain ⟨u, hu, hf⟩ := decodeOrderMessage_eq lib message rawOrder h
  refine ⟨u, hu, hf, ?_⟩
  intro message1 rawOrder1 u1 h1 hu1
  obtain ⟨u2, hu2, hf2⟩ := decodeOrderMessage_eq lib message1 rawOrder1 h1
  rw [hu1] at hu2
  cases hu2
  obtain ⟨a0, a1, a2, a3, a4, a5, a6, a7, a8, a9, a10, a11, a12, a13, a14, a15, a16, a17, a18, a19, a20, a21, a22⟩ := hf
  obtain ⟨b0, b1, b2, b3, b4, b5, b6, b7, b8, b9, b10, b11, b12, b13, b14, b15, b16, b17, b18, b19, b20, b21, b22⟩ := hf2
  refine ⟨?_, ?_, ?_, ?_, ?_, ?_, ?_, ?_, ?_, ?_, ?_, ?_, ?_, ?_, ?_, ?_, ?_, ?_, ?_, ?_, ?_, ?_, ?_⟩ <;> intro hk
  · rw [a0, b0, hk]
  · rw [a1, b1, hk]
  · rw [a2, b2, hk]
  · rw [a3, b3, hk]
  · rw [a4, b4, hk]
  · rw [a5, b5, hk]
  · rw [a6, b6, hk]
  · rw [a7, b7, hk]
  · rw [a8, b8, hk]
  · rw [a9, b9, hk]
  · rw [a10, b10, hk]
  · rw [a11, b11, hk]
  · rw [a12, b12, hk]
  · rw [a13, b13, hk]
  · rw [a14, b14, hk]
  · rw [a15, b15, hk]
  · rw [a16, b16, hk]
  · rw [a17, b17, hk]
  · rw [a18, b18, hk]
  · rw [a19, b19, hk]
  · rw [a20, b20, hk]
  · rw [a21, b21, hk]
  · rw [a22, b22, hk]

theorem demoRaw_decode :
    (decodeOrderMessage (demoLib demoRaw) []).map
        (fun u => (u.ID, u.Status, u.Token, u.Qty, u.Price, u.AvgPrice, u.ExchangeTime,
          u.Timestamp)) =
      some ("E1", "COMPLETE", 26000, 0, 0, 201 / 4, 1728552660, zeroTime) := by
  rfl

/-- The map `demoRaw`, with the malformed `qty` string `1o0`, no `price` and no
`timestamp`, decodes without error; `Qty` and `Price` are 0, `Timestamp` is the
zero time, and the other fields carry their values. -/
theorem decodeOrderMessage_lenient_witness :
    (decodeOrderMessage (demoLib demoRaw) []).map
        (fun u => (u.ID, u.Status, u.Token, u.Qty, u.Price, u.AvgPrice, u.ExchangeTime,
          u.Timestamp)) =
      some ("E1", "COMPLETE", 26000, 0, 0, 201 / 4, 1728552660, zeroTime) ∧
    ∃ u, decodeOrderMessage (demoLib demoRaw) [] = some u ∧
      (u.ID = (demoRaw "id").getD "" ∧
      u.Typ = (demoRaw "type").getD "" ∧
      u.UserID = (demoRaw "userId").getD "" ∧
      u.Exchange = (demoRaw "exchange").getD "" ∧
      u.Symbol = (demoRaw "symbol").getD "" ∧
      u.Product = (demoRaw "product").getD "" ∧
      u.Status = (demoRaw "status").getD "" ∧
      u.ReportType = (demoRaw "reportType").getD "" ∧
      u.TransactionType = (demoRaw "transactionType").getD "" ∧
      u.Order = (demoRaw "order").getD "" ∧
      u.Retention = (demoRaw "retention").getD "" ∧
      u.Reason = (demoRaw "reason").getD "" ∧
      u.ExchangeOrderId = (demoRaw "exchangeOrderId").getD "" ∧
      u.CancelQty = (demoRaw "cancelQty").getD "" ∧
      u.Tags = (demoRaw "tags").getD "" ∧
      u.DisclosedQty = (demoRaw "disclosedQty").getD "" ∧
      u.TriggerPrice = (demoRaw "triggerPrice").getD "" ∧
      u.Token = ((demoRaw "token").bind (demoLib demoRaw).Atoi).getD 0 ∧
      u.Qty = ((demoRaw "qty").bind (demoLib demoRaw).Atoi).getD 0 ∧
      u.Price = ((demoRaw "price").bind (demoLib demoRaw).ParseFloat).getD 0 ∧
      u.AvgPrice = ((demoRaw "avgPrice").bind (demoLib demoRaw).ParseFloat).getD 0 ∧
      u.Timestamp = ((demoRaw "timestamp").bind (demoLib demoRaw).Atoi).getD zeroTime ∧
      u.ExchangeTime = ((demoRaw "exchangeTime").bind (demoLib demoRaw).ParseTime).getD zeroTime) ∧
      ∀ (message1 : List Byte) (rawOrder1 : GoMap String) (u1 : OrderUpdate),
        (demoLib demoRaw).Unmarshal message1 = some rawOrder1 →
        decodeOrderMessage (demoLib demoRaw) message1 = some u1 →
        (rawOrder1 "id" = demoRaw "id" → u1.ID = u.ID) ∧
        (rawOrder1 "type" = demoRaw "type" → u1.Typ = u.Typ) ∧
        (rawOrder1 "userId" = demoRaw "userId" → u1.UserID = u.UserID) ∧
        (rawOrder1 "exchange" = demoRaw "exchange" → u1.Exchange = u.Exchange) ∧
        (rawOrder1 "symbol" = demoRaw "symbol" → u1.Symbol = u.Symbol) ∧
        (rawOrder1 "product" = demoRaw "product" → u1.Product = u.Product) ∧
        (rawOrder1 "status" = demoRaw "status" → u1.Status = u.Status) ∧
        (rawOrder1 "reportType" = demoRaw "reportType" → u1.ReportType = u.ReportType) ∧
        (rawOrder1 "transactionType" = demoRaw "transactionType" → u1.TransactionType = u.TransactionType) ∧
        (rawOrder1 "order" = demoRaw "order" → u1.Order = u.Order) ∧
        (rawOrder1 "retention" = demoRaw "retention" → u1.Retention = u.Retention) ∧
        (rawOrder1 "reason" = demoRaw "reason" → u1.Reason = u.Reason) ∧
        (rawOrder1 "exchangeOrderId" = demoRaw "exchangeOrderId" → u1.ExchangeOrderId = u.ExchangeOrderId) ∧
        (rawOrder1 "cancelQty" = demoRaw "cancelQty" → u1.CancelQty = u.CancelQty) ∧
        (rawOrder1 "tags" = demoRaw "tags" → u1.Tags = u.Tags) ∧
        (rawOrder1 "disclosedQty" = demoRaw "disclosedQty" → u1.DisclosedQty = u.DisclosedQty) ∧
        (rawOrder1 "triggerPrice" = demoRaw "triggerPrice" → u1.TriggerPrice = u.TriggerPrice) ∧
        (rawOrder1 "token" = demoRaw "token" → u1.Token = u.Token) ∧
        (rawOrder1 "qty" = demoRaw "qty" → u1.Qty = u.Qty) ∧
        (rawOrder1 "price" = demoRaw "price" → u1.Price = u.Price) ∧
        (rawOrder1 "avgPrice" = demoRaw "avgPrice" → u1.AvgPrice = u.AvgPrice) ∧
        (rawOrder1 "timestamp" = demoRaw "timestamp" → u1.Timestamp = u.Timestamp) ∧
        (rawOrder1 "exchangeTime" = demoRaw "exchangeTime" → u1.ExchangeTime = u.ExchangeTime) :=
  ⟨demoRaw_decode, decodeOrderMessage_lenient (demoLib demoRaw) [] demoRaw rfl⟩

/-! ## Frame disposition -/

/-- C13. The body of the read loop classifies a payload by the first match: the
exact bytes `PING` record the ping time and emit a `PONG` that is not volatile
(handed to `WriteMessage` when connected, queued when the write fails or there
is no connection) and touch no channel; otherwise a payload that contains
`orderUpdate` goes to `decodeOrderMessage` and is enqueued on the order channel
when that succeeds, and nothing else changes; otherwise a payload of exactly 197
bytes is decoded by `parseTick` and enqueued on the tick channel; every other
payload leaves the client unchanged. Hence a 197-byte payload that contains
`orderUpdate` never reaches the tick channel, and no payload is enqueued on
both channels. -/
theorem readMessage_disposition (lib : DecodeLib) (env : SocketEnv) (c : TiqsWSClient)
    (message : List Byte) :
    (message = asciiBytes "PING" →
      (c.readMessage lib env message).tickChannel = c.tickChannel ∧
      (c.readMessage lib env message).orderChannel = c.orderChannel ∧
      (c.readMessage lib env message).lastPingTS = c.now ∧
      (c.readMessage lib env message).pendingQueue =
        c.pendingQueue ++
          (if c.socket.isSome ∧ env.writeOk c.written.length = true then []
          else [Message.text "PONG"]) ∧
      (c.readMessage lib env message).written =
        c.written ++ (c.socket.map fun conn => (conn, Message.text "PONG")).toList) ∧
    (message ≠ asciiBytes "PING" → isOrderUpdate message = true →
      c.readMessage lib env message =
        { c with orderChannel := c.orderChannel ++ (decodeOrderMessage lib message).toList }) ∧
    (message ≠ asciiBytes "PING" → isOrderUpdate message = false → message.length = 197 →
      ∃ tick, parseTick message = some tick ∧
        c.readMessage lib env message = { c with tickChannel := c.tickChannel ++ [tick] }) ∧
    (message ≠ asciiBytes "PING" → isOrderUpdate message = false → message.length ≠ 197 →
      c.readMessage lib env message = c) ∧
    (message.length = 197 → isOrderUpdate message = true →
      (c.readMessage lib env message).tickChannel = c.tickChannel) ∧
    ((c.readMessage lib env message).tickChannel = c.tickChannel ∨
      (c.readMessage lib env message).orderChannel = c.orderChannel) := by
  have hping : message = asciiBytes "PING" →
      (c.readMessage lib env message).tickChannel = c.tickChannel ∧
      (c.readMessage lib env message).orderChannel = c.orderChannel ∧
      (c.readMessage lib env message).lastPingTS = c.now ∧
      (c.readMessage lib env message).pendingQueue =
        c.pendingQueue ++
          (if c.socket.isSome ∧ env.writeOk c.written.length = true then []
          else [Message.text "PONG"]) ∧
      (c.readMessage lib env message).written =
        c.written ++ (c.socket.map fun conn => (conn, Message.text "PONG")).toList := by
    intro h
    unfold TiqsWSClient.readMessage
    rw [if_pos h]
    unfold TiqsWSClient.emit
    cases hs : c.socket with
    | none => simp
    | some conn =>
      by_cases hw : env.writeOk c.written.length = true <;> simp [hw]
  have hord : message ≠ asciiBytes "PING" → isOrderUpdate message = true →
      c.readMessage lib env message =
        { c with orderChannel := c.orderChannel ++ (decodeOrderMessage lib message).toList } := by
    intro h1 h2
    unfold TiqsWSClient.readMessage
    rw [if_neg h1, if_pos h2]
    cases decodeOrderMessage lib message <;> simp
  have htick : message ≠ asciiBytes "PING" → isOrderUpdate message = false →
      message.length = 197 →
      ∃ tick, parseTick message = some tick ∧
        c.readMessage lib env message = { c with tickChannel := c.tickChannel ++ [tick] } := by
    intro h1 h2 h3
    refine ⟨layoutTick message, parseTick_eq message (by omega), ?_⟩
    unfold TiqsWSClient.readMessage
    rw [if_neg h1, if_neg (by simp [h2]), if_pos (show message.length = FULLTICK_LENGTH from h3),
      parseTick_eq message (by omega)]
  have hother : message ≠ asciiBytes "PING" → isOrderUpdate message = false →
      message.length ≠ 197 → c.readMessage lib env message = c := by
    intro h1 h2 h3
    unfold TiqsWSClient.readMessage
    rw [if_neg h1, if_neg (by simp [h2]), if_neg (show ¬ message.length = FULLTICK_LENGTH from h3)]
  refine ⟨hping, hord, htick, hother, ?_, ?_⟩
  · intro hlen h2
    have h1 : message ≠ asciiBytes "PING" := by
      intro h
      rw [h] at hlen
      revert hlen
      decide
    rw [hord h1 h2]
  · by_cases h1 : message = asciiBytes "PING"
    · exact Or.inl (hping h1).1
    · cases h2 : isOrderUpdate message with
      | true => rw [hord h1 h2]; exact Or.inl rfl
      | false =>
        by_cases h3 : message.length = 197
        · obtain ⟨tick, _, ht⟩ := htick h1 h2 h3
          rw [ht]
          exact Or.inr rfl
        · rw [hother h1 h2 h3]
          exact Or.inl rfl

theorem demoOrderFrame_facts :
    demoOrderFrame.length = 197 ∧ demoOrderFrame ≠ asciiBytes "PING" ∧
    isOrderUpdate demoOrderFrame = true := by
  decide

theorem demoFrame_facts :
    demoFrame ≠ asciiBytes "PING" ∧ isOrderUpdate demoFrame = false := by
  decide

/-- The four dispositions on a connected client: `PING` is answered by `PONG`;
a 197-byte payload that starts with `orderUpdate` is enqueued on the order
channel and not on the tick channel; the tick frame `demoFrame` is enqueued on
the tick channel; the payload `PONG` changes nothing. -/
theorem readMessage_disposition_witness :
    ((demoClient.readMessage (demoLib demoRaw) demoEnv (asciiBytes "PING")).written =
        [(0, Message.text "PONG")] ∧
      (demoClient.readMessage (demoLib demoRaw) demoEnv (asciiBytes "PING")).lastPingTS =
        10 * Second) ∧
    (demoOrderFrame.length = 197 ∧
      (demoClient.readMessage (demoLib demoRaw) demoEnv demoOrderFrame).tickChannel = [] ∧
      (demoClient.readMessage (demoLib demoRaw) demoEnv demoOrderFrame).orderChannel =
        (decodeOrderMessage (demoLib demoRaw) demoOrderFrame).toList ∧
      (decodeOrderMessage (demoLib demoRaw) demoOrderFrame).isSome = true) ∧
    (∃ tick, parseTick demoFrame = some tick ∧
      demoClient.readMessage (demoLib demoRaw) demoEnv demoFrame =
        { demoClient with tickChannel := demoClient.tickChannel ++ [tick] }) ∧
    demoClient.readMessage (demoLib demoRaw) demoEnv (asciiBytes "PONG") = demoClient := by
  have h := readMessage_disposition (demoLib demoRaw) demoEnv demoClient
  refine ⟨?_, ?_, ?_, ?_⟩
  · obtain ⟨_, _, h3, _, h5⟩ := (h (asciiBytes "PING")).1 rfl
    exact ⟨h5, h3⟩
  · have ho := (h demoOrderFrame).2.1 demoOrderFrame_facts.2.1 demoOrderFrame_facts.2.2
    rw [ho]
    exact ⟨demoOrderFrame_facts.1, rfl, rfl, rfl⟩
  · exact (h demoFrame).2.2.1 demoFrame_facts.1 demoFrame_facts.2 demoFrame_length
  · exact (h (asciiBytes "PONG")).2.2.2.1 (by decide) (by decide) (by decide)
/-! ## Reconnection -/

theorem emit_connected (env : SocketEnv) (c : TiqsWSClient) (m : Message) (conn : Nat)
    (h : c.socket = some conn) :
    c.emit env m false =
      { c with
        written := c.written ++ [(conn, m)]
        pendingQueue := c.pendingQueue ++ if env.writeOk c.written.length then [] else [m] } := by
  unfold TiqsWSClient.emit
  rw [h]
  by_cases hw : env.writeOk c.written.length = true <;> simp [hw]

theorem emit_disconnected (env : SocketEnv) (c : TiqsWSClient) (m : Message)
    (h : c.socket = none) :
    c.emit env m false = { c with pendingQueue := c.pendingQueue ++ [m] } ∧
    c.emit env m true = c := by
  unfold TiqsWSClient.emit
  rw [h]
  simp

/-- A run of non-volatile emits on a connected client: every message is written
once, in order, and the messages whose write failed are queued. -/
theorem foldl_emit (env : SocketEnv) (ms : List Message) (c : TiqsWSClient) (conn : Nat)
    (h : c.socket = some conn) :
    ∃ failed, failed.Sublist ms ∧ ((∀ i, env.writeOk i = true) → failed = []) ∧
      ms.foldl (fun c m => c.emit env m false) c =
        { c with
          written := c.written ++ ms.map fun m => (conn, m)
          pendingQueue := c.pendingQueue ++ failed } := by
  induction ms generalizing c with
  | nil => exact ⟨[], List.Sublist.refl _, fun _ => rfl, by simp⟩
  | cons m rest ih =>
    rw [List.foldl_cons, emit_connected env c m conn h]
    obtain ⟨failed, hsub, hok, heq⟩ := ih
      { c with
        written := c.written ++ [(conn, m)]
        pendingQueue := c.pendingQueue ++ if env.writeOk c.written.length then [] else [m] } h
    rw [heq]
    by_cases hw : env.writeOk c.written.length = true
    · refine ⟨failed, hsub.cons m, hok, ?_⟩
      simp [hw]
    · refine ⟨m :: failed, hsub.cons₂ m, fun hall => absurd (hall _) hw, ?_⟩
      simp [hw]

theorem subscribePreviousSubscriptions_eq (env : SocketEnv) (order : List Int)
    (c : TiqsWSClient) (conn : Nat) (h : c.socket = some conn) :
    ∃ failed, failed.Sublist (order.map subMessage) ∧
      ((∀ i, env.writeOk i = true) → failed = []) ∧
      c.subscribePreviousSubscriptions env order =
        { c with
          written := c.written ++ (order.map subMessage).map fun m => (conn, m)
          pendingQueue := c.pendingQueue ++ failed } := by
  obtain ⟨failed, hsub, hok, heq⟩ := foldl_emit env (order.map subMessage) c conn h
  refine ⟨failed, hsub, hok, ?_⟩
  rw [← heq]
  unfold TiqsWSClient.subscribePreviousSubscriptions
  rw [List.foldl_map]

theorem processPendingRequests_eq (env : SocketEnv) (c : TiqsWSClient) (conn : Nat)
    (h : c.socket = some conn) :
    c.processPendingRequests env =
      { c with
        written := c.written ++ c.pendingQueue.map fun m => (conn, m)
        pendingQueue := [] } := by
  unfold TiqsWSClient.processPendingRequests
  by_cases hq : c.pendingQueue.length > 0
  · rw [if_pos hq]
    obtain ⟨failed, _, _, heq⟩ := foldl_emit env c.pendingQueue c conn h
    rw [heq]
  · rw [if_neg hq]
    have : c.pendingQueue = [] := List.length_eq_zero.mp (by omega)
    rw [this]
    simp only [List.map_nil, List.append_nil]
    conv_lhs => rw [show c = { c with pendingQueue := c.pendingQueue } from rfl]
    rw [this]

/-- When one of the next `n` dials succeeds, the dial loop stops at the first
one that does. -/
theorem dialLoop_success (env : SocketEnv) (n : Nat) (c : TiqsWSClient)
    (h : ∃ i, i < n ∧ env.dialOk (c.dials + i) = true) :
    ∃ k, k < n ∧ env.dialOk (c.dials + k) = true ∧
      (∀ j, j < k → env.dialOk (c.dials + j) = false) ∧
      dialLoop env n c =
        ({ c with dials := c.dials + k + 1, socket := some (c.dials + k),
                  now := c.now + 3 * Second * k }, true) := by
  induction n generalizing c with
  | zero =>
    obtain ⟨i, hi, _⟩ := h
    omega
  | succ n ih =>
    unfold dialLoop
    by_cases hd : env.dialOk c.dials = true
    · refine ⟨0, by omega, by simpa using hd, fun j hj => by omega, ?_⟩
      rw [if_pos hd]
      simp
    · have hrest : ∃ i, i < n ∧ env.dialOk (c.dials + 1 + i) = true := by
        obtain ⟨i, hi, hok⟩ := h
        cases i with
        | zero => exact absurd (by simpa using hok) hd
        | succ i => exact ⟨i, by omega, by rw [← hok]; congr 1; omega⟩
      have hn : n ≠ 0 := by
        obtain ⟨i, hi, _⟩ := hrest
        omega
      rw [if_neg hd, if_neg hn]
      obtain ⟨k, hk, hok, hfail, heq⟩ := ih
        { c with dials := c.dials + 1, socket := none, now := c.now + 3 * Second } hrest
      refine ⟨k + 1, by omega, by rw [← hok]; congr 1; simp only; omega, ?_, ?_⟩
      · intro j hj
        cases j with
        | zero => simpa using hd
        | succ j =>
          have := hfail j (by omega)
          rw [← this]
          congr 1
          simp only
          omega
      · rw [heq]
        simp only [Prod.mk.injEq, and_true]
        have e1 : c.dials + 1 + k + 1 = c.dials + (k + 1) + 1 := by omega
        have e2 : c.dials + 1 + k = c.dials + (k + 1) := by omega
        have e3 : c.now + 3 * Second + 3 * Second * (k : Int) =
            c.now + 3 * Second * ((k + 1 : Nat) : Int) := by
          push_cast
          ring
        rw [e1, e2, e3]

/-- C18. When one of the dials of a connect procedure succeeds, the messages it
writes, all on the new connection, are first the subscription message of every
token of the visiting order of the subscription set, then the messages of the
pending queue in their order, each once, then again the subscription messages
whose first write failed (none when every write succeeds); afterwards the
pending queue is empty. On a disconnected client a non-volatile emit appends its
message at the end of the pending queue and a volatile one changes nothing. -/
theorem connectSocket_replay (env : SocketEnv) (order : List Int) (c : TiqsWSClient)
    (horder : IsSubscriptionRange c.subscriptions order)
    (hdial : ∃ i, i < 20 ∧ env.dialOk (c.dials + i) = true) :
    (∃ conn failed, c.dials ≤ conn ∧
      (c.connectSocket env order).socket = some conn ∧
      (c.connectSocket env order).written =
        c.written ++
          (order.map subMessage ++ c.pendingQueue ++ failed).map (fun m => (conn, m)) ∧
      failed.Sublist (order.map subMessage) ∧
      ((∀ i, env.writeOk i = true) → failed = []) ∧
      (c.connectSocket env order).pendingQueue = []) ∧
    (∀ token, c.subscriptions token = true ↔ subMessage token ∈ order.map subMessage) ∧
    (∀ (d : TiqsWSClient) (m : Message), d.socket = none →
      d.emit env m false = { d with pendingQueue := d.pendingQueue ++ [m] } ∧
      d.emit env m true = d) := by
  refine ⟨?_, ?_, fun d m hd => emit_disconnected env d m hd⟩
  · obtain ⟨k, _, _, _, hloop⟩ := dialLoop_success env 20 c hdial
    unfold TiqsWSClient.connectSocket
    rw [show maxRetries = 20 from rfl, hloop]
    simp only [if_true]
    obtain ⟨failed, hsub, hok, hs⟩ := subscribePreviousSubscriptions_eq env order
      (TiqsWSClient.startPingChecker
        { c with dials := c.dials + k + 1, socket := some (c.dials + k),
                 now := c.now + 3 * Second * k }) (c.dials + k) rfl
    rw [hs, processPendingRequests_eq env _ (c.dials + k) rfl]
    refine ⟨c.dials + k, failed, by omega, rfl, ?_, hsub, hok, rfl⟩
    simp [TiqsWSClient.startPingChecker, List.append_assoc]
  · intro token
    rw [← horder.2 token]
    constructor
    · intro h
      exact List.mem_map.mpr ⟨token, h, rfl⟩
    · intro h
      obtain ⟨t, ht, he⟩ := List.mem_map.mp h
      have : t = token := by
        simp only [subMessage, Message.control.injEq, SocketMessage.mk.injEq, true_and] at he
        simpa using he
      rw [← this]
      exact ht

theorem pendingDemo_range : IsSubscriptionRange pendingDemo.subscriptions [26009, 26037] := by
  refine ⟨by decide, ?_⟩
  intro token
  simp only [pendingDemo, demoClient, TiqsWSClient.AddSubscription, TiqsWSClient.CloseConnection,
    TiqsWSClient.emit, demoEnv]
  by_cases h1 : token = 26037
  · simp [h1]
  · by_cases h2 : token = 26009
    · simp [h2]
    · simp [h1, h2]

/-- Scenario S5 and a replay with a pending emit: after a subscription to 26009
and a read error, the first frame on the new connection is the subscription to
26009; with a subscription to 26037 issued while disconnected, the new
connection carries the two subscriptions and then the queued message. -/
theorem connectSocket_replay_witness :
    framesOn reconnectDemo 1 =
      ["\x7b\"code\":\"sub\",\"mode\":\"full\",\"full\":[26009]\x7d"] ∧
    pendingDemo.socket = none ∧ pendingDemo.pendingQueue = [subMessage 26037] ∧
    framesOn (pendingDemo.connectSocket demoEnv [26009, 26037]) 1 =
      ["\x7b\"code\":\"sub\",\"mode\":\"full\",\"full\":[26009]\x7d",
        "\x7b\"code\":\"sub\",\"mode\":\"full\",\"full\":[26037]\x7d",
        "\x7b\"code\":\"sub\",\"mode\":\"full\",\"full\":[26037]\x7d"] ∧
    (∃ conn failed, pendingDemo.dials ≤ conn ∧
      (pendingDemo.connectSocket demoEnv [26009, 26037]).socket = some conn ∧
      (pendingDemo.connectSocket demoEnv [26009, 26037]).written =
        pendingDemo.written ++
          (([26009, 26037] : List Int).map subMessage ++ pendingDemo.pendingQueue ++ failed).map
            (fun m => (conn, m)) ∧
      failed.Sublist (([26009, 26037] : List Int).map subMessage) ∧
      ((∀ i, demoEnv.writeOk i = true) → failed = []) ∧
      (pendingDemo.connectSocket demoEnv [26009, 26037]).pendingQueue = []) :=
  ⟨by decide, by decide, by decide, by decide,
    (connectSocket_replay demoEnv [26009, 26037] pendingDemo pendingDemo_range
      ⟨0, by decide, rfl⟩).1⟩
/-! ## Connect exhaustion -/

/-- A dial loop with `n` attempts left makes at most `n` dials. -/
theorem dialLoop_dials_le (env : SocketEnv) (n : Nat) (c : TiqsWSClient) :
    c.dials ≤ (dialLoop env n c).1.dials ∧ (dialLoop env n c).1.dials ≤ c.dials + n := by
  induction n generalizing c with
  | zero => simp [dialLoop]
  | succ n ih =>
    unfold dialLoop
    split_ifs
    · simp
    · simp
    · have := ih { c with dials := c.dials + 1, socket := none, now := c.now + 3 * Second }
      simp only at this
      omega

/-- When the next `n` dials all fail, the dial loop makes exactly `n` dials,
closes both channels once and leaves the client disconnected. -/
theorem dialLoop_exhausted (env : SocketEnv) (n : Nat) (c : TiqsWSClient) (hn : 0 < n)
    (h : ∀ i, i < n → env.dialOk (c.dials + i) = false) :
    dialLoop env n c =
      ({ c with
          dials := c.dials + n, socket := none, now := c.now + 3 * Second * ((n - 1 : Nat) : Int)
          orderChannelCloses := c.orderChannelCloses + 1
          tickChannelCloses := c.tickChannelCloses + 1 },
        false) := by
  induction n generalizing c with
  | zero => omega
  | succ n ih =>
    unfold dialLoop
    have h0 : ¬ env.dialOk c.dials = true := by
      have := h 0 (by omega)
      simpa using this
    rw [if_neg h0]
    by_cases hz : n = 0
    · subst hz
      simp
    · rw [if_neg hz]
      rw [ih { c with dials := c.dials + 1, socket := none, now := c.now + 3 * Second }
        (by omega) (fun i hi => by
          have := h (i + 1) (by omega)
          rw [← this]
          congr 1
          simp only
          omega)]
      simp only [Prod.mk.injEq, and_true]
      have e1 : c.dials + 1 + n = c.dials + (n + 1) := by omega
      have e2 : c.now + 3 * Second + 3 * Second * ((n - 1 : Nat) : Int) =
          c.now + 3 * Second * ((n + 1 - 1 : Nat) : Int) := by
        have : ((n + 1 - 1 : Nat) : Int) = ((n - 1 : Nat) : Int) + 1 := by omega
        rw [this]
        ring
      rw [e1, e2]

/-- A connect procedure whose twenty dials all fail closes both channels once,
starts no timer and no reader, and leaves the client disconnected. -/
theorem connectSocket_exhausted (env : SocketEnv) (order : List Int) (c : TiqsWSClient)
    (h : ∀ i, i < 20 → env.dialOk (c.dials + i) = false) :
    c.connectSocket env order =
      { c with
        dials := c.dials + 20, socket := none, now := c.now + 3 * Second * 19
        orderChannelCloses := c.orderChannelCloses + 1
        tickChannelCloses := c.tickChannelCloses + 1 } := by
  unfold TiqsWSClient.connectSocket
  rw [show maxRetries = 20 from rfl, dialLoop_exhausted env 20 c (by omega) h]
  simp

/-- C19, evaluated on the failing run. On a network where only the first dial
succeeds, the watchdog fires on a client that got no `PING` for 36 seconds; the
twenty dials of its reconnection fail and both channels are closed, yet the
watchdog has set a new timer and the reader of the closed connection is still
running. When that timer fires, or when that reader meets its read error, the
client dials twenty more times and closes both channels a second time. After a
read error with twenty failed dials, in contrast, no timer is set and no reader
is left. -/
theorem connect_exhaustion_not_terminal :
    (exhaustDemo.socket = none ∧ exhaustDemo.dials = 21 ∧
      exhaustDemo.tickChannelCloses = 1 ∧ exhaustDemo.orderChannelCloses = 1 ∧
      exhaustDemo.pingCheckerTimer = some (128 * Second) ∧ exhaustDemo.readers = 1) ∧
    (exhaustDemoTimer.dials = 41 ∧ exhaustDemoTimer.tickChannelCloses = 2 ∧
      exhaustDemoTimer.orderChannelCloses = 2) ∧
    (exhaustDemoReader.dials = 41 ∧ exhaustDemoReader.tickChannelCloses = 2 ∧
      exhaustDemoReader.orderChannelCloses = 2) ∧
    (exhaustDemoRead.socket = none ∧ exhaustDemoRead.dials = 21 ∧
      exhaustDemoRead.tickChannelCloses = 1 ∧ exhaustDemoRead.orderChannelCloses = 1 ∧
      exhaustDemoRead.pingCheckerTimer = none ∧ exhaustDemoRead.readers = 0) := by
  decide

/-! ## The close series -/

theorem entryVisit_quiet (tm : GoMap Int) (tick : Tick) (L : LoopState)
    (it : String × Option String) :
    (entryVisit tm tick L it).s.bars = L.s.bars ∧
    (entryVisit tm tick L it).s.ordCancel = L.s.ordCancel ∧
    (entryVisit tm tick L it).s.unplug = L.s.unplug := by
  cases he : L.s.ordEntry it.1 with
  | none => rw [entryVisit_none tm tick L it he]; exact ⟨rfl, rfl, rfl⟩
  | some e =>
    rw [entryVisit_some tm tick L it e he]
    rcases entryIteration_cases tm tick L it.1 e it.2 with
      ⟨p, _, h⟩ | ⟨_, _, h⟩ | ⟨t, _, _, _, h⟩ | ⟨t, n, _, _, _, h⟩ <;>
      rw [h] <;> exact ⟨rfl, rfl, rfl⟩

theorem entryLoop_quiet (tm : GoMap Int) (tick : Tick) (iter : List (String × Option String))
    (L : LoopState) :
    (entryLoop tm tick L iter).s.bars = L.s.bars ∧
    (entryLoop tm tick L iter).s.ordCancel = L.s.ordCancel ∧
    (entryLoop tm tick L iter).s.unplug = L.s.unplug := by
  induction iter generalizing L with
  | nil => exact ⟨rfl, rfl, rfl⟩
  | cons it rest ih =>
    rw [entryLoop_cons]
    obtain ⟨h1, h2, h3⟩ := ih (entryVisit tm tick L it)
    obtain ⟨g1, g2, g3⟩ := entryVisit_quiet tm tick L it
    exact ⟨h1.trans g1, h2.trans g2, h3.trans g3⟩

theorem exitVisit_quiet (tm : GoMap Int) (ltp : Float64) (L : LoopState)
    (it : String × Option String) :
    (exitVisit tm ltp L it).s.bars = L.s.bars ∧
    (exitVisit tm ltp L it).s.ordCancel = L.s.ordCancel ∧
    (exitVisit tm ltp L it).s.unplug = L.s.unplug := by
  cases he : L.s.ordExit it.1 with
  | none => rw [exitVisit_none tm ltp L it he]; exact ⟨rfl, rfl, rfl⟩
  | some e =>
    rw [exitVisit_some tm ltp L it e he]
    rcases exitIteration_cases tm ltp L it.1 e it.2 with
      ⟨_, h⟩ | ⟨_, h⟩ | ⟨p, t, _, _, _, _, _, h⟩ | ⟨p, t, n, _, _, _, _, _, h⟩ <;>
      rw [h] <;> exact ⟨rfl, rfl, rfl⟩

theorem exitLoop_quiet (tm : GoMap Int) (ltp : Float64) (iter : List (String × Option String))
    (L : LoopState) :
    (exitLoop tm ltp L iter).s.bars = L.s.bars ∧
    (exitLoop tm ltp L iter).s.ordCancel = L.s.ordCancel ∧
    (exitLoop tm ltp L iter).s.unplug = L.s.unplug := by
  induction iter generalizing L with
  | nil => exact ⟨rfl, rfl, rfl⟩
  | cons it rest ih =>
    rw [exitLoop_cons]
    obtain ⟨h1, h2, h3⟩ := ih (exitVisit tm ltp L it)
    obtain ⟨g1, g2, g3⟩ := exitVisit_quiet tm ltp L it
    exact ⟨h1.trans g1, h2.trans g2, h3.trans g3⟩

/-- The order-update handler leaves the close series, the cancel intents and
the unplug flag alone. -/
theorem orderUpdateStep_quiet (s : strategy) (disp : GoMap String) (u : OrderUpdate) :
    (orderUpdateStep s disp u).1.bars = s.bars ∧
    (orderUpdateStep s disp u).1.ordCancel = s.ordCancel ∧
    (orderUpdateStep s disp u).1.unplug = s.unplug := by
  cases hm : s.tiqsOrderIdToLocalOrderId u.ID with
  | none =>
    rw [orderUpdateStep_unresolved s disp u (Or.inl hm)]
    exact ⟨rfl, rfl, rfl⟩
  | some lid =>
    cases hp : s.openPos lid with
    | none =>
      rw [orderUpdateStep_unresolved s disp u (Or.inr ⟨lid, hm, hp⟩)]
      exact ⟨rfl, rfl, rfl⟩
    | some p =>
      simp only [orderUpdateStep, strategy.getTiqsOrderIdToLocalOrderId, strategy.getOpenPos,
        hm, hp]
      split_ifs <;>
        simp [strategy.insertOpenPos, strategy.deleteOpenPos, strategy.insertClosedPos,
          strategy.deleteTiqsOrderIdToLocalOrderId]

theorem call_quiet (s : strategy) (c : Call) :
    (s.call c).bars = s.bars ∧ (s.call c).ordCancel = s.ordCancel ∧
    (s.call c).unplug = s.unplug := by
  cases c with
  | Entry orderID opts =>
    simp only [strategy.call, strategy.Entry]
    split_ifs <;> exact ⟨rfl, rfl, rfl⟩
  | Exit orderID opts =>
    simp only [strategy.call, strategy.Exit]
    split_ifs <;> exact ⟨rfl, rfl, rfl⟩
  | Cancel orderID => exact ⟨rfl, rfl, rfl⟩

theorem onTick_quiet (calls : List Call) (s : strategy) :
    (s.onTick calls).bars = s.bars ∧ (s.onTick calls).ordCancel = s.ordCancel ∧
    (s.onTick calls).unplug = s.unplug := by
  induction calls generalizing s with
  | nil => exact ⟨rfl, rfl, rfl⟩
  | cons c rest ih =>
    simp only [strategy.onTick, List.foldl_cons]
    obtain ⟨h1, h2, h3⟩ := ih (s.call c)
    obtain ⟨g1, g2, g3⟩ := call_quiet s c
    exact ⟨h1.trans g1, h2.trans g2, h3.trans g3⟩

theorem GoMap.delAll_empty {α : Type} (ks : List String) :
    GoMap.delAll (GoMap.empty : GoMap α) ks = GoMap.empty := by
  funext x
  rw [GoMap.delAll_apply]
  split_ifs <;> rfl

theorem cancelVisit_empty (s : strategy) (h : s.ordCancel = GoMap.empty)
    (acc : List String × List String) (it : String × Bool) : cancelVisit s acc it = acc := by
  unfold cancelVisit
  rw [h]
  rfl

/-- Without cancel intents `processCancelOrders` hands nothing to `cancelOrder`
and changes nothing. -/
theorem processCancelOrders_empty (s : strategy) (iter : List (String × Bool))
    (h : s.ordCancel = GoMap.empty) : s.processCancelOrders iter = (s, []) := by
  have hfold : iter.foldl (cancelVisit s) ([], []) = ([], []) := by
    induction iter with
    | nil => rfl
    | cons it rest ih => rw [List.foldl_cons, cancelVisit_empty s h, ih]
  unfold strategy.processCancelOrders
  simp only [hfold]
  rfl

/-- An iteration of `execute` leaves the close series alone, and the cancel
intents too when there are none. -/
theorem execute_quiet (tm : GoMap Int) (s : strategy) (disp : GoMap String)
    (calls : List Call) (tick : Tick) (keys : List String)
    (iterEntry iterExit : List (String × Option String)) (iterCancel : List (String × Bool)) :
    (s.execute tm disp calls tick keys iterEntry iterExit iterCancel).1.bars = s.bars ∧
    (s.ordCancel = GoMap.empty →
      (s.execute tm disp calls tick keys iterEntry iterExit iterCancel).1.ordCancel =
        GoMap.empty ∧
      (s.execute tm disp calls tick keys iterEntry iterExit iterCancel).2.2.2 = []) := by
  obtain ⟨a1, a2, _⟩ := onTick_quiet calls s
  obtain ⟨b1, b2, _⟩ := entryLoop_quiet tm tick iterEntry
    ⟨(s.onTick calls).processPnls tick keys, disp, [], []⟩
  obtain ⟨c1, c2, _⟩ := exitLoop_quiet tm ((tick.LTP : ℚ) / 100) iterExit
    ⟨(processEntryOrders tm ((s.onTick calls).processPnls tick keys) disp tick iterEntry).1,
      (processEntryOrders tm ((s.onTick calls).processPnls tick keys) disp tick iterEntry).2.1,
      [], []⟩
  constructor
  · exact c1.trans (b1.trans a1)
  · intro h0
    have hx : (processExitOrders tm
        (processEntryOrders tm ((s.onTick calls).processPnls tick keys) disp tick iterEntry).1
        (processEntryOrders tm ((s.onTick calls).processPnls tick keys) disp tick iterEntry).2.1
        ((tick.LTP : ℚ) / 100) iterExit).1.ordCancel = GoMap.empty :=
      (c2.trans (b2.trans a2)).trans h0
    unfold strategy.execute
    simp only []
    rw [processCancelOrders_empty _ iterCancel hx]
    exact ⟨hx, rfl⟩

theorem lastBars_length (prices : List Float64) :
    (lastBars prices).length = min prices.length 1500 := by
  simp only [lastBars, BARS_MAX_LEN, List.length_drop]
  omega

theorem lastBars_append (xs ys : List Float64) :
    lastBars (lastBars xs ++ ys) = lastBars (xs ++ ys) := by
  by_cases h : xs.length ≤ 1500
  · have : lastBars xs = xs := by
      simp only [lastBars, BARS_MAX_LEN]
      rw [Nat.sub_eq_zero_of_le h]
      rfl
    rw [this]
  · have hx : (lastBars xs).length = 1500 := by
      rw [lastBars_length]
      omega
    unfold lastBars at hx ⊢
    simp only [BARS_MAX_LEN] at hx ⊢
    rw [List.length_append, List.length_append, hx]
    have ha : xs.length - 1500 ≤ xs.length := by omega
    have e1 : xs.length + ys.length - 1500 = (xs.length - 1500) + ys.length := by omega
    have e2 : 1500 + ys.length - 1500 = ys.length := by omega
    have e3 : List.drop ((xs.length - 1500) + ys.length) (xs ++ ys) =
        List.drop ys.length (List.drop (xs.length - 1500) (xs ++ ys)) := by
      rw [List.drop_drop]
    rw [e1, e2, e3, List.drop_append_of_le_length ha]

/-- With at most 1500 bars, `insertBar` keeps the last 1500 of the series
extended by the new price. -/
theorem insertBar_bars (s : strategy) (t : Tick) (h : s.bars.length ≤ 1500) :
    (s.insertBar t).bars = lastBars (s.bars ++ [(t.LTP : ℚ) / 100]) := by
  simp only [strategy.insertBar, lastBars, BARS_MAX_LEN, List.length_append, List.length_cons,
    List.length_nil]
  by_cases hl : s.bars.length = 1500
  · rw [if_pos hl, hl]
    rw [show 1500 + (0 + 1) - 1500 = 1 by omega,
      List.drop_append_of_le_length (by omega)]
  · rw [if_neg hl, Nat.sub_eq_zero_of_le (by omega)]
    rfl

/-- A tick on which the callback panics leaves the strategy as the callback
left it after `insertBar`, and the dispatcher's lookup map as it was. -/
theorem handle_faultyTick (tm : GoMap Int) (sd : strategy × GoMap String) (tick : Tick)
    (calls : List Call) :
    strategy.handle tm sd (StrategyEvent.faultyTick tick calls) =
      ((sd.1.insertBar tick).onTick calls, sd.2) := rfl

/-- The close series after the events, from any strategy with at most 1500
bars. -/
theorem listen_bars (tm : GoMap Int) (events : List StrategyEvent) (sd : strategy × GoMap String)
    (h : sd.1.bars.length ≤ 1500) :
    (strategy.listen tm sd events).1.bars = lastBars (sd.1.bars ++ tickPrices events) := by
  induction events generalizing sd with
  | nil =>
    simp only [strategy.listen, List.foldl_nil, tickPrices, List.append_nil, lastBars,
      BARS_MAX_LEN]
    rw [Nat.sub_eq_zero_of_le h]
    rfl
  | cons e rest ih =>
    simp only [strategy.listen, List.foldl_cons]
    cases e with
    | tick tick calls keys iterEntry iterExit iterCancel =>
      have hb : (strategy.handle tm sd
          (StrategyEvent.tick tick calls keys iterEntry iterExit iterCancel)).1.bars =
          lastBars (sd.1.bars ++ [(tick.LTP : ℚ) / 100]) := by
        simp only [strategy.handle]
        rw [(execute_quiet tm _ sd.2 calls tick keys iterEntry iterExit iterCancel).1]
        exact insertBar_bars sd.1 tick h
      have hlen : (strategy.handle tm sd
          (StrategyEvent.tick tick calls keys iterEntry iterExit iterCancel)).1.bars.length ≤
          1500 := by
        rw [hb, lastBars_length]
        omega
      have := ih _ hlen
      simp only [strategy.listen] at this
      rw [this, hb, lastBars_append]
      simp [tickPrices]
    | faultyTick tick calls =>
      have hb : (strategy.handle tm sd (StrategyEvent.faultyTick tick calls)).1.bars =
          lastBars (sd.1.bars ++ [(tick.LTP : ℚ) / 100]) := by
        rw [handle_faultyTick]
        rw [(onTick_quiet calls (sd.1.insertBar tick)).1]
        exact insertBar_bars sd.1 tick h
      have hlen : (strategy.handle tm sd (StrategyEvent.faultyTick tick calls)).1.bars.length ≤
          1500 := by
        rw [hb, lastBars_length]
        omega
      have := ih _ hlen
      simp only [strategy.listen] at this
      rw [this, hb, lastBars_append]
      simp [tickPrices]
    | orderUpdate u =>
      have hb : (strategy.handle tm sd (StrategyEvent.orderUpdate u)).1.bars = sd.1.bars :=
        (orderUpdateStep_quiet sd.1 sd.2 u).1
      have := ih (strategy.handle tm sd (StrategyEvent.orderUpdate u)) (by rw [hb]; exact h)
      simp only [strategy.listen] at this
      rw [this, hb]
      simp [tickPrices]

/-- C15. After the two loops of a new strategy have taken any events, of which
`n` are ticks with the prices `p1..pn`, the close series is the last
`min n 1500` of these prices in arrival order: it has length `min n 1500`,
hence at most 1500. -/
theorem bars_bounded (tm : GoMap Int) (name symbol : String) (disp : GoMap String)
    (events : List StrategyEvent) :
    (strategy.listen tm (newStrategy name symbol, disp) events).1.bars =
      (tickPrices events).drop ((tickPrices events).length - 1500) ∧
    (strategy.listen tm (newStrategy name symbol, disp) events).1.bars.length =
      min (tickPrices events).length 1500 ∧
    (strategy.listen tm (newStrategy name symbol, disp) events).1.bars.length ≤ 1500 := by
  have h := listen_bars tm events (newStrategy name symbol, disp) (by simp [newStrategy])
  have h0 : (newStrategy name symbol, disp).1.bars = [] := rfl
  rw [h0, List.nil_append] at h
  have hl := lastBars_length (tickPrices events)
  rw [← h] at hl
  refine ⟨h, hl, ?_⟩
  rw [hl]
  omega

/-- Three ticks and an order update on a new strategy leave the three prices in
arrival order. -/
theorem bars_bounded_witness :
    tickPrices barsDemoEvents = [5000 / 100, 5100 / 100, 5200 / 100] ∧
    ((strategy.listen seedSymbolToToken (newStrategy "alpha" "NIFTY50", GoMap.empty)
        barsDemoEvents).1.bars =
      (tickPrices barsDemoEvents).drop ((tickPrices barsDemoEvents).length - 1500) ∧
    (strategy.listen seedSymbolToToken (newStrategy "alpha" "NIFTY50", GoMap.empty)
        barsDemoEvents).1.bars.length = min (tickPrices barsDemoEvents).length 1500 ∧
    (strategy.listen seedSymbolToToken (newStrategy "alpha" "NIFTY50", GoMap.empty)
        barsDemoEvents).1.bars.length ≤ 1500) :=
  ⟨rfl, bars_bounded seedSymbolToToken "alpha" "NIFTY50" GoMap.empty barsDemoEvents⟩

/-! ## The dispatcher: LTP cache and registration -/

/-- C16. After the tick pump has handled a tick, `ltps` holds `LTP/100` at the
tick's token and is unchanged at every other token; `GetLTP` returns the cached
value of the symbol's token and fails exactly when the symbol has no token or
no tick was recorded for its token. -/
theorem ltp_cache (tr : AutoTrader) (tick : Tick) (symbol : String) :
    (tr.startTickListener tick).1.ltps tick.Token = some ((tick.LTP : ℚ) / 100) ∧
    (∀ k, k ≠ tick.Token → (tr.startTickListener tick).1.ltps k = tr.ltps k) ∧
    tr.GetLTP symbol = (tr.symbolToTokenMap symbol).bind tr.ltps ∧
    (tr.GetLTP symbol = none ↔
      tr.symbolToTokenMap symbol = none ∨
        ∃ token, tr.symbolToTokenMap symbol = some token ∧ tr.ltps token = none) := by
  have hget : tr.GetLTP symbol = (tr.symbolToTokenMap symbol).bind tr.ltps := by
    unfold AutoTrader.GetLTP getTokenFromSymbol
    cases tr.symbolToTokenMap symbol <;> rfl
  refine ⟨by simp [AutoTrader.startTickListener], ?_, hget, ?_⟩
  · intro k hk
    simp [AutoTrader.startTickListener, hk]
  · rw [hget]
    cases h : tr.symbolToTokenMap symbol with
    | none => simp
    | some token => simp

/-- Scenario S1: the frame with token 26000 and LTP 2525000 decodes to that
tick; before the tick `GetLTP("NIFTY50")` fails, afterwards it returns 25250,
the tick goes to the one listener `alpha`, and an unknown symbol still fails. -/
theorem ltp_cache_witness :
    (parseTick demoFrame = some demoFrameTick ∧ demoFrameTick.Token = 26000 ∧
      demoFrameTick.LTP = 2525000) ∧
    demoT1.GetLTP "NIFTY50" = none ∧
    ltpDemo.1.GetLTP "NIFTY50" = some 25250 ∧ ltpDemo.2 = ["alpha"] ∧
    ltpDemo.1.GetLTP "NIFTYBANK" = none ∧ ltpDemo.1.GetLTP "ACME" = none ∧
    (ltpDemo.1.ltps demoFrameTick.Token = some ((demoFrameTick.LTP : ℚ) / 100) ∧
      (∀ k, k ≠ demoFrameTick.Token → ltpDemo.1.ltps k = demoT1.ltps k) ∧
      demoT1.GetLTP "NIFTY50" = (demoT1.symbolToTokenMap "NIFTY50").bind demoT1.ltps ∧
      (demoT1.GetLTP "NIFTY50" = none ↔
        demoT1.symbolToTokenMap "NIFTY50" = none ∨
          ∃ token, demoT1.symbolToTokenMap "NIFTY50" = some token ∧
            demoT1.ltps token = none)) :=
  ⟨⟨demoFrame_parse, rfl, rfl⟩, by decide,
    by
      have h : ltpDemo.1.GetLTP "NIFTY50" = some ((2525000 : ℚ) / 100) := rfl
      rw [h]
      norm_num,
    by decide, by decide, by decide, ltp_cache demoT1 demoFrameTick "NIFTY50"⟩

/-- C17. `AddStrategy` returns no handle and leaves the dispatcher unchanged
(the strategies, every listener list and the subscription set with it) when the
name is already registered or the symbol has no token; otherwise it returns the
handle, stores the new strategy under its name and only there, puts the symbol's
token into the subscription set and appends the strategy at the end of the
listener list of that token, all other lists staying as they were. -/
theorem AddStrategy_registers (tr : AutoTrader) (name symbol : String) :
    ((tr.strategies name).isSome = true ∨ tr.symbolToTokenMap symbol = none →
      tr.AddStrategy name symbol = (tr, none)) ∧
    (∀ token, tr.strategies name = none → tr.symbolToTokenMap symbol = some token →
      (tr.AddStrategy name symbol).2 = some name ∧
      (tr.AddStrategy name symbol).1.strategies name = some (newStrategy name symbol) ∧
      (∀ other, other ≠ name →
        (tr.AddStrategy name symbol).1.strategies other = tr.strategies other) ∧
      (tr.AddStrategy name symbol).1.subscriptions token = true ∧
      (∀ t, t ≠ token → (tr.AddStrategy name symbol).1.subscriptions t = tr.subscriptions t) ∧
      (tr.AddStrategy name symbol).1.tickListeners token = tr.tickListeners token ++ [name] ∧
      (∀ t, t ≠ token →
        (tr.AddStrategy name symbol).1.tickListeners t = tr.tickListeners t)) := by
  constructor
  · intro h
    unfold AutoTrader.AddStrategy
    cases hs : tr.strategies name with
    | some s => rfl
    | none =>
      rcases h with h | h
      · rw [hs] at h
        cases h
      · simp only [getTokenFromSymbol, h]
  · intro token hs ht
    have he : tr.AddStrategy name symbol =
        ({ tr with
            strategies := tr.strategies.set name (newStrategy name symbol)
            subscriptions := fun t => if t = token then true else tr.subscriptions t
            tickListeners := fun t =>
              if t = token then tr.tickListeners t ++ [name] else tr.tickListeners t },
          some name) := by
      unfold AutoTrader.AddStrategy
      simp only [hs, getTokenFromSymbol, ht]
    rw [he]
    refine ⟨rfl, ?_, ?_, ?_, ?_, ?_, ?_⟩
    · simp
    · intro other ho
      simp [GoMap.set_apply, ho]
    · simp
    · intro t h
      simp [h]
    · simp
    · intro t h
      simp [h]

/-- On the dispatcher that holds `alpha` on `NIFTY50`: a second `alpha` and a
strategy on the unknown symbol `ACME` are rejected and change nothing; `beta` on
`NIFTY50` is stored and becomes the second listener of token 26000. -/
theorem AddStrategy_registers_witness :
    demoT1.AddStrategy "alpha" "NIFTYBANK" = (demoT1, none) ∧
    demoT1.AddStrategy "gamma" "ACME" = (demoT1, none) ∧
    (demoT1.AddStrategy "beta" "NIFTY50").2 = some "beta" ∧
    (demoT1.AddStrategy "beta" "NIFTY50").1.tickListeners 26000 = ["alpha", "beta"] ∧
    (demoT1.AddStrategy "beta" "NIFTY50").1.subscriptions 26000 = true :=
  ⟨(AddStrategy_registers demoT1 "alpha" "NIFTYBANK").1 (Or.inl (by decide)),
    (AddStrategy_registers demoT1 "gamma" "ACME").1 (Or.inr (by decide)),
    ((AddStrategy_registers demoT1 "beta" "NIFTY50").2 26000 rfl (by decide)).1,
    by decide, by decide⟩

/-! ## Cancel -/

/-- C20 as stated fails: the strategy `cancelDemo` holds the position `L1` whose
entry order `E1` is pending, and `Cancel("L1")` returns with the strategy
unchanged and no cancel intent recorded; the next `processCancelOrders` hands
nothing to `cancelOrder`. -/
theorem cancel_counterexample :
    (cancelDemo.openPos "L1").map (fun p => (p.TiqsEntryOrdID, p.Status)) =
      some ("E1", EntryPending) ∧
    cancelDemo.Cancel "L1" = cancelDemo ∧
    ¬ ((cancelDemo.Cancel "L1").ordCancel "L1").isSome = true ∧
    ((cancelDemo.Cancel "L1").processCancelOrders [("L1", true)]).2 = [] :=
  ⟨by decide, rfl, by decide, by decide⟩

/-- The loops of a strategy keep `ordCancel` empty. -/
theorem listen_ordCancel (tm : GoMap Int) (events : List StrategyEvent)
    (sd : strategy × GoMap String) (h : sd.1.ordCancel = GoMap.empty) :
    (strategy.listen tm sd events).1.ordCancel = GoMap.empty := by
  induction events generalizing sd with
  | nil => exact h
  | cons e rest ih =>
    simp only [strategy.listen, List.foldl_cons]
    apply ih
    cases e with
    | tick tick calls keys iterEntry iterExit iterCancel =>
      exact ((execute_quiet tm (sd.1.insertBar tick) sd.2 calls tick keys iterEntry iterExit
        iterCancel).2 h).1
    | faultyTick tick calls =>
      rw [handle_faultyTick]
      exact (onTick_quiet calls (sd.1.insertBar tick)).2.1.trans h
    | orderUpdate u => exact (orderUpdateStep_quiet sd.1 sd.2 u).2.1.trans h

/-- What `processCancelOrders` does with one cancel intent whose position is
open. -/
theorem processCancelOrders_single (s : strategy) (orderID : String) (b rpc : Bool)
    (p : Position) (hc : s.ordCancel orderID = some b) (hp : s.openPos orderID = some p) :
    (s.processCancelOrders [(orderID, rpc)]).2 =
      (if p.Status < EntryComplete then [p.TiqsEntryOrdID]
        else if p.TiqsExitOrdID ≠ "" then [p.TiqsExitOrdID] else []) ∧
    ((s.processCancelOrders [(orderID, rpc)]).1.ordCancel orderID = none ↔
      rpc = true ∨ (¬ p.Status < EntryComplete ∧ p.TiqsExitOrdID = "")) := by
  simp only [strategy.processCancelOrders, List.foldl_cons, List.foldl_nil, cancelVisit, hc,
    strategy.getOpenPos, hp]
  by_cases h1 : p.Status < EntryComplete
  · cases rpc <;> simp [h1, GoMap.delAll, GoMap.del, hc]
  · by_cases h2 : p.TiqsExitOrdID = ""
    · simp [h1, h2, GoMap.delAll, GoMap.del]
    · cases rpc <;> simp [h1, h2, GoMap.delAll, GoMap.del, hc]

/-- C20, amended. `Cancel` returns with the strategy unchanged, for every
strategy and order id: no cancel intent is recorded. So after any events of its
two loops, callbacks that call `Cancel` included, a new strategy has no cancel
intent, and `processCancelOrders` hands nothing to `cancelOrder` and changes
nothing. For a cancel intent that is in `ordCancel` and has an open position,
`processCancelOrders` hands the entry order number to `cancelOrder` while the
status is below `EntryComplete`, else the exit order number if there is one,
else nothing, and it drops the intent when the RPC succeeds or when there was
nothing to cancel. -/
theorem cancel_unimplemented (tm : GoMap Int) (name symbol : String) (disp : GoMap String)
    (events : List StrategyEvent) :
    (∀ (s : strategy) (orderID : String), s.Cancel orderID = s) ∧
    ((strategy.listen tm (newStrategy name symbol, disp) events).1.ordCancel = GoMap.empty ∧
      ∀ iter : List (String × Bool),
        (strategy.listen tm (newStrategy name symbol, disp) events).1.processCancelOrders iter =
          ((strategy.listen tm (newStrategy name symbol, disp) events).1, [])) ∧
    (∀ (s : strategy) (orderID : String) (b rpc : Bool) (p : Position),
      s.ordCancel orderID = some b → s.openPos orderID = some p →
      (s.processCancelOrders [(orderID, rpc)]).2 =
        (if p.Status < EntryComplete then [p.TiqsEntryOrdID]
          else if p.TiqsExitOrdID ≠ "" then [p.TiqsExitOrdID] else []) ∧
      ((s.processCancelOrders [(orderID, rpc)]).1.ordCancel orderID = none ↔
        rpc = true ∨ (¬ p.Status < EntryComplete ∧ p.TiqsExitOrdID = ""))) := by
  have h := listen_ordCancel tm events (newStrategy name symbol, disp) rfl
  exact ⟨fun _ _ => rfl, ⟨h, fun iter => processCancelOrders_empty _ iter h⟩,
    fun s orderID b rpc p hc hp => processCancelOrders_single s orderID b rpc p hc hp⟩

/-- The callback enters `L1` and cancels it: afterwards `ordCancel` is empty and
`processCancelOrders` requests nothing; with a cancel intent written into
`ordCancel` it would hand the pending entry order `E1` to `cancelOrder`. -/
theorem cancel_unimplemented_witness :
    cancelDemo.ordCancel = GoMap.empty ∧
    cancelDemo.processCancelOrders [("L1", true)] = (cancelDemo, []) ∧
    (cancelIntentDemo.processCancelOrders [("L1", true)]).2 = ["E1"] ∧
    (cancelIntentDemo.processCancelOrders [("L1", true)]).1.ordCancel "L1" = none := by
  have h := cancel_unimplemented seedSymbolToToken "alpha" "NIFTY50" GoMap.empty cancelDemoEvents
  refine ⟨h.2.1.1, h.2.1.2 _, ?_, ?_⟩
  · decide
  · decide

/-! ## Faults of the callback and shutdown -/

theorem call_openPos (s : strategy) (c : Call) :
    (s.call c).openPos = s.openPos ∧ (s.call c).strategyPnL = s.strategyPnL ∧
    (s.call c).closedPos = s.closedPos ∧
    (s.call c).tiqsOrderIdToLocalOrderId = s.tiqsOrderIdToLocalOrderId := by
  cases c with
  | Entry orderID opts =>
    simp only [strategy.call, strategy.Entry]
    split_ifs <;> exact ⟨rfl, rfl, rfl, rfl⟩
  | Exit orderID opts =>
    simp only [strategy.call, strategy.Exit]
    split_ifs <;> exact ⟨rfl, rfl, rfl, rfl⟩
  | Cancel orderID => exact ⟨rfl, rfl, rfl, rfl⟩

theorem onTick_openPos (calls : List Call) (s : strategy) :
    (s.onTick calls).openPos = s.openPos ∧ (s.onTick calls).strategyPnL = s.strategyPnL ∧
    (s.onTick calls).closedPos = s.closedPos ∧
    (s.onTick calls).tiqsOrderIdToLocalOrderId = s.tiqsOrderIdToLocalOrderId := by
  induction calls generalizing s with
  | nil => exact ⟨rfl, rfl, rfl, rfl⟩
  | cons c rest ih =>
    simp only [strategy.onTick, List.foldl_cons]
    obtain ⟨h1, h2, h3, h4⟩ := ih (s.call c)
    obtain ⟨g1, g2, g3, g4⟩ := call_openPos s c
    simp only [strategy.onTick] at h1 h2 h3 h4
    exact ⟨h1.trans g1, h2.trans g2, h3.trans g3, h4.trans g4⟩

/-- C21. On a tick on which the callback panics after any calls, whatever the
`range` loops and the broker would do: the body of `execute` unwinds but
`execute` itself returns (the panic is recovered inside it); nothing is handed
to `placeOrder` or `cancelOrder`; the strategy is exactly as the callback left
it after `insertBar`, so the close series ends with the price of the tick and
the open positions, the PnL, the closed positions and the order-id map are those
before the tick, and the dispatcher's lookup map is unchanged; and the tick loop
goes on with the next event, handled as after any other event. -/
theorem callback_fault_isolated (tm : GoMap Int) (sd : strategy × GoMap String) (tick : Tick)
    (calls : List Call) (keys : List String) (iterEntry iterExit : List (String × Option String))
    (iterCancel : List (String × Bool)) (next : StrategyEvent) (rest : List StrategyEvent) :
    ((sd.1.insertBar tick).executeBody tm sd.2 ⟨calls, true⟩ tick keys iterEntry iterExit
        iterCancel).completes = false ∧
    ((sd.1.insertBar tick).executeRecover tm sd.2 ⟨calls, true⟩ tick keys iterEntry iterExit
        iterCancel).completes = true ∧
    ((sd.1.insertBar tick).executeRecover tm sd.2 ⟨calls, true⟩ tick keys iterEntry iterExit
        iterCancel).state = ((sd.1.insertBar tick).onTick calls, sd.2, [], []) ∧
    strategy.handle tm sd (StrategyEvent.faultyTick tick calls) =
      ((sd.1.insertBar tick).onTick calls, sd.2) ∧
    (strategy.handle tm sd (StrategyEvent.faultyTick tick calls)).1.bars.getLast? =
      some ((tick.LTP : ℚ) / 100) ∧
    (strategy.handle tm sd (StrategyEvent.faultyTick tick calls)).1.openPos = sd.1.openPos ∧
    (strategy.handle tm sd (StrategyEvent.faultyTick tick calls)).1.strategyPnL =
      sd.1.strategyPnL ∧
    (strategy.handle tm sd (StrategyEvent.faultyTick tick calls)).1.closedPos = sd.1.closedPos ∧
    (strategy.handle tm sd (StrategyEvent.faultyTick tick calls)).1.tiqsOrderIdToLocalOrderId =
      sd.1.tiqsOrderIdToLocalOrderId ∧
    strategy.listen tm sd (StrategyEvent.faultyTick tick calls :: next :: rest) =
      strategy.listen tm
        (strategy.handle tm (strategy.handle tm sd (StrategyEvent.faultyTick tick calls)) next)
        rest := by
  obtain ⟨h1, h2, h3, h4⟩ := onTick_openPos calls (sd.1.insertBar tick)
  refine ⟨rfl, rfl, rfl, rfl, ?_, ?_, ?_, ?_, ?_, rfl⟩
  · rw [handle_faultyTick]
    show ((sd.1.insertBar tick).onTick calls).bars.getLast? = _
    rw [(onTick_quiet calls (sd.1.insertBar tick)).1]
    simp [strategy.insertBar]
  · rw [handle_faultyTick]; exact h1
  · rw [handle_faultyTick]; exact h2
  · rw [handle_faultyTick]; exact h3
  · rw [handle_faultyTick]; exact h4

theorem sliceIndex_last {α : Type} (xs : List α) :
    sliceIndex xs ((xs.length : Int) - 1) = xs.getLast? := by
  cases xs using List.reverseRecOn with
  | nil => rfl
  | append_singleton ys y =>
    have h : ((ys ++ [y]).length : Int) - 1 = (ys.length : Int) := by
      simp
    rw [h]
    simp [sliceIndex]

/-- The shutdown of a registered strategy panics exactly when its close series
is empty. -/
theorem shutdown_completes (tr : AutoTrader) (name : String) (s : strategy)
    (hs : tr.strategies name = some s) (keys : List String)
    (iterExit : List (String × Option String)) (closedKeys : List String) :
    (tr.shutdown name keys iterExit closedKeys).completes = true ↔ s.bars ≠ [] := by
  unfold AutoTrader.shutdown
  rw [hs]
  simp only [sliceIndex_last]
  cases hb : s.bars.getLast? with
  | none =>
    rw [List.getLast?_eq_none_iff] at hb
    simp [Outcome.completes, hb]
  | some b =>
    have : s.bars ≠ [] := by
      intro h
      rw [h] at hb
      simp at hb
    simp [Outcome.completes, this]

/-- Unplugging from the callback shuts the strategy down after `insertBar`, so
the last-seen LTP is there and `shutdown` runs to completion. -/
theorem tickUnplug_completes (tr : AutoTrader) (name : String) (tick : Tick) (calls : List Call)
    (keys : List String) (iterExit : List (String × Option String))
    (closedKeys : List String) :
    (tr.tickUnplug name tick calls keys iterExit closedKeys).completes = true := by
  unfold AutoTrader.tickUnplug AutoTrader.withStrategy
  cases hs : tr.strategies name with
  | none =>
    simp only []
    unfold AutoTrader.shutdown
    rw [hs]
    rfl
  | some s =>
    simp only []
    refine (shutdown_completes _ name
      { (s.insertBar tick).onTick calls with unplug := true } ?_ keys iterExit closedKeys).2 ?_
    · simp [GoMap.set]
    · show ((s.insertBar tick).onTick calls).bars ≠ []
      rw [(onTick_quiet calls (s.insertBar tick)).1]
      simp [strategy.insertBar]

/-- C29 (evaluation at the failing input). A strategy is added and the
dispatcher's `Shutdown` runs before any tick has reached it: the close series
is empty, the index `len(bars)-1` is `-1`, and `shutdown` panics in its
goroutine instead of running to completion; the same strategy shut down through
`Unplug` on its first tick completes and is removed. -/
theorem Shutdown_before_first_tick :
    demoT1.strategies "alpha" = some (newStrategy "alpha" "NIFTY50") ∧
    (newStrategy "alpha" "NIFTY50").bars = [] ∧
    sliceIndex (newStrategy "alpha" "NIFTY50").bars
      (((newStrategy "alpha" "NIFTY50").bars.length : Int) - 1) = none ∧
    (demoT1.shutdown "alpha" [] [] []).completes = false ∧
    (demoT1.Shutdown [⟨"alpha", [], [], []⟩]).completes = false ∧
    (demoT1.tickUnplug "alpha" (demoTick 5000) [] [] [] []).completes = true ∧
    (demoT1.tickUnplug "alpha" (demoTick 5000) [] [] [] []).state.strategies "alpha" = none := by
  refine ⟨rfl, rfl, rfl, rfl, rfl, rfl, rfl⟩

/-! ## Time to expiry -/

theorem FULL_TRADING_DAY_MS_eq : FULL_TRADING_DAY_MS = 22500000 := by
  norm_num [FULL_TRADING_DAY_MS, TRADING_END_HOUR, TRADING_END_MINUTE, TRADING_START_HOUR,
    TRADING_START_MINUTE, MS_PER_MINUTE]

theorem atClock_end (t : GoTime) :
    (t.atClock TRADING_END_HOUR TRADING_END_MINUTE).unixNano =
      (t.atClock TRADING_START_HOUR TRADING_START_MINUTE).unixNano + 22500000000000 := by
  simp only [GoTime.atClock, TRADING_END_HOUR, TRADING_END_MINUTE, TRADING_START_HOUR,
    TRADING_START_MINUTE]
  ring

/-- C24. When `today` and the expiry fall on the same calendar date, the result
is 1 if the current time is before 09:15 of that date, 0.0000001 if it is after
15:30, and otherwise the whole milliseconds from now to 15:30 divided by
22,500,000 (the 375 minutes of the trading day, in milliseconds); in every case
it lies in [0, 1]. -/
theorem GetTimeInDays_expiry_day (currentExpiryDate today now : GoTime)
    (h : today.localDay = currentExpiryDate.localDay) :
    GetTimeInDays currentExpiryDate today now =
      (if now.unixNano < (today.atClock 9 15).unixNano then 1
      else if (today.atClock 15 30).unixNano < now.unixNano then 1 / 10000000
      else ((((today.atClock 15 30).unixNano - now.unixNano) / 1000000 : Int) : ℚ) / 22500000) ∧
    (22500000 : ℚ) = ((15 * 60 + 30) - (9 * 60 + 15)) * 60 * 1000 ∧
    0 ≤ GetTimeInDays currentExpiryDate today now ∧
    GetTimeInDays currentExpiryDate today now ≤ 1 := by
  have hend := atClock_end today
  simp only [TRADING_END_HOUR, TRADING_END_MINUTE, TRADING_START_HOUR,
    TRADING_START_MINUTE] at hend
  have key : GetTimeInDays currentExpiryDate today now =
      (if now.unixNano < (today.atClock 9 15).unixNano then 1
      else if (today.atClock 15 30).unixNano < now.unixNano then 1 / 10000000
      else ((((today.atClock 15 30).unixNano - now.unixNano) / 1000000 : Int) : ℚ) /
        22500000) := by
    unfold GetTimeInDays
    simp only [h, if_true, GoTime.Before, GoTime.After, decide_eq_true_eq, TRADING_END_HOUR,
      TRADING_END_MINUTE, TRADING_START_HOUR, TRADING_START_MINUTE, FULL_TRADING_DAY_MS_eq]
    by_cases h1 : now.unixNano < (today.atClock 9 15).unixNano
    · simp [h1]
    · by_cases h2 : (today.atClock 15 30).unixNano < now.unixNano
      · simp only [h1, h2, if_true, if_false]
        norm_num
      · simp only [h1, h2, if_false]
        have hd : (today.atClock 15 30).Sub now = (today.atClock 15 30).unixNano - now.unixNano := by
          have e63 : (2 : Int) ^ 63 = 9223372036854775808 := by norm_num
          unfold GoTime.Sub minDuration maxDuration
          rw [e63]
          have b1 : (today.atClock 15 30).unixNano - now.unixNano ≤ 9223372036854775808 - 1 := by
            omega
          have b2 : -(9223372036854775808 : Int) ≤
              (today.atClock 15 30).unixNano - now.unixNano := by
            omega
          rw [min_eq_right b1, max_eq_right b2]
        rw [hd]
        unfold Duration.Milliseconds
        rw [Int.tdiv_eq_ediv (by omega) (by norm_num)]
  refine ⟨key, by norm_num, ?_, ?_⟩
  · rw [key]
    split_ifs with h1 h2
    · norm_num
    · norm_num
    · apply div_nonneg _ (by norm_num)
      have : (0 : Int) ≤ ((today.atClock 15 30).unixNano - now.unixNano) / 1000000 :=
        Int.ediv_nonneg (by omega) (by norm_num)
      exact_mod_cast this
  · rw [key]
    split_ifs with h1 h2
    · norm_num
    · norm_num
    · rw [div_le_one (by norm_num)]
      have : ((today.atClock 15 30).unixNano - now.unixNano) / 1000000 ≤ (22500000 : Int) := by
        omega
      exact_mod_cast this

theorem GetTimeInDays_expiry_day_witness :
    (istTime 1729103400).localDay = (istTime 1729159200).localDay ∧
    GetTimeInDays (istTime 1729159200) (istTime 1729103400) (istTime 1729146600) = 14 / 25 := by
  have h := GetTimeInDays_expiry_day (istTime 1729159200) (istTime 1729103400)
    (istTime 1729146600) (by decide)
  refine ⟨by decide, ?_⟩
  rw [h.1]
  norm_num [GoTime.atClock, GoTime.localDay, istTime]

theorem testToday_facts :
    testToday.localDay = 20006 ∧ testExpiry.localDay = 20013 ∧
    (testToday.atClock TRADING_END_HOUR TRADING_END_MINUTE).unixNano = 1728554400000000000 ∧
    testExpiry.Sub testToday = 604800000000000 ∧ testToday.Before testExpiry = true := by
  refine ⟨by decide, by decide, by decide, by decide, by decide⟩

/-- On two different calendar dates, within the range of a duration, the result
is the ceiling of the number of hours from `today` to the expiry, plus 1 when
`today` is before the expiry and the current time is at or before 15:30 of
`today`. -/
theorem GetTimeInDays_other_day (currentExpiryDate today now : GoTime)
    (h : today.localDay ≠ currentExpiryDate.localDay)
    (hr : minDuration ≤ currentExpiryDate.unixNano - today.unixNano ∧
      currentExpiryDate.unixNano - today.unixNano ≤ maxDuration) :
    GetTimeInDays currentExpiryDate today now =
      ((⌈((currentExpiryDate.unixNano - today.unixNano : Int) : ℚ) / 3600000000000⌉ +
        (if today.unixNano < currentExpiryDate.unixNano ∧
          now.unixNano ≤ (today.atClock 15 30).unixNano then 1 else 0) : Int) : ℚ) := by
  unfold GetTimeInDays
  have hd : currentExpiryDate.Sub today = currentExpiryDate.unixNano - today.unixNano := by
    unfold GoTime.Sub
    rw [min_eq_right hr.2, max_eq_right hr.1]
  simp only [h, if_false, hd, Duration.Hours, GoTime.Before, GoTime.Equal, TRADING_END_HOUR,
    TRADING_END_MINUTE, Ceil]
  have e : ((currentExpiryDate.unixNano - today.unixNano : Int) : ℚ) / 3600000000000 * 24 / 24 =
      ((currentExpiryDate.unixNano - today.unixNano : Int) : ℚ) / 3600000000000 := by
    ring
  rw [e]
  by_cases h1 : today.unixNano < currentExpiryDate.unixNano
  · by_cases h2 : now.unixNano ≤ (today.atClock 15 30).unixNano
    · have h3 : now.unixNano < (today.atClock 15 30).unixNano ∨
          now.unixNano = (today.atClock 15 30).unixNano := lt_or_eq_of_le h2
      simp [h1, h2, h3, Int.ceil_add_one]
    · have h3 : ¬ now.unixNano < (today.atClock 15 30).unixNano := fun h => h2 (le_of_lt h)
      have h4 : ¬ now.unixNano = (today.atClock 15 30).unixNano := fun h => h2 (le_of_eq h)
      simp [h1, h2, h3, h4]
  · simp [h1]

/-- C23 (evaluation at the input of `TestCallDelta`). For `today` = 2024-10-10
00:00 IST and the expiry 2024-10-17 00:00 IST, seven calendar days later, the
result is 169 when the current time is at or before 2024-10-10 15:30 IST and
168 afterwards: the number of hours between the two dates, not the number of
days. -/
theorem GetTimeInDays_test_input (now : GoTime) :
    testExpiry.localDay - testToday.localDay = 7 ∧
    Duration.Hours (testExpiry.Sub testToday) = 168 ∧
    GetTimeInDays testExpiry testToday now =
      (if now.unixNano ≤ (istTime 1728554400).unixNano then 169 else 168) ∧
    GetTimeInDays testExpiry testToday now ≠
      (if now.unixNano ≤ (istTime 1728554400).unixNano then 8 else 7) := by
  obtain ⟨f1, f2, f3, f4, f5⟩ := testToday_facts
  have key : GetTimeInDays testExpiry testToday now =
      (if now.unixNano ≤ (istTime 1728554400).unixNano then 169 else 168) := by
    rw [GetTimeInDays_other_day testExpiry testToday now (by rw [f1, f2]; decide)
      (by decide)]
    have e1 : testExpiry.unixNano - testToday.unixNano = 604800000000000 := by decide
    have e2 : (testToday.atClock 15 30).unixNano = 1728554400000000000 := f3
    have e3 : (istTime 1728554400).unixNano = 1728554400000000000 := by decide
    have e4 : testToday.unixNano < testExpiry.unixNano := by decide
    have e5 : ⌈((604800000000000 : Int) : ℚ) / 3600000000000⌉ = 168 := by
      norm_num [Int.ceil_eq_iff]
    rw [e1, e2, e3, e5]
    simp only [e4, true_and]
    split_ifs <;> norm_num
  refine ⟨by rw [f1, f2]; decide, ?_, key, ?_⟩
  · rw [f4]
    norm_num [Duration.Hours]
  · rw [key]
    split_ifs <;> norm_num

/-! ## Black-76 pricing -/

theorem quo_eq {F : Type} [LinearOrderedField F] (M : MathLib F) (x y : F) (h : y ≠ 0) :
    M.quo x y = x / y := by
  simp [MathLib.quo, h]

theorem cdf_eq_referenceN {F : Type} [LinearOrderedField F] (M : MathLib F) (x : F)
    (hs : M.Sqrt (2 * M.Pi) ≠ 0) : cdf M x = referenceN M x := by
  have h1 : (1 : F) + 0.2316419 * |x| ≠ 0 := by
    have : (0 : F) ≤ |x| := abs_nonneg x
    have : (0 : F) < 1 + 0.2316419 * |x| := by positivity
    exact ne_of_gt this
  unfold cdf referenceN referenceNPos referencePhi
  simp only [quo_eq M _ _ h1, quo_eq M _ _ hs]
  have e : -(x * x) / 2 = -(x ^ 2 / 2) := by ring
  have e2 : -((-x) ^ 2 / 2) = -(x ^ 2 / 2) := by ring
  rw [e, e2]
  by_cases hx : 0 ≤ x
  · simp only [ge_iff_le, hx, if_true, abs_of_nonneg hx]
    ring
  · have hx2 : x < 0 := lt_of_not_ge hx
    simp only [ge_iff_le, hx, if_false, abs_of_neg hx2]
    ring

theorem pdf_eq_referencePhi {F : Type} [LinearOrderedField F] (M : MathLib F) (x : F)
    (hs : M.Sqrt (2 * M.Pi) ≠ 0) : pdf M x = referencePhi M x := by
  unfold pdf referencePhi
  rw [quo_eq M _ _ hs]
  have e : -(x * x) / 2 = -(x ^ 2 / 2) := by ring
  rw [e]

/-- With nonzero divisors, `GetGreeks` computes the reference formulas for the
sign that it looks up. -/
theorem GetGreeks_eq_reference {F : Type} [LinearOrderedField F] (M : MathLib F)
    (b : Black76 F) (optionType : String) (S K T sigma : F) (hS : S ≠ 0) (hK : K ≠ 0)
    (hv : sigma ≠ 0) (hT : M.Sqrt T ≠ 0) (hs : M.Sqrt (2 * M.Pi) ≠ 0) :
    b.GetGreeks M optionType S K T sigma =
      referenceGreeks M b.InterestRate (optionSign optionType) S K T sigma := by
  have h1 : sigma * M.Sqrt T ≠ 0 := mul_ne_zero hv hT
  have h2 : sigma * S * M.Sqrt T ≠ 0 := mul_ne_zero (mul_ne_zero hv hS) hT
  have h3 : 2 * M.Sqrt T ≠ 0 := mul_ne_zero two_ne_zero hT
  unfold Black76.GetGreeks referenceGreeks Black76.d1d2
  simp only [quo_eq M _ _ h1, quo_eq M _ _ h2, quo_eq M _ _ h3, quo_eq M _ _ hK,
    cdf_eq_referenceN M _ hs, pdf_eq_referencePhi M _ hs]
  have e1 : sigma ^ 2 / 2 * T = sigma ^ 2 * T / 2 := by ring
  have e2 : -b.InterestRate * T = -(b.InterestRate * T) := by ring
  rw [e1, e2]
  simp only [mul_comm _ (optionSign optionType : F)]
  simp only [Greeks.mk.injEq]
  refine ⟨trivial, trivial, ?_, trivial, ?_, trivial⟩
  · exact (mul_div_assoc _ _ _).symm
  · rw [mul_div_assoc (-S * M.Exp _ * referencePhi M _) sigma (2 * M.Sqrt T)]

theorem realMath_sqrt_ne (divZero : ℝ → ℝ) (x : ℝ) (h : 0 < x) : (realMath divZero).Sqrt x ≠ 0 :=
  ne_of_gt (Real.sqrt_pos.2 h)

theorem realMath_sqrt_two_pi (divZero : ℝ → ℝ) :
    (realMath divZero).Sqrt (2 * (realMath divZero).Pi) ≠ 0 :=
  realMath_sqrt_ne divZero _ (by
    show (0 : ℝ) < 2 * Real.pi
    have := Real.pi_pos
    linarith only [this])

/-- C22. Over the reals, for `S, K, T, sigma > 0`, any interest rate and any
result of a division by zero (none occurs), `GetGreeks` equals the reference
formulas of Black-76 with sign `+1` for `"C"` and `-1` for `"P"`: the same
`d1`, `d2`, discount factor, five-term approximation `N` and density `phi`, and
`Value`, `Delta`, `Gamma`, `Vega`, `Theta` (per day, divided by 365) and `Rho` as
stated; `Gamma` and `Vega` are the same for calls and puts. -/
theorem GetGreeks_black76 (b : Black76 ℝ) (divZero : ℝ → ℝ) (S K T sigma : ℝ) (hS : 0 < S)
    (hK : 0 < K) (hT : 0 < T) (hv : 0 < sigma) :
    b.GetGreeks (realMath divZero) "C" S K T sigma =
      referenceGreeks (realMath divZero) b.InterestRate 1 S K T sigma ∧
    b.GetGreeks (realMath divZero) "P" S K T sigma =
      referenceGreeks (realMath divZero) b.InterestRate (-1) S K T sigma ∧
    (b.GetGreeks (realMath divZero) "C" S K T sigma).Gamma =
      (b.GetGreeks (realMath divZero) "P" S K T sigma).Gamma ∧
    (b.GetGreeks (realMath divZero) "C" S K T sigma).Vega =
      (b.GetGreeks (realMath divZero) "P" S K T sigma).Vega := by
  have hc := GetGreeks_eq_reference (realMath divZero) b "C" S K T sigma (ne_of_gt hS)
    (ne_of_gt hK) (ne_of_gt hv) (realMath_sqrt_ne divZero T hT) (realMath_sqrt_two_pi divZero)
  have hp := GetGreeks_eq_reference (realMath divZero) b "P" S K T sigma (ne_of_gt hS)
    (ne_of_gt hK) (ne_of_gt hv) (realMath_sqrt_ne divZero T hT) (realMath_sqrt_two_pi divZero)
  have s1 : (optionSign "C" : ℝ) = 1 := by simp [optionSign]
  have s2 : (optionSign "P" : ℝ) = -1 := by simp [optionSign]
  rw [s1] at hc
  rw [s2] at hp
  refine ⟨hc, hp, ?_, ?_⟩
  · rw [hc, hp]; rfl
  · rw [hc, hp]; rfl

theorem GetGreeks_black76_witness :
    (0 : ℝ) < 25039.55 ∧ (0 : ℝ) < 25050 ∧ (0 : ℝ) < 7 / 365 ∧ (0 : ℝ) < 0.125 ∧
    (⟨0⟩ : Black76 ℝ).GetGreeks (realMath fun _ => 0) "C" 25039.55 25050 (7 / 365) 0.125 =
      referenceGreeks (realMath fun _ => 0) 0 1 25039.55 25050 (7 / 365) 0.125 :=
  ⟨by norm_num, by norm_num, by norm_num, by norm_num,
    (GetGreeks_black76 ⟨0⟩ (fun _ => 0) 25039.55 25050 (7 / 365) 0.125 (by norm_num)
      (by norm_num) (by norm_num) (by norm_num)).1⟩

/-- The approximated distribution function is symmetric away from zero. -/
theorem cdf_symm {F : Type} [LinearOrderedField F] (M : MathLib F) (x : F) (hx : x ≠ 0) :
    cdf M x + cdf M (-x) = 1 := by
  unfold cdf
  have e : -(-x * -x) / 2 = -(x * x) / 2 := by ring
  simp only [abs_neg, e]
  rcases lt_or_gt_of_ne hx with h | h
  · have h1 : ¬ x ≥ 0 := not_le.2 h
    have h2 : -x ≥ 0 := le_of_lt (neg_pos.2 h)
    simp only [h1, h2, if_true, if_false]
    ring
  · have h1 : x ≥ 0 := le_of_lt h
    have h2 : ¬ -x ≥ 0 := not_le.2 (neg_neg_of_pos h)
    simp only [h1, h2, if_true, if_false]
    ring

theorem delta_put_call {F : Type} [LinearOrderedField F] (M : MathLib F) (b : Black76 F)
    (S K T sigma : F) (hd : (b.d1d2 M S K T sigma).1 ≠ 0) :
    (b.GetGreeks M "P" S K T sigma).Delta =
      (b.GetGreeks M "C" S K T sigma).Delta - M.Exp (-b.InterestRate * T) := by
  have s1 : (optionSign "C" : F) = 1 := by simp [optionSign]
  have s2 : (optionSign "P" : F) = -1 := by simp [optionSign]
  have hc := cdf_symm M _ hd
  unfold Black76.GetGreeks
  simp only [s1, s2, mul_one, mul_neg]
  linear_combination (-M.Exp (-b.InterestRate * T)) * hc

/-- C30. Over the reals, whenever `d1` is not zero (in particular for
`S, K, T, sigma > 0` with `d1 ≠ 0`): the approximated distribution function has
`cdf(d1) + cdf(-d1) = 1`, so the put Delta is the call Delta minus the discount
factor `e^(-rT)`, and with a zero rate it is the call Delta minus 1. -/
theorem delta_parity (b : Black76 ℝ) (divZero : ℝ → ℝ) (S K T sigma : ℝ)
    (hd : (b.d1d2 (realMath divZero) S K T sigma).1 ≠ 0) :
    cdf (realMath divZero) (b.d1d2 (realMath divZero) S K T sigma).1 +
      cdf (realMath divZero) (-(b.d1d2 (realMath divZero) S K T sigma).1) = 1 ∧
    (b.GetGreeks (realMath divZero) "P" S K T sigma).Delta =
      (b.GetGreeks (realMath divZero) "C" S K T sigma).Delta -
        Real.exp (-(b.InterestRate * T)) ∧
    (b.InterestRate = 0 →
      (b.GetGreeks (realMath divZero) "P" S K T sigma).Delta =
        (b.GetGreeks (realMath divZero) "C" S K T sigma).Delta - 1) := by
  have h := delta_put_call (realMath divZero) b S K T sigma hd
  have e : (realMath divZero).Exp (-b.InterestRate * T) = Real.exp (-(b.InterestRate * T)) := by
    show Real.exp (-b.InterestRate * T) = _
    rw [neg_mul]
  rw [e] at h
  refine ⟨cdf_symm _ _ hd, h, ?_⟩
  intro hr
  rw [h, hr]
  simp

theorem d1_demo : ((⟨0⟩ : Black76 ℝ).d1d2 (realMath fun _ => 0) 1 1 1 1).1 = 1 / 2 := by
  have q1 : (realMath fun _ => 0).quo 1 1 = 1 := by simp [MathLib.quo]
  have l1 : (realMath fun _ => 0).Log 1 = 0 := Real.log_one
  have r1 : (realMath fun _ => 0).Sqrt 1 = 1 := Real.sqrt_one
  unfold Black76.d1d2
  simp only [q1, l1, r1]
  norm_num [MathLib.quo]

theorem delta_parity_witness :
    ((⟨0⟩ : Black76 ℝ).d1d2 (realMath fun _ => 0) 1 1 1 1).1 ≠ 0 ∧
    ((⟨0⟩ : Black76 ℝ).GetGreeks (realMath fun _ => 0) "P" 1 1 1 1).Delta =
      ((⟨0⟩ : Black76 ℝ).GetGreeks (realMath fun _ => 0) "C" 1 1 1 1).Delta - 1 :=
  ⟨by rw [d1_demo]; norm_num,
    (delta_parity ⟨0⟩ (fun _ => 0) 1 1 1 1 (by rw [d1_demo]; norm_num)).2.2 rfl⟩

/-- For an option type other than `"C"` and `"P"` the sign is zero and so is the
value, at every volatility. -/
theorem value_unknown_type {F : Type} [LinearOrderedField F] (b : Black76 F) (M : MathLib F)
    (optionType : String) (hc : optionType ≠ "C") (hp : optionType ≠ "P") (S K T vol : F) :
    (b.GetGreeks M optionType S K T vol).Value = 0 := by
  unfold Black76.GetGreeks
  simp [optionSign, hc, hp]

/-! ### The approximated distribution function over the reals -/

theorem realMath_invSqrt (divZero : ℝ → ℝ) :
    0 < (realMath divZero).quo 1 ((realMath divZero).Sqrt (2 * (realMath divZero).Pi)) ∧
    (realMath divZero).quo 1 ((realMath divZero).Sqrt (2 * (realMath divZero).Pi)) ≤ 0.417 := by
  rw [quo_eq _ _ _ (realMath_sqrt_two_pi divZero)]
  show 0 < 1 / Real.sqrt (2 * Real.pi) ∧ 1 / Real.sqrt (2 * Real.pi) ≤ 0.417
  have hpi := Real.pi_gt_three
  have h1 : (2.4 : ℝ) ≤ Real.sqrt (2 * Real.pi) := by
    rw [Real.le_sqrt' (by norm_num)]
    norm_num
    linarith only [hpi]
  have h0 : (0 : ℝ) < Real.sqrt (2 * Real.pi) := lt_of_lt_of_le (by norm_num) h1
  refine ⟨one_div_pos.2 h0, ?_⟩
  rw [div_le_iff₀ h0]
  linarith only [h1]

theorem realMath_t (divZero : ℝ → ℝ) (x : ℝ) :
    (realMath divZero).quo 1 (1 + 0.2316419 * |x|) = 1 / (1 + 0.2316419 * |x|) ∧
    0 < 1 / (1 + 0.2316419 * |x|) ∧ 1 / (1 + 0.2316419 * |x|) ≤ 1 := by
  have h0 : (0 : ℝ) ≤ |x| := abs_nonneg x
  have h2 : (0 : ℝ) ≤ 0.2316419 * |x| := mul_nonneg (by norm_num) h0
  have h1 : (0 : ℝ) < 1 + 0.2316419 * |x| := add_pos_of_pos_of_nonneg one_pos h2
  refine ⟨quo_eq _ _ _ (ne_of_gt h1), one_div_pos.2 h1, ?_⟩
  rw [div_le_one h1]
  linarith only [h2]

/-- For `x ≥ 0` the approximation is within `3 e^(-x^2/2)` of 1. -/
theorem cdf_tail (divZero : ℝ → ℝ) (x : ℝ) (hx : 0 ≤ x) :
    |cdf (realMath divZero) x - 1| ≤ 3 * Real.exp (-(x * x) / 2) := by
  obtain ⟨c1, c2⟩ := realMath_invSqrt divZero
  obtain ⟨t1, t2, t3⟩ := realMath_t divZero x
  unfold cdf
  simp only [ge_iff_le, hx, if_true]
  rw [t1]
  show |1 - (realMath divZero).quo 1 ((realMath divZero).Sqrt (2 * (realMath divZero).Pi)) *
      Real.exp (-(x * x) / 2) * _ - 1| ≤ _
  generalize (realMath divZero).quo 1 ((realMath divZero).Sqrt (2 * (realMath divZero).Pi)) = c0
    at c1 c2 ⊢
  generalize 1 / (1 + 0.2316419 * |x|) = t at t2 t3 ⊢
  have hE : 0 < Real.exp (-(x * x) / 2) := Real.exp_pos _
  generalize Real.exp (-(x * x) / 2) = E at hE ⊢
  have p2 : t ^ 2 ≤ 1 := pow_le_one₀ (le_of_lt t2) t3
  have p3 : t ^ 3 ≤ 1 := pow_le_one₀ (le_of_lt t2) t3
  have p4 : t ^ 4 ≤ 1 := pow_le_one₀ (le_of_lt t2) t3
  have p5 : t ^ 5 ≤ 1 := pow_le_one₀ (le_of_lt t2) t3
  have q2 : 0 < t ^ 2 := pow_pos t2 2
  have q3 : 0 < t ^ 3 := pow_pos t2 3
  have q4 : 0 < t ^ 4 := pow_pos t2 4
  have q5 : 0 < t ^ 5 := pow_pos t2 5
  have hP : |0.319381530 * t + -0.356563782 * t ^ 2 + 1.781477937 * t ^ 3 +
      -1.821255978 * t ^ 4 + 1.330274429 * t ^ 5| ≤ 6 := by
    rw [abs_le]
    constructor
    · linarith only [t2, p2, q3, p4, q5]
    · linarith only [t3, q2, p3, q4, p5]
  generalize 0.319381530 * t + -0.356563782 * t ^ 2 + 1.781477937 * t ^ 3 +
      -1.821255978 * t ^ 4 + 1.330274429 * t ^ 5 = P at hP ⊢
  have e : 1 - c0 * E * P - 1 = -(c0 * E * P) := by ring
  rw [e, abs_neg, abs_mul, abs_mul, abs_of_pos c1, abs_of_pos hE]
  have : c0 * E * |P| ≤ 0.417 * E * 6 := by
    have h1 : c0 * E ≤ 0.417 * E := mul_le_mul_of_nonneg_right c2 (le_of_lt hE)
    have h2 : 0 ≤ c0 * E := mul_nonneg (le_of_lt c1) (le_of_lt hE)
    calc c0 * E * |P| ≤ c0 * E * 6 := mul_le_mul_of_nonneg_left hP h2
      _ ≤ 0.417 * E * 6 := mul_le_mul_of_nonneg_right h1 (by norm_num)
  linarith only [this, hE]

theorem exp_neg_le (x : ℝ) (hx : 0 < x) : Real.exp (-x) ≤ 2 / x ^ 2 := by
  have h := Real.quadratic_le_exp_of_nonneg (le_of_lt hx)
  have hp : 0 < Real.exp x := Real.exp_pos x
  rw [Real.exp_neg, inv_eq_one_div, div_le_div_iff₀ hp (pow_pos hx 2)]
  linarith only [h, hx]

@[simp] theorem GoFloat.fin_add {F : Type} [LinearOrderedField F] (x y : F) :
    (GoFloat.fin x + GoFloat.fin y : GoFloat F) = GoFloat.fin (x + y) := rfl

@[simp] theorem GoFloat.fin_sub {F : Type} [LinearOrderedField F] (x y : F) :
    (GoFloat.fin x - GoFloat.fin y : GoFloat F) = GoFloat.fin (x - y) := by
  show GoFloat.add (GoFloat.fin x) (GoFloat.neg (GoFloat.fin y)) = _
  simp [GoFloat.add, GoFloat.neg, sub_eq_add_neg]

@[simp] theorem GoFloat.fin_mul {F : Type} [LinearOrderedField F] (x y : F) :
    (GoFloat.fin x * GoFloat.fin y : GoFloat F) = GoFloat.fin (x * y) := rfl

@[simp] theorem GoFloat.fin_neg {F : Type} [LinearOrderedField F] (x : F) :
    (-GoFloat.fin x : GoFloat F) = GoFloat.fin (-x) := rfl

theorem GoFloat.fin_div {F : Type} [LinearOrderedField F] (x y : F) (h : y ≠ 0) :
    (GoFloat.fin x / GoFloat.fin y : GoFloat F) = GoFloat.fin (x / y) := by
  show GoFloat.div (GoFloat.fin x) (GoFloat.fin y) = _
  simp [GoFloat.div, h]

@[simp] theorem GoFloat.fin_pow {F : Type} [LinearOrderedField F] (x : F) (n : Nat) :
    GoFloat.Pow (GoFloat.fin x) n = GoFloat.fin (x ^ n) := by
  induction n with
  | zero => simp [GoFloat.Pow]
  | succ k ih => simp [GoFloat.Pow, ih, pow_succ]

@[simp] theorem GoFloat.fin_abs {F : Type} [LinearOrderedField F] (x : F) :
    GoFloat.Abs (GoFloat.fin x) = GoFloat.fin |x| := rfl

@[simp] theorem GoFloat.fin_max {F : Type} [LinearOrderedField F] (x y : F) :
    GoFloat.Max (GoFloat.fin x) (GoFloat.fin y) = GoFloat.fin (max x y) := rfl

@[simp] theorem GoFloat.fin_min {F : Type} [LinearOrderedField F] (x y : F) :
    GoFloat.Min (GoFloat.fin x) (GoFloat.fin y) = GoFloat.fin (min x y) := rfl

@[simp] theorem GoFloat.fin_lt {F : Type} [LinearOrderedField F] (x y : F) :
    GoFloat.lt (GoFloat.fin x) (GoFloat.fin y) = decide (x < y) := rfl

@[simp] theorem GoFloat.fin_le {F : Type} [LinearOrderedField F] (x y : F) :
    GoFloat.le (GoFloat.fin x) (GoFloat.fin y) = decide (x ≤ y) := rfl

@[simp] theorem GoFloat.fin_ge {F : Type} [LinearOrderedField F] (x y : F) :
    GoFloat.ge (GoFloat.fin x) (GoFloat.fin y) = decide (y ≤ x) := rfl

@[simp] theorem GoFloat.fin_eq {F : Type} [LinearOrderedField F] (x y : F) :
    GoFloat.eq (GoFloat.fin x) (GoFloat.fin y) = decide (x = y) := rfl

@[simp] theorem Exp64_fin {F : Type} [LinearOrderedField F] (M : MathLib F) (x : F) :
    M.Exp64 (GoFloat.fin x) = GoFloat.fin (M.Exp x) := rfl

theorem Sqrt64_fin {F : Type} [LinearOrderedField F] (M : MathLib F) (x : F) (h : 0 ≤ x) :
    M.Sqrt64 (GoFloat.fin x) = GoFloat.fin (M.Sqrt x) := by
  simp [MathLib.Sqrt64, not_lt.2 h]

theorem Log64_fin {F : Type} [LinearOrderedField F] (M : MathLib F) (x : F) (h : 0 < x) :
    M.Log64 (GoFloat.fin x) = GoFloat.fin (M.Log x) := by
  simp [MathLib.Log64, not_lt.2 (le_of_lt h), ne_of_gt h]

/-- On a finite argument `cdf` meets no special value. -/
theorem cdf64_fin {F : Type} [LinearOrderedField F] (M : MathLib F) (x : F)
    (hpi : 0 ≤ 2 * M.Pi) (hs : M.Sqrt (2 * M.Pi) ≠ 0) :
    cdf64 M (GoFloat.fin x) = GoFloat.fin (cdf M x) := by
  have h1 : (1 : F) + 0.2316419 * |x| ≠ 0 := by
    have : (0 : F) ≤ |x| := abs_nonneg x
    have : (0 : F) < 1 + 0.2316419 * |x| := by positivity
    exact ne_of_gt this
  unfold cdf64 cdf
  simp only [GoFloat.fin_abs, GoFloat.fin_mul, GoFloat.fin_add, GoFloat.fin_div _ _ h1,
    GoFloat.fin_pow, Sqrt64_fin M _ hpi, GoFloat.fin_div _ _ hs, GoFloat.fin_neg,
    GoFloat.fin_div _ _ (two_ne_zero : (2 : F) ≠ 0), Exp64_fin, GoFloat.fin_sub, GoFloat.fin_ge,
    quo_eq M _ _ h1, quo_eq M _ _ hs, ge_iff_le, decide_eq_true_eq]
  split_ifs <;> rfl

theorem pdf64_fin {F : Type} [LinearOrderedField F] (M : MathLib F) (x : F)
    (hpi : 0 ≤ 2 * M.Pi) (hs : M.Sqrt (2 * M.Pi) ≠ 0) :
    pdf64 M (GoFloat.fin x) = GoFloat.fin (pdf M x) := by
  unfold pdf64 pdf
  simp only [GoFloat.fin_mul, GoFloat.fin_neg, GoFloat.fin_div _ _ (two_ne_zero : (2 : F) ≠ 0),
    Exp64_fin, Sqrt64_fin M _ hpi, GoFloat.fin_div _ _ hs, quo_eq M _ _ hs]

/-- On finite arguments with `S / K > 0`, `T ≥ 0` and nonzero divisors,
`GetGreeks` meets no special value: its results are those of the computation in
the field. -/
theorem GetGreeks64_fin {F : Type} [LinearOrderedField F] (M : MathLib F) (b : Black76 F)
    (optionType : String) (S K T vol : F) (hS : S ≠ 0) (hK : K ≠ 0) (hSK : 0 < S / K)
    (hT : 0 ≤ T) (hsT : M.Sqrt T ≠ 0) (hv : vol ≠ 0) (hpi : 0 ≤ 2 * M.Pi)
    (hs : M.Sqrt (2 * M.Pi) ≠ 0) :
    b.GetGreeks64 M optionType (GoFloat.fin S) (GoFloat.fin K) (GoFloat.fin T)
        (GoFloat.fin vol) =
      { Value := GoFloat.fin (b.GetGreeks M optionType S K T vol).Value
        Delta := GoFloat.fin (b.GetGreeks M optionType S K T vol).Delta
        Gamma := GoFloat.fin (b.GetGreeks M optionType S K T vol).Gamma
        Vega := GoFloat.fin (b.GetGreeks M optionType S K T vol).Vega
        Theta := GoFloat.fin (b.GetGreeks M optionType S K T vol).Theta
        Rho := GoFloat.fin (b.GetGreeks M optionType S K T vol).Rho } := by
  have h1 : vol * M.Sqrt T ≠ 0 := mul_ne_zero hv hsT
  have h2 : vol * S * M.Sqrt T ≠ 0 := mul_ne_zero (mul_ne_zero hv hS) hsT
  have h3 : 2 * M.Sqrt T ≠ 0 := mul_ne_zero two_ne_zero hsT
  have h365 : (365 : F) ≠ 0 := by norm_num
  unfold Black76.GetGreeks64 Black76.GetGreeks Black76.d1d2_64 Black76.d1d2
  simp only [GoFloat.fin_mul, GoFloat.fin_add, GoFloat.fin_sub, GoFloat.fin_neg, GoFloat.fin_pow,
    GoFloat.fin_div _ _ hK, Log64_fin M _ hSK, Sqrt64_fin M _ hT, GoFloat.fin_div _ _ h1,
    GoFloat.fin_div _ _ h2, GoFloat.fin_div _ _ h3, GoFloat.fin_div _ _ h365,
    GoFloat.fin_div _ _ (two_ne_zero : (2 : F) ≠ 0), Exp64_fin, cdf64_fin M _ hpi hs,
    pdf64_fin M _ hpi hs, quo_eq M _ _ hK, quo_eq M _ _ h1, quo_eq M _ _ h2, quo_eq M _ _ h3]

/-! ## NaN propagates -/

@[simp] theorem GoFloat.mul_nan {F : Type} [LinearOrderedField F] (x : GoFloat F) :
    x * GoFloat.nan = GoFloat.nan := by
  cases x <;> rfl

@[simp] theorem GoFloat.nan_mul {F : Type} [LinearOrderedField F] (x : GoFloat F) :
    GoFloat.nan * x = GoFloat.nan := by
  cases x <;> rfl

@[simp] theorem GoFloat.add_nan {F : Type} [LinearOrderedField F] (x : GoFloat F) :
    x + GoFloat.nan = GoFloat.nan := by
  cases x <;> rfl

@[simp] theorem GoFloat.nan_add {F : Type} [LinearOrderedField F] (x : GoFloat F) :
    GoFloat.nan + x = GoFloat.nan := by
  cases x <;> rfl

@[simp] theorem GoFloat.sub_nan {F : Type} [LinearOrderedField F] (x : GoFloat F) :
    x - GoFloat.nan = GoFloat.nan := by
  cases x <;> rfl

@[simp] theorem GoFloat.nan_sub {F : Type} [LinearOrderedField F] (x : GoFloat F) :
    GoFloat.nan - x = GoFloat.nan := by
  cases x <;> rfl

@[simp] theorem GoFloat.div_nan {F : Type} [LinearOrderedField F] (x : GoFloat F) :
    x / GoFloat.nan = GoFloat.nan := by
  cases x <;> rfl

@[simp] theorem GoFloat.nan_div {F : Type} [LinearOrderedField F] (x : GoFloat F) :
    GoFloat.nan / x = GoFloat.nan := by
  cases x <;> rfl

@[simp] theorem GoFloat.neg_nan {F : Type} [LinearOrderedField F] :
    (-GoFloat.nan : GoFloat F) = GoFloat.nan := rfl

@[simp] theorem GoFloat.abs_nan {F : Type} [LinearOrderedField F] :
    GoFloat.Abs (GoFloat.nan : GoFloat F) = GoFloat.nan := rfl

@[simp] theorem GoFloat.pow_nan {F : Type} [LinearOrderedField F] (n : Nat) :
    GoFloat.Pow (GoFloat.nan : GoFloat F) (n + 1) = GoFloat.nan := by
  simp [GoFloat.Pow]

@[simp] theorem Exp64_nan {F : Type} [LinearOrderedField F] (M : MathLib F) :
    M.Exp64 GoFloat.nan = GoFloat.nan := rfl

@[simp] theorem GoFloat.max_nan {F : Type} [LinearOrderedField F] (x : F) :
    GoFloat.Max (GoFloat.fin x) GoFloat.nan = GoFloat.nan := rfl

@[simp] theorem GoFloat.nan_min {F : Type} [LinearOrderedField F] (x : F) :
    GoFloat.Min GoFloat.nan (GoFloat.fin x) = GoFloat.nan := rfl

@[simp] theorem GoFloat.nan_min_nan {F : Type} [LinearOrderedField F] :
    GoFloat.Min (GoFloat.nan : GoFloat F) GoFloat.nan = GoFloat.nan := rfl

@[simp] theorem GoFloat.lt_nan {F : Type} [LinearOrderedField F] (x : GoFloat F) :
    GoFloat.lt GoFloat.nan x = false := by
  cases x <;> rfl

@[simp] theorem GoFloat.nan_le {F : Type} [LinearOrderedField F] (x : GoFloat F) :
    GoFloat.le GoFloat.nan x = false := by
  cases x <;> rfl

@[simp] theorem GoFloat.le_nan {F : Type} [LinearOrderedField F] (x : GoFloat F) :
    GoFloat.le x GoFloat.nan = false := by
  cases x <;> rfl

theorem cdf64_nan {F : Type} [LinearOrderedField F] (M : MathLib F) :
    cdf64 M GoFloat.nan = GoFloat.nan := by
  unfold cdf64
  simp [GoFloat.ge]

/-- At the volatility NaN the value is NaN, whatever the other arguments. -/
theorem value64_nan {F : Type} [LinearOrderedField F] (M : MathLib F) (b : Black76 F)
    (optionType : String) (S K T : GoFloat F) :
    (b.GetGreeks64 M optionType S K T GoFloat.nan).Value = GoFloat.nan := by
  unfold Black76.GetGreeks64 Black76.d1d2_64
  simp [cdf64_nan]

/-! ## The pricing code over the reals -/

theorem realMath_pi (divZero : ℝ → ℝ) : 0 ≤ 2 * (realMath divZero).Pi := by
  show (0 : ℝ) ≤ 2 * Real.pi
  have := Real.pi_pos
  linarith only [this]

/-- Over the reals, for `S, K, T > 0` and a volatility `vol > 0`, `GetGreeks` on
`float64` values gives the finite numbers of the computation in the field. -/
theorem GetGreeks64_real (b : Black76 ℝ) (divZero : ℝ → ℝ) (optionType : String)
    (S K T vol : ℝ) (hS : 0 < S) (hK : 0 < K) (hT : 0 < T) (hv : 0 < vol) :
    b.GetGreeks64 (realMath divZero) optionType (GoFloat.fin S) (GoFloat.fin K) (GoFloat.fin T)
        (GoFloat.fin vol) =
      { Value := GoFloat.fin (b.GetGreeks (realMath divZero) optionType S K T vol).Value
        Delta := GoFloat.fin (b.GetGreeks (realMath divZero) optionType S K T vol).Delta
        Gamma := GoFloat.fin (b.GetGreeks (realMath divZero) optionType S K T vol).Gamma
        Vega := GoFloat.fin (b.GetGreeks (realMath divZero) optionType S K T vol).Vega
        Theta := GoFloat.fin (b.GetGreeks (realMath divZero) optionType S K T vol).Theta
        Rho := GoFloat.fin (b.GetGreeks (realMath divZero) optionType S K T vol).Rho } :=
  GetGreeks64_fin (realMath divZero) b optionType S K T vol (ne_of_gt hS) (ne_of_gt hK)
    (div_pos hS hK) (le_of_lt hT) (realMath_sqrt_ne divZero T hT) (ne_of_gt hv)
    (realMath_pi divZero) (realMath_sqrt_two_pi divZero)

theorem value64_real (b : Black76 ℝ) (divZero : ℝ → ℝ) (optionType : String)
    (S K T vol : ℝ) (hS : 0 < S) (hK : 0 < K) (hT : 0 < T) (hv : 0 < vol) :
    (b.GetGreeks64 (realMath divZero) optionType (GoFloat.fin S) (GoFloat.fin K) (GoFloat.fin T)
        (GoFloat.fin vol)).Value =
      GoFloat.fin (b.GetGreeks (realMath divZero) optionType S K T vol).Value := by
  rw [GetGreeks64_real b divZero optionType S K T vol hS hK hT hv]

/-! ## The loop of `ImpliedVolaUsingBisection` -/

/-- An iteration on a finite bracket whose boundary values differ: no special
value occurs, and the guess is the clamped interpolation. -/
theorem bisectionBody_step (b : Black76 ℝ) (divZero : ℝ → ℝ) (optionType : String)
    (S K T m : ℝ) (hS : 0 < S) (hK : 0 < K) (hT : 0 < T) (i : Nat) (lo hi g : ℝ) (hlo : 0 < lo)
    (hhi : 0 < hi)
    (hne : (b.GetGreeks (realMath divZero) optionType S K T hi).Value -
      (b.GetGreeks (realMath divZero) optionType S K T lo).Value ≠ 0) :
    b.bisectionBody (realMath divZero) optionType (GoFloat.fin S) (GoFloat.fin K) (GoFloat.fin T)
        (GoFloat.fin m)
        { i := i, volMin := GoFloat.fin lo, volMax := GoFloat.fin hi, volGuess := GoFloat.fin g } =
      some
        (if (b.GetGreeks (realMath divZero) optionType S K T
              (max lo
                (min
                  (lo + (hi - lo) *
                    ((m - (b.GetGreeks (realMath divZero) optionType S K T lo).Value) /
                      ((b.GetGreeks (realMath divZero) optionType S K T hi).Value -
                        (b.GetGreeks (realMath divZero) optionType S K T lo).Value)))
                  hi))).Value < m then
          { i := i + 1
            volMin := GoFloat.fin
              (max lo
                (min
                  (lo + (hi - lo) *
                    ((m - (b.GetGreeks (realMath divZero) optionType S K T lo).Value) /
                      ((b.GetGreeks (realMath divZero) optionType S K T hi).Value -
                        (b.GetGreeks (realMath divZero) optionType S K T lo).Value)))
                  hi))
            volMax := GoFloat.fin hi
            volGuess := GoFloat.fin
              (max lo
                (min
                  (lo + (hi - lo) *
                    ((m - (b.GetGreeks (realMath divZero) optionType S K T lo).Value) /
                      ((b.GetGreeks (realMath divZero) optionType S K T hi).Value -
                        (b.GetGreeks (realMath divZero) optionType S K T lo).Value)))
                  hi)) }
        else
          { i := i + 1
            volMin := GoFloat.fin lo
            volMax := GoFloat.fin
              (max lo
                (min
                  (lo + (hi - lo) *
                    ((m - (b.GetGreeks (realMath divZero) optionType S K T lo).Value) /
                      ((b.GetGreeks (realMath divZero) optionType S K T hi).Value -
                        (b.GetGreeks (realMath divZero) optionType S K T lo).Value)))
                  hi))
            volGuess := GoFloat.fin
              (max lo
                (min
                  (lo + (hi - lo) *
                    ((m - (b.GetGreeks (realMath divZero) optionType S K T lo).Value) /
                      ((b.GetGreeks (realMath divZero) optionType S K T hi).Value -
                        (b.GetGreeks (realMath divZero) optionType S K T lo).Value)))
                  hi)) }) := by
  have hx : 0 < max lo
      (min
        (lo + (hi - lo) *
          ((m - (b.GetGreeks (realMath divZero) optionType S K T lo).Value) /
            ((b.GetGreeks (realMath divZero) optionType S K T hi).Value -
              (b.GetGreeks (realMath divZero) optionType S K T lo).Value)))
        hi) := lt_of_lt_of_le hlo (le_max_left _ _)
  have hne2 : ¬ (b.GetGreeks (realMath divZero) optionType S K T lo).Value =
      (b.GetGreeks (realMath divZero) optionType S K T hi).Value := fun h => hne (by rw [h]; ring)
  unfold Black76.bisectionBody
  simp only [value64_real b divZero optionType S K T _ hS hK hT hlo,
    value64_real b divZero optionType S K T _ hS hK hT hhi, GoFloat.fin_sub, GoFloat.fin_le,
    GoFloat.fin_eq, hne2, decide_False, Bool.and_false, Bool.false_eq_true, if_false,
    GoFloat.fin_div _ _ hne, GoFloat.fin_mul, GoFloat.fin_add, GoFloat.fin_min, GoFloat.fin_max,
    value64_real b divZero optionType S K T _ hS hK hT hx, GoFloat.fin_lt, decide_eq_true_eq]
  split_ifs <;> rfl

/-- An iteration on a closed finite bracket whose boundary values coincide
takes the `break`. -/
theorem bisectionBody_break (b : Black76 ℝ) (divZero : ℝ → ℝ) (optionType : String)
    (S K T m : ℝ) (hS : 0 < S) (hK : 0 < K) (hT : 0 < T) (i : Nat) (lo hi g : ℝ) (hlo : 0 < lo)
    (hhi : 0 < hi) (hw : hi - lo ≤ 0.0001)
    (he : (b.GetGreeks (realMath divZero) optionType S K T lo).Value =
      (b.GetGreeks (realMath divZero) optionType S K T hi).Value) :
    b.bisectionBody (realMath divZero) optionType (GoFloat.fin S) (GoFloat.fin K) (GoFloat.fin T)
        (GoFloat.fin m)
        { i := i, volMin := GoFloat.fin lo, volMax := GoFloat.fin hi, volGuess := GoFloat.fin g } =
      none := by
  unfold Black76.bisectionBody
  simp only [value64_real b divZero optionType S K T _ hS hK hT hlo,
    value64_real b divZero optionType S K T _ hS hK hT hhi, GoFloat.fin_sub, GoFloat.fin_le,
    GoFloat.fin_eq, he, epsilon]
  simp [hw]

/-! ## Coinciding boundary values -/

theorem GoFloat.fin_div_zero {F : Type} [LinearOrderedField F] (x : F) :
    (GoFloat.fin x / GoFloat.fin 0 : GoFloat F) =
      if x = 0 then GoFloat.nan else GoFloat.inf (decide (x < 0)) := by
  show GoFloat.div (GoFloat.fin x) (GoFloat.fin 0) = _
  simp [GoFloat.div]

/-- For an option type other than `"C"` and `"P"`, over the reals with
`S, K, T > 0`, the value at a volatility `vol > 0` is the `float64` zero. -/
theorem value64_unknown_type (b : Black76 ℝ) (divZero : ℝ → ℝ) (optionType : String)
    (hc : optionType ≠ "C") (hp : optionType ≠ "P") (S K T vol : ℝ) (hS : 0 < S) (hK : 0 < K)
    (hT : 0 < T) (hv : 0 < vol) :
    (b.GetGreeks64 (realMath divZero) optionType (GoFloat.fin S) (GoFloat.fin K) (GoFloat.fin T)
        (GoFloat.fin vol)).Value = GoFloat.fin 0 := by
  rw [value64_real b divZero optionType S K T vol hS hK hT hv,
    value_unknown_type b (realMath divZero) optionType hc hp]

/-- With coinciding boundary values 0 and the market price 0, the first
iteration computes `0 / 0`: the guess and the upper end become NaN. -/
theorem bisectionBody_zero_start :
    (⟨0⟩ : Black76 ℝ).bisectionBody (realMath fun _ => 0) "X" (GoFloat.fin 1) (GoFloat.fin 1)
        (GoFloat.fin 1) (GoFloat.fin 0) bisectionStart =
      some { i := 1, volMin := GoFloat.fin 0.00001, volMax := GoFloat.nan,
             volGuess := GoFloat.nan } := by
  have h1 := value64_unknown_type (⟨0⟩ : Black76 ℝ) (fun _ => 0) "X" (by decide) (by decide)
    1 1 1 0.00001 (by norm_num) (by norm_num) (by norm_num) (by norm_num)
  have h2 := value64_unknown_type (⟨0⟩ : Black76 ℝ) (fun _ => 0) "X" (by decide) (by decide)
    1 1 1 5.0 (by norm_num) (by norm_num) (by norm_num) (by norm_num)
  have hw : ¬ ((5.0 : ℝ) - 0.00001 ≤ epsilon) := by norm_num [epsilon]
  unfold Black76.bisectionBody
  simp only [bisectionStart, h1, h2, GoFloat.fin_sub, GoFloat.fin_le, hw, decide_False,
    Bool.false_and, Bool.false_eq_true, if_false, sub_self, GoFloat.fin_div_zero, if_true,
    GoFloat.mul_nan, GoFloat.add_nan, GoFloat.nan_min, GoFloat.max_nan, value64_nan,
    GoFloat.lt_nan]

/-- Once the upper end is NaN every iteration leaves it and the guess NaN. -/
theorem bisectionBody_nan (b : Black76 ℝ) (M : MathLib ℝ) (optionType : String)
    (S K T m : GoFloat ℝ) (i : Nat) (lo : ℝ) :
    b.bisectionBody M optionType S K T m
        { i := i, volMin := GoFloat.fin lo, volMax := GoFloat.nan, volGuess := GoFloat.nan } =
      some { i := i + 1, volMin := GoFloat.fin lo, volMax := GoFloat.nan,
             volGuess := GoFloat.nan } := by
  unfold Black76.bisectionBody
  simp only [value64_nan, GoFloat.nan_sub, GoFloat.nan_le, Bool.false_and, Bool.false_eq_true,
    if_false, GoFloat.div_nan, GoFloat.mul_nan, GoFloat.add_nan, GoFloat.nan_min_nan,
    GoFloat.max_nan, GoFloat.lt_nan]

theorem bisectionLoop_nan (b : Black76 ℝ) (M : MathLib ℝ) (optionType : String)
    (S K T m : GoFloat ℝ) (fuel i : Nat) (lo : ℝ) :
    b.bisectionLoop M optionType S K T m fuel
        { i := i, volMin := GoFloat.fin lo, volMax := GoFloat.nan, volGuess := GoFloat.nan } =
      { i := i + fuel, volMin := GoFloat.fin lo, volMax := GoFloat.nan,
        volGuess := GoFloat.nan } := by
  induction fuel generalizing i with
  | zero => rfl
  | succ n ih =>
    unfold Black76.bisectionLoop
    rw [bisectionBody_nan]
    simp only []
    rw [ih]
    congr 1
    omega

/-- C28 (evaluation at a failing input). For the option type `"X"`, `S = K = T = 1`,
the rate 0 and the market price 0, over the reals with the special values of
`float64`: the values at `volMin = 0.00001` and `volMax = 5.0` are both 0, the
first iteration computes `0 / 0 = NaN`, which passes through `math.Min` and
`math.Max` into the guess and into `volMax`, and `ImpliedVolaUsingBisection`
returns NaN after 100 iterations: not a volatility in `[0.00001, 5.0]`. -/
theorem ImpliedVola_returns_nan :
    ((⟨0⟩ : Black76 ℝ).GetGreeks64 (realMath fun _ => 0) "X" (GoFloat.fin 1) (GoFloat.fin 1)
        (GoFloat.fin 1) (GoFloat.fin 0.00001)).Value = GoFloat.fin 0 ∧
    ((⟨0⟩ : Black76 ℝ).GetGreeks64 (realMath fun _ => 0) "X" (GoFloat.fin 1) (GoFloat.fin 1)
        (GoFloat.fin 1) (GoFloat.fin 5.0)).Value = GoFloat.fin 0 ∧
    ((GoFloat.fin 0 - GoFloat.fin 0) / (GoFloat.fin 0 - GoFloat.fin 0) : GoFloat ℝ) =
      GoFloat.nan ∧
    (⟨0⟩ : Black76 ℝ).bisectionLoop (realMath fun _ => 0) "X" (GoFloat.fin 1) (GoFloat.fin 1)
        (GoFloat.fin 1) (GoFloat.fin 0) maxIterations bisectionStart =
      { i := 100, volMin := GoFloat.fin 0.00001, volMax := GoFloat.nan,
        volGuess := GoFloat.nan } ∧
    (⟨0⟩ : Black76 ℝ).ImpliedVolaUsingBisection (realMath fun _ => 0) "X" (GoFloat.fin 1)
        (GoFloat.fin 1) (GoFloat.fin 1) (GoFloat.fin 0) = GoFloat.nan ∧
    GoFloat.le (GoFloat.fin 0.00001)
        ((⟨0⟩ : Black76 ℝ).ImpliedVolaUsingBisection (realMath fun _ => 0) "X" (GoFloat.fin 1)
          (GoFloat.fin 1) (GoFloat.fin 1) (GoFloat.fin 0)) = false := by
  have h1 := value64_unknown_type (⟨0⟩ : Black76 ℝ) (fun _ => 0) "X" (by decide) (by decide)
    1 1 1 0.00001 (by norm_num) (by norm_num) (by norm_num) (by norm_num)
  have h2 := value64_unknown_type (⟨0⟩ : Black76 ℝ) (fun _ => 0) "X" (by decide) (by decide)
    1 1 1 5.0 (by norm_num) (by norm_num) (by norm_num) (by norm_num)
  have hl : (⟨0⟩ : Black76 ℝ).bisectionLoop (realMath fun _ => 0) "X" (GoFloat.fin 1)
      (GoFloat.fin 1) (GoFloat.fin 1) (GoFloat.fin 0) maxIterations bisectionStart =
      { i := 100, volMin := GoFloat.fin 0.00001, volMax := GoFloat.nan,
        volGuess := GoFloat.nan } := by
    show (⟨0⟩ : Black76 ℝ).bisectionLoop (realMath fun _ => 0) "X" (GoFloat.fin 1)
      (GoFloat.fin 1) (GoFloat.fin 1) (GoFloat.fin 0) (99 + 1) bisectionStart = _
    unfold Black76.bisectionLoop
    rw [bisectionBody_zero_start]
    simp only []
    rw [bisectionLoop_nan]
  have hr : (⟨0⟩ : Black76 ℝ).ImpliedVolaUsingBisection (realMath fun _ => 0) "X"
      (GoFloat.fin 1) (GoFloat.fin 1) (GoFloat.fin 1) (GoFloat.fin 0) = GoFloat.nan := by
    unfold Black76.ImpliedVolaUsingBisection
    rw [hl]
  refine ⟨h1, h2, ?_, hl, hr, ?_⟩
  · simp [GoFloat.fin_div_zero]
  · rw [hr]
    rfl

/-- With coinciding boundary values 0 and the market price 1, the first
iteration divides `1` by `0`: the quotient is `+Inf`, the guess is clamped to
`5.0`, and the lower end jumps there. -/
theorem bisectionBody_one_start :
    (⟨0⟩ : Black76 ℝ).bisectionBody (realMath fun _ => 0) "X" (GoFloat.fin 1) (GoFloat.fin 1)
        (GoFloat.fin 1) (GoFloat.fin 1) bisectionStart =
      some { i := 1, volMin := GoFloat.fin 5, volMax := GoFloat.fin 5,
             volGuess := GoFloat.fin 5 } := by
  have h1 := value64_unknown_type (⟨0⟩ : Black76 ℝ) (fun _ => 0) "X" (by decide) (by decide)
    1 1 1 0.00001 (by norm_num) (by norm_num) (by norm_num) (by norm_num)
  have h2 := value64_unknown_type (⟨0⟩ : Black76 ℝ) (fun _ => 0) "X" (by decide) (by decide)
    1 1 1 5.0 (by norm_num) (by norm_num) (by norm_num) (by norm_num)
  have h3 := value64_unknown_type (⟨0⟩ : Black76 ℝ) (fun _ => 0) "X" (by decide) (by decide)
    1 1 1 (max 0.00001 5.0) (by norm_num) (by norm_num) (by norm_num) (by norm_num)
  have hw : ¬ ((5.0 : ℝ) - 0.00001 ≤ epsilon) := by norm_num [epsilon]
  have hq : (GoFloat.fin ((5.0 : ℝ) - 0.00001) * GoFloat.inf false : GoFloat ℝ) =
      GoFloat.inf false := by
    show GoFloat.mul (GoFloat.fin ((5.0 : ℝ) - 0.00001)) (GoFloat.inf false) = _
    norm_num [GoFloat.mul]
  have hm : max (0.00001 : ℝ) 5.0 = 5 := by norm_num
  have h50 : (5.0 : ℝ) = 5 := by norm_num
  unfold Black76.bisectionBody
  simp only [bisectionStart, h1, h2, GoFloat.fin_sub, GoFloat.fin_le, hw, decide_False,
    Bool.false_and, Bool.false_eq_true, if_false, sub_self, sub_zero, GoFloat.fin_div_zero,
    one_ne_zero, hq]
  have e0 : (GoFloat.fin ((5.0 : ℝ) - 0.00001) * GoFloat.inf (decide ((1 : ℝ) < 0)) :
      GoFloat ℝ) = GoFloat.inf false := by
    have : ¬ ((1 : ℝ) < 0) := by norm_num
    simp only [this, decide_False]
    exact hq
  have e2 : GoFloat.Min (GoFloat.inf false : GoFloat ℝ) (GoFloat.fin 5.0) = GoFloat.fin 5.0 :=
    rfl
  simp only [e0]
  have e3 : (GoFloat.fin (0.00001 : ℝ) + GoFloat.inf false : GoFloat ℝ) = GoFloat.inf false :=
    rfl
  simp only [e3, e2, GoFloat.fin_max, h3, GoFloat.fin_lt]
  simp only [hm, h50]
  norm_num

/-- C25 (evaluation at a failing input). For the option type `"X"`, `S = K = T = 1`,
the rate 0 and the market price 1, over the reals with the special values of
`float64`: when the loop is entered the values at `volMin = 0.00001` and
`volMax = 5.0` coincide (both are 0), yet the first iteration does not exit; it
divides `1 - 0` by `0 - 0`, the quotient is `+Inf`, the guess is clamped to
`5.0` and `volMin` jumps there; the second iteration takes the `break`, and the
result is `5.0` after one iteration. -/
theorem bisection_divides_by_zero :
    ((⟨0⟩ : Black76 ℝ).GetGreeks64 (realMath fun _ => 0) "X" (GoFloat.fin 1) (GoFloat.fin 1)
        (GoFloat.fin 1) (bisectionStart : BisectionState ℝ).volMin).Value =
      ((⟨0⟩ : Black76 ℝ).GetGreeks64 (realMath fun _ => 0) "X" (GoFloat.fin 1) (GoFloat.fin 1)
        (GoFloat.fin 1) (bisectionStart : BisectionState ℝ).volMax).Value ∧
    (⟨0⟩ : Black76 ℝ).bisectionBody (realMath fun _ => 0) "X" (GoFloat.fin 1) (GoFloat.fin 1)
        (GoFloat.fin 1) (GoFloat.fin 1) bisectionStart ≠ none ∧
    ((GoFloat.fin 1 - GoFloat.fin 0) / (GoFloat.fin 0 - GoFloat.fin 0) : GoFloat ℝ) =
      GoFloat.inf false ∧
    (⟨0⟩ : Black76 ℝ).bisectionBody (realMath fun _ => 0) "X" (GoFloat.fin 1) (GoFloat.fin 1)
        (GoFloat.fin 1) (GoFloat.fin 1) bisectionStart =
      some { i := 1, volMin := GoFloat.fin 5, volMax := GoFloat.fin 5,
             volGuess := GoFloat.fin 5 } ∧
    (⟨0⟩ : Black76 ℝ).bisectionLoop (realMath fun _ => 0) "X" (GoFloat.fin 1) (GoFloat.fin 1)
        (GoFloat.fin 1) (GoFloat.fin 1) maxIterations bisectionStart =
      { i := 1, volMin := GoFloat.fin 5, volMax := GoFloat.fin 5, volGuess := GoFloat.fin 5 } ∧
    (⟨0⟩ : Black76 ℝ).ImpliedVolaUsingBisection (realMath fun _ => 0) "X" (GoFloat.fin 1)
        (GoFloat.fin 1) (GoFloat.fin 1) (GoFloat.fin 1) = GoFloat.fin 5 := by
  have h1 := value64_unknown_type (⟨0⟩ : Black76 ℝ) (fun _ => 0) "X" (by decide) (by decide)
    1 1 1 0.00001 (by norm_num) (by norm_num) (by norm_num) (by norm_num)
  have h2 := value64_unknown_type (⟨0⟩ : Black76 ℝ) (fun _ => 0) "X" (by decide) (by decide)
    1 1 1 5.0 (by norm_num) (by norm_num) (by norm_num) (by norm_num)
  have hb := bisectionBody_one_start
  have hl : (⟨0⟩ : Black76 ℝ).bisectionLoop (realMath fun _ => 0) "X" (GoFloat.fin 1)
      (GoFloat.fin 1) (GoFloat.fin 1) (GoFloat.fin 1) maxIterations bisectionStart =
      { i := 1, volMin := GoFloat.fin 5, volMax := GoFloat.fin 5,
        volGuess := GoFloat.fin 5 } := by
    show (⟨0⟩ : Black76 ℝ).bisectionLoop (realMath fun _ => 0) "X" (GoFloat.fin 1)
      (GoFloat.fin 1) (GoFloat.fin 1) (GoFloat.fin 1) (98 + 1 + 1) bisectionStart = _
    unfold Black76.bisectionLoop
    rw [hb]
    simp only []
    unfold Black76.bisectionLoop
    rw [bisectionBody_break (⟨0⟩ : Black76 ℝ) (fun _ => 0) "X" 1 1 1 1 (by norm_num)
      (by norm_num) (by norm_num) 1 5 5 5 (by norm_num) (by norm_num) (by norm_num) rfl]
  refine ⟨?_, ?_, ?_, hb, hl, ?_⟩
  · show ((⟨0⟩ : Black76 ℝ).GetGreeks64 (realMath fun _ => 0) "X" (GoFloat.fin 1) (GoFloat.fin 1)
        (GoFloat.fin 1) (GoFloat.fin 0.00001)).Value =
      ((⟨0⟩ : Black76 ℝ).GetGreeks64 (realMath fun _ => 0) "X" (GoFloat.fin 1) (GoFloat.fin 1)
        (GoFloat.fin 1) (GoFloat.fin 5.0)).Value
    rw [h1, h2]
  · rw [hb]
    exact fun h => by cases h
  · simp [GoFloat.fin_div_zero]
  · unfold Black76.ImpliedVolaUsingBisection
    rw [hl]

/-! ## The clamp -/

/-- The interpolation point between `lo ≤ sigma ≤ hi` when the difference
quotients of the value lie between `lam > 0` and `6 lam`: it is within the
bracket, and it takes at least a sixth and at most six times of each distance
from `sigma`. -/
theorem interpolation_bounds (lam Lam a c A C : ℝ) (hlam : 0 < lam) (hLam : Lam ≤ 6 * lam)
    (ha : 0 ≤ a) (hc : 0 ≤ c) (hw : 0 < a + c) (hA1 : lam * a ≤ A) (hA2 : A ≤ Lam * a)
    (hC1 : lam * c ≤ C) (hC2 : C ≤ Lam * c) :
    0 < A + C ∧ 0 ≤ (a + c) * (A / (A + C)) ∧ (a + c) * (A / (A + C)) ≤ a + c ∧
    a ≤ 6 * ((a + c) * (A / (A + C))) ∧ (a + c) * (A / (A + C)) ≤ 6 * a ∧
    c ≤ 6 * (a + c - (a + c) * (A / (A + C))) ∧ a + c - (a + c) * (A / (A + C)) ≤ 6 * c := by
  have hA0 : 0 ≤ A := le_trans (mul_nonneg (le_of_lt hlam) ha) hA1
  have hC0 : 0 ≤ C := le_trans (mul_nonneg (le_of_lt hlam) hc) hC1
  have hD : 0 < A + C := by
    have h1 : lam * (a + c) ≤ A + C := by linarith only [hA1, hC1]
    exact lt_of_lt_of_le (mul_pos hlam hw) h1
  have hac : 0 ≤ a * c := mul_nonneg ha hc
  -- the two cross terms
  have k1 : c * A ≤ 6 * (a * C) := by
    have h1 : c * A ≤ c * (Lam * a) := mul_le_mul_of_nonneg_left hA2 hc
    have h2 : a * (lam * c) ≤ a * C := mul_le_mul_of_nonneg_left hC1 ha
    have h3 : Lam * (a * c) ≤ 6 * lam * (a * c) := mul_le_mul_of_nonneg_right hLam hac
    linarith only [h1, h2, h3]
  have k2 : a * C ≤ 6 * (c * A) := by
    have h1 : a * C ≤ a * (Lam * c) := mul_le_mul_of_nonneg_left hC2 ha
    have h2 : c * (lam * a) ≤ c * A := mul_le_mul_of_nonneg_left hA1 hc
    have h3 : Lam * (a * c) ≤ 6 * lam * (a * c) := mul_le_mul_of_nonneg_right hLam hac
    linarith only [h1, h2, h3]
  have hx : (a + c) * (A / (A + C)) = (a + c) * A / (A + C) := by ring
  have hy : a + c - (a + c) * (A / (A + C)) = (a + c) * C / (A + C) := by
    field_simp
    ring
  have haA : 0 ≤ a * A := mul_nonneg ha hA0
  have hcC : 0 ≤ c * C := mul_nonneg hc hC0
  have hcA : 0 ≤ c * A := mul_nonneg hc hA0
  have haC : 0 ≤ a * C := mul_nonneg ha hC0
  refine ⟨hD, ?_, ?_, ?_, ?_, ?_, ?_⟩
  · rw [hx]
    exact div_nonneg (mul_nonneg (le_of_lt hw) hA0) (le_of_lt hD)
  · rw [hx, div_le_iff₀ hD]
    linarith only [haC, hcC]
  · rw [hx, ← mul_div_assoc, le_div_iff₀ hD]
    linarith only [k2, haA]
  · rw [hx, div_le_iff₀ hD]
    linarith only [k1, haA]
  · rw [hy, ← mul_div_assoc, le_div_iff₀ hD]
    linarith only [k1, hcC]
  · rw [hy, div_le_iff₀ hD]
    linarith only [k2, hcC]

/-- One iteration on a bracket `lo < hi` around `sigma`, fed the price of
`sigma`, when the difference quotients of the value on `[bl, bu]` lie
between `lam > 0` and `6 lam`: the product of the distances of the two ends from
`sigma` shrinks by the factor `5/6`, and the guess is the end that moved. -/
theorem bisectionBody_around (b : Black76 ℝ) (divZero : ℝ → ℝ) (optionType : String)
    (S K T sigma lam Lam bl bu : ℝ) (hS : 0 < S) (hK : 0 < K) (hT : 0 < T) (hlam : 0 < lam)
    (hLam : Lam ≤ 6 * lam) (hbl : 0 < bl)
    (hV : ∀ s t, bl ≤ s → s ≤ t → t ≤ bu →
      lam * (t - s) ≤ (b.GetGreeks (realMath divZero) optionType S K T t).Value -
        (b.GetGreeks (realMath divZero) optionType S K T s).Value ∧
      (b.GetGreeks (realMath divZero) optionType S K T t).Value -
        (b.GetGreeks (realMath divZero) optionType S K T s).Value ≤ Lam * (t - s))
    (i : Nat) (lo hi g : ℝ) (h1 : bl ≤ lo) (h2 : lo ≤ sigma) (h3 : sigma ≤ hi) (h4 : hi ≤ bu)
    (hlt : lo < hi) :
    ∃ st1, b.bisectionBody (realMath divZero) optionType (GoFloat.fin S) (GoFloat.fin K)
        (GoFloat.fin T)
        (GoFloat.fin (b.GetGreeks (realMath divZero) optionType S K T sigma).Value)
        ⟨i, GoFloat.fin lo, GoFloat.fin hi, GoFloat.fin g⟩ = some st1 ∧
      st1.around bl bu sigma (5 / 6 * ((sigma - lo) * (hi - sigma))) := by
  have hlo : 0 < lo := lt_of_lt_of_le hbl h1
  have hhi : 0 < hi := lt_trans hlo hlt
  obtain ⟨hA1, hA2⟩ := hV lo sigma h1 h2 (le_trans h3 h4)
  obtain ⟨hC1, hC2⟩ := hV sigma hi (le_trans h1 h2) h3 h4
  have ha : 0 ≤ sigma - lo := sub_nonneg.2 h2
  have hc : 0 ≤ hi - sigma := sub_nonneg.2 h3
  have hw : 0 < (sigma - lo) + (hi - sigma) := by linarith only [hlt]
  obtain ⟨hD, q1, q2, q3, q4, q5, q6⟩ := interpolation_bounds lam Lam (sigma - lo) (hi - sigma)
    ((b.GetGreeks (realMath divZero) optionType S K T sigma).Value -
      (b.GetGreeks (realMath divZero) optionType S K T lo).Value)
    ((b.GetGreeks (realMath divZero) optionType S K T hi).Value -
      (b.GetGreeks (realMath divZero) optionType S K T sigma).Value)
    hlam hLam ha hc hw hA1 hA2 hC1 hC2
  have eD : (b.GetGreeks (realMath divZero) optionType S K T sigma).Value -
      (b.GetGreeks (realMath divZero) optionType S K T lo).Value +
      ((b.GetGreeks (realMath divZero) optionType S K T hi).Value -
        (b.GetGreeks (realMath divZero) optionType S K T sigma).Value) =
      (b.GetGreeks (realMath divZero) optionType S K T hi).Value -
        (b.GetGreeks (realMath divZero) optionType S K T lo).Value := by ring
  have ew : (sigma - lo) + (hi - sigma) = hi - lo := by ring
  rw [eD] at hD
  rw [eD, ew] at q1 q2 q3 q4 q5 q6
  have hne : (b.GetGreeks (realMath divZero) optionType S K T hi).Value -
      (b.GetGreeks (realMath divZero) optionType S K T lo).Value ≠ 0 := ne_of_gt hD
  rw [bisectionBody_step b divZero optionType S K T _ hS hK hT i lo hi g hlo hhi hne]
  -- the clamp does nothing
  have hx : max lo
      (min
        (lo + (hi - lo) *
          (((b.GetGreeks (realMath divZero) optionType S K T sigma).Value -
              (b.GetGreeks (realMath divZero) optionType S K T lo).Value) /
            ((b.GetGreeks (realMath divZero) optionType S K T hi).Value -
              (b.GetGreeks (realMath divZero) optionType S K T lo).Value)))
        hi) =
      lo + (hi - lo) *
        (((b.GetGreeks (realMath divZero) optionType S K T sigma).Value -
            (b.GetGreeks (realMath divZero) optionType S K T lo).Value) /
          ((b.GetGreeks (realMath divZero) optionType S K T hi).Value -
            (b.GetGreeks (realMath divZero) optionType S K T lo).Value)) := by
    rw [min_eq_left (by linarith only [q2]), max_eq_right (by linarith only [q1])]
  rw [hx]
  generalize (hi - lo) *
      (((b.GetGreeks (realMath divZero) optionType S K T sigma).Value -
          (b.GetGreeks (realMath divZero) optionType S K T lo).Value) /
        ((b.GetGreeks (realMath divZero) optionType S K T hi).Value -
          (b.GetGreeks (realMath divZero) optionType S K T lo).Value)) = y at q1 q2 q3 q4 q5 q6
  have hx1 : bl ≤ lo + y := by linarith only [h1, q1]
  have hx5 : lo + y ≤ bu := by linarith only [h4, q2]
  by_cases hv : (b.GetGreeks (realMath divZero) optionType S K T (lo + y)).Value <
      (b.GetGreeks (realMath divZero) optionType S K T sigma).Value
  · -- the guess is below `sigma` and becomes the lower end
    rw [if_pos hv]
    have hxs : lo + y ≤ sigma := by
      by_contra hcon
      have hVx := (hV sigma (lo + y) (le_trans h1 h2) (le_of_lt (lt_of_not_ge hcon)) hx5).1
      have : 0 ≤ lam * (lo + y - sigma) :=
        mul_nonneg (le_of_lt hlam) (sub_nonneg.2 (le_of_lt (lt_of_not_ge hcon)))
      linarith only [hVx, this, hv]
    refine ⟨_, rfl, lo + y, hi, lo + y, rfl, rfl, rfl, hx1, hxs, h3, h4, ?_, ?_⟩
    · have : sigma - (lo + y) ≤ 5 / 6 * (sigma - lo) := by linarith only [q3]
      calc (sigma - (lo + y)) * (hi - sigma) ≤ 5 / 6 * (sigma - lo) * (hi - sigma) :=
            mul_le_mul_of_nonneg_right this hc
        _ = 5 / 6 * ((sigma - lo) * (hi - sigma)) := by ring
    · have h5 : 0 ≤ sigma - (lo + y) := sub_nonneg.2 hxs
      have h6 : sigma - (lo + y) ≤ 6 * (hi - sigma) := by linarith only [q6, h3]
      calc (lo + y - sigma) ^ 2 = (sigma - (lo + y)) * (sigma - (lo + y)) := by ring
        _ ≤ (sigma - (lo + y)) * (6 * (hi - sigma)) := mul_le_mul_of_nonneg_left h6 h5
        _ = 6 * ((sigma - (lo + y)) * (hi - sigma)) := by ring
  · -- the guess is at or above `sigma` and becomes the upper end
    rw [if_neg hv]
    have hxs : sigma ≤ lo + y := by
      by_contra hcon
      have hlt2 : lo + y < sigma := lt_of_not_ge hcon
      have hVx := (hV (lo + y) sigma hx1 (le_of_lt hlt2) (le_trans h3 h4)).1
      have : 0 < lam * (sigma - (lo + y)) := mul_pos hlam (sub_pos.2 hlt2)
      apply hv
      linarith only [hVx, this]
    refine ⟨_, rfl, lo, lo + y, lo + y, rfl, rfl, rfl, h1, h2, hxs, hx5, ?_, ?_⟩
    · have : lo + y - sigma ≤ 5 / 6 * (hi - sigma) := by linarith only [q5]
      calc (sigma - lo) * (lo + y - sigma) ≤ (sigma - lo) * (5 / 6 * (hi - sigma)) :=
            mul_le_mul_of_nonneg_left this ha
        _ = 5 / 6 * ((sigma - lo) * (hi - sigma)) := by ring
    · have h5 : 0 ≤ lo + y - sigma := sub_nonneg.2 hxs
      have h6 : lo + y - sigma ≤ 6 * (sigma - lo) := by linarith only [q4, h2]
      calc (lo + y - sigma) ^ 2 = (lo + y - sigma) * (lo + y - sigma) := by ring
        _ ≤ (lo + y - sigma) * (6 * (sigma - lo)) := mul_le_mul_of_nonneg_left h6 h5
        _ = 6 * ((sigma - lo) * (lo + y - sigma)) := by ring

theorem around_mono {F : Type} [LinearOrderedField F] (st : BisectionState F)
    (bl bu sigma phi phi1 : F) (h : st.around bl bu sigma phi) (hle : phi ≤ phi1) :
    st.around bl bu sigma phi1 := by
  obtain ⟨lo, hi, g, h1, h2, h3, h4, h5, h6, h7, h8, h9⟩ := h
  exact ⟨lo, hi, g, h1, h2, h3, h4, h5, h6, h7, le_trans h8 hle, h9⟩

theorem bisectionLoop_around (b : Black76 ℝ) (divZero : ℝ → ℝ) (optionType : String)
    (S K T sigma lam Lam bl bu : ℝ) (hS : 0 < S) (hK : 0 < K) (hT : 0 < T) (hlam : 0 < lam)
    (hLam : Lam ≤ 6 * lam) (hbl : 0 < bl)
    (hV : ∀ s t, bl ≤ s → s ≤ t → t ≤ bu →
      lam * (t - s) ≤ (b.GetGreeks (realMath divZero) optionType S K T t).Value -
        (b.GetGreeks (realMath divZero) optionType S K T s).Value ∧
      (b.GetGreeks (realMath divZero) optionType S K T t).Value -
        (b.GetGreeks (realMath divZero) optionType S K T s).Value ≤ Lam * (t - s))
    (fuel : Nat) (st : BisectionState ℝ) (phi : ℝ) (hst : st.around bl bu sigma phi) :
    (b.bisectionLoop (realMath divZero) optionType (GoFloat.fin S) (GoFloat.fin K) (GoFloat.fin T)
      (GoFloat.fin (b.GetGreeks (realMath divZero) optionType S K T sigma).Value) fuel
      st).around bl bu sigma ((5 / 6) ^ fuel * phi) := by
  induction fuel generalizing st phi with
  | zero => simpa [Black76.bisectionLoop] using hst
  | succ n ih =>
    obtain ⟨lo, hi, g, hmin, hmax, hguess, h1, h2, h3, h4, h5, h6⟩ := hst
    have hs : st = ⟨st.i, GoFloat.fin lo, GoFloat.fin hi, GoFloat.fin g⟩ := by
      cases st
      simp only [BisectionState.mk.injEq] at *
      exact ⟨trivial, hmin, hmax, hguess⟩
    have hprod : 0 ≤ (sigma - lo) * (hi - sigma) :=
      mul_nonneg (sub_nonneg.2 h2) (sub_nonneg.2 h3)
    have hphi : 0 ≤ phi := le_trans hprod h5
    have e1 : ((5 : ℝ) / 6) ^ (n + 1) * phi = (5 / 6) ^ n * (5 / 6 * phi) := by ring
    unfold Black76.bisectionLoop
    by_cases hlt : lo < hi
    · obtain ⟨st1, hb, hst1⟩ := bisectionBody_around b divZero optionType S K T sigma lam Lam bl bu
        hS hK hT hlam hLam hbl hV st.i lo hi g h1 h2 h3 h4 hlt
      rw [hs, hb]
      simp only []
      rw [e1]
      exact ih st1 (5 / 6 * phi)
        (around_mono st1 bl bu sigma _ _ hst1 (mul_le_mul_of_nonneg_left h5 (by norm_num)))
    · have heq : lo = hi := le_antisymm (le_trans h2 h3) (not_lt.1 hlt)
      have hb : b.bisectionBody (realMath divZero) optionType (GoFloat.fin S) (GoFloat.fin K)
          (GoFloat.fin T)
          (GoFloat.fin (b.GetGreeks (realMath divZero) optionType S K T sigma).Value) st =
          none := by
        rw [hs]
        exact bisectionBody_break b divZero optionType S K T _ hS hK hT st.i lo hi g
          (lt_of_lt_of_le hbl h1) (lt_of_lt_of_le hbl (le_trans h1 (le_trans h2 h3)))
          (by rw [heq]; norm_num) (by rw [heq])
      rw [hb]
      simp only []
      have hz : (sigma - lo) * (hi - sigma) = 0 := by
        have : sigma = lo := le_antisymm (by rw [heq]; exact h3) h2
        rw [this]
        ring
      refine ⟨lo, hi, g, hmin, hmax, hguess, h1, h2, h3, h4, ?_, h6⟩
      rw [hz]
      positivity

theorem pow_diff_bounds (tau t1 t2 : ℝ) (h0 : 0 ≤ tau) (h1 : tau ≤ t2) (h2 : t2 ≤ t1)
    (h3 : t1 ≤ 1) (k : Nat) :
    ((k : ℝ) + 1) * tau ^ k * (t1 - t2) ≤ t1 ^ (k + 1) - t2 ^ (k + 1) ∧
    t1 ^ (k + 1) - t2 ^ (k + 1) ≤ ((k : ℝ) + 1) * (t1 - t2) := by
  have hd : 0 ≤ t1 - t2 := sub_nonneg.2 h2
  have ht2 : 0 ≤ t2 := le_trans h0 h1
  have ht1 : 0 ≤ t1 := le_trans ht2 h2
  induction k with
  | zero => simp
  | succ n ih =>
    obtain ⟨ih1, ih2⟩ := ih
    have e : t1 ^ (n + 1 + 1) - t2 ^ (n + 1 + 1) =
        t1 * (t1 ^ (n + 1) - t2 ^ (n + 1)) + t2 ^ (n + 1) * (t1 - t2) := by ring
    have hp : tau ^ (n + 1) ≤ t2 ^ (n + 1) := pow_le_pow_left₀ h0 h1 (n + 1)
    have hp1 : t2 ^ (n + 1) ≤ 1 := pow_le_one₀ ht2 (le_trans h2 h3)
    have hq : 0 ≤ ((n : ℝ) + 1) * tau ^ n * (t1 - t2) := by positivity
    have hdiff : 0 ≤ t1 ^ (n + 1) - t2 ^ (n + 1) := le_trans hq ih1
    rw [e]
    push_cast
    constructor
    · have a1 : tau * (((n : ℝ) + 1) * tau ^ n * (t1 - t2)) ≤
          t1 * (t1 ^ (n + 1) - t2 ^ (n + 1)) :=
        mul_le_mul (le_trans h1 h2) ih1 hq ht1
      have a2 : tau ^ (n + 1) * (t1 - t2) ≤ t2 ^ (n + 1) * (t1 - t2) :=
        mul_le_mul_of_nonneg_right hp hd
      have e2 : ((n : ℝ) + 1 + 1) * tau ^ (n + 1) * (t1 - t2) =
          tau * (((n : ℝ) + 1) * tau ^ n * (t1 - t2)) + tau ^ (n + 1) * (t1 - t2) := by ring
      rw [e2]
      linarith only [a1, a2]
    · have a1 : t1 * (t1 ^ (n + 1) - t2 ^ (n + 1)) ≤ 1 * (((n : ℝ) + 1) * (t1 - t2)) :=
        mul_le_mul h3 ih2 hdiff (by norm_num)
      have a2 : t2 ^ (n + 1) * (t1 - t2) ≤ 1 * (t1 - t2) :=
        mul_le_mul_of_nonneg_right hp1 hd
      linarith only [a1, a2]

/-- The polynomial of the approximation between two points of `[0.99, 1]`. -/
theorem poly_diff_bounds (t1 t2 : ℝ) (h1 : 0.99 ≤ t2) (h2 : t2 ≤ t1) (h3 : t1 ≤ 1) :
    3.94 * (t1 - t2) ≤
      (0.319381530 * t1 + -0.356563782 * t1 ^ 2 + 1.781477937 * t1 ^ 3 + -1.821255978 * t1 ^ 4 +
          1.330274429 * t1 ^ 5) -
        (0.319381530 * t2 + -0.356563782 * t2 ^ 2 + 1.781477937 * t2 ^ 3 +
          -1.821255978 * t2 ^ 4 + 1.330274429 * t2 ^ 5) ∧
    (0.319381530 * t1 + -0.356563782 * t1 ^ 2 + 1.781477937 * t1 ^ 3 + -1.821255978 * t1 ^ 4 +
          1.330274429 * t1 ^ 5) -
        (0.319381530 * t2 + -0.356563782 * t2 ^ 2 + 1.781477937 * t2 ^ 3 +
          -1.821255978 * t2 ^ 4 + 1.330274429 * t2 ^ 5) ≤ 4.55 * (t1 - t2) ∧
    1 ≤ 0.319381530 * t2 + -0.356563782 * t2 ^ 2 + 1.781477937 * t2 ^ 3 +
          -1.821255978 * t2 ^ 4 + 1.330274429 * t2 ^ 5 ∧
    0.319381530 * t2 + -0.356563782 * t2 ^ 2 + 1.781477937 * t2 ^ 3 +
          -1.821255978 * t2 ^ 4 + 1.330274429 * t2 ^ 5 ≤ 1.34 := by
  have b2 := pow_diff_bounds 0.99 t1 t2 (by norm_num) h1 h2 h3 1
  have b3 := pow_diff_bounds 0.99 t1 t2 (by norm_num) h1 h2 h3 2
  have b4 := pow_diff_bounds 0.99 t1 t2 (by norm_num) h1 h2 h3 3
  have b5 := pow_diff_bounds 0.99 t1 t2 (by norm_num) h1 h2 h3 4
  norm_num at b2 b3 b4 b5
  have hd : 0 ≤ t1 - t2 := sub_nonneg.2 h2
  have ht2 : t2 ≤ 1 := le_trans h2 h3
  have ht0 : 0 ≤ t2 := le_trans (by norm_num) h1
  have p2 : (0.99 : ℝ) ^ 2 ≤ t2 ^ 2 := pow_le_pow_left₀ (by norm_num) h1 2
  have p3 : (0.99 : ℝ) ^ 3 ≤ t2 ^ 3 := pow_le_pow_left₀ (by norm_num) h1 3
  have p4 : (0.99 : ℝ) ^ 4 ≤ t2 ^ 4 := pow_le_pow_left₀ (by norm_num) h1 4
  have p5 : (0.99 : ℝ) ^ 5 ≤ t2 ^ 5 := pow_le_pow_left₀ (by norm_num) h1 5
  have q2 : t2 ^ 2 ≤ 1 := pow_le_one₀ ht0 ht2
  have q3 : t2 ^ 3 ≤ 1 := pow_le_one₀ ht0 ht2
  have q4 : t2 ^ 4 ≤ 1 := pow_le_one₀ ht0 ht2
  have q5 : t2 ^ 5 ≤ 1 := pow_le_one₀ ht0 ht2
  norm_num at p2 p3 p4 p5
  refine ⟨?_, ?_, ?_, ?_⟩
  · linarith only [b2.2, b3.1, b4.2, b5.1, hd]
  · linarith only [b2.1, b3.2, b4.1, b5.2, hd]
  · linarith only [h1, q2, p3, q4, p5]
  · linarith only [ht2, p2, q3, p4, q5]

theorem exp_gauss_bounds (u1 u2 : ℝ) (h0 : 0 ≤ u1) (h1 : u1 ≤ u2) (h2 : u2 ≤ 0.04) :
    0.999 ≤ Real.exp (-(u1 * u1) / 2) ∧ Real.exp (-(u1 * u1) / 2) ≤ 1 ∧
    0 ≤ Real.exp (-(u1 * u1) / 2) - Real.exp (-(u2 * u2) / 2) ∧
    Real.exp (-(u1 * u1) / 2) - Real.exp (-(u2 * u2) / 2) ≤ 0.04 * (u2 - u1) := by
  have hu2 : 0 ≤ u2 := le_trans h0 h1
  have hsq0 : 0 ≤ u1 * u1 := mul_self_nonneg u1
  have hsq : u1 * u1 ≤ 0.04 * 0.04 :=
    mul_le_mul (le_trans h1 h2) (le_trans h1 h2) h0 (by norm_num)
  have hmono : u1 * u1 ≤ u2 * u2 := mul_le_mul h1 h1 h0 hu2
  have e1 : Real.exp (-(u1 * u1) / 2) ≤ 1 := by
    rw [← Real.exp_zero]
    exact Real.exp_le_exp.2 (by linarith only [hsq0])
  have e2 : 0.999 ≤ Real.exp (-(u1 * u1) / 2) := by
    have := Real.add_one_le_exp (-(u1 * u1) / 2)
    linarith only [this, hsq]
  have e3 : Real.exp (-(u2 * u2) / 2) =
      Real.exp (-(u1 * u1) / 2) * Real.exp (-((u2 * u2 - u1 * u1) / 2)) := by
    rw [← Real.exp_add]
    congr 1
    ring
  have hd : 0 ≤ (u2 * u2 - u1 * u1) / 2 := by linarith only [hmono]
  have e4 : Real.exp (-((u2 * u2 - u1 * u1) / 2)) ≤ 1 := by
    rw [← Real.exp_zero]
    exact Real.exp_le_exp.2 (by linarith only [hd])
  have e5 : 1 - (u2 * u2 - u1 * u1) / 2 ≤ Real.exp (-((u2 * u2 - u1 * u1) / 2)) := by
    have := Real.add_one_le_exp (-((u2 * u2 - u1 * u1) / 2))
    linarith only [this]
  have hpos : 0 < Real.exp (-(u1 * u1) / 2) := Real.exp_pos _
  have e6 : (u2 * u2 - u1 * u1) / 2 ≤ 0.04 * (u2 - u1) := by
    have : (u2 - u1) * (u2 + u1) ≤ (u2 - u1) * 0.08 :=
      mul_le_mul_of_nonneg_left (by linarith only [h1, h2]) (sub_nonneg.2 h1)
    linarith only [this]
  have k1 := mul_nonneg (le_of_lt hpos) (sub_nonneg.2 e4)
  have k2 := mul_le_mul_of_nonneg_right e1 (sub_nonneg.2 e4)
  refine ⟨e2, e1, ?_, ?_⟩
  · rw [e3]
    linarith only [k1]
  · rw [e3]
    linarith only [k2, e5, e6]

theorem slope_combine (c0 EA EB PA PB d du : ℝ) (c1 : 0 < c0) (g1 : 0.999 ≤ EA) (g2 : EA ≤ 1)
    (g3 : 0 ≤ EA - EB) (g4 : EA - EB ≤ 0.04 * du) (p1 : 3.94 * d ≤ PA - PB)
    (p2 : PA - PB ≤ 4.55 * d) (p3 : 1 ≤ PB) (p4 : PB ≤ 1.34)
    (td1 : 0.2316419 * du * 0.9801 ≤ d) (td2 : d ≤ 0.2316419 * du * 1) :
    c0 * 0.89 * du ≤ (1 - c0 * EB * PB) - (1 - c0 * EA * PA) ∧
    (1 - c0 * EB * PB) - (1 - c0 * EA * PA) ≤ c0 * 1.11 * du := by
  have hdu : 0 ≤ du := by linarith only [g3, g4]
  have hd0 : 0 ≤ d := by linarith only [td1, hdu]
  have hPd : 0 ≤ PA - PB := by linarith only [p1, hd0]
  have lower : 0.89 * du ≤ EA * (PA - PB) + PB * (EA - EB) := by
    have s1 : 0.999 * (PA - PB) ≤ EA * (PA - PB) := mul_le_mul_of_nonneg_right g1 hPd
    have s2 : 0 ≤ PB * (EA - EB) := mul_nonneg (le_trans zero_le_one p3) g3
    linarith only [s1, s2, p1, td1, hdu]
  have upper : EA * (PA - PB) + PB * (EA - EB) ≤ 1.11 * du := by
    have s1 : EA * (PA - PB) ≤ 1 * (PA - PB) := mul_le_mul_of_nonneg_right g2 hPd
    have s2 : PB * (EA - EB) ≤ 1.34 * (EA - EB) := mul_le_mul_of_nonneg_right p4 g3
    linarith only [s1, s2, p2, td2, g4, hdu]
  constructor
  · have := mul_le_mul_of_nonneg_left lower (le_of_lt c1)
    linarith only [this]
  · have := mul_le_mul_of_nonneg_left upper (le_of_lt c1)
    linarith only [this]

theorem prod_bounds (x y : ℝ) (hx : 0.99 ≤ x) (hx1 : x ≤ 1) (hy : 0.99 ≤ y) (hy1 : y ≤ 1) :
    0.9801 ≤ x * y ∧ x * y ≤ 1 := by
  have hx0 : (0 : ℝ) ≤ x := le_trans (by norm_num) hx
  have hy0 : (0 : ℝ) ≤ y := le_trans (by norm_num) hy
  have k1 : 0.99 * 0.99 ≤ x * y := mul_le_mul hx hy (by norm_num) hx0
  have k2 : x * y ≤ 1 * 1 := mul_le_mul hx1 hy1 hy0 zero_le_one
  constructor
  · linarith only [k1]
  · linarith only [k2]

theorem cdf_nonneg_eq (divZero : ℝ → ℝ) (u : ℝ) (hu : 0 ≤ u) :
    cdf (realMath divZero) u =
      1 - (realMath divZero).quo 1 ((realMath divZero).Sqrt (2 * (realMath divZero).Pi)) *
        Real.exp (-(u * u) / 2) *
        (0.319381530 * (1 / (1 + 0.2316419 * u)) + -0.356563782 * (1 / (1 + 0.2316419 * u)) ^ 2 +
          1.781477937 * (1 / (1 + 0.2316419 * u)) ^ 3 +
          -1.821255978 * (1 / (1 + 0.2316419 * u)) ^ 4 +
          1.330274429 * (1 / (1 + 0.2316419 * u)) ^ 5) := by
  obtain ⟨t1, _, _⟩ := realMath_t divZero u
  rw [abs_of_nonneg hu] at t1
  unfold cdf
  simp only [ge_iff_le, hu, if_true, abs_of_nonneg hu]
  rw [t1]
  rfl

/-- Between two points of `[0, 0.04]` the approximated distribution function
rises with a slope between `0.89` and `1.11` times `1 / sqrt(2 pi)`. -/
theorem cdf_slope (divZero : ℝ → ℝ) (u1 u2 : ℝ) (h0 : 0 ≤ u1) (h1 : u1 ≤ u2)
    (h2 : u2 ≤ 0.04) :
    (realMath divZero).quo 1 ((realMath divZero).Sqrt (2 * (realMath divZero).Pi)) * 0.89 *
        (u2 - u1) ≤ cdf (realMath divZero) u2 - cdf (realMath divZero) u1 ∧
    cdf (realMath divZero) u2 - cdf (realMath divZero) u1 ≤
      (realMath divZero).quo 1 ((realMath divZero).Sqrt (2 * (realMath divZero).Pi)) * 1.11 *
        (u2 - u1) := by
  obtain ⟨c1, _⟩ := realMath_invSqrt divZero
  have hu2 : 0 ≤ u2 := le_trans h0 h1
  obtain ⟨g1, g2, g3, g4⟩ := exp_gauss_bounds u1 u2 h0 h1 h2
  have hA : (0 : ℝ) < 1 + 0.2316419 * u1 :=
    add_pos_of_pos_of_nonneg one_pos (mul_nonneg (by norm_num) h0)
  have hB : (0 : ℝ) < 1 + 0.2316419 * u2 :=
    add_pos_of_pos_of_nonneg one_pos (mul_nonneg (by norm_num) hu2)
  have tB99 : 0.99 ≤ 1 / (1 + 0.2316419 * u2) := by
    rw [le_div_iff₀ hB]
    linarith only [h2]
  have tBA : 1 / (1 + 0.2316419 * u2) ≤ 1 / (1 + 0.2316419 * u1) := by
    apply one_div_le_one_div_of_le hA
    linarith only [h1]
  have tA1 : 1 / (1 + 0.2316419 * u1) ≤ 1 := by
    rw [div_le_one hA]
    linarith only [h0]
  have tdiff : 1 / (1 + 0.2316419 * u1) - 1 / (1 + 0.2316419 * u2) =
      0.2316419 * (u2 - u1) * (1 / (1 + 0.2316419 * u1) * (1 / (1 + 0.2316419 * u2))) := by
    field_simp
    ring
  obtain ⟨p1, p2, p3, p4⟩ := poly_diff_bounds _ _ tB99 tBA tA1
  obtain ⟨hp1, hp2⟩ := prod_bounds _ _ (le_trans tB99 tBA) tA1 tB99 (le_trans tBA tA1)
  have hdu : 0 ≤ u2 - u1 := sub_nonneg.2 h1
  have hk : (0 : ℝ) ≤ 0.2316419 * (u2 - u1) := mul_nonneg (by norm_num) hdu
  have td1 : 0.2316419 * (u2 - u1) * 0.9801 ≤
      1 / (1 + 0.2316419 * u1) - 1 / (1 + 0.2316419 * u2) := by
    rw [tdiff]
    exact mul_le_mul_of_nonneg_left hp1 hk
  have td2 : 1 / (1 + 0.2316419 * u1) - 1 / (1 + 0.2316419 * u2) ≤
      0.2316419 * (u2 - u1) * 1 := by
    rw [tdiff]
    exact mul_le_mul_of_nonneg_left hp2 hk
  rw [cdf_nonneg_eq divZero u1 h0, cdf_nonneg_eq divZero u2 hu2]
  exact slope_combine _ (Real.exp (-(u1 * u1) / 2)) (Real.exp (-(u2 * u2) / 2)) _ _ _ (u2 - u1)
    c1 g1 g2 g3 g4 p1 p2 p3 p4 td1 td2

theorem sqrt_T_range (T : ℝ) (hT1 : 0.46027 ≤ T) (hT2 : T ≤ 0.46302) :
    0.67843 < Real.sqrt T ∧ Real.sqrt T < 0.68046 := by
  constructor
  · rw [Real.lt_sqrt (by norm_num)]
    norm_num
    linarith only [hT1]
  · rw [Real.sqrt_lt' (by norm_num)]
    norm_num
    linarith only [hT2]

theorem scenario_sqrt :
    0.67843494 < Real.sqrt (168 / 365) ∧ Real.sqrt (168 / 365) < 0.67843495 := by
  constructor
  · rw [Real.lt_sqrt (by norm_num)]
    norm_num
  · rw [Real.sqrt_lt' (by norm_num)]
    norm_num

theorem scenario_log :
    -0.00041725276 < Real.log (25039.55 / 25050) ∧
      Real.log (25039.55 / 25050) < -0.00041725260 := by
  have h := Real.abs_log_sub_add_sum_range_le (x := (209 / 501000 : ℝ))
    (by rw [abs_of_nonneg (by norm_num)]; norm_num) 2
  have e : (1 : ℝ) - 209 / 501000 = 25039.55 / 25050 := by norm_num
  rw [e] at h
  simp only [Finset.sum_range_succ, Finset.sum_range_zero] at h
  rw [abs_le, abs_of_nonneg (by norm_num : (0 : ℝ) ≤ 209 / 501000)] at h
  obtain ⟨h1, h2⟩ := h
  norm_num at h1 h2
  constructor
  · linarith only [h1]
  · linarith only [h2]

theorem invSqrt_bounds (divZero : ℝ → ℝ) :
    0.39894224 < (realMath divZero).quo 1 ((realMath divZero).Sqrt (2 * (realMath divZero).Pi)) ∧
    (realMath divZero).quo 1 ((realMath divZero).Sqrt (2 * (realMath divZero).Pi)) <
      0.39894233 := by
  rw [quo_eq _ _ _ (realMath_sqrt_two_pi divZero)]
  show 0.39894224 < 1 / Real.sqrt (2 * Real.pi) ∧ 1 / Real.sqrt (2 * Real.pi) < 0.39894233
  have h1 := Real.pi_gt_d6
  have h2 := Real.pi_lt_d6
  have hs : 0 < Real.sqrt (2 * Real.pi) := Real.sqrt_pos.2 (by linarith only [h1])
  have hlo : (2.5066280 : ℝ) < Real.sqrt (2 * Real.pi) := by
    rw [Real.lt_sqrt (by norm_num)]
    norm_num
    linarith only [h1]
  have hhi : Real.sqrt (2 * Real.pi) < 2.5066285 := by
    rw [Real.sqrt_lt' (by norm_num)]
    norm_num
    linarith only [h2]
  constructor
  · rw [lt_div_iff₀ hs]
    linarith only [hhi]
  · rw [div_lt_iff₀ hs]
    linarith only [hlo]

theorem exp_neg_upper (y : ℝ) (hy : 0 ≤ y) : Real.exp (-y) ≤ 1 - y + y ^ 2 / 2 := by
  have h1 := Real.quadratic_le_exp_of_nonneg hy
  rw [Real.exp_neg, inv_eq_one_div, div_le_iff₀ (Real.exp_pos y)]
  have h3 : 0 ≤ 1 - y + y ^ 2 / 2 := by linarith only [sq_nonneg (y - 1)]
  have h4 : (1 - y + y ^ 2 / 2) * (1 + y + y ^ 2 / 2) ≤ (1 - y + y ^ 2 / 2) * Real.exp y :=
    mul_le_mul_of_nonneg_left h1 h3
  linarith only [h4, sq_nonneg (y ^ 2)]

/-- The approximated distribution function at a negative argument `-u`. -/
theorem cdf_neg_eq (divZero : ℝ → ℝ) (u : ℝ) (hu : 0 < u) :
    cdf (realMath divZero) (-u) =
      (realMath divZero).quo 1 ((realMath divZero).Sqrt (2 * (realMath divZero).Pi)) *
        Real.exp (-(u * u) / 2) *
        (0.319381530 * (1 / (1 + 0.2316419 * u)) + -0.356563782 * (1 / (1 + 0.2316419 * u)) ^ 2 +
          1.781477937 * (1 / (1 + 0.2316419 * u)) ^ 3 +
          -1.821255978 * (1 / (1 + 0.2316419 * u)) ^ 4 +
          1.330274429 * (1 / (1 + 0.2316419 * u)) ^ 5) := by
  have h1 := cdf_symm (realMath divZero) u (ne_of_gt hu)
  have h2 := cdf_nonneg_eq divZero u (le_of_lt hu)
  linarith only [h1, h2]

theorem exp_gauss_enclosure (u ul uh : ℝ) (h0 : 0 ≤ ul) (h1 : ul ≤ u) (h2 : u ≤ uh)
    (h3 : uh ≤ 1) :
    0 ≤ 1 - uh * uh / 2 ∧ 1 - uh * uh / 2 ≤ Real.exp (-(u * u) / 2) ∧
    Real.exp (-(u * u) / 2) ≤ 1 - ul * ul / 2 + (ul * ul / 2) ^ 2 / 2 := by
  have hu : 0 ≤ u := le_trans h0 h1
  have k1 : u * u ≤ uh * uh := mul_le_mul h2 h2 hu (le_trans hu h2)
  have k2 : ul * ul ≤ u * u := mul_le_mul h1 h1 h0 hu
  have k3 : uh * uh ≤ 1 * 1 := mul_le_mul h3 h3 (le_trans hu h2) zero_le_one
  refine ⟨by linarith only [k3], ?_, ?_⟩
  · have := Real.add_one_le_exp (-(u * u) / 2)
    linarith only [this, k1]
  · have hy : 0 ≤ ul * ul / 2 := div_nonneg (mul_nonneg h0 h0) (by norm_num)
    have := exp_neg_upper (ul * ul / 2) hy
    have hle : Real.exp (-(u * u) / 2) ≤ Real.exp (-(ul * ul / 2)) :=
      Real.exp_le_exp.2 (by linarith only [k2])
    linarith only [this, hle]

theorem recip_enclosure (u ul uh tl th : ℝ) (h0 : 0 ≤ ul) (h1 : ul ≤ u) (h2 : u ≤ uh)
    (htl : 0 ≤ tl) (ht1 : tl * (1 + 0.2316419 * uh) ≤ 1)
    (ht2 : 1 ≤ th * (1 + 0.2316419 * ul)) :
    tl ≤ 1 / (1 + 0.2316419 * u) ∧ 1 / (1 + 0.2316419 * u) ≤ th := by
  have hu : 0 ≤ u := le_trans h0 h1
  have hU : (0 : ℝ) < 1 + 0.2316419 * u :=
    add_pos_of_pos_of_nonneg one_pos (mul_nonneg (by norm_num) hu)
  have hL : (0 : ℝ) < 1 + 0.2316419 * ul :=
    add_pos_of_pos_of_nonneg one_pos (mul_nonneg (by norm_num) h0)
  have hth0 : 0 ≤ th := by
    by_contra hneg
    have : th * (1 + 0.2316419 * ul) < 0 := mul_neg_of_neg_of_pos (lt_of_not_ge hneg) hL
    linarith only [this, ht2]
  constructor
  · rw [le_div_iff₀ hU]
    have : tl * (1 + 0.2316419 * u) ≤ tl * (1 + 0.2316419 * uh) :=
      mul_le_mul_of_nonneg_left (by linarith only [h2]) htl
    linarith only [this, ht1]
  · rw [div_le_iff₀ hU]
    have : th * (1 + 0.2316419 * ul) ≤ th * (1 + 0.2316419 * u) :=
      mul_le_mul_of_nonneg_left (by linarith only [h1]) hth0
    linarith only [this, ht2]

theorem enclosure_combine (c0 E El Eh Pt Pl Ph : ℝ) (c1 : 0 < c0) (e0 : 0 ≤ El) (e1 : El ≤ E)
    (e2 : E ≤ Eh) (p0 : 0 ≤ Pl) (p1 : Pl ≤ Pt) (p2 : Pt ≤ Ph) :
    c0 * (El * Pl) ≤ c0 * E * Pt ∧ c0 * E * Pt ≤ c0 * (Eh * Ph) := by
  constructor
  · rw [mul_assoc]
    exact mul_le_mul_of_nonneg_left (mul_le_mul e1 p1 p0 (le_trans e0 e1)) (le_of_lt c1)
  · rw [mul_assoc]
    exact mul_le_mul_of_nonneg_left
      (mul_le_mul e2 p2 (le_trans p0 p1) (le_trans (le_trans e0 e1) e2)) (le_of_lt c1)

/-- An enclosure of the approximated distribution function at `-u` for `u` in
`[ul, uh]`, a part of `(0, 0.04]`, from enclosures `tl`, `th` of
`1 / (1 + 0.2316419 u)`. -/
theorem cdf_neg_enclosure (divZero : ℝ → ℝ) (u ul uh tl th : ℝ) (h0 : 0 < ul) (h1 : ul ≤ u)
    (h2 : u ≤ uh) (h3 : uh ≤ 0.04) (htl : 0.99 ≤ tl) (ht1 : tl * (1 + 0.2316419 * uh) ≤ 1)
    (ht2 : 1 ≤ th * (1 + 0.2316419 * ul)) (hth : th ≤ 1) :
    (realMath divZero).quo 1 ((realMath divZero).Sqrt (2 * (realMath divZero).Pi)) *
        ((1 - uh * uh / 2) *
          (0.319381530 * tl + -0.356563782 * tl ^ 2 + 1.781477937 * tl ^ 3 +
            -1.821255978 * tl ^ 4 + 1.330274429 * tl ^ 5)) ≤
      cdf (realMath divZero) (-u) ∧
    cdf (realMath divZero) (-u) ≤
      (realMath divZero).quo 1 ((realMath divZero).Sqrt (2 * (realMath divZero).Pi)) *
        ((1 - ul * ul / 2 + (ul * ul / 2) ^ 2 / 2) *
          (0.319381530 * th + -0.356563782 * th ^ 2 + 1.781477937 * th ^ 3 +
            -1.821255978 * th ^ 4 + 1.330274429 * th ^ 5)) := by
  have hu : 0 < u := lt_of_lt_of_le h0 h1
  obtain ⟨c1, _⟩ := realMath_invSqrt divZero
  rw [cdf_neg_eq divZero u hu]
  obtain ⟨hta, htb⟩ := recip_enclosure u ul uh tl th (le_of_lt h0) h1 h2
    (le_trans (by norm_num) htl) ht1 ht2
  obtain ⟨e0, e1, e2⟩ := exp_gauss_enclosure u ul uh (le_of_lt h0) h1 h2
    (le_trans h3 (by norm_num))
  obtain ⟨p1, _, p3, _⟩ := poly_diff_bounds _ _ htl hta (le_trans htb hth)
  obtain ⟨q1, _, _, _⟩ := poly_diff_bounds _ _ (le_trans htl hta) htb hth
  exact enclosure_combine _ _ _ _ _ _ _ c1 e0 e1 e2 (le_trans (by norm_num) p3)
    (sub_nonneg.1 (le_trans (mul_nonneg (by norm_num) (sub_nonneg.2 hta)) p1))
    (sub_nonneg.1 (le_trans (mul_nonneg (by norm_num) (sub_nonneg.2 htb)) q1))

/-- The value of the call of the scenario at a time to maturity `T > 0` and a
volatility `s > 0`. -/
theorem scenario_value (divZero : ℝ → ℝ) (T s : ℝ) (hT : 0 < T) (hs : 0 < s) :
    ((⟨0⟩ : Black76 ℝ).GetGreeks (realMath divZero) "C" 25039.55 25050 T s).Value =
      25039.55 * cdf (realMath divZero)
          ((Real.log (25039.55 / 25050) + s ^ 2 / 2 * T) / (s * Real.sqrt T)) -
        25050 * cdf (realMath divZero)
          ((Real.log (25039.55 / 25050) + s ^ 2 / 2 * T) / (s * Real.sqrt T) -
            s * Real.sqrt T) := by
  have s1 : (optionSign "C" : ℝ) = 1 := by simp [optionSign]
  have q1 : (realMath divZero).quo 25039.55 25050 = 25039.55 / 25050 :=
    quo_eq _ _ _ (by norm_num)
  have e1 : (realMath divZero).Exp (-(0 : ℝ) * T) = 1 := by
    show Real.exp (-(0 : ℝ) * T) = 1
    simp
  have hq : 0 < Real.sqrt T := Real.sqrt_pos.2 hT
  have hne : s * (realMath divZero).Sqrt T ≠ 0 := ne_of_gt (mul_pos hs hq)
  unfold Black76.GetGreeks Black76.d1d2
  simp only [s1, q1, e1, mul_one, one_mul]
  rw [quo_eq _ _ _ hne]
  rfl

/-- Enclosures of `-d1` and `-d2` of the scenario for a volatility in
`[sl, sh]`, from an enclosure `(ql, qh)` of the square root of `T`. -/
theorem scenario_d1 (T ql qh s sl sh ul uh : ℝ) (hT : 0 ≤ T) (hql : 0 < ql)
    (hq1 : ql < Real.sqrt T) (hq2 : Real.sqrt T < qh) (h0 : 0 < sl) (h1 : sl ≤ s) (h2 : s ≤ sh)
    (hul0 : 0 ≤ ul) (hul : ul * (sh * qh) ≤ 0.00041725260 - sh ^ 2 / 2 * T)
    (huh : 0.00041725276 - sl ^ 2 / 2 * T ≤ uh * (sl * ql)) :
    ul ≤ -((Real.log (25039.55 / 25050) + s ^ 2 / 2 * T) / (s * Real.sqrt T)) ∧
    -((Real.log (25039.55 / 25050) + s ^ 2 / 2 * T) / (s * Real.sqrt T)) ≤ uh ∧
    ul + sl * ql ≤
      -((Real.log (25039.55 / 25050) + s ^ 2 / 2 * T) / (s * Real.sqrt T) -
        s * Real.sqrt T) ∧
    -((Real.log (25039.55 / 25050) + s ^ 2 / 2 * T) / (s * Real.sqrt T) - s * Real.sqrt T) ≤
      uh + sh * qh := by
  obtain ⟨l1, l2⟩ := scenario_log
  generalize Real.log (25039.55 / 25050) = L at l1 l2 ⊢
  generalize Real.sqrt T = q at hq1 hq2 ⊢
  have hs : 0 < s := lt_of_lt_of_le h0 h1
  have hq : 0 < q := lt_trans hql hq1
  have hsh0 : 0 ≤ sh * qh :=
    mul_nonneg (le_of_lt (lt_of_lt_of_le hs h2)) (le_of_lt (lt_trans hq hq2))
  have hsq : 0 < s * q := mul_pos hs hq
  have hss : sl ^ 2 / 2 * T ≤ s ^ 2 / 2 * T :=
    mul_le_mul_of_nonneg_right
      (div_le_div_of_nonneg_right (pow_le_pow_left₀ (le_of_lt h0) h1 2) (by norm_num)) hT
  have hsh : s ^ 2 / 2 * T ≤ sh ^ 2 / 2 * T :=
    mul_le_mul_of_nonneg_right
      (div_le_div_of_nonneg_right (pow_le_pow_left₀ (le_of_lt hs) h2 2) (by norm_num)) hT
  have m1 : s * q ≤ sh * qh :=
    mul_le_mul h2 (le_of_lt hq2) (le_of_lt hq) (le_of_lt (lt_of_lt_of_le hs h2))
  have m2 : sl * ql ≤ s * q := mul_le_mul h1 (le_of_lt hq1) (le_of_lt hql) (le_of_lt hs)
  have m3 : ul * (s * q) ≤ ul * (sh * qh) := mul_le_mul_of_nonneg_left m1 hul0
  have huh0 : 0 ≤ uh := by
    by_contra hneg
    have hn : uh * (sl * ql) < 0 := mul_neg_of_neg_of_pos (lt_of_not_ge hneg) (mul_pos h0 hql)
    have : 0 ≤ 0.00041725260 - sh ^ 2 / 2 * T := le_trans (mul_nonneg hul0 hsh0) hul
    linarith only [hn, this, huh, hss, hsh]
  have m4 : uh * (sl * ql) ≤ uh * (s * q) := mul_le_mul_of_nonneg_left m2 huh0
  have k1 : ul ≤ -((L + s ^ 2 / 2 * T) / (s * q)) := by
    rw [← neg_div, le_div_iff₀ hsq]
    linarith only [m3, hul, l2, hsh]
  have k2 : -((L + s ^ 2 / 2 * T) / (s * q)) ≤ uh := by
    rw [← neg_div, div_le_iff₀ hsq]
    linarith only [m4, huh, l1, hss]
  refine ⟨k1, k2, ?_, ?_⟩
  · linarith only [k1, m2]
  · linarith only [k2, m1]

theorem value_combine (c0 A1 B1 A2 B2 N1 N2 S K : ℝ) (hS : 0 ≤ S) (hK : 0 ≤ K)
    (a1 : c0 * A1 ≤ N1) (b1 : N1 ≤ c0 * B1) (a2 : c0 * A2 ≤ N2) (b2 : N2 ≤ c0 * B2) :
    c0 * (S * A1 - K * B2) ≤ S * N1 - K * N2 ∧ S * N1 - K * N2 ≤ c0 * (S * B1 - K * A2) := by
  have h1 := mul_le_mul_of_nonneg_left a1 hS
  have h2 := mul_le_mul_of_nonneg_left b1 hS
  have h3 := mul_le_mul_of_nonneg_left a2 hK
  have h4 := mul_le_mul_of_nonneg_left b2 hK
  constructor
  · linarith only [h1, h4]
  · linarith only [h2, h3]

/-- An enclosure of the value of the scenario at a volatility `s` with `d1`,
`d2` in `[-0.04, 0)`, from enclosures `(ql, qh)` of the square root of `T`,
`[u1l, u1h]` of `-d1` and `[t1l, t1h]`, `[t2l, t2h]` of
`1 / (1 + 0.2316419 |d1|)` and `1 / (1 + 0.2316419 |d2|)`. -/
theorem scenario_value_enclosure (divZero : ℝ → ℝ) (T ql qh s u1l u1h t1l t1h t2l t2h : ℝ)
    (hT : 0 < T) (hql : 0 < ql) (hq1 : ql < Real.sqrt T) (hq2 : Real.sqrt T < qh)
    (hs : 0 < s) (hu0 : 0 < u1l)
    (hul : u1l * (s * qh) ≤ 0.00041725260 - s ^ 2 / 2 * T)
    (huh : 0.00041725276 - s ^ 2 / 2 * T ≤ u1h * (s * ql))
    (hu4 : u1h + s * qh ≤ 0.04)
    (ht1l : 0.99 ≤ t1l) (ht1 : t1l * (1 + 0.2316419 * u1h) ≤ 1)
    (ht1' : 1 ≤ t1h * (1 + 0.2316419 * u1l)) (ht1h : t1h ≤ 1)
    (ht2l : 0.99 ≤ t2l) (ht2 : t2l * (1 + 0.2316419 * (u1h + s * qh)) ≤ 1)
    (ht2' : 1 ≤ t2h * (1 + 0.2316419 * (u1l + s * ql))) (ht2h : t2h ≤ 1) :
    (realMath divZero).quo 1 ((realMath divZero).Sqrt (2 * (realMath divZero).Pi)) *
        (25039.55 *
            ((1 - u1h * u1h / 2) *
              (0.319381530 * t1l + -0.356563782 * t1l ^ 2 + 1.781477937 * t1l ^ 3 +
                -1.821255978 * t1l ^ 4 + 1.330274429 * t1l ^ 5)) -
          25050 *
            ((1 - (u1l + s * ql) * (u1l + s * ql) / 2 +
                ((u1l + s * ql) * (u1l + s * ql) / 2) ^ 2 / 2) *
              (0.319381530 * t2h + -0.356563782 * t2h ^ 2 + 1.781477937 * t2h ^ 3 +
                -1.821255978 * t2h ^ 4 + 1.330274429 * t2h ^ 5))) ≤
      ((⟨0⟩ : Black76 ℝ).GetGreeks (realMath divZero) "C" 25039.55 25050 T s).Value ∧
    ((⟨0⟩ : Black76 ℝ).GetGreeks (realMath divZero) "C" 25039.55 25050 T s).Value ≤
      (realMath divZero).quo 1 ((realMath divZero).Sqrt (2 * (realMath divZero).Pi)) *
        (25039.55 *
            ((1 - u1l * u1l / 2 + (u1l * u1l / 2) ^ 2 / 2) *
              (0.319381530 * t1h + -0.356563782 * t1h ^ 2 + 1.781477937 * t1h ^ 3 +
                -1.821255978 * t1h ^ 4 + 1.330274429 * t1h ^ 5)) -
          25050 *
            ((1 - (u1h + s * qh) * (u1h + s * qh) / 2) *
              (0.319381530 * t2l + -0.356563782 * t2l ^ 2 + 1.781477937 * t2l ^ 3 +
                -1.821255978 * t2l ^ 4 + 1.330274429 * t2l ^ 5))) := by
  obtain ⟨d1, d2, d3, d4⟩ := scenario_d1 T ql qh s s s u1l u1h (le_of_lt hT) hql hq1 hq2 hs
    le_rfl le_rfl (le_of_lt hu0) hul huh
  have hqh : 0 < qh := lt_trans (lt_trans hql hq1) hq2
  have hu1h : u1h ≤ 0.04 := by
    have : 0 < s * qh := mul_pos hs hqh
    linarith only [this, hu4]
  have g1 := cdf_neg_enclosure divZero _ u1l u1h t1l t1h hu0 d1 d2 hu1h ht1l ht1 ht1' ht1h
  have g2 := cdf_neg_enclosure divZero _ (u1l + s * ql) (u1h + s * qh) t2l t2h
    (add_pos hu0 (mul_pos hs hql)) d3 d4 hu4 ht2l ht2 ht2' ht2h
  rw [neg_neg] at g1 g2
  rw [scenario_value divZero T s hT hs]
  exact value_combine _ _ _ _ _ _ _ _ _ (by norm_num) (by norm_num) g1.1 g1.2 g2.1 g2.2

theorem scenario_sqrt_early :
    0.68045109 < Real.sqrt (169 / 365) ∧ Real.sqrt (169 / 365) < 0.6804511 := by
  constructor
  · rw [Real.lt_sqrt (by norm_num)]
    norm_num
  · rw [Real.sqrt_lt' (by norm_num)]
    norm_num

/-- With `T = 168 / 365` the value at the volatility 0.025542 is below the market price
168. -/
theorem scenario_value_low (divZero : ℝ → ℝ) :
    ((⟨0⟩ : Black76 ℝ).GetGreeks (realMath divZero) "C" 25039.55 25050 (168 / 365)
      0.025542).Value < 168 := by
  obtain ⟨c1, c2⟩ := invSqrt_bounds divZero
  obtain ⟨q1, q2⟩ := scenario_sqrt
  have h := scenario_value_enclosure divZero (168 / 365) 0.67843494 0.67843495 0.025542
    0.0154145683 0.0154145778 0.9964420421 0.9964420444
    0.9924724058 0.9924724082 (by norm_num) (by norm_num) q1 q2
    (by norm_num) (by norm_num) (by norm_num) (by norm_num) (by norm_num) (by norm_num)
    (by norm_num) (by norm_num) (by norm_num) (by norm_num) (by norm_num) (by norm_num)
    (by norm_num)
  generalize ((⟨0⟩ : Black76 ℝ).GetGreeks (realMath divZero) "C" 25039.55 25050 (168 / 365)
      0.025542).Value
    = V at h ⊢
  generalize (realMath divZero).quo 1 ((realMath divZero).Sqrt (2 * (realMath divZero).Pi)) = c0
    at c1 c2 h
  obtain ⟨_, h2⟩ := h
  norm_num at h2
  linarith only [h2, c1, c2]

/-- With `T = 168 / 365` the value at the volatility 0.0257 is above the market price 168. -/
theorem scenario_value_high (divZero : ℝ → ℝ) :
    168 < ((⟨0⟩ : Black76 ℝ).GetGreeks (realMath divZero) "C" 25039.55 25050 (168 / 365)
      0.0257).Value := by
  obtain ⟨c1, c2⟩ := invSqrt_bounds divZero
  obtain ⟨q1, q2⟩ := scenario_sqrt
  have h := scenario_value_enclosure divZero (168 / 365) 0.67843494 0.67843495 0.0257
    0.0152129385 0.015212948 0.9964884184 0.9964884207
    0.9924939538 0.9924939561 (by norm_num) (by norm_num) q1 q2
    (by norm_num) (by norm_num) (by norm_num) (by norm_num) (by norm_num) (by norm_num)
    (by norm_num) (by norm_num) (by norm_num) (by norm_num) (by norm_num) (by norm_num)
    (by norm_num)
  generalize ((⟨0⟩ : Black76 ℝ).GetGreeks (realMath divZero) "C" 25039.55 25050 (168 / 365)
      0.0257).Value
    = V at h ⊢
  generalize (realMath divZero).quo 1 ((realMath divZero).Sqrt (2 * (realMath divZero).Pi)) = c0
    at c1 c2 h
  obtain ⟨h1, _⟩ := h
  norm_num at h1
  linarith only [h1, c1, c2]

/-- With `T = 168 / 365` the value at the volatility 0.0368 is above 244.2. -/
theorem scenario_value_first (divZero : ℝ → ℝ) :
    244.2 < ((⟨0⟩ : Black76 ℝ).GetGreeks (realMath divZero) "C" 25039.55 25050 (168 / 365)
      0.0368).Value := by
  obtain ⟨c1, c2⟩ := invSqrt_bounds divZero
  obtain ⟨q1, q2⟩ := scenario_sqrt
  have h := scenario_value_enclosure divZero (168 / 365) 0.67843494 0.67843495 0.0368
    0.0042293587 0.0042293652 0.9990212606 0.9990212622
    0.9932824664 0.9932824681 (by norm_num) (by norm_num) q1 q2
    (by norm_num) (by norm_num) (by norm_num) (by norm_num) (by norm_num) (by norm_num)
    (by norm_num) (by norm_num) (by norm_num) (by norm_num) (by norm_num) (by norm_num)
    (by norm_num)
  generalize ((⟨0⟩ : Black76 ℝ).GetGreeks (realMath divZero) "C" 25039.55 25050 (168 / 365)
      0.0368).Value
    = V at h ⊢
  generalize (realMath divZero).quo 1 ((realMath divZero).Sqrt (2 * (realMath divZero).Pi)) = c0
    at c1 c2 h
  obtain ⟨h1, _⟩ := h
  norm_num at h1
  linarith only [h1, c1, c2]

/-- With `T = 169 / 365` the value at the volatility 0.0254 is below the market price 168. -/
theorem early_value_low (divZero : ℝ → ℝ) :
    ((⟨0⟩ : Black76 ℝ).GetGreeks (realMath divZero) "C" 25039.55 25050 (169 / 365)
      0.0254).Value < 168 := by
  obtain ⟨c1, c2⟩ := invSqrt_bounds divZero
  obtain ⟨q1, q2⟩ := scenario_sqrt_early
  have h := scenario_value_enclosure divZero (169 / 365) 0.68045109 0.6804511 0.0254
    0.0155000024 0.015500012 0.9964223929 0.9964223953
    0.9924632093 0.9924632116 (by norm_num) (by norm_num) q1 q2
    (by norm_num) (by norm_num) (by norm_num) (by norm_num) (by norm_num) (by norm_num)
    (by norm_num) (by norm_num) (by norm_num) (by norm_num) (by norm_num) (by norm_num)
    (by norm_num)
  generalize ((⟨0⟩ : Black76 ℝ).GetGreeks (realMath divZero) "C" 25039.55 25050 (169 / 365)
      0.0254).Value
    = V at h ⊢
  generalize (realMath divZero).quo 1 ((realMath divZero).Sqrt (2 * (realMath divZero).Pi)) = c0
    at c1 c2 h
  obtain ⟨_, h2⟩ := h
  norm_num at h2
  linarith only [h2, c1, c2]

/-- With `T = 169 / 365` the value at the volatility 0.0257 is above the market price 168. -/
theorem early_value_high (divZero : ℝ → ℝ) :
    168 < ((⟨0⟩ : Black76 ℝ).GetGreeks (realMath divZero) "C" 25039.55 25050 (169 / 365)
      0.0257).Value := by
  obtain ⟨c1, c2⟩ := invSqrt_bounds divZero
  obtain ⟨q1, q2⟩ := scenario_sqrt_early
  have h := scenario_value_enclosure divZero (169 / 365) 0.68045109 0.6804511 0.0257
    0.0151161247 0.0151161342 0.9965106878 0.9965106901
    0.9925042216 0.9925042239 (by norm_num) (by norm_num) q1 q2
    (by norm_num) (by norm_num) (by norm_num) (by norm_num) (by norm_num) (by norm_num)
    (by norm_num) (by norm_num) (by norm_num) (by norm_num) (by norm_num) (by norm_num)
    (by norm_num)
  generalize ((⟨0⟩ : Black76 ℝ).GetGreeks (realMath divZero) "C" 25039.55 25050 (169 / 365)
      0.0257).Value
    = V at h ⊢
  generalize (realMath divZero).quo 1 ((realMath divZero).Sqrt (2 * (realMath divZero).Pi)) = c0
    at c1 c2 h
  obtain ⟨h1, _⟩ := h
  norm_num at h1
  linarith only [h1, c1, c2]

/-- With `T = 169 / 365` the value at the volatility 0.0368 is above 244.2. -/
theorem early_value_first (divZero : ℝ → ℝ) :
    244.2 < ((⟨0⟩ : Black76 ℝ).GetGreeks (realMath divZero) "C" 25039.55 25050 (169 / 365)
      0.0368).Value := by
  obtain ⟨c1, c2⟩ := invSqrt_bounds divZero
  obtain ⟨q1, q2⟩ := scenario_sqrt_early
  have h := scenario_value_enclosure divZero (169 / 365) 0.68045109 0.6804511 0.0368
    0.0041427426 0.0041427492 0.9990412857 0.9990412873
    0.9932853053 0.993285307 (by norm_num) (by norm_num) q1 q2
    (by norm_num) (by norm_num) (by norm_num) (by norm_num) (by norm_num) (by norm_num)
    (by norm_num) (by norm_num) (by norm_num) (by norm_num) (by norm_num) (by norm_num)
    (by norm_num)
  generalize ((⟨0⟩ : Black76 ℝ).GetGreeks (realMath divZero) "C" 25039.55 25050 (169 / 365)
      0.0368).Value
    = V at h ⊢
  generalize (realMath divZero).quo 1 ((realMath divZero).Sqrt (2 * (realMath divZero).Pi)) = c0
    at c1 c2 h
  obtain ⟨h1, _⟩ := h
  norm_num at h1
  linarith only [h1, c1, c2]

/-- Between two negative arguments down to `-0.04` the approximated distribution
function rises with a slope between `0.89` and `1.11` times `1 / sqrt(2 pi)`. -/
theorem cdf_slope_neg (divZero : ℝ → ℝ) (x y : ℝ) (hx : -0.04 ≤ x) (hxy : x ≤ y) (hy : y < 0) :
    (realMath divZero).quo 1 ((realMath divZero).Sqrt (2 * (realMath divZero).Pi)) * 0.89 *
        (y - x) ≤ cdf (realMath divZero) y - cdf (realMath divZero) x ∧
    cdf (realMath divZero) y - cdf (realMath divZero) x ≤
      (realMath divZero).quo 1 ((realMath divZero).Sqrt (2 * (realMath divZero).Pi)) * 1.11 *
        (y - x) := by
  have hx0 : x < 0 := lt_of_le_of_lt hxy hy
  have s1 := cdf_symm (realMath divZero) x (ne_of_lt hx0)
  have s2 := cdf_symm (realMath divZero) y (ne_of_lt hy)
  obtain ⟨k1, k2⟩ := cdf_slope divZero (-y) (-x) (neg_nonneg.2 (le_of_lt hy)) (neg_le_neg hxy)
    (by linarith only [hx])
  have e : -x - -y = y - x := by ring
  rw [e] at k1 k2
  constructor
  · linarith only [s1, s2, k1]
  · linarith only [s1, s2, k2]

theorem scenario_d_split (L q T s : ℝ) (hq : 0 < q) (hT : q * q = T) (hs : 0 < s) :
    (L + s ^ 2 / 2 * T) / (s * q) = L / (s * q) + s * q / 2 := by
  rw [← hT]
  field_simp
  ring

theorem scenario_d_diff (L q T s t : ℝ) (l1 : -0.00041725276 < L) (l2 : L < -0.00041725260)
    (q1 : 0.67843 < q) (q2 : q < 0.68046) (hT : q * q = T) (h1 : 0.02 ≤ s) (h2 : s ≤ t)
    (h3 : t ≤ 0.04) :
    ∃ w : ℝ, 0.38 ≤ w ∧ w ≤ 1.538 ∧
      (L + t ^ 2 / 2 * T) / (t * q) - (L + s ^ 2 / 2 * T) / (s * q) = (t - s) * (w + q / 2) ∧
      ((L + t ^ 2 / 2 * T) / (t * q) - t * q) - ((L + s ^ 2 / 2 * T) / (s * q) - s * q) =
        (t - s) * (w - q / 2) := by
  have hq : 0 < q := lt_trans (by norm_num) q1
  have hs : 0 < s := lt_of_lt_of_le (by norm_num) h1
  have ht : 0 < t := lt_of_lt_of_le hs h2
  have hst : 0 < s * t * q := mul_pos (mul_pos hs ht) hq
  have hst1 : 0.02 * 0.02 ≤ s * t := mul_le_mul h1 (le_trans h1 h2) (by norm_num) (le_of_lt hs)
  have hst2 : s * t ≤ 0.04 * 0.04 :=
    mul_le_mul (le_trans h2 h3) h3 (le_of_lt ht) (by norm_num)
  refine ⟨-L / (s * t * q), ?_, ?_, ?_, ?_⟩
  · rw [le_div_iff₀ hst]
    have : s * t * q ≤ 0.04 * 0.04 * 0.68046 :=
      mul_le_mul hst2 (le_of_lt q2) (le_of_lt hq) (by norm_num)
    linarith only [this, l2]
  · rw [div_le_iff₀ hst]
    have : 0.02 * 0.02 * 0.67843 ≤ s * t * q :=
      mul_le_mul hst1 (le_of_lt q1) (by norm_num) (le_of_lt (mul_pos hs ht))
    linarith only [this, l1]
  · rw [scenario_d_split L q T s hq hT hs, scenario_d_split L q T t hq hT ht]
    field_simp
    ring
  · rw [scenario_d_split L q T s hq hT hs, scenario_d_split L q T t hq hT ht]
    field_simp
    ring

theorem slope_assemble (c0 q w d N1 N2 : ℝ) (c1 : 0 < c0) (q1 : 0.67843 < q)
    (q2 : q < 0.68046) (w1 : 0.38 ≤ w) (w2 : w ≤ 1.538) (hd : 0 ≤ d)
    (a1 : c0 * 0.89 * (d * (w + q / 2)) ≤ N1) (b1 : N1 ≤ c0 * 1.11 * (d * (w + q / 2)))
    (a2 : c0 * 0.89 * (d * (w - q / 2)) ≤ N2) (b2 : N2 ≤ c0 * 1.11 * (d * (w - q / 2))) :
    c0 * 8000 * d ≤ 25039.55 * N1 - 25050 * N2 ∧
    25039.55 * N1 - 25050 * N2 ≤ c0 * 26000 * d := by
  have hcd : 0 ≤ c0 * d := mul_nonneg (le_of_lt c1) hd
  have k1 : c0 * d * w ≤ c0 * d * 1.538 := mul_le_mul_of_nonneg_left w2 hcd
  have k2 : c0 * d * 0.67843 ≤ c0 * d * q := mul_le_mul_of_nonneg_left (le_of_lt q1) hcd
  have k3 : c0 * d * q ≤ c0 * d * 0.68046 := mul_le_mul_of_nonneg_left (le_of_lt q2) hcd
  have k4 : c0 * d * 0.38 ≤ c0 * d * w := mul_le_mul_of_nonneg_left w1 hcd
  constructor
  · linarith only [k1, k2, k3, k4, a1, b2]
  · linarith only [k1, k2, k3, k4, b1, a2]

/-- For `T` in `[0.46027, 0.46302]` and a volatility in `[0.02, 0.04]` both `d1`
and `d2` of the scenario lie in `[-0.04, 0)`. -/
theorem scenario_d_range (T s : ℝ) (hT1 : 0.46027 ≤ T) (hT2 : T ≤ 0.46302) (h1 : 0.02 ≤ s)
    (h2 : s ≤ 0.04) :
    (Real.log (25039.55 / 25050) + s ^ 2 / 2 * T) / (s * Real.sqrt T) < 0 ∧
    -0.04 ≤ (Real.log (25039.55 / 25050) + s ^ 2 / 2 * T) / (s * Real.sqrt T) -
      s * Real.sqrt T := by
  obtain ⟨q1, q2⟩ := sqrt_T_range T hT1 hT2
  have hp : 0 ≤ (s - 0.02) * (0.04 - s) := mul_nonneg (sub_nonneg.2 h1) (sub_nonneg.2 h2)
  have hs2 : 0 ≤ s ^ 2 / 2 := by positivity
  have hsT1 : s ^ 2 / 2 * T ≤ s ^ 2 / 2 * 0.46302 := mul_le_mul_of_nonneg_left hT2 hs2
  have hsT2 : s ^ 2 / 2 * 0.46027 ≤ s ^ 2 / 2 * T := mul_le_mul_of_nonneg_left hT1 hs2
  have k1 : (0.001 : ℝ) * (s * 0.68046) ≤ 0.00041725260 - s ^ 2 / 2 * T := by
    linarith only [hp, hsT1, h1, h2]
  have k2 : 0.00041725276 - s ^ 2 / 2 * T ≤ (0.04 - s * 0.68046) * (s * 0.67843) := by
    linarith only [hp, hsT2, h1, h2]
  obtain ⟨d1, _, _, d4⟩ := scenario_d1 T 0.67843 0.68046 s s s 0.001 (0.04 - s * 0.68046)
    (le_trans (by norm_num) hT1) (by norm_num) q1 q2 (lt_of_lt_of_le (by norm_num) h1) le_rfl
    le_rfl (by norm_num) k1 k2
  generalize (Real.log (25039.55 / 25050) + s ^ 2 / 2 * T) / (s * Real.sqrt T) = X at d1 d4 ⊢
  generalize Real.sqrt T = q at d4 ⊢
  constructor
  · linarith only [d1]
  · linarith only [d4, h2, q2]

/-- For `T` in `[0.46027, 0.46302]` the value of the scenario rises with the
volatility on `[0.02, 0.04]`, with difference quotients between `8000` and
`26000` times `1 / sqrt(2 pi)`. -/
theorem scenario_slope (divZero : ℝ → ℝ) (T : ℝ) (hT1 : 0.46027 ≤ T) (hT2 : T ≤ 0.46302)
    (s t : ℝ) (h1 : 0.02 ≤ s) (h2 : s ≤ t) (h3 : t ≤ 0.04) :
    (realMath divZero).quo 1 ((realMath divZero).Sqrt (2 * (realMath divZero).Pi)) * 8000 *
        (t - s) ≤
      ((⟨0⟩ : Black76 ℝ).GetGreeks (realMath divZero) "C" 25039.55 25050 T t).Value -
        ((⟨0⟩ : Black76 ℝ).GetGreeks (realMath divZero) "C" 25039.55 25050 T s).Value ∧
    ((⟨0⟩ : Black76 ℝ).GetGreeks (realMath divZero) "C" 25039.55 25050 T t).Value -
        ((⟨0⟩ : Black76 ℝ).GetGreeks (realMath divZero) "C" 25039.55 25050 T s).Value ≤
      (realMath divZero).quo 1 ((realMath divZero).Sqrt (2 * (realMath divZero).Pi)) * 26000 *
        (t - s) := by
  obtain ⟨c1, _⟩ := realMath_invSqrt divZero
  obtain ⟨l1, l2⟩ := scenario_log
  obtain ⟨q1, q2⟩ := sqrt_T_range T hT1 hT2
  have hT : 0 < T := lt_of_lt_of_le (by norm_num) hT1
  have hs : 0 < s := lt_of_lt_of_le (by norm_num) h1
  have ht : 0 < t := lt_of_lt_of_le hs h2
  have hTq : Real.sqrt T * Real.sqrt T = T := Real.mul_self_sqrt (le_of_lt hT)
  obtain ⟨w, w1, w2, e1, e2⟩ := scenario_d_diff _ _ T s t l1 l2 q1 q2 hTq h1 h2 h3
  obtain ⟨_, r2⟩ := scenario_d_range T s hT1 hT2 h1 (le_trans h2 h3)
  obtain ⟨r3, _⟩ := scenario_d_range T t hT1 hT2 (le_trans h1 h2) h3
  rw [scenario_value divZero T s hT hs, scenario_value divZero T t hT ht]
  clear l1 l2 hTq
  generalize (Real.log (25039.55 / 25050) + s ^ 2 / 2 * T) / (s * Real.sqrt T) = X
    at e1 e2 r2 ⊢
  generalize (Real.log (25039.55 / 25050) + t ^ 2 / 2 * T) / (t * Real.sqrt T) = Y
    at e1 e2 r3 ⊢
  generalize Real.sqrt T = q at q1 q2 e1 e2 r2 ⊢
  have hd : 0 ≤ t - s := sub_nonneg.2 h2
  have hD1 : 0 ≤ (t - s) * (w + q / 2) := mul_nonneg hd (by linarith only [w1, q1])
  have hD2 : 0 ≤ (t - s) * (w - q / 2) := mul_nonneg hd (by linarith only [w1, q2])
  have hsq : 0 < s * q := mul_pos hs (lt_trans (by norm_num) q1)
  have htq : 0 < t * q := mul_pos ht (lt_trans (by norm_num) q1)
  obtain ⟨a1, b1⟩ := cdf_slope_neg divZero X Y (by linarith only [r2, hsq])
    (sub_nonneg.1 (e1 ▸ hD1)) r3
  obtain ⟨a2, b2⟩ := cdf_slope_neg divZero (X - s * q) (Y - t * q) r2
    (sub_nonneg.1 (e2 ▸ hD2)) (by linarith only [r3, htq])
  rw [e1] at a1 b1
  rw [e2] at a2 b2
  obtain ⟨k1, k2⟩ := slope_assemble _ _ w (t - s) _ _ c1 q1 q2 w1 w2 hd a1 b1 a2 b2
  constructor <;> linarith only [k1, k2]

theorem exp_719 : Real.exp (-0.719) < 0.4873 ∧ 0.4847 < Real.exp (-0.724) := by
  have h1 := Real.exp_bound (x := (-0.719 : ℝ)) (by rw [abs_le]; constructor <;> norm_num)
    (n := 7) (by norm_num)
  have h2 := Real.exp_bound (x := (-0.724 : ℝ)) (by rw [abs_le]; constructor <;> norm_num)
    (n := 7) (by norm_num)
  have a1 : |(-0.719 : ℝ)| = 0.719 := by
    rw [abs_of_neg (by norm_num)]
    norm_num
  have a2 : |(-0.724 : ℝ)| = 0.724 := by
    rw [abs_of_neg (by norm_num)]
    norm_num
  rw [a1] at h1
  rw [a2] at h2
  simp only [Finset.sum_range_succ, Finset.sum_range_zero, Nat.factorial] at h1 h2
  generalize Real.exp (-0.719) = E1 at h1 ⊢
  generalize Real.exp (-0.724) = E2 at h2 ⊢
  rw [abs_le] at h1 h2
  norm_num at h1 h2
  constructor
  · linarith only [h1.2]
  · linarith only [h2.1]

theorem poly_monomial_bounds (t tl th : ℝ) (h0 : 0 ≤ tl) (h1 : tl ≤ t) (h2 : t ≤ th) :
    0.319381530 * tl + -0.356563782 * th ^ 2 + 1.781477937 * tl ^ 3 + -1.821255978 * th ^ 4 +
        1.330274429 * tl ^ 5 ≤
      0.319381530 * t + -0.356563782 * t ^ 2 + 1.781477937 * t ^ 3 + -1.821255978 * t ^ 4 +
        1.330274429 * t ^ 5 ∧
    0.319381530 * t + -0.356563782 * t ^ 2 + 1.781477937 * t ^ 3 + -1.821255978 * t ^ 4 +
        1.330274429 * t ^ 5 ≤
      0.319381530 * th + -0.356563782 * tl ^ 2 + 1.781477937 * th ^ 3 + -1.821255978 * tl ^ 4 +
        1.330274429 * th ^ 5 := by
  have ht : 0 ≤ t := le_trans h0 h1
  have a2 := pow_le_pow_left₀ h0 h1 2
  have a3 := pow_le_pow_left₀ h0 h1 3
  have a4 := pow_le_pow_left₀ h0 h1 4
  have a5 := pow_le_pow_left₀ h0 h1 5
  have b2 := pow_le_pow_left₀ ht h2 2
  have b3 := pow_le_pow_left₀ ht h2 3
  have b4 := pow_le_pow_left₀ ht h2 4
  have b5 := pow_le_pow_left₀ ht h2 5
  constructor
  · linarith only [h1, a3, a5, b2, b4]
  · linarith only [h2, b3, b5, a2, a4]

/-- The product of the Gaussian factor and the polynomial of the approximated
distribution function for an argument in `[1.6959, 1.7013]`. -/
theorem gauss_poly_top (u : ℝ) (h1 : 1.6959 ≤ u) (h2 : u ≤ 1.7013) :
    0.1107 ≤ Real.exp (-(u * u) / 2) *
      (0.319381530 * (1 / (1 + 0.2316419 * u)) + -0.356563782 * (1 / (1 + 0.2316419 * u)) ^ 2 +
        1.781477937 * (1 / (1 + 0.2316419 * u)) ^ 3 +
        -1.821255978 * (1 / (1 + 0.2316419 * u)) ^ 4 +
        1.330274429 * (1 / (1 + 0.2316419 * u)) ^ 5) ∧
    Real.exp (-(u * u) / 2) *
      (0.319381530 * (1 / (1 + 0.2316419 * u)) + -0.356563782 * (1 / (1 + 0.2316419 * u)) ^ 2 +
        1.781477937 * (1 / (1 + 0.2316419 * u)) ^ 3 +
        -1.821255978 * (1 / (1 + 0.2316419 * u)) ^ 4 +
        1.330274429 * (1 / (1 + 0.2316419 * u)) ^ 5) ≤ 0.1133 := by
  obtain ⟨x1, x2⟩ := exp_719
  have hu : 0 ≤ u := le_trans (by norm_num) h1
  have k1 : (1.6959 : ℝ) * 1.6959 ≤ u * u := mul_le_mul h1 h1 (by norm_num) hu
  have k2 : u * u ≤ 1.7013 * 1.7013 := mul_le_mul h2 h2 hu (by norm_num)
  have e1 : Real.exp (-(u * u) / 2) ≤ Real.exp (-0.719) * Real.exp (-0.719) := by
    rw [← Real.exp_add]
    exact Real.exp_le_exp.2 (by linarith only [k1])
  have e2 : Real.exp (-0.724) * Real.exp (-0.724) ≤ Real.exp (-(u * u) / 2) := by
    rw [← Real.exp_add]
    exact Real.exp_le_exp.2 (by linarith only [k2])
  have p1 : (0 : ℝ) < Real.exp (-0.719) := Real.exp_pos _
  have e3 : Real.exp (-0.719) * Real.exp (-0.719) ≤ 0.4873 * 0.4873 :=
    mul_le_mul (le_of_lt x1) (le_of_lt x1) (le_of_lt p1) (by norm_num)
  have e4 : (0.4847 : ℝ) * 0.4847 ≤ Real.exp (-0.724) * Real.exp (-0.724) :=
    mul_le_mul (le_of_lt x2) (le_of_lt x2) (by norm_num) (le_trans (by norm_num) (le_of_lt x2))
  obtain ⟨t1, t2⟩ := recip_enclosure u 1.6959 1.7013 0.7173 0.7180 (by norm_num) h1 h2
    (by norm_num) (by norm_num) (by norm_num)
  obtain ⟨g1, g2⟩ := poly_monomial_bounds _ 0.7173 0.7180 (by norm_num) t1 t2
  generalize 0.319381530 * (1 / (1 + 0.2316419 * u)) +
    -0.356563782 * (1 / (1 + 0.2316419 * u)) ^ 2 +
    1.781477937 * (1 / (1 + 0.2316419 * u)) ^ 3 +
    -1.821255978 * (1 / (1 + 0.2316419 * u)) ^ 4 +
    1.330274429 * (1 / (1 + 0.2316419 * u)) ^ 5 = Pt at g1 g2 ⊢
  generalize Real.exp (-(u * u) / 2) = E at e1 e2 ⊢
  norm_num at g1 g2
  have hE1 : 0.4847 * 0.4847 ≤ E := le_trans e4 e2
  have hE2 : E ≤ 0.4873 * 0.4873 := le_trans e1 e3
  have hP1 : (0.4713 : ℝ) ≤ Pt := by linarith only [g1]
  have hP2 : Pt ≤ 0.477 := by linarith only [g2]
  constructor
  · have := mul_le_mul hE1 hP1 (by norm_num) (le_trans (by norm_num) hE1)
    linarith only [this]
  · have := mul_le_mul hE2 hP2 (le_trans (by norm_num) hP1) (by norm_num)
    linarith only [this]

theorem cdf_top (divZero : ℝ → ℝ) (u : ℝ) (h1 : 1.6959 ≤ u) (h2 : u ≤ 1.7013) :
    ∃ G : ℝ, 0.1107 ≤ G ∧ G ≤ 0.1133 ∧
      cdf (realMath divZero) u =
        1 - (realMath divZero).quo 1 ((realMath divZero).Sqrt (2 * (realMath divZero).Pi)) * G ∧
      cdf (realMath divZero) (-u) =
        (realMath divZero).quo 1 ((realMath divZero).Sqrt (2 * (realMath divZero).Pi)) * G := by
  obtain ⟨g1, g2⟩ := gauss_poly_top u h1 h2
  have hu : 0 < u := lt_of_lt_of_le (by norm_num) h1
  refine ⟨_, g1, g2, ?_, ?_⟩
  · rw [cdf_nonneg_eq divZero u (le_of_lt hu), mul_assoc]
  · rw [cdf_neg_eq divZero u hu, mul_assoc]

theorem scenario_d_top (T : ℝ) (hT1 : 0.46027 ≤ T) (hT2 : T ≤ 0.46302) :
    1.6959 ≤ (Real.log (25039.55 / 25050) + 5 ^ 2 / 2 * T) / (5 * Real.sqrt T) ∧
    (Real.log (25039.55 / 25050) + 5 ^ 2 / 2 * T) / (5 * Real.sqrt T) ≤ 1.7013 ∧
    1.6959 ≤ -((Real.log (25039.55 / 25050) + 5 ^ 2 / 2 * T) / (5 * Real.sqrt T) -
      5 * Real.sqrt T) ∧
    -((Real.log (25039.55 / 25050) + 5 ^ 2 / 2 * T) / (5 * Real.sqrt T) - 5 * Real.sqrt T) ≤
      1.7013 := by
  obtain ⟨l1, l2⟩ := scenario_log
  obtain ⟨q1, q2⟩ := sqrt_T_range T hT1 hT2
  have hTq : Real.sqrt T * Real.sqrt T = T := Real.mul_self_sqrt (by linarith only [hT1])
  generalize Real.log (25039.55 / 25050) = L at l1 l2 ⊢
  generalize Real.sqrt T = q at q1 q2 hTq ⊢
  have hq : 0 < q := lt_trans (by norm_num) q1
  rw [scenario_d_split L q T 5 hq hTq (by norm_num)]
  have hq5 : 0 < 5 * q := mul_pos (by norm_num) hq
  have k1 : -0.000124 ≤ L / (5 * q) := by
    rw [le_div_iff₀ hq5]
    linarith only [l1, q1]
  have k2 : L / (5 * q) ≤ -0.000122 := by
    rw [div_le_iff₀ hq5]
    linarith only [l2, q2]
  refine ⟨?_, ?_, ?_, ?_⟩
  · linarith only [k1, q1]
  · linarith only [k2, q2]
  · linarith only [k2, q1]
  · linarith only [k1, q2]

/-- The value of the scenario at the volatility `5.0`, the upper end of the
bracket when the loop is entered. -/
theorem scenario_value_top (divZero : ℝ → ℝ) (T : ℝ) (hT1 : 0.46027 ≤ T) (hT2 : T ≤ 0.46302) :
    22775 < ((⟨0⟩ : Black76 ℝ).GetGreeks (realMath divZero) "C" 25039.55 25050 T 5).Value ∧
    ((⟨0⟩ : Black76 ℝ).GetGreeks (realMath divZero) "C" 25039.55 25050 T 5).Value <
      22830 := by
  obtain ⟨c1, c2⟩ := invSqrt_bounds divZero
  obtain ⟨d1, d2, d3, d4⟩ := scenario_d_top T hT1 hT2
  rw [scenario_value divZero T 5 (lt_of_lt_of_le (by norm_num) hT1) (by norm_num)]
  obtain ⟨G1, g1, g2, n1, _⟩ := cdf_top divZero _ d1 d2
  obtain ⟨G2, g3, g4, _, n2⟩ := cdf_top divZero _ d3 d4
  rw [neg_neg] at n2
  rw [n1, n2]
  generalize (realMath divZero).quo 1 ((realMath divZero).Sqrt (2 * (realMath divZero).Pi)) = c0
    at c1 c2
  have hc : 0 ≤ c0 := le_trans (by norm_num) (le_of_lt c1)
  have m1 := mul_le_mul (le_of_lt c1) g1 (by norm_num) hc
  have m2 := mul_le_mul (le_of_lt c2) g2 (le_trans (by norm_num) g1) (by norm_num)
  have m3 := mul_le_mul (le_of_lt c1) g3 (by norm_num) hc
  have m4 := mul_le_mul (le_of_lt c2) g4 (le_trans (by norm_num) g3) (by norm_num)
  constructor
  · linarith only [m2, m4]
  · linarith only [m1, m3]

/-- Far in the lower tail the approximated distribution function vanishes up
to `2e-11`. -/
theorem cdf_neg_tiny (divZero : ℝ → ℝ) (x : ℝ) (hx : x ≤ -60) :
    |cdf (realMath divZero) x| ≤ 0.00000000002 := by
  have h1 := cdf_symm (realMath divZero) x (ne_of_lt (lt_of_le_of_lt hx (by norm_num)))
  have h2 := cdf_tail divZero (-x) (by linarith only [hx])
  have e0 : cdf (realMath divZero) x = -(cdf (realMath divZero) (-x) - 1) := by
    linarith only [h1]
  rw [e0, abs_neg]
  have e1 : Real.exp (-(-x * -x) / 2) ≤ Real.exp (-900) * Real.exp (-900) := by
    rw [← Real.exp_add]
    exact Real.exp_le_exp.2 (by nlinarith only [hx])
  have e2 := exp_neg_le 900 (by norm_num)
  have p1 : (0 : ℝ) < Real.exp (-900) := Real.exp_pos _
  have e3 : Real.exp (-900) * Real.exp (-900) ≤ 2 / 900 ^ 2 * (2 / 900 ^ 2) :=
    mul_le_mul e2 e2 (le_of_lt p1) (by norm_num)
  norm_num at e3
  linarith only [h2, e1, e3]

/-- The value of the scenario at the volatility `0.00001`, the lower end of the
bracket when the loop is entered, vanishes up to `2e-6`. -/
theorem scenario_value_start (divZero : ℝ → ℝ) (T : ℝ) (hT1 : 0.46027 ≤ T)
    (hT2 : T ≤ 0.46302) :
    |((⟨0⟩ : Black76 ℝ).GetGreeks (realMath divZero) "C" 25039.55 25050 T 0.00001).Value| ≤
      0.000002 := by
  obtain ⟨q1, q2⟩ := sqrt_T_range T hT1 hT2
  obtain ⟨d1, _, d3, _⟩ := scenario_d1 T 0.67843 0.68046 0.00001 0.00001 0.00001 60 62
    (le_trans (by norm_num) hT1) (by norm_num) q1 q2 (by norm_num) le_rfl le_rfl (by norm_num)
    (by linarith only [hT2]) (by linarith only [hT1])
  rw [scenario_value divZero T 0.00001 (lt_of_lt_of_le (by norm_num) hT1) (by norm_num)]
  have g1 := cdf_neg_tiny divZero
    ((Real.log (25039.55 / 25050) + 0.00001 ^ 2 / 2 * T) / (0.00001 * Real.sqrt T))
    (by linarith only [d1])
  have g2 := cdf_neg_tiny divZero
    ((Real.log (25039.55 / 25050) + 0.00001 ^ 2 / 2 * T) / (0.00001 * Real.sqrt T) -
      0.00001 * Real.sqrt T) (by linarith only [d3])
  generalize cdf (realMath divZero)
    ((Real.log (25039.55 / 25050) + 0.00001 ^ 2 / 2 * T) / (0.00001 * Real.sqrt T)) = N1
    at g1 ⊢
  generalize cdf (realMath divZero)
    ((Real.log (25039.55 / 25050) + 0.00001 ^ 2 / 2 * T) / (0.00001 * Real.sqrt T) -
      0.00001 * Real.sqrt T) = N2 at g2 ⊢
  rw [abs_le] at g1 g2 ⊢
  constructor
  · linarith only [g1.1, g2.2]
  · linarith only [g1.2, g2.1]

/-- The value of the scenario at a volatility of `[0.02, 0.04]` below a
volatility where it is less than the market price is less than the market price,
and likewise above. -/
theorem scenario_value_sides (divZero : ℝ → ℝ) (T : ℝ) (hT1 : 0.46027 ≤ T) (hT2 : T ≤ 0.46302)
    (m s1 s : ℝ) (h1 : 0.02 ≤ s) (h2 : s ≤ 0.04) (h3 : 0.02 ≤ s1) (h4 : s1 ≤ 0.04) :
    (s ≤ s1 →
      ((⟨0⟩ : Black76 ℝ).GetGreeks (realMath divZero) "C" 25039.55 25050 T s1).Value < m →
      ((⟨0⟩ : Black76 ℝ).GetGreeks (realMath divZero) "C" 25039.55 25050 T s).Value < m) ∧
    (s1 ≤ s →
      m < ((⟨0⟩ : Black76 ℝ).GetGreeks (realMath divZero) "C" 25039.55 25050 T s1).Value →
      m < ((⟨0⟩ : Black76 ℝ).GetGreeks (realMath divZero) "C" 25039.55 25050 T s).Value) := by
  obtain ⟨c1, _⟩ := realMath_invSqrt divZero
  constructor
  · intro h v
    obtain ⟨k1, _⟩ := scenario_slope divZero T hT1 hT2 s s1 h1 h h4
    have h0 : 0 ≤ (realMath divZero).quo 1
        ((realMath divZero).Sqrt (2 * (realMath divZero).Pi)) * 8000 * (s1 - s) :=
      mul_nonneg (mul_nonneg (le_of_lt c1) (by norm_num)) (sub_nonneg.2 h)
    linarith only [v, k1, h0]
  · intro h v
    obtain ⟨k1, _⟩ := scenario_slope divZero T hT1 hT2 s1 s h3 h h2
    have h0 : 0 ≤ (realMath divZero).quo 1
        ((realMath divZero).Sqrt (2 * (realMath divZero).Pi)) * 8000 * (s - s1) :=
      mul_nonneg (mul_nonneg (le_of_lt c1) (by norm_num)) (sub_nonneg.2 h)
    linarith only [v, k1, h0]

/-- The market price is the value of the scenario at some volatility between two
volatilities of `[0.02, 0.04]` whose values enclose it. -/
theorem scenario_sigma (divZero : ℝ → ℝ) (T : ℝ) (hT1 : 0.46027 ≤ T) (hT2 : T ≤ 0.46302)
    (m s1 s2 : ℝ) (h1 : 0.02 ≤ s1) (h12 : s1 ≤ s2) (h2 : s2 ≤ 0.04)
    (hv1 : ((⟨0⟩ : Black76 ℝ).GetGreeks (realMath divZero) "C" 25039.55 25050 T s1).Value < m)
    (hv2 : m < ((⟨0⟩ : Black76 ℝ).GetGreeks (realMath divZero) "C" 25039.55 25050 T s2).Value) :
    ∃ sigma : ℝ, s1 ≤ sigma ∧ sigma ≤ s2 ∧
      ((⟨0⟩ : Black76 ℝ).GetGreeks (realMath divZero) "C" 25039.55 25050 T sigma).Value = m := by
  have hc : ContinuousOn
      (fun s : ℝ => ((⟨0⟩ : Black76 ℝ).GetGreeks (realMath divZero) "C" 25039.55 25050 T s).Value)
      (Set.Icc s1 s2) := by
    obtain ⟨c1, c2⟩ := realMath_invSqrt divZero
    have hl : LipschitzOnWith (Real.toNNReal 26000)
        (fun s : ℝ =>
          ((⟨0⟩ : Black76 ℝ).GetGreeks (realMath divZero) "C" 25039.55 25050 T s).Value)
        (Set.Icc s1 s2) := by
      apply LipschitzOnWith.of_dist_le_mul
      intro x hx y hy
      rw [Real.dist_eq, Real.dist_eq, Real.coe_toNNReal _ (by norm_num)]
      obtain ⟨hx1, hx2⟩ := hx
      obtain ⟨hy1, hy2⟩ := hy
      rcases le_total x y with h | h
      · obtain ⟨k1, k2⟩ := scenario_slope divZero T hT1 hT2 x y (le_trans h1 hx1) h
          (le_trans hy2 h2)
        have h0 : 0 ≤ y - x := sub_nonneg.2 h
        have k4 : 0 ≤ (realMath divZero).quo 1
            ((realMath divZero).Sqrt (2 * (realMath divZero).Pi)) * 8000 * (y - x) :=
          mul_nonneg (mul_nonneg (le_of_lt c1) (by norm_num)) h0
        have k5 : (realMath divZero).quo 1
            ((realMath divZero).Sqrt (2 * (realMath divZero).Pi)) * 26000 * (y - x) ≤
            1 * 26000 * (y - x) :=
          mul_le_mul_of_nonneg_right
            (mul_le_mul_of_nonneg_right (le_trans c2 (by norm_num)) (by norm_num)) h0
        rw [abs_sub_comm, abs_of_nonneg (le_trans k4 k1), abs_sub_comm, abs_of_nonneg h0]
        linarith only [k2, k5]
      · obtain ⟨k1, k2⟩ := scenario_slope divZero T hT1 hT2 y x (le_trans h1 hy1) h
          (le_trans hx2 h2)
        have h0 : 0 ≤ x - y := sub_nonneg.2 h
        have k4 : 0 ≤ (realMath divZero).quo 1
            ((realMath divZero).Sqrt (2 * (realMath divZero).Pi)) * 8000 * (x - y) :=
          mul_nonneg (mul_nonneg (le_of_lt c1) (by norm_num)) h0
        have k5 : (realMath divZero).quo 1
            ((realMath divZero).Sqrt (2 * (realMath divZero).Pi)) * 26000 * (x - y) ≤
            1 * 26000 * (x - y) :=
          mul_le_mul_of_nonneg_right
            (mul_le_mul_of_nonneg_right (le_trans c2 (by norm_num)) (by norm_num)) h0
        rw [abs_of_nonneg (le_trans k4 k1), abs_of_nonneg h0]
        linarith only [k2, k5]
    exact hl.continuousOn
  obtain ⟨sigma, ⟨a1, a2⟩, hs⟩ := intermediate_value_Icc h12 hc ⟨le_of_lt hv1, le_of_lt hv2⟩
  exact ⟨sigma, a1, a2, hs⟩

theorem interp_first (a c : ℝ) (ha : |a| ≤ 0.000002) (hc1 : 22775 < c) (hc2 : c < 22830) :
    0.0368 ≤ 0.00001 + (5 - 0.00001) * ((168 - a) / (c - a)) ∧
    0.00001 + (5 - 0.00001) * ((168 - a) / (c - a)) ≤ 0.0369 := by
  rw [abs_le] at ha
  obtain ⟨a1, a2⟩ := ha
  have hd : 0 < c - a := by linarith only [a2, hc1]
  have r1 : 0.0073581 ≤ (168 - a) / (c - a) := by
    rw [le_div_iff₀ hd]
    linarith only [a1, a2, hc2]
  have r2 : (168 - a) / (c - a) ≤ 0.0073779 := by
    rw [div_le_iff₀ hd]
    linarith only [a1, a2, hc1]
  constructor
  · linarith only [r1]
  · linarith only [r2]

theorem interp_second (a c g : ℝ) (ha : |a| ≤ 0.000002) (hg1 : 0.0368 ≤ g) (hg2 : g ≤ 0.0369)
    (hc1 : 244.2 < c) (hc2 : c ≤ 288) :
    0.0214 ≤ 0.00001 + (g - 0.00001) * ((168 - a) / (c - a)) ∧
    0.00001 + (g - 0.00001) * ((168 - a) / (c - a)) ≤ 0.0254 := by
  rw [abs_le] at ha
  obtain ⟨a1, a2⟩ := ha
  have hd : 0 < c - a := by linarith only [a2, hc1]
  have r1 : 0.5833 ≤ (168 - a) / (c - a) := by
    rw [le_div_iff₀ hd]
    linarith only [a1, a2, hc2]
  have r2 : (168 - a) / (c - a) ≤ 0.68797 := by
    rw [div_le_iff₀ hd]
    linarith only [a1, a2, hc1]
  have hg : 0 ≤ g - 0.00001 := by linarith only [hg1]
  have k1 : (g - 0.00001) * 0.5833 ≤ (g - 0.00001) * ((168 - a) / (c - a)) :=
    mul_le_mul_of_nonneg_left r1 hg
  have k2 : (g - 0.00001) * ((168 - a) / (c - a)) ≤ (g - 0.00001) * 0.68797 :=
    mul_le_mul_of_nonneg_left r2 hg
  constructor
  · linarith only [k1, hg1]
  · linarith only [k2, hg2]

/-- The value of the scenario at a volatility of `[0.0368, 0.0369]`. -/
theorem scenario_value_upper (divZero : ℝ → ℝ) (T : ℝ) (hT1 : 0.46027 ≤ T) (hT2 : T ≤ 0.46302)
    (s1 g : ℝ) (h1 : 0.0254 ≤ s1) (h2 : s1 ≤ 0.0257) (hg1 : 0.0368 ≤ g) (hg2 : g ≤ 0.0369)
    (hv1 : ((⟨0⟩ : Black76 ℝ).GetGreeks (realMath divZero) "C" 25039.55 25050 T s1).Value < 168)
    (hv3 : 244.2 <
      ((⟨0⟩ : Black76 ℝ).GetGreeks (realMath divZero) "C" 25039.55 25050 T 0.0368).Value) :
    244.2 < ((⟨0⟩ : Black76 ℝ).GetGreeks (realMath divZero) "C" 25039.55 25050 T g).Value ∧
    ((⟨0⟩ : Black76 ℝ).GetGreeks (realMath divZero) "C" 25039.55 25050 T g).Value ≤ 288 := by
  obtain ⟨c1, c2⟩ := invSqrt_bounds divZero
  have k0 := (scenario_value_sides divZero T hT1 hT2 244.2 0.0368 g
    (le_trans (by norm_num) hg1) (le_trans hg2 (by norm_num)) (by norm_num) (by norm_num)).2
    hg1 hv3
  obtain ⟨_, k2⟩ := scenario_slope divZero T hT1 hT2 s1 g (le_trans (by norm_num) h1)
    (le_trans h2 (le_trans (by norm_num) hg1)) (le_trans hg2 (by norm_num))
  generalize (realMath divZero).quo 1 ((realMath divZero).Sqrt (2 * (realMath divZero).Pi)) = c0
    at c1 c2 k2
  have hc : 0 ≤ c0 * 26000 := mul_nonneg (le_trans (by norm_num) (le_of_lt c1)) (by norm_num)
  have h3 : c0 * 26000 * (g - s1) ≤ 0.39894233 * 26000 * (0.0369 - 0.0254) :=
    mul_le_mul (mul_le_mul_of_nonneg_right (le_of_lt c2) (by norm_num))
      (by linarith only [h1, hg2]) (by linarith only [h2, hg1]) (by norm_num)
  norm_num at h3
  exact ⟨k0, by linarith only [hv1, k2, h3]⟩

/-- The first iteration of the loop in the scenario: the guess lands in
`[0.0368, 0.0369]` and becomes the upper end of the bracket. -/
theorem scenario_first (divZero : ℝ → ℝ) (T : ℝ) (hT1 : 0.46027 ≤ T) (hT2 : T ≤ 0.46302)
    (s2 : ℝ) (h1 : 0.02 ≤ s2) (h2 : s2 ≤ 0.0368)
    (hv2 : 168 <
      ((⟨0⟩ : Black76 ℝ).GetGreeks (realMath divZero) "C" 25039.55 25050 T s2).Value) :
    ∃ g : ℝ, 0.0368 ≤ g ∧ g ≤ 0.0369 ∧
      (⟨0⟩ : Black76 ℝ).bisectionBody (realMath divZero) "C" (GoFloat.fin 25039.55)
          (GoFloat.fin 25050) (GoFloat.fin T) (GoFloat.fin 168) bisectionStart =
        some ⟨1, GoFloat.fin 0.00001, GoFloat.fin g, GoFloat.fin g⟩ := by
  have v0 := scenario_value_start divZero T hT1 hT2
  obtain ⟨v1, v2⟩ := scenario_value_top divZero T hT1 hT2
  have hne : ((⟨0⟩ : Black76 ℝ).GetGreeks (realMath divZero) "C" 25039.55 25050 T 5).Value -
      ((⟨0⟩ : Black76 ℝ).GetGreeks (realMath divZero) "C" 25039.55 25050 T 0.00001).Value ≠
      0 := by
    rw [abs_le] at v0
    apply ne_of_gt
    linarith only [v0.2, v1]
  have hb := bisectionBody_step (⟨0⟩ : Black76 ℝ) divZero "C" 25039.55 25050 T 168
    (by norm_num) (by norm_num) (lt_of_lt_of_le (by norm_num) hT1) 0 0.00001 5 0.00001
    (by norm_num) (by norm_num) hne
  obtain ⟨x1, x2⟩ := interp_first _ _ v0 v1 v2
  have hs : (bisectionStart : BisectionState ℝ) =
      ⟨0, GoFloat.fin 0.00001, GoFloat.fin 5, GoFloat.fin 0.00001⟩ := by
    unfold bisectionStart
    norm_num
  generalize (0.00001 : ℝ) + (5 - 0.00001) * (_ / _) = x at hb x1 x2
  rw [min_eq_left (le_trans x2 (by norm_num)), max_eq_right (le_trans (by norm_num) x1)] at hb
  have hv := (scenario_value_sides divZero T hT1 hT2 168 s2 x (le_trans (by norm_num) x1)
    (le_trans x2 (by norm_num)) h1 (le_trans h2 (by norm_num))).2 (le_trans h2 x1) hv2
  rw [if_neg (not_lt.2 (le_of_lt hv))] at hb
  rw [hs, hb]
  exact ⟨x, x1, x2, rfl⟩

/-- The second iteration of the loop in the scenario: the guess lands in
`[0.0214, 0.0254]` and becomes the lower end of the bracket. -/
theorem scenario_second (divZero : ℝ → ℝ) (T : ℝ) (hT1 : 0.46027 ≤ T) (hT2 : T ≤ 0.46302)
    (s1 g0 : ℝ) (h1 : 0.0254 ≤ s1) (h2 : s1 ≤ 0.0257) (hg1 : 0.0368 ≤ g0) (hg2 : g0 ≤ 0.0369)
    (hv1 : ((⟨0⟩ : Black76 ℝ).GetGreeks (realMath divZero) "C" 25039.55 25050 T s1).Value < 168)
    (hv3 : 244.2 <
      ((⟨0⟩ : Black76 ℝ).GetGreeks (realMath divZero) "C" 25039.55 25050 T 0.0368).Value) :
    ∃ g : ℝ, 0.0214 ≤ g ∧ g ≤ 0.0254 ∧
      (⟨0⟩ : Black76 ℝ).bisectionBody (realMath divZero) "C" (GoFloat.fin 25039.55)
          (GoFloat.fin 25050) (GoFloat.fin T) (GoFloat.fin 168)
          ⟨1, GoFloat.fin 0.00001, GoFloat.fin g0, GoFloat.fin g0⟩ =
        some ⟨2, GoFloat.fin g, GoFloat.fin g0, GoFloat.fin g⟩ := by
  have v0 := scenario_value_start divZero T hT1 hT2
  obtain ⟨v1, v2⟩ := scenario_value_upper divZero T hT1 hT2 s1 g0 h1 h2 hg1 hg2 hv1 hv3
  have hne : ((⟨0⟩ : Black76 ℝ).GetGreeks (realMath divZero) "C" 25039.55 25050 T g0).Value -
      ((⟨0⟩ : Black76 ℝ).GetGreeks (realMath divZero) "C" 25039.55 25050 T 0.00001).Value ≠
      0 := by
    rw [abs_le] at v0
    apply ne_of_gt
    linarith only [v0.2, v1]
  have hb := bisectionBody_step (⟨0⟩ : Black76 ℝ) divZero "C" 25039.55 25050 T 168
    (by norm_num) (by norm_num) (lt_of_lt_of_le (by norm_num) hT1) 1 0.00001 g0 g0
    (by norm_num) (lt_of_lt_of_le (by norm_num) hg1) hne
  obtain ⟨x1, x2⟩ := interp_second _ _ g0 v0 hg1 hg2 v1 v2
  generalize (0.00001 : ℝ) + (g0 - 0.00001) * (_ / _) = x at hb x1 x2
  rw [min_eq_left (le_trans x2 (le_trans (by norm_num) hg1)),
    max_eq_right (le_trans (by norm_num) x1)] at hb
  have hv := (scenario_value_sides divZero T hT1 hT2 168 s1 x (le_trans (by norm_num) x1)
    (le_trans x2 (by norm_num)) (le_trans (by norm_num) h1) (le_trans h2 (by norm_num))).1
    (le_trans x2 h1) hv1
  rw [if_pos hv] at hb
  rw [hb]
  exact ⟨x, x1, x2, rfl⟩

theorem pow_five_sixths : ((5 : ℝ) / 6) ^ 98 ≤ 0.0000000175 := by norm_num

/-- The implied volatility of the scenario for `T` in `[0.46027, 0.46302]`: when
the values at two volatilities `s1 ≤ s2` of `[0.0254, 0.0257]` enclose the market
price 168 and the value at 0.0368 exceeds 244.2, `ImpliedVolaUsingBisection`
returns a number between `s1 - 0.0000023` and `s2 + 0.0000023`. -/
theorem scenario_iv (divZero : ℝ → ℝ) (T : ℝ) (hT1 : 0.46027 ≤ T) (hT2 : T ≤ 0.46302)
    (s1 s2 : ℝ) (h1 : 0.0254 ≤ s1) (h12 : s1 ≤ s2) (h2 : s2 ≤ 0.0257)
    (hv1 : ((⟨0⟩ : Black76 ℝ).GetGreeks (realMath divZero) "C" 25039.55 25050 T s1).Value < 168)
    (hv2 : 168 <
      ((⟨0⟩ : Black76 ℝ).GetGreeks (realMath divZero) "C" 25039.55 25050 T s2).Value)
    (hv3 : 244.2 <
      ((⟨0⟩ : Black76 ℝ).GetGreeks (realMath divZero) "C" 25039.55 25050 T 0.0368).Value) :
    ∃ v : ℝ, s1 - 0.0000023 ≤ v ∧ v ≤ s2 + 0.0000023 ∧
      (⟨0⟩ : Black76 ℝ).ImpliedVolaUsingBisection (realMath divZero) "C" (GoFloat.fin 25039.55)
          (GoFloat.fin 25050) (GoFloat.fin T) (GoFloat.fin 168) = GoFloat.fin v := by
  obtain ⟨g0, a1, a2, hb1⟩ := scenario_first divZero T hT1 hT2 s2
    (le_trans (by norm_num) (le_trans h1 h12)) (le_trans h2 (by norm_num)) hv2
  obtain ⟨g1, b1, b2, hb2⟩ := scenario_second divZero T hT1 hT2 s1 g0 h1 (le_trans h12 h2) a1 a2
    hv1 hv3
  obtain ⟨sigma, s1', s2', hs⟩ := scenario_sigma divZero T hT1 hT2 168 s1 s2
    (le_trans (by norm_num) h1) h12 (le_trans h2 (by norm_num)) hv1 hv2
  obtain ⟨c1, _⟩ := realMath_invSqrt divZero
  have d1 : 0 ≤ sigma - g1 := by linarith only [b2, h1, s1']
  have d2 : sigma - g1 ≤ 0.0043 := by linarith only [b1, h2, s2']
  have d3 : 0.0111 ≤ g0 - sigma := by linarith only [a1, h2, s2']
  have d4 : g0 - sigma ≤ 0.0115 := by linarith only [a2, h1, s1']
  have hst : (⟨2, GoFloat.fin g1, GoFloat.fin g0, GoFloat.fin g1⟩ : BisectionState ℝ).around
      0.02 0.04 sigma ((sigma - g1) * (g0 - sigma)) := by
    refine ⟨g1, g0, g1, rfl, rfl, rfl, le_trans (by norm_num) b1, sub_nonneg.1 d1,
      by linarith only [d3], le_trans a2 (by norm_num), le_rfl, ?_⟩
    calc (g1 - sigma) ^ 2 = (sigma - g1) * (sigma - g1) := by ring
      _ ≤ (sigma - g1) * (6 * (g0 - sigma)) :=
        mul_le_mul_of_nonneg_left (by linarith only [d2, d3]) d1
      _ = 6 * ((sigma - g1) * (g0 - sigma)) := by ring
  have hl := bisectionLoop_around (⟨0⟩ : Black76 ℝ) divZero "C" 25039.55 25050 T sigma
    ((realMath divZero).quo 1 ((realMath divZero).Sqrt (2 * (realMath divZero).Pi)) * 8000)
    ((realMath divZero).quo 1 ((realMath divZero).Sqrt (2 * (realMath divZero).Pi)) * 26000)
    0.02 0.04 (by norm_num) (by norm_num) (lt_of_lt_of_le (by norm_num) hT1)
    (mul_pos c1 (by norm_num)) (by linarith only [c1])
    (by norm_num) (fun s t h1 h2 h3 => scenario_slope divZero T hT1 hT2 s t h1 h2 h3) 98 _ _ hst
  rw [hs] at hl
  have hloop : (⟨0⟩ : Black76 ℝ).bisectionLoop (realMath divZero) "C" (GoFloat.fin 25039.55)
      (GoFloat.fin 25050) (GoFloat.fin T) (GoFloat.fin 168) maxIterations bisectionStart =
      (⟨0⟩ : Black76 ℝ).bisectionLoop (realMath divZero) "C" (GoFloat.fin 25039.55)
        (GoFloat.fin 25050) (GoFloat.fin T) (GoFloat.fin 168) 98
        ⟨2, GoFloat.fin g1, GoFloat.fin g0, GoFloat.fin g1⟩ := by
    show (⟨0⟩ : Black76 ℝ).bisectionLoop (realMath divZero) "C" (GoFloat.fin 25039.55)
      (GoFloat.fin 25050) (GoFloat.fin T) (GoFloat.fin 168) (98 + 1 + 1) bisectionStart = _
    conv_lhs => unfold Black76.bisectionLoop
    rw [hb1]
    simp only []
    conv_lhs => unfold Black76.bisectionLoop
    rw [hb2]
  obtain ⟨lo, hi, g, _, _, hguess, _, _, _, _, k5, k6⟩ := hl
  unfold Black76.ImpliedVolaUsingBisection
  rw [hloop, hguess]
  have hphi : (sigma - g1) * (g0 - sigma) ≤ 0.0043 * 0.0115 :=
    mul_le_mul d2 d4 (le_trans (by norm_num) d3) (by norm_num)
  have hprod : ((5 : ℝ) / 6) ^ 98 * ((sigma - g1) * (g0 - sigma)) ≤
      0.0000000175 * (0.0043 * 0.0115) :=
    mul_le_mul pow_five_sixths hphi (mul_nonneg d1 (le_trans (by norm_num) d3)) (by norm_num)
  have hsq : (g - sigma) ^ 2 ≤ 0.0000023 ^ 2 := by
    norm_num at hprod ⊢
    linarith only [hprod, k5, k6]
  have habs := abs_le_of_sq_le_sq hsq (by norm_num)
  rw [abs_le] at habs
  exact ⟨g, by linarith only [habs.1, s1'], by linarith only [habs.2, s2'], rfl⟩

theorem pdf_real (divZero : ℝ → ℝ) (x : ℝ) :
    pdf (realMath divZero) x =
      (realMath divZero).quo 1 ((realMath divZero).Sqrt (2 * (realMath divZero).Pi)) *
        Real.exp (-(x * x) / 2) := by
  unfold pdf
  rw [quo_eq _ _ _ (realMath_sqrt_two_pi divZero), quo_eq _ _ _ (realMath_sqrt_two_pi divZero)]
  show Real.exp (-(x * x) / 2) / _ = _
  ring

/-- The sensitivities of the call of the scenario at a time to maturity `T > 0`
and a volatility `v > 0`. -/
theorem scenario_greeks (divZero : ℝ → ℝ) (T v : ℝ) (hT : 0 < T) (hv : 0 < v) :
    ((⟨0⟩ : Black76 ℝ).GetGreeks (realMath divZero) "C" 25039.55 25050 T v).Delta =
      cdf (realMath divZero)
        ((Real.log (25039.55 / 25050) + v ^ 2 / 2 * T) / (v * Real.sqrt T)) ∧
    ((⟨0⟩ : Black76 ℝ).GetGreeks (realMath divZero) "C" 25039.55 25050 T v).Gamma =
      (realMath divZero).quo 1 ((realMath divZero).Sqrt (2 * (realMath divZero).Pi)) *
          Real.exp (-((Real.log (25039.55 / 25050) + v ^ 2 / 2 * T) / (v * Real.sqrt T) *
            ((Real.log (25039.55 / 25050) + v ^ 2 / 2 * T) / (v * Real.sqrt T))) / 2) /
        (v * 25039.55 * Real.sqrt T) ∧
    ((⟨0⟩ : Black76 ℝ).GetGreeks (realMath divZero) "C" 25039.55 25050 T v).Vega =
      0.01 * 25039.55 *
          ((realMath divZero).quo 1 ((realMath divZero).Sqrt (2 * (realMath divZero).Pi)) *
            Real.exp (-((Real.log (25039.55 / 25050) + v ^ 2 / 2 * T) / (v * Real.sqrt T) *
              ((Real.log (25039.55 / 25050) + v ^ 2 / 2 * T) / (v * Real.sqrt T))) / 2)) *
        Real.sqrt T ∧
    ((⟨0⟩ : Black76 ℝ).GetGreeks (realMath divZero) "C" 25039.55 25050 T v).Theta =
      -25039.55 *
          ((realMath divZero).quo 1 ((realMath divZero).Sqrt (2 * (realMath divZero).Pi)) *
            Real.exp (-((Real.log (25039.55 / 25050) + v ^ 2 / 2 * T) / (v * Real.sqrt T) *
              ((Real.log (25039.55 / 25050) + v ^ 2 / 2 * T) / (v * Real.sqrt T))) / 2)) *
          (v / (2 * Real.sqrt T)) / 365 := by
  have s1 : (optionSign "C" : ℝ) = 1 := by simp [optionSign]
  have q1 : (realMath divZero).quo 25039.55 25050 = 25039.55 / 25050 :=
    quo_eq _ _ _ (by norm_num)
  have e1 : (realMath divZero).Exp (-(0 : ℝ) * T) = 1 := by
    show Real.exp (-(0 : ℝ) * T) = 1
    simp
  have hq : 0 < Real.sqrt T := Real.sqrt_pos.2 hT
  have hne : v * (realMath divZero).Sqrt T ≠ 0 := ne_of_gt (mul_pos hv hq)
  have hne2 : v * 25039.55 * (realMath divZero).Sqrt T ≠ 0 :=
    ne_of_gt (mul_pos (mul_pos hv (by norm_num)) hq)
  have hne3 : 2 * (realMath divZero).Sqrt T ≠ 0 := ne_of_gt (mul_pos (by norm_num) hq)
  unfold Black76.GetGreeks Black76.d1d2
  simp only [s1, q1, e1, mul_one, one_mul, pdf_real, quo_eq _ _ _ hne, quo_eq _ _ _ hne2,
    quo_eq _ _ _ hne3, mul_zero, zero_mul, add_zero]
  exact ⟨rfl, rfl, rfl, rfl⟩

theorem neg_sq_half (x : ℝ) : -(x * x) / 2 = -(-x * -x) / 2 := by ring

/-- The sensitivities of the scenario with `T = 168 / 365` at a volatility
between 0.0255396 and 0.0257024: each lies strictly inside the interval that
rounds to `0.49`, `0.00`, `67.76` and `-0.52`. -/
theorem scenario_greeks_late (divZero : ℝ → ℝ) (v : ℝ) (hv1 : 0.0255396 ≤ v)
    (hv2 : v ≤ 0.0257024) :
    0.485 <
      ((⟨0⟩ : Black76 ℝ).GetGreeks (realMath divZero) "C" 25039.55 25050 (168 / 365) v).Delta ∧
    ((⟨0⟩ : Black76 ℝ).GetGreeks (realMath divZero) "C" 25039.55 25050 (168 / 365) v).Delta <
      0.495 ∧
    0 ≤ ((⟨0⟩ : Black76 ℝ).GetGreeks (realMath divZero) "C" 25039.55 25050 (168 / 365) v).Gamma ∧
    ((⟨0⟩ : Black76 ℝ).GetGreeks (realMath divZero) "C" 25039.55 25050 (168 / 365) v).Gamma <
      0.005 ∧
    67.755 <
      ((⟨0⟩ : Black76 ℝ).GetGreeks (realMath divZero) "C" 25039.55 25050 (168 / 365) v).Vega ∧
    ((⟨0⟩ : Black76 ℝ).GetGreeks (realMath divZero) "C" 25039.55 25050 (168 / 365) v).Vega <
      67.765 ∧
    -0.525 <
      ((⟨0⟩ : Black76 ℝ).GetGreeks (realMath divZero) "C" 25039.55 25050 (168 / 365) v).Theta ∧
    ((⟨0⟩ : Black76 ℝ).GetGreeks (realMath divZero) "C" 25039.55 25050 (168 / 365) v).Theta <
      -0.515 := by
  have hv : 0 < v := lt_of_lt_of_le (by norm_num) hv1
  obtain ⟨c1, c2⟩ := invSqrt_bounds divZero
  obtain ⟨q1, q2⟩ := scenario_sqrt
  obtain ⟨f1, f2, f3, f4⟩ := scenario_greeks divZero (168 / 365) v (by norm_num) hv
  obtain ⟨d1, d2, _, _⟩ := scenario_d1 (168 / 365) 0.67843494 0.67843495 v 0.0255396 0.0257024
    0.0152098898 0.0154176547 (by norm_num) (by norm_num) q1 q2 (by norm_num) hv1 hv2
    (by norm_num) (by norm_num) (by norm_num)
  have g := cdf_neg_enclosure divZero _ 0.0152098898 0.0154176547 0.9964413345 0.996489122
    (by norm_num) d1 d2 (by norm_num) (by norm_num) (by norm_num) (by norm_num) (by norm_num)
  obtain ⟨e0, e1, e2⟩ := exp_gauss_enclosure _ 0.0152098898 0.0154176547 (by norm_num) d1 d2
    (by norm_num)
  rw [neg_neg] at g
  rw [← neg_sq_half] at e1 e2
  rw [f1, f2, f3, f4]
  generalize cdf (realMath divZero)
    ((Real.log (25039.55 / 25050) + v ^ 2 / 2 * (168 / 365)) / (v * Real.sqrt (168 / 365))) = N
    at g ⊢
  generalize Real.exp
    (-((Real.log (25039.55 / 25050) + v ^ 2 / 2 * (168 / 365)) / (v * Real.sqrt (168 / 365)) *
      ((Real.log (25039.55 / 25050) + v ^ 2 / 2 * (168 / 365)) / (v * Real.sqrt (168 / 365)))) /
      2) = E at e1 e2 ⊢
  generalize Real.sqrt (168 / 365) = q at q1 q2 ⊢
  generalize (realMath divZero).quo 1 ((realMath divZero).Sqrt (2 * (realMath divZero).Pi)) = c0
    at c1 c2 g ⊢
  obtain ⟨g1, g2⟩ := g
  norm_num at g1 g2 e1 e2
  have hc0 : 0 < c0 := lt_trans (by norm_num) c1
  have hq : 0 < q := lt_trans (by norm_num) q1
  have hE : 0 < E := lt_of_lt_of_le (by norm_num) e1
  have x1 : 0.39894224 * 0.9998811 ≤ c0 * E :=
    mul_le_mul (le_of_lt c1) (by linarith only [e1]) (by norm_num) (le_of_lt hc0)
  have x2 : c0 * E ≤ 0.39894233 * 0.9998844 :=
    mul_le_mul (le_of_lt c2) (by linarith only [e2]) (le_of_lt hE) (by norm_num)
  have hX : 0 < c0 * E := mul_pos hc0 hE
  generalize c0 * E = X at x1 x2 hX ⊢
  have y1 : 0.39894224 * 0.9998811 * 0.67843494 ≤ X * q :=
    mul_le_mul x1 (le_of_lt q1) (by norm_num) (le_of_lt hX)
  have y2 : X * q ≤ 0.39894233 * 0.9998844 * 0.67843495 :=
    mul_le_mul x2 (le_of_lt q2) (le_of_lt hq) (by norm_num)
  have hq2 : 0 < 2 * q := mul_pos (by norm_num) hq
  have z1 : 0.0188223 ≤ v / (2 * q) := by
    rw [le_div_iff₀ hq2]
    linarith only [hv1, q2]
  have z2 : v / (2 * q) ≤ 0.0189425 := by
    rw [div_le_iff₀ hq2]
    linarith only [hv2, q1]
  have w1 : 0.39894224 * 0.9998811 * 0.0188223 ≤ X * (v / (2 * q)) :=
    mul_le_mul x1 z1 (by norm_num) (le_of_lt hX)
  have w2 : X * (v / (2 * q)) ≤ 0.39894233 * 0.9998844 * 0.0189425 :=
    mul_le_mul x2 z2 (le_trans (by norm_num) z1) (by norm_num)
  have hden : 0 < v * 25039.55 * q := mul_pos (mul_pos hv (by norm_num)) hq
  have hden1 : 433 ≤ v * 25039.55 * q := by
    have : 0.0255396 * 25039.55 * 0.67843494 ≤ v * 25039.55 * q :=
      mul_le_mul (mul_le_mul_of_nonneg_right hv1 (by norm_num)) (le_of_lt q1) (by norm_num)
        (mul_nonneg (le_of_lt hv) (by norm_num))
    linarith only [this]
  refine ⟨by linarith only [g1, c1], by linarith only [g2, c2],
    le_of_lt (div_pos hX hden), ?_, ?_, ?_, ?_, ?_⟩
  · rw [div_lt_iff₀ hden]
    linarith only [x2, hden1]
  · rw [mul_assoc]
    linarith only [y1]
  · rw [mul_assoc]
    linarith only [y2]
  · rw [mul_assoc, lt_div_iff₀ (by norm_num)]
    linarith only [w2]
  · rw [mul_assoc, div_lt_iff₀ (by norm_num)]
    linarith only [w1]

/-- The time to expiry that `TestCallDelta` obtains: 169 when the current time is
at or before 2024-10-10 15:30 IST, 168 afterwards. -/
theorem GetTimeInDays_test (now : GoTime) :
    GetTimeInDays testExpiry testToday now =
      (if now.unixNano ≤ (istTime 1728554400).unixNano then 169 else 168) := by
  obtain ⟨f1, f2, f3, f4, f5⟩ := testToday_facts
  rw [GetTimeInDays_other_day testExpiry testToday now (by rw [f1, f2]; decide) (by decide)]
  have e1 : testExpiry.unixNano - testToday.unixNano = 604800000000000 := by decide
  have e2 : (testToday.atClock 15 30).unixNano = 1728554400000000000 := f3
  have e3 : (istTime 1728554400).unixNano = 1728554400000000000 := by decide
  have e4 : testToday.unixNano < testExpiry.unixNano := by decide
  have e5 : ⌈((604800000000000 : Int) : ℚ) / 3600000000000⌉ = 168 := by
    norm_num [Int.ceil_eq_iff]
  rw [e1, e2, e3, e5]
  simp only [e4, true_and]
  split_ifs <;> norm_num

/-- The numbers of `TestCallDelta` when `GetTimeInDays` returns `d` with
`0 < d` and the implied volatility is a number `v > 0`. -/
theorem TestCallDelta_eq (divZero : ℝ → ℝ) (now : GoTime) (d : ℚ) (T v : ℝ)
    (hd : GetTimeInDays testExpiry testToday now = d) (hT : (d : ℝ) / 365 = T) (hT0 : 0 < T)
    (hv : 0 < v)
    (hiv : (⟨0⟩ : Black76 ℝ).ImpliedVolaUsingBisection (realMath divZero) "C"
      (GoFloat.fin 25039.55) (GoFloat.fin 25050) (GoFloat.fin T) (GoFloat.fin 168) =
      GoFloat.fin v) :
    TestCallDelta (realMath divZero) now =
      { ceDelta := GoFloat.fin
          ((⟨0⟩ : Black76 ℝ).GetGreeks (realMath divZero) "C" 25039.55 25050 T v).Delta
        peDelta := GoFloat.fin
          (((⟨0⟩ : Black76 ℝ).GetGreeks (realMath divZero) "C" 25039.55 25050 T v).Delta - 1)
        gamma := GoFloat.fin
          ((⟨0⟩ : Black76 ℝ).GetGreeks (realMath divZero) "C" 25039.55 25050 T v).Gamma
        vega := GoFloat.fin
          ((⟨0⟩ : Black76 ℝ).GetGreeks (realMath divZero) "C" 25039.55 25050 T v).Vega
        theta := GoFloat.fin
          ((⟨0⟩ : Black76 ℝ).GetGreeks (realMath divZero) "C" 25039.55 25050 T v).Theta } := by
  have e1 : (GoFloat.fin 25050.0 + GoFloat.fin 168.0 - GoFloat.fin 178.45 : GoFloat ℝ) =
      GoFloat.fin 25039.55 := by
    rw [GoFloat.fin_add, GoFloat.fin_sub]
    norm_num
  have e2 : (GoFloat.fin (d : ℝ) / GoFloat.fin 365 : GoFloat ℝ) = GoFloat.fin T := by
    rw [GoFloat.fin_div _ _ (by norm_num), hT]
  have e3 : GoFloat.eq (GoFloat.fin (168.0 : ℝ)) (GoFloat.fin 0) = false := by
    rw [GoFloat.fin_eq]
    norm_num
  have e4 : (GoFloat.fin 25050.0 : GoFloat ℝ) = GoFloat.fin 25050 := by norm_num
  have e5 : (GoFloat.fin 168.0 : GoFloat ℝ) = GoFloat.fin 168 := by norm_num
  have e6 : ({ InterestRate := 0.0 } : Black76 ℝ) = ⟨0⟩ := by norm_num
  unfold TestCallDelta
  simp only [hd, e1, e2, e3, Bool.false_eq_true, if_false, CALL]
  rw [e4, e5, e6, hiv,
    GetGreeks64_real ⟨0⟩ divZero "C" 25039.55 25050 T v (by norm_num) (by norm_num) hT0 hv]
  simp only [GoFloat.fin_sub]

/-- With `T = 169 / 365` the Vega at a volatility between 0.0253977 and
0.0257023 lies strictly inside the interval that rounds to `67.96`. -/
theorem scenario_vega_early (divZero : ℝ → ℝ) (v : ℝ) (hv1 : 0.0253977 ≤ v)
    (hv2 : v ≤ 0.0257023) :
    67.955 <
      ((⟨0⟩ : Black76 ℝ).GetGreeks (realMath divZero) "C" 25039.55 25050 (169 / 365) v).Vega ∧
    ((⟨0⟩ : Black76 ℝ).GetGreeks (realMath divZero) "C" 25039.55 25050 (169 / 365) v).Vega <
      67.965 := by
  have hv : 0 < v := lt_of_lt_of_le (by norm_num) hv1
  obtain ⟨c1, c2⟩ := invSqrt_bounds divZero
  obtain ⟨q1, q2⟩ := scenario_sqrt_early
  obtain ⟨_, _, f3, _⟩ := scenario_greeks divZero (169 / 365) v (by norm_num) hv
  obtain ⟨d1, d2, _, _⟩ := scenario_d1 (169 / 365) 0.68045109 0.6804511 v 0.0253977 0.0257023
    0.015113207 0.0155029808 (by norm_num) (by norm_num) q1 q2 (by norm_num) hv1 hv2
    (by norm_num) (by norm_num) (by norm_num)
  obtain ⟨e0, e1, e2⟩ := exp_gauss_enclosure _ 0.015113207 0.0155029808 (by norm_num) d1 d2
    (by norm_num)
  rw [← neg_sq_half] at e1 e2
  rw [f3]
  generalize Real.exp
    (-((Real.log (25039.55 / 25050) + v ^ 2 / 2 * (169 / 365)) / (v * Real.sqrt (169 / 365)) *
      ((Real.log (25039.55 / 25050) + v ^ 2 / 2 * (169 / 365)) / (v * Real.sqrt (169 / 365)))) /
      2) = E at e1 e2 ⊢
  generalize Real.sqrt (169 / 365) = q at q1 q2 ⊢
  generalize (realMath divZero).quo 1 ((realMath divZero).Sqrt (2 * (realMath divZero).Pi)) = c0
    at c1 c2 ⊢
  norm_num at e1 e2
  have hc0 : 0 < c0 := lt_trans (by norm_num) c1
  have hq : 0 < q := lt_trans (by norm_num) q1
  have hE : 0 < E := lt_of_lt_of_le (by norm_num) e1
  have x1 : 0.39894224 * 0.9998798 ≤ c0 * E :=
    mul_le_mul (le_of_lt c1) (by linarith only [e1]) (by norm_num) (le_of_lt hc0)
  have x2 : c0 * E ≤ 0.39894233 * 0.9998859 :=
    mul_le_mul (le_of_lt c2) (by linarith only [e2]) (le_of_lt hE) (by norm_num)
  have hX : 0 < c0 * E := mul_pos hc0 hE
  generalize c0 * E = X at x1 x2 hX ⊢
  have y1 : 0.39894224 * 0.9998798 * 0.68045109 ≤ X * q :=
    mul_le_mul x1 (le_of_lt q1) (by norm_num) (le_of_lt hX)
  have y2 : X * q ≤ 0.39894233 * 0.9998859 * 0.6804511 :=
    mul_le_mul x2 (le_of_lt q2) (le_of_lt hq) (by norm_num)
  constructor
  · rw [mul_assoc]
    linarith only [y1]
  · rw [mul_assoc]
    linarith only [y2]

/-- C27 (amended). When the current time is after 2024-10-10 15:30 IST, the end
of trading on the day `today` of `TestCallDelta`, the test computes numbers (over
the reals with the special values of `float64`): the call delta lies strictly
between 0.485 and 0.495, the put delta `delta - 1` strictly between -0.515 and
-0.505, gamma in `[0, 0.005)`, vega strictly between 67.755 and 67.765 and theta
strictly between -0.525 and -0.515, the intervals whose numbers `%.2f` prints as
`0.49`, `-0.51`, `0.00`, `67.76` and `-0.52`. -/
theorem TestCallDelta_values (divZero : ℝ → ℝ) (now : GoTime)
    (hnow : (istTime 1728554400).unixNano < now.unixNano) :
    ∃ delta gamma vega theta : ℝ,
      TestCallDelta (realMath divZero) now =
        { ceDelta := GoFloat.fin delta, peDelta := GoFloat.fin (delta - 1)
          gamma := GoFloat.fin gamma, vega := GoFloat.fin vega, theta := GoFloat.fin theta } ∧
      0.485 < delta ∧ delta < 0.495 ∧ -0.515 < delta - 1 ∧ delta - 1 < -0.505 ∧
      0 ≤ gamma ∧ gamma < 0.005 ∧ 67.755 < vega ∧ vega < 67.765 ∧
      -0.525 < theta ∧ theta < -0.515 := by
  have hd : GetTimeInDays testExpiry testToday now = 168 := by
    rw [GetTimeInDays_test now, if_neg (not_le.2 hnow)]
  obtain ⟨v, v1, v2, hiv⟩ := scenario_iv divZero (168 / 365) (by norm_num) (by norm_num)
    0.025542 0.0257 (by norm_num) (by norm_num) (by norm_num) (scenario_value_low divZero)
    (scenario_value_high divZero) (scenario_value_first divZero)
  have hv1 : 0.0255396 ≤ v := le_trans (by norm_num) v1
  have hv2 : v ≤ 0.0257024 := le_trans v2 (by norm_num)
  obtain ⟨g1, g2, g3, g4, g5, g6, g7, g8⟩ := scenario_greeks_late divZero v hv1 hv2
  refine ⟨_, _, _, _, TestCallDelta_eq divZero now 168 (168 / 365) v hd (by norm_num)
    (by norm_num) (lt_of_lt_of_le (by norm_num) hv1) hiv, g1, g2, ?_, ?_, g3, g4, g5, g6, g7,
    g8⟩
  · linarith only [g1]
  · linarith only [g2]

theorem TestCallDelta_values_witness :
    (istTime 1728554400).unixNano < (istTime 1735689600).unixNano ∧
    ∃ delta gamma vega theta : ℝ,
      TestCallDelta (realMath fun _ => 0) (istTime 1735689600) =
        { ceDelta := GoFloat.fin delta, peDelta := GoFloat.fin (delta - 1)
          gamma := GoFloat.fin gamma, vega := GoFloat.fin vega, theta := GoFloat.fin theta } ∧
      0.485 < delta ∧ delta < 0.495 ∧ -0.515 < delta - 1 ∧ delta - 1 < -0.505 ∧
      0 ≤ gamma ∧ gamma < 0.005 ∧ 67.755 < vega ∧ vega < 67.765 ∧
      -0.525 < theta ∧ theta < -0.515 :=
  ⟨by decide, TestCallDelta_values (fun _ => 0) (istTime 1735689600) (by decide)⟩

/-- C27 (counterexample). At 2024-10-10 11:30 IST, before the end of trading on
the day `today` of `TestCallDelta`, `GetTimeInDays` returns 169 and the vega that
the test computes lies strictly between 67.955 and 67.965: `%.2f` prints it as
`67.96`, not as `67.76`. -/
theorem TestCallDelta_early :
    (istTime 1728540000).unixNano ≤ (istTime 1728554400).unixNano ∧
    GetTimeInDays testExpiry testToday (istTime 1728540000) = 169 ∧
    ∃ vega : ℝ,
      (TestCallDelta (realMath fun _ => 0) (istTime 1728540000)).vega = GoFloat.fin vega ∧
      67.955 < vega ∧ vega < 67.965 ∧ ¬ (67.755 < vega ∧ vega < 67.765) := by
  have hnow : (istTime 1728540000).unixNano ≤ (istTime 1728554400).unixNano := by decide
  have hd : GetTimeInDays testExpiry testToday (istTime 1728540000) = 169 := by
    rw [GetTimeInDays_test, if_pos hnow]
  obtain ⟨v, v1, v2, hiv⟩ := scenario_iv (fun _ => 0) (169 / 365) (by norm_num) (by norm_num)
    0.0254 0.0257 (by norm_num) (by norm_num) (by norm_num) (early_value_low _)
    (early_value_high _) (early_value_first _)
  have hv1 : 0.0253977 ≤ v := le_trans (by norm_num) v1
  have hv2 : v ≤ 0.0257023 := le_trans v2 (by norm_num)
  obtain ⟨g1, g2⟩ := scenario_vega_early (fun _ => 0) v hv1 hv2
  refine ⟨hnow, hd, _, ?_, g1, g2, fun h => ?_⟩
  · rw [TestCallDelta_eq (fun _ => 0) (istTime 1728540000) 169 (169 / 365) v hd (by norm_num)
      (by norm_num) (lt_of_lt_of_le (by norm_num) hv1) hiv]
  · linarith only [g1, h.2]

end Tiqs
